import Mathlib

/-!
# FeatherPad: closing, loading and moving tabs (fpwin.cpp)

A shallow embedding of the part of `FPwin` that closes tabs (`savePrompt`,
`deleteTabPage`, `closeTabs`, `closeTab`, `closeTabAtIndex`, `closeOtherTabs`,
`closeEvent`), loads files (`loadText`, `addText`, `createEmptyTab`), lifts read-only
(`makeEditable`, `tabSwitch`), moves tabs between windows (`detachTab`, `dropTab`) and
fills the side pane (`toggleSidePane`), together with the few Qt containers they act
on, and of the smaller functions `encodingToCheck`, `checkToEncoding`,
`trailingSpaces`, `pauseAutoSaving`, `autoSave` and `executeProcess`.

* A `TabPage*` and a `QListWidgetItem*` are natural numbers (pointer identity);
  a null pointer is `none`.
* Indices are `Int`, as in the source, where `-1` means "none".
* Everything the code asks the outside world during one call of `savePrompt`
  (the disk, the other windows, the user at the message box, the outcome of
  `saveFile`) is one `Env`; a run receives a stream `Nat → Env`, one element per
  call of `savePrompt`.
* A dereference of a null page (`tabPage->textEdit()` with `tabPage == nullptr`)
  is the fault `nullPage`; loops are driven by fuel, and running out of it is the
  fault `outOfFuel`.
* Calls that only touch cursors, shortcuts, menu actions, titles or the
  configuration file (`waitToMakeBusy`, `unbusy`, `updateShortcuts`,
  `enableWidgets`, `setDisabled`, `closeWarningBar`, `saveCursorPos`, ...) have no
  effect on the modelled state and are left out.
* What the functions of the later sections show, schedule or emit is a list of
  `Effect`; the objects that they create (`new TabPage`, `new QListWidgetItem`, a
  new window) are given to them as `Fresh` and `NewWin`.
* A call that the code defers with `QTimer::singleShot (0, ...)` is not run by the
  function that schedules it: it is an `Effect` (`makeEditableLater`, `closeLater`)
  or a queued pass of the `AutoSaver`, which a later step runs.
-/

namespace FeatherPad

/-! ## Data -/

/-- The result of asking about one document (`enum DOCSTATE` of `FPwin`). -/
inductive DOCSTATE where
  | SAVED
  | UNDECIDED
  | DISCARDED
  deriving DecidableEq, Repr

/-- The standard buttons the save prompt is built from; `exec()` returns the one
that was clicked (closing the box counts as `Cancel`, its escape button). -/
inductive StandardButton where
  | Save
  | Discard
  | Cancel
  | NoToAll
  deriving DecidableEq, Repr

/-- What can stop a run of the model before it returns. -/
inductive Fault where
  | nullPage
  | outOfFuel
  deriving DecidableEq, Repr

/-- A page of the tab widget with the properties of its text edit that the window
code reads and writes: `getFileName()` and `document()->isModified()`, which the
closing code reads, and the document's text, `isReadOnly()`, `isUneditable()`,
`getEncoding()`, `getLang()` (the enforced syntax) and `getSearchedText()`. A new
text edit is empty, editable and encoded as UTF-8. -/
structure TabPage where
  id : Nat
  fileName : String
  modified : Bool
  text : String := ""
  readOnly : Bool := false
  uneditable : Bool := false
  encoding : String := "UTF-8"
  lang : String := ""
  searchedText : String := ""
  deriving DecidableEq, Repr

/-- The children dialogs (by object name) of one window of the registry
`singleton->Wins`, as `hasAnotherDialog` sees them. -/
structure WinDialogs where
  win : Nat
  dialogs : List String
  deriving DecidableEq, Repr

/-- The outcome of one call of `saveFile (true)` on the current page: whether the
write succeeded (every `return false` of `saveFile` is `success = false`), the file
name that was written, whether the passes that run before the write (removal of
trailing spaces, appended empty line) edited the buffer, and the result of
`alreadyOpen (tabPage)` at the end of `saveFile`. -/
structure SaveOutcome where
  success : Bool
  fileName : String
  edited : Bool
  alreadyOpen : Bool
  deriving DecidableEq, Repr

/-- The answers of the outside world during one call of `savePrompt`. -/
structure Env where
  fileExists : Bool
  isFile : Bool
  wins : List WinDialogs
  exec : Bool → StandardButton
  save : SaveOutcome

/-- The state of a window that the closing code reads and writes. -/
structure FPwin where
  id : Nat
  pages : List TabPage
  currentIndex : Int
  sidePane_ : Bool
  items : List Nat
  currentItem : Option Nat
  sideItems_ : List (Nat × Nat)
  rightClicked_ : Int
  loadingProcesses_ : Int
  deriving DecidableEq, Repr

/-- The slots that `addText` connects to `finishedLoading`; each shows its advisory
once the batch of loads has finished. -/
inductive Slot where
  | onOpeningHugeFiles
  | onPermissionDenied
  | onOpeningUneditable
  deriving DecidableEq, Repr

/-- What the saving, loading and tab-moving code does besides changing the windows, in
the order in which it does it; `win` is the window whose member is called, and
`makeEditableLater` is `QTimer::singleShot (0, this, SLOT (makeEditable()))`. -/
inductive Effect where
  | closeWarningBar (win : Nat)
  | lockTabs (win : Nat) (lock : Bool)
  | connectFinishedLoading (win : Nat) (slot : Slot)
  | restoreScrollbar (win : Nat) (page : Nat)
  | finishedLoading (win : Nat)
  | makeEditableLater (win : Nat)
  | actionEdit (win : Nat) (visible : Bool)
  | finishMouseMoveEvent (win : Nat)
  | closeLater (win : Nat)
  deriving DecidableEq, Repr

/-- What a run does, in the order in which it does it. -/
inductive Event where
  | pauseAutoSaving (pause : Bool)
  | warningBar (page : Nat)
  | msgBox (page : Nat) (fileRemoved : Bool) (noToAllButton : Bool)
  | savePrompt (page : Nat) (noToAll : Bool) (state : DOCSTATE)
  | deleteTabPage (page : Nat)
  deriving DecidableEq, Repr

/-! ## The Qt containers -/

/-- The element at an `int` position, `none` when the position is out of range. -/
def atIndex {α : Type} (l : List α) (i : Int) : Option α :=
  if 0 ≤ i then l[i.toNat]? else none

/-- Removal at an `int` position; nothing happens when it is out of range. -/
def removeAt {α : Type} (l : List α) (i : Int) : List α :=
  if 0 ≤ i then l.eraseIdx i.toNat else l

/-- The position of a value, `-1` when it is absent. -/
def positionOf (l : List Nat) (a : Nat) : Int :=
  if a ∈ l then (l.indexOf a : Int) else -1

/-- `ui->tabWidget->count()`. -/
def FPwin.count (w : FPwin) : Int := w.pages.length

/-- `ui->tabWidget->widget (i)`. -/
def FPwin.widget (w : FPwin) (i : Int) : Option TabPage := atIndex w.pages i

/-- `ui->tabWidget->indexOf (page)`. -/
def FPwin.indexOf (w : FPwin) (page : Option Nat) : Int :=
  match page with
  | none => -1
  | some p => positionOf (w.pages.map TabPage.id) p

/-- `ui->tabWidget->currentWidget()`. -/
def FPwin.currentWidget (w : FPwin) : Option Nat :=
  (w.widget w.currentIndex).map TabPage.id

/-- `ui->tabWidget->setCurrentIndex (i)`: ignored when `i` is not a tab. -/
def FPwin.setCurrentIndex (w : FPwin) (i : Int) : FPwin :=
  if 0 ≤ i ∧ i < w.count then { w with currentIndex := i } else w

/-- `ui->tabWidget->setCurrentWidget (page)`: ignored when `page` is not in the widget. -/
def FPwin.setCurrentWidget (w : FPwin) (page : Option Nat) : FPwin :=
  w.setCurrentIndex (w.indexOf page)

/-- `ui->tabWidget->removeTab (i)`. The tab bar keeps the same page current when
another one is removed; when the current one is removed, the page that takes its
position becomes current (the last one if there is none). -/
def FPwin.removeTab (w : FPwin) (i : Int) : FPwin :=
  if 0 ≤ i ∧ i < w.count then
    { w with
      pages := removeAt w.pages i
      currentIndex :=
        if i = w.currentIndex then
          (if i < w.count - 1 then i else w.count - 2)
        else if i < w.currentIndex then w.currentIndex - 1
        else w.currentIndex }
  else w

/-- `sideItems_.value (item)`: the null page when the item is not a key. -/
def hashValue (h : List (Nat × Nat)) (item : Option Nat) : Option Nat :=
  match item with
  | none => none
  | some i => h.lookup i

/-- `sideItems_.key (page)`: the null item when no key has this value. -/
def hashKey (h : List (Nat × Nat)) (page : Nat) : Option Nat :=
  (h.find? (fun kv => kv.2 == page)).map Prod.fst

/-- `sideItems_.remove (item)`. -/
def hashRemove (h : List (Nat × Nat)) (item : Nat) : List (Nat × Nat) :=
  h.filter (fun kv => kv.1 != item)

/-- `sidePane_->listWidget()->item (row)`. -/
def FPwin.item (w : FPwin) (row : Int) : Option Nat := atIndex w.items row

/-- `sidePane_->listWidget()->row (item)`. -/
def FPwin.row (w : FPwin) (item : Option Nat) : Int :=
  match item with
  | none => -1
  | some i => positionOf w.items i

/-- `sidePane_->listWidget()->currentRow()`. -/
def FPwin.currentRow (w : FPwin) : Int := w.row w.currentItem

/-- `FPwin::changeTab (current, previous)`, the slot of `currentItemChanged`. -/
def FPwin.changeTab (w : FPwin) (current : Option Nat) : FPwin :=
  if !w.sidePane_ || w.sideItems_.isEmpty then w
  else w.setCurrentWidget (hashValue w.sideItems_ current)

/-- `sidePane_->listWidget()->setCurrentItem (item)`; `currentItemChanged` is
emitted, and `changeTab` runs, only when the current item really changes. An item
that is not in the list clears the current item. -/
def FPwin.setCurrentItem (w : FPwin) (item : Option Nat) : FPwin :=
  let new : Option Nat := if 0 ≤ w.row item then item else none
  if new = w.currentItem then w
  else ({ w with currentItem := new }).changeTab new

/-- `sidePane_->listWidget()->takeItem (row)`. When the current item is taken, the
item below it becomes current, or the one above it when there is none below
(`currentItemChanged` is emitted, hence `changeTab` runs). -/
def FPwin.takeItem (w : FPwin) (row : Int) : FPwin :=
  match w.item row with
  | none => w
  | some i =>
    if w.currentItem = some i then
      let new : Option Nat :=
        match w.item (row + 1) with
        | some j => some j
        | none => w.item (row - 1)
      ({ w with items := removeAt w.items row, currentItem := new }).changeTab new
    else { w with items := removeAt w.items row }

/-! ## The functions of `FPwin` -/

/-- Modelled from the spec: `FPwin::isReady()` is declared in the header, which is
not among the sources; the window is ready when no load is outstanding (the
outstanding-operations counter is back to zero). -/
def FPwin.isReady (w : FPwin) : Bool := decide (w.loadingProcesses_ ≤ 0)

/-- `FPwin::hasAnotherDialog()`: some other window of the registry has a child
dialog that is neither the process dialog nor the session dialog. -/
def hasAnotherDialog (this : Nat) (wins : List WinDialogs) : Bool :=
  wins.any (fun win =>
    win.win != this &&
      win.dialogs.any (fun name => name != "processDialog" && name != "sessionDialog"))

/-- Replaces the page at an existing position. -/
def FPwin.setPage (w : FPwin) (i : Int) (p : TabPage) : FPwin :=
  if 0 ≤ i then { w with pages := w.pages.set i.toNat p } else w

/-- `FPwin::saveFile (true)`, called by the prompt: it saves the current page. The
dialogs and the write are the `SaveOutcome`; on success the document is marked
unmodified and takes the written file name, on failure it keeps its name and may
have been edited by the passes before the write. At its end, `if (success &&
textEdit->isReadOnly() && !alreadyOpen (tabPage))`, a call of `makeEditable` is
scheduled; `uneditable` is not looked at. The result is `success`, the window and
what has been scheduled. -/
def FPwin.saveFile (w : FPwin) (o : SaveOutcome) : Bool × FPwin × List Effect :=
  if !w.isReady then (false, w, [])
  else
    let index := w.currentIndex
    match w.widget index with
    | none => (false, w, [])
    | some tabPage =>
      if o.success then
        (true, w.setPage index { tabPage with modified := false, fileName := o.fileName },
          if tabPage.readOnly && !o.alreadyOpen then [Effect.makeEditableLater w.id] else [])
      else
        (false, w.setPage index { tabPage with modified := tabPage.modified || o.edited }, [])

/-- The local `isRemoved` of `savePrompt`: the page has a file name and that path
no longer exists or is not a regular file. -/
def TabPage.isRemoved (tabPage : TabPage) (e : Env) : Bool :=
  !tabPage.fileName.isEmpty && (!e.fileExists || !e.isFile)

/-- The step of `savePrompt` that switches to the page that needs attention. -/
def FPwin.attend (w : FPwin) (tabIndex : Int) (tabPage : TabPage) : FPwin :=
  if tabIndex ≠ w.currentIndex then
    (if w.sidePane_ && !w.sideItems_.isEmpty then
      w.setCurrentItem (hashKey w.sideItems_ tabPage.id)
    else w.setCurrentIndex tabIndex)
  else w

/-- `FPwin::savePrompt (tabIndex, noToAll)`. The call of `makeEditable` that
`saveFile` may schedule runs from the event loop and is no event of the prompt. -/
def FPwin.savePrompt (w : FPwin) (tabIndex : Int) (noToAll : Bool) (e : Env) :
    Except Fault (DOCSTATE × FPwin × List Event) :=
  match w.widget tabIndex with
  | none => .error Fault.nullPage
  | some tabPage =>
    let isRemoved : Bool := tabPage.isRemoved e
    if tabPage.modified || isRemoved then
      if hasAnotherDialog w.id e.wins then
        .ok (DOCSTATE.UNDECIDED, w,
          [Event.warningBar tabPage.id,
           Event.savePrompt tabPage.id noToAll DOCSTATE.UNDECIDED])
      else
        let w1 : FPwin := w.attend tabIndex tabPage
        let button : Bool := noToAll && decide (w1.count > 1)
        let shown := Event.msgBox tabPage.id isRemoved button
        match e.exec button with
        | StandardButton.Save =>
          let r := w1.saveFile e.save
          if !r.1 then
            .ok (DOCSTATE.UNDECIDED, r.2.1,
              [shown, Event.savePrompt tabPage.id noToAll DOCSTATE.UNDECIDED])
          else
            .ok (DOCSTATE.SAVED, r.2.1,
              [shown, Event.savePrompt tabPage.id noToAll DOCSTATE.SAVED])
        | StandardButton.Discard =>
          .ok (DOCSTATE.SAVED, w1,
            [shown, Event.savePrompt tabPage.id noToAll DOCSTATE.SAVED])
        | StandardButton.Cancel =>
          .ok (DOCSTATE.UNDECIDED, w1,
            [shown, Event.savePrompt tabPage.id noToAll DOCSTATE.UNDECIDED])
        | StandardButton.NoToAll =>
          .ok (DOCSTATE.DISCARDED, w1,
            [shown, Event.savePrompt tabPage.id noToAll DOCSTATE.DISCARDED])
    else
      .ok (DOCSTATE.SAVED, w, [Event.savePrompt tabPage.id noToAll DOCSTATE.SAVED])

/-- `FPwin::deleteTabPage (tabIndex)`. -/
def FPwin.deleteTabPage (w : FPwin) (tabIndex : Int) : Except Fault (FPwin × List Event) :=
  match w.widget tabIndex with
  | none => .error Fault.nullPage
  | some tabPage =>
    let w1 : FPwin :=
      if w.sidePane_ && !w.sideItems_.isEmpty then
        match hashKey w.sideItems_ tabPage.id with
        | some wi =>
          let w0 : FPwin := { w with sideItems_ := hashRemove w.sideItems_ wi }
          w0.takeItem (w0.row (some wi))
        | none => w
      else w
    .ok (w1.removeTab tabIndex, [Event.deleteTabPage tabPage.id])

/-- The local `hasSideList` of `closeTabs`: `sidePane_ && !sideItems_.isEmpty()`. -/
def FPwin.hasSideList (w : FPwin) : Bool := w.sidePane_ && !w.sideItems_.isEmpty

/-- The tab index of a position of `closeTabs`: the tab of that row of the side
list when there is one, the position itself otherwise. -/
def FPwin.tabIndexAt (w : FPwin) (hasSideList : Bool) (index : Int) : Int :=
  if hasSideList then w.indexOf (hashValue w.sideItems_ (w.item index)) else index

/-- The inner loop of `closeTabs` (`case DISCARDED`):
`while (index > first) { if (last == 0) break; deleteTabPage (tabIndex); ... }`. -/
def discardLoop (fuel : Nat) (hasSideList : Bool) (first last index tabIndex : Int)
    (w : FPwin) : Except Fault (FPwin × List Event) :=
  match fuel with
  | 0 => .error Fault.outOfFuel
  | fuel + 1 =>
    if index > first then
      if last = 0 then .ok (w, [])
      else
        match w.deleteTabPage tabIndex with
        | .error f => .error f
        | .ok (w1, ev1) =>
          let last1 : Int := if last < 0 then last else last - 1
          let index1 : Int := if last < 0 then w1.count - 1 else last1 - 1
          let tabIndex1 := w1.tabIndexAt hasSideList index1
          match discardLoop fuel hasSideList first last1 index1 tabIndex1 w1 with
          | .error f => .error f
          | .ok (w2, ev2) => .ok (w2, ev1 ++ ev2)
    else .ok (w, [])

/-- The outer loop of `closeTabs`:
`while (state == SAVED && ui->tabWidget->count() > 0) { ... }`, entered with
`state == SAVED`; the result is the final value of `keep`. -/
def closeLoop (fuel : Nat) (hasSideList : Bool) (first last : Int) (keep : Bool)
    (w : FPwin) (env : Nat → Env) : Except Fault (Bool × FPwin × List Event) :=
  match fuel with
  | 0 => .error Fault.outOfFuel
  | fuel + 1 =>
    if w.count > 0 then
      if last = 0 then .ok (keep, w, [])
      else
        let index : Int := if last < 0 then w.count - 1 else last - 1
        if first ≥ index then .ok (keep, w, [])
        else
          let tabIndex := w.tabIndexAt hasSideList index
          let noToAll : Bool := !decide (first = index - 1)
          match w.savePrompt tabIndex noToAll (env 0) with
          | .error f => .error f
          | .ok (DOCSTATE.SAVED, w1, ev1) =>
            match w1.deleteTabPage tabIndex with
            | .error f => .error f
            | .ok (w2, ev2) =>
              let last1 : Int := if last > -1 then last - 1 else last
              match closeLoop fuel hasSideList first last1 false w2 (fun n => env (n + 1)) with
              | .error f => .error f
              | .ok (k, w3, ev3) => .ok (k, w3, ev1 ++ ev2 ++ ev3)
          | .ok (DOCSTATE.UNDECIDED, w1, ev1) => .ok (true, w1, ev1)
          | .ok (DOCSTATE.DISCARDED, w1, ev1) =>
            match discardLoop (w1.pages.length + 1) hasSideList first last index tabIndex w1 with
            | .error f => .error f
            | .ok (w2, ev2) => .ok (false, w2, ev1 ++ ev2)
    else .ok (keep, w, [])

/-- The test of `closeTabs` on the current position `cur`: it is not inside the
range, `!(first < cur && (cur < last || last == -1))`. -/
def outsideRange (first last cur : Int) : Bool :=
  !(decide (first < cur) && (decide (cur < last) || decide (last = -1)))

/-- The local `curItem` of `closeTabs`: the current item of the side list, recorded
when there is a side list and the current row is outside the range. -/
def FPwin.curItemOf (w : FPwin) (first last : Int) : Option Nat :=
  if w.hasSideList && outsideRange first last w.currentRow then w.currentItem else none

/-- The local `curPage` of `closeTabs`: the current page, recorded when there is no
side list and the current index is outside the range. -/
def FPwin.curPageOf (w : FPwin) (first last : Int) : Option Nat :=
  if !w.hasSideList && outsideRange first last w.currentIndex then w.currentWidget else none

/-- The end of `closeTabs`: "restore the current page/item". -/
def FPwin.restoreCurrent (w : FPwin) (curPage curItem : Option Nat) : FPwin :=
  match curPage with
  | some p => w.setCurrentWidget (some p)
  | none =>
    match curItem with
    | some i => w.setCurrentItem (some i)
    | none => w

/-- `FPwin::closeTabs (first, last)`: the returned flag is `keep`. Each loop deletes
a tab in every iteration that does not leave it, so it is started with one more
unit of fuel than there are tabs. -/
def FPwin.closeTabs (w : FPwin) (first last : Int) (env : Nat → Env) :
    Except Fault (Bool × FPwin × List Event) :=
  if !w.isReady then .ok (true, w, [])
  else
    let curItem : Option Nat := w.curItemOf first last
    let curPage : Option Nat := w.curPageOf first last
    match closeLoop (w.pages.length + 1) w.hasSideList first last false w env with
    | .error f => .error f
    | .ok (keep, w1, ev) =>
      let w2 : FPwin := if !keep then w1.restoreCurrent curPage curItem else w1
      .ok (keep, w2,
        [Event.pauseAutoSaving true] ++ ev ++ [Event.pauseAutoSaving false])

/-- The test of `closeTab`: `sidePane_ && rightClicked_ >= 0`, close the
right-clicked item. -/
def FPwin.closesItem (w : FPwin) : Bool := w.sidePane_ && decide (w.rightClicked_ ≥ 0)

/-- The local `index` of `closeTab`: the tab of the right-clicked item of the side
pane, or the current index. -/
def FPwin.closeTabIndex (w : FPwin) : Int :=
  if w.closesItem then w.indexOf (hashValue w.sideItems_ (w.item w.rightClicked_))
  else w.currentIndex

/-- `FPwin::closeTab()`: closes the right-clicked item of the side pane or the
current page. -/
def FPwin.closeTab (w : FPwin) (e : Env) : Except Fault (FPwin × List Event) :=
  if !w.isReady then .ok (w, [])
  else
    let index : Int := w.closeTabIndex
    let curItem : Option Nat :=
      if w.closesItem && decide (index ≠ w.currentIndex) then w.currentItem else none
    if !w.closesItem && decide (index = -1) then
      .ok (w, [Event.pauseAutoSaving true, Event.pauseAutoSaving false])
    else
      match w.savePrompt index false e with
      | .error f => .error f
      | .ok (state, w1, ev1) =>
        if state ≠ DOCSTATE.SAVED then
          .ok (w1, [Event.pauseAutoSaving true] ++ ev1 ++ [Event.pauseAutoSaving false])
        else
          match w1.deleteTabPage index with
          | .error f => .error f
          | .ok (w2, ev2) =>
            let w3 : FPwin :=
              if w2.count = 0 then w2
              else
                match curItem with
                | some i => w2.setCurrentItem (some i)
                | none => w2
            .ok (w3, [Event.pauseAutoSaving true] ++ ev1 ++ ev2 ++
              [Event.pauseAutoSaving false])

/-- `FPwin::closeTabAtIndex (index)`. -/
def FPwin.closeTabAtIndex (w : FPwin) (index : Int) (e : Env) :
    Except Fault (FPwin × List Event) :=
  let curPage : Option Nat := if index ≠ w.currentIndex then w.currentWidget else none
  match w.savePrompt index false e with
  | .error f => .error f
  | .ok (state, w1, ev1) =>
    if state ≠ DOCSTATE.SAVED then
      .ok (w1, [Event.pauseAutoSaving true] ++ ev1 ++ [Event.pauseAutoSaving false])
    else
      match w1.deleteTabPage index with
      | .error f => .error f
      | .ok (w2, ev2) =>
        let w3 : FPwin :=
          if w2.count = 0 then w2
          else
            match curPage with
            | some p => w2.setCurrentWidget (some p)
            | none => w2
        .ok (w3, [Event.pauseAutoSaving true] ++ ev1 ++ ev2 ++
          [Event.pauseAutoSaving false])

/-- Modelled from the spec: `FPsingleton::removeWin` is not among the sources; the
registry of open windows is mutated by window destruction, which takes the window
out of it. -/
def removeWin (wins : List Nat) (win : Nat) : List Nat := wins.erase win

/-- `FPwin::closeEvent (event)`: the result holds whether the event was accepted,
the registry `singleton->Wins` and the window afterwards. -/
def FPwin.closeEvent (w : FPwin) (wins : List Nat) (env : Nat → Env) :
    Except Fault (Bool × List Nat × FPwin × List Event) :=
  match w.closeTabs (-1) (-1) env with
  | .error f => .error f
  | .ok (keep, w1, ev) =>
    if keep then .ok (false, wins, w1, ev)
    else .ok (true, removeWin wins w.id, w1, ev)

/-! ## Vocabulary of the statements -/

/-- The page at each position that `closeTabs` counts: the tabs in their order, or,
with a side list, the page `widget (indexOf (sideItems_.value (item (row))))` of each
row (`none` is a null page). -/
def FPwin.byPosition (w : FPwin) (hasSideList : Bool) : List (Option TabPage) :=
  if hasSideList then
    w.items.map (fun i => w.widget (w.indexOf (hashValue w.sideItems_ (some i))))
  else w.pages.map some

/-- The side list mirrors the tabs: `sideItems_` pairs every item of the list with
one page and every page with one item, the current item is in the list, and it is
the item of the current page. -/
def FPwin.Mirrored (w : FPwin) : Prop :=
  w.items.Nodup ∧
  (w.sideItems_.map Prod.fst).Nodup ∧
  (w.sideItems_.map Prod.snd).Nodup ∧
  (∀ kv ∈ w.sideItems_, kv.1 ∈ w.items ∧ kv.2 ∈ w.pages.map TabPage.id) ∧
  (∀ i ∈ w.items, i ∈ w.sideItems_.map Prod.fst) ∧
  (∀ p ∈ w.pages.map TabPage.id, p ∈ w.sideItems_.map Prod.snd) ∧
  (∀ i ∈ w.currentItem.toList, i ∈ w.items) ∧
  hashValue w.sideItems_ w.currentItem = w.currentWidget

/-- A window as the program builds it: the pages are distinct objects and, when the
side pane exists, the side list mirrors the tabs. -/
def FPwin.WellFormed (w : FPwin) : Prop :=
  (w.pages.map TabPage.id).Nodup ∧ (w.sidePane_ = true → w.Mirrored)

instance (w : FPwin) : Decidable w.Mirrored := by
  unfold FPwin.Mirrored
  infer_instance

instance (w : FPwin) : Decidable w.WellFormed := by
  unfold FPwin.WellFormed
  infer_instance

/-- The upper end of the range of `closeTabs`: positions below it are closed. -/
def upperEnd (w : FPwin) (last : Int) : Nat :=
  if last < 0 then w.pages.length else last.toNat

/-- The pages at positions `lo ≤ j < hi`, rightmost first. -/
def segment (B : List (Option TabPage)) (lo hi : Nat) : List TabPage :=
  (((B.take hi).drop lo).reverse).reduceOption

/-- The lower end of the range of `closeTabs`: positions from it on are closed. -/
def lowerEnd (first : Int) : Nat := (first + 1).toNat

/-- The upper end of the range in the statements: never below the lower end (a
range with `last ≤ first + 1` is empty). -/
def rangeEnd (w : FPwin) (first last : Int) : Nat := max (lowerEnd first) (upperEnd w last)

/-- The pages `closeTabs (first, last)` is asked to close, rightmost first. -/
def FPwin.candidates (w : FPwin) (hasSideList : Bool) (first last : Int) : List TabPage :=
  segment (w.byPosition hasSideList) (lowerEnd first) (upperEnd w last)

/-- The pages of the `deleteTabPage` events of a trace, in order. -/
def deleted (ev : List Event) : List Nat :=
  ev.filterMap (fun e => match e with
    | Event.deleteTabPage p => some p
    | _ => none)

/-- The pages of the `savePrompt` events of a trace, in order. -/
def prompted (ev : List Event) : List Nat :=
  ev.filterMap (fun e => match e with
    | Event.savePrompt p _ _ => some p
    | _ => none)

/-- An event that permits deleting page `p`: `savePrompt` returned `SAVED` for this
very page, or it returned `DISCARDED` ("No to all") for some page. -/
def Permits (p : Nat) (e : Event) : Prop :=
  match e with
  | Event.savePrompt q _ DOCSTATE.SAVED => q = p
  | Event.savePrompt _ _ DOCSTATE.DISCARDED => True
  | _ => False

/-- Every deletion of a trace comes after an event that permits it. -/
def Decided (ev : List Event) : Prop :=
  ∀ pre p post, ev = pre ++ Event.deleteTabPage p :: post → ∃ e ∈ pre, Permits p e

/-- What one call of `savePrompt` on `page` returns and logs when the window is
ready and has `count` tabs. -/
def promptSpec (this : Nat) (page : TabPage) (noToAll : Bool) (count : Nat) (e : Env) :
    DOCSTATE × List Event :=
  if page.modified || page.isRemoved e then
    if hasAnotherDialog this e.wins then
      (DOCSTATE.UNDECIDED,
        [Event.warningBar page.id, Event.savePrompt page.id noToAll DOCSTATE.UNDECIDED])
    else
      let button : Bool := noToAll && decide (count > 1)
      let state : DOCSTATE :=
        match e.exec button with
        | StandardButton.Save => if e.save.success then DOCSTATE.SAVED else DOCSTATE.UNDECIDED
        | StandardButton.Discard => DOCSTATE.SAVED
        | StandardButton.Cancel => DOCSTATE.UNDECIDED
        | StandardButton.NoToAll => DOCSTATE.DISCARDED
      (state,
        [Event.msgBox page.id (page.isRemoved e) button,
         Event.savePrompt page.id noToAll state])
  else (DOCSTATE.SAVED, [Event.savePrompt page.id noToAll DOCSTATE.SAVED])

/-- The run of the loops of `closeTabs` over the candidates, rightmost first, in a
window of `count` tabs: the final `keep`, the number of deleted pages and the
trace. -/
def runSpec (this : Nat) : List TabPage → Nat → (Nat → Env) → Bool × Nat × List Event
  | [], _, _ => (false, 0, [])
  | c :: rest, count, env =>
    let r := promptSpec this c (!rest.isEmpty) count (env 0)
    match r.1 with
    | DOCSTATE.SAVED =>
      let s := runSpec this rest (count - 1) (fun k => env (k + 1))
      (s.1, s.2.1 + 1, r.2 ++ [Event.deleteTabPage c.id] ++ s.2.2)
    | DOCSTATE.UNDECIDED => (true, 0, r.2)
    | DOCSTATE.DISCARDED =>
      (false, rest.length + 1,
        r.2 ++ (c :: rest).map (fun p => Event.deleteTabPage p.id))

/-! ## Relations between windows used in the proofs -/

/-- Two windows that differ at most in the current tab and the current item. -/
def SameTabs (w w1 : FPwin) : Prop :=
  w1.id = w.id ∧ w1.pages = w.pages ∧ w1.sidePane_ = w.sidePane_ ∧ w1.items = w.items ∧
  w1.sideItems_ = w.sideItems_ ∧ w1.rightClicked_ = w.rightClicked_ ∧
  w1.loadingProcesses_ = w.loadingProcesses_

/-- Two windows that agree on everything but the pages, the current tab and the
current item. -/
def SameFrame (w w1 : FPwin) : Prop :=
  w1.id = w.id ∧ w1.sidePane_ = w.sidePane_ ∧ w1.items = w.items ∧
  w1.sideItems_ = w.sideItems_ ∧ w1.rightClicked_ = w.rightClicked_ ∧
  w1.loadingProcesses_ = w.loadingProcesses_

/-- The item that becomes current when the current item of row `r` is taken. -/
def nextItem (items : List Nat) (r : Nat) : Option Nat :=
  match atIndex items ((r : Int) + 1) with
  | some j => some j
  | none => atIndex items ((r : Int) - 1)

/-- Two windows with the same identity, side pane, loading counter and clicked row. -/
def SameWindow (w w1 : FPwin) : Prop :=
  w1.id = w.id ∧ w1.sidePane_ = w.sidePane_ ∧ w1.loadingProcesses_ = w.loadingProcesses_ ∧
  w1.rightClicked_ = w.rightClicked_

/-- What the outer loop of `closeTabs` leaves behind, in terms of the run `s` of the
specification over the range `lo ≤ position < hi`. -/
def LoopPost (hs : Bool) (lo hi : Nat) (env : Nat → Env) (w w1 : FPwin)
    (s : Bool × Nat × List Event) : Prop :=
  w1.WellFormed ∧ SameWindow w w1 ∧ s.2.1 ≤ hi - lo ∧
  w1.pages.length + s.2.1 = w.pages.length ∧
  (w1.pages.map TabPage.id).Sublist (w.pages.map TabPage.id) ∧
  (hs = true → w1.items = w.items.take (hi - s.2.1) ++ w.items.drop hi) ∧
  (∀ p ∈ w.pages, Event.deleteTabPage p.id ∉ s.2.2 →
    p ∈ w1.pages ∨ (s.1 = true ∧ (segment (w.byPosition hs) lo hi)[s.2.1]? = some p)) ∧
  (s.1 = false → s.2.1 = hi - lo ∧
    w1.byPosition hs = (w.byPosition hs).take lo ++ (w.byPosition hs).drop hi) ∧
  (s.1 = true → ∃ page q : TabPage,
    (segment (w.byPosition hs) lo hi)[s.2.1]? = some page ∧
    (w.byPosition hs)[hi - s.2.1 - 1]? = some (some page) ∧ q.id = page.id ∧
    s.2.1 < hi - lo ∧
    w1.byPosition hs =
      (w.byPosition hs).take (hi - s.2.1 - 1) ++ some q :: (w.byPosition hs).drop hi ∧
    ((∃ r o, Event.msgBox page.id r o ∈ s.2.2) → w1.currentWidget = some page.id) ∧
    (q = page ∨ ∃ k b, (env k).exec b = StandardButton.Save))

/-- The window `w1` after `savePrompt` has asked about the page `page` of tab `t`,
which is at position `j`; `q` is the page afterwards. -/
def AfterPrompt (hs : Bool) (j t : Nat) (page q : TabPage) (b : Bool) (e : Env)
    (w w1 : FPwin) : Prop :=
  w1.pages = w.pages.set t q ∧ q.id = page.id ∧ SameFrame w w1 ∧ w1.WellFormed ∧
  w1.byPosition hs = (w.byPosition hs).set j (some q) ∧ w1.tabIndexAt hs j = t ∧
  (q = page ∨ e.exec (b && decide (w.pages.length > 1)) = StandardButton.Save) ∧
  ((∃ r o, Event.msgBox page.id r o ∈ (promptSpec w.id page b w.pages.length e).2) →
    w1.currentWidget = some page.id)

/-- The window `w2` after `deleteTabPage` has deleted tab `t`, which is at
position `j`. -/
def AfterDelete (hs : Bool) (j t : Nat) (w1 w2 : FPwin) : Prop :=
  w2.pages = w1.pages.eraseIdx t ∧ SameWindow w1 w2 ∧ w2.WellFormed ∧
  w2.byPosition hs = (w1.byPosition hs).eraseIdx j ∧
  (hs = true → w2.items = w1.items.eraseIdx j)

/-- The trace of a close operation on one page: the prompt events `pre`, the return
of `savePrompt` and, when it is `SAVED`, the deletion. -/
def singleTrace (page : Nat) (st : DOCSTATE) (pre : List Event) : List Event :=
  [Event.pauseAutoSaving true] ++ (pre ++ [Event.savePrompt page false st]) ++
    (if st = DOCSTATE.SAVED then [Event.deleteTabPage page] else []) ++
    [Event.pauseAutoSaving false]

/-! ## Loading files, lifting read-only, moving tabs -/

/-- A `Loading` thread as `loadText` creates it. -/
structure Loading where
  fileName : String
  charset : String
  reload : Bool
  saveCursor : Bool
  enforceUneditable : Bool
  multiple : Bool
  deriving DecidableEq, Repr

/-- The arguments of `addText`, which the signal `Loading::completed` carries. -/
structure Completed where
  text : String
  fileName : String
  charset : String
  enforceEncod : Bool
  reload : Bool
  saveCursor : Bool
  uneditable : Bool
  multiple : Bool
  deriving DecidableEq, Repr

/-- The static variables of `addText`, "only for the side-pane mode". -/
structure Statics where
  scrollToFirstItem : Bool
  firstPage : Option Nat
  deriving DecidableEq, Repr

/-- What `new TabPage` and `new QListWidgetItem` return, and the row at which the
list widget puts the new item. -/
structure Fresh where
  page : Nat
  item : Nat
  row : Nat
  deriving DecidableEq, Repr

/-- What `addText` gets from outside: the objects of its two calls of
`createEmptyTab`, the result of `alreadyOpen (tabPage)`, whether the file name of
`firstPage` compares greater than the new one, and whether a reload recorded the value
of a visible scrollbar. -/
structure AddEnv where
  fresh : Fresh
  fresh2 : Fresh
  alreadyOpen : Bool
  sortsBefore : Bool
  scrollbar : Bool
  deriving DecidableEq, Repr

/-- What `detachTab` gets from outside: the `winId()` of the new window, whether the
configuration gives it a side pane, the objects of its first tab and the item made
for the detached tab. -/
structure NewWin where
  id : Nat
  sidePane : Bool
  fresh : Fresh
  item : Fresh
  deriving DecidableEq, Repr

/-- Modelled from the spec: `FPwin::isLoading()` is declared in the header, which is
not among the sources; a load is outstanding while the outstanding-operations counter
is above zero. -/
def FPwin.isLoading (w : FPwin) : Bool := decide (w.loadingProcesses_ > 0)

/-- `sideItems_.insert (item, page)`. -/
def hashInsert (h : List (Nat × Nat)) (item page : Nat) : List (Nat × Nat) :=
  (item, page) :: hashRemove h item

/-- `ui->tabWidget->insertTab (index, page, ...)`: an index out of range appends. The
first tab of an empty widget becomes current; a tab inserted at or before the current
one moves the current index up with its page. -/
def FPwin.insertTab (w : FPwin) (index : Int) (page : TabPage) : FPwin :=
  let i : Nat := if 0 ≤ index ∧ index ≤ w.count then index.toNat else w.pages.length
  { w with
    pages := w.pages.take i ++ page :: w.pages.drop i
    currentIndex :=
      if w.pages.isEmpty then 0
      else if (i : Int) ≤ w.currentIndex then w.currentIndex + 1
      else w.currentIndex }

/-- The item `new QListWidgetItem (..., lw)` enters the list of the side pane and
`sideItems_.insert (lwi, tabPage)` pairs it with the page. -/
def FPwin.addItem (w : FPwin) (f : Fresh) (page : Nat) : FPwin :=
  { w with
    items := w.items.take f.row ++ f.item :: w.items.drop f.row
    sideItems_ := hashInsert w.sideItems_ f.item page }

/-- `FPwin::createEmptyTab (setCurrent, allowNormalHighlighter)`: the window and the
index of the new tab. -/
def FPwin.createEmptyTab (w : FPwin) (setCurrent : Bool) (f : Fresh) : FPwin × Int :=
  let tabPage : TabPage := { id := f.page, fileName := "", modified := false }
  let index : Int := w.currentIndex
  let w1 : FPwin := w.insertTab (index + 1) tabPage
  let w2 : FPwin :=
    if w1.sidePane_ then
      let w3 : FPwin := w1.addItem f f.page
      if setCurrent || decide (index = -1) then w3.setCurrentItem (some f.item) else w3
    else w1
  let w4 : FPwin := if setCurrent then w2.setCurrentWidget (some f.page) else w2
  (w4, w4.indexOf (some f.page))

/-- `FPwin::loadText (...)`: the counter goes up and a `Loading` thread is started,
whose `completed` is connected to `addText`; `checkToEncoding` is the checked encoding
of the menu. -/
def FPwin.loadText (w : FPwin) (fileName : String)
    (enforceEncod reload saveCursor enforceUneditable multiple : Bool)
    (checkToEncoding : String) : FPwin × Loading × List Effect :=
  ({ w with loadingProcesses_ := w.loadingProcesses_ + 1 },
    { fileName := fileName
      charset := if enforceEncod then checkToEncoding else ""
      reload := reload
      saveCursor := saveCursor
      enforceUneditable := enforceUneditable
      multiple := multiple },
    (if w.loadingProcesses_ = 0 then [Effect.closeWarningBar w.id] else []) ++
      [Effect.lockTabs w.id true])

/-- The end of both paths of `addText`: `-- loadingProcesses_` and, when no load is
left, the end of the batch. -/
def FPwin.loaded (w : FPwin) : FPwin := { w with loadingProcesses_ := w.loadingProcesses_ - 1 }

/-- The end of a batch of loads in `addText`, "select the first item (sidePane_
exists)": the item of `firstPage` becomes current. -/
def FPwin.selectFirstPage (w : FPwin) (firstPage : Option Nat) : FPwin :=
  if firstPage.isSome && !w.sideItems_.isEmpty then
    match firstPage.bind (hashKey w.sideItems_) with
    | some wi => w.setCurrentItem (some wi)
    | none => w
  else w

/-- The text edit after `addText` has put the loaded text into it: `setPlainText`
(which leaves the document unmodified), `setFileName`, `setEncoding`,
`makeUneditable (uneditable)` when `uneditable`, and `setReadOnly (true)` when
`uneditable || alreadyOpen (tabPage)`. -/
def TabPage.install (t : TabPage) (a : Completed) (alreadyOpen : Bool) : TabPage :=
  { t with
    text := a.text
    modified := false
    fileName := a.fileName
    encoding := a.charset
    uneditable := a.uneditable || t.uneditable
    readOnly := if a.uneditable || alreadyOpen then true else t.readOnly }

/-- What `addText` schedules and shows for the text it has put into a text edit that
was `readOnly`: the advisory for an uneditable text; for a text that is uneditable or
already open elsewhere, the "Edit" action, only when the text is not uneditable and
is shown (`shown` is `!multiple || openInCurrentTab`); otherwise, for a text edit that
was read-only, a later call of `makeEditable`. -/
def loadedEffects (win : Nat) (a : Completed) (alreadyOpen shown readOnly : Bool) :
    List Effect :=
  (if a.uneditable then [Effect.connectFinishedLoading win Slot.onOpeningUneditable]
   else []) ++
  (if a.uneditable || alreadyOpen then
    (if shown && !a.uneditable then [Effect.actionEdit win true] else [])
   else if readOnly then [Effect.makeEditableLater win] else [])

/-- The part of `addText` that finds the text edit for the loaded text: the current
tab (a new one when there is none), or, when the load is neither a reload nor an
enforced encoding and that text edit is not empty, is modified or has a file name, a
new tab. The result is the window, the index and the page of the tab, and
`openInCurrentTab`. -/
def FPwin.targetTab (w : FPwin) (e : AddEnv) (a : Completed) (multiple : Bool) :
    Except Fault (FPwin × Int × TabPage × Bool) :=
  let r1 : FPwin × Int :=
    if w.currentIndex = -1 then w.createEmptyTab (!multiple) e.fresh
    else (w, w.currentIndex)
  match r1.1.widget r1.2 with
  | none => .error Fault.nullPage
  | some textEdit =>
    let openInCurrentTab : Bool :=
      !(!a.reload && !a.enforceEncod &&
        (!textEdit.text.isEmpty || textEdit.modified || !textEdit.fileName.isEmpty))
    let r2 : FPwin × Int :=
      if openInCurrentTab then r1 else r1.1.createEmptyTab (!multiple) e.fresh2
    match r2.1.widget r2.2 with
    | none => .error Fault.nullPage
    | some target => .ok (r2.1, r2.2, target, openInCurrentTab)

/-- The end of the second path of `addText`, "a file is completely loaded", after
`-- loadingProcesses_`: when no load is left, tabs are unlocked, the first item is
selected (unless a reload restores its scrollbar), the static variables are reset
and `finishedLoading` is emitted; otherwise the static variables are kept. -/
def FPwin.endOfLoad (w : FPwin) (a : Completed) (e : AddEnv) (target : Nat)
    (scroll : Bool) (firstPage : Option Nat) (shown : List Effect) :
    FPwin × Statics × List Effect :=
  if !w.isLoading then
    (if a.reload && e.scrollbar then w else w.selectFirstPage firstPage,
      { scrollToFirstItem := false, firstPage := none },
      shown ++ [Effect.lockTabs w.id false] ++
        (if a.reload && e.scrollbar then [Effect.restoreScrollbar w.id target] else []) ++
        [Effect.finishedLoading w.id])
  else (w, { scrollToFirstItem := scroll, firstPage := firstPage }, shown)

/-- `FPwin::addText (text, fileName, charset, enforceEncod, reload, saveCursor,
uneditable, multiple)`. -/
def FPwin.addText (w : FPwin) (s : Statics) (e : AddEnv) (a : Completed) :
    Except Fault (FPwin × Statics × List Effect) :=
  if a.fileName.isEmpty || a.charset.isEmpty then
    let slot : Slot :=
      if !a.fileName.isEmpty && a.charset.isEmpty then Slot.onOpeningHugeFiles
      else Slot.onPermissionDenied
    let w1 : FPwin := w.loaded
    .ok (w1, s,
      [Effect.connectFinishedLoading w.id slot] ++
        (if !w1.isLoading then [Effect.lockTabs w.id false, Effect.finishedLoading w.id]
         else []))
  else
    let multiple : Bool := if a.enforceEncod || a.reload then false else a.multiple
    match w.targetTab e a multiple with
    | .error f => .error f
    | .ok (w2, index, target, openInCurrentTab) =>
      let scroll : Bool :=
        s.scrollToFirstItem ||
          (openInCurrentTab && w.sidePane_ && !a.reload && !a.enforceEncod)
      let firstPage : Option Nat :=
        if scroll && (s.firstPage.isNone || e.sortsBefore) then some target.id
        else s.firstPage
      let w3 : FPwin := w2.setPage index (target.install a e.alreadyOpen)
      .ok (w3.loaded.endOfLoad a e target.id scroll firstPage
        (loadedEffects w.id a e.alreadyOpen (!multiple || openInCurrentTab) target.readOnly))

/-- `FPwin::makeEditable()`. -/
def FPwin.makeEditable (w : FPwin) : Except Fault (FPwin × List Effect) :=
  if !w.isReady then .ok (w, [])
  else
    let index : Int := w.currentIndex
    if index = -1 then .ok (w, [])
    else
      match w.widget index with
      | none => .error Fault.nullPage
      | some textEdit =>
        .ok (w.setPage index { textEdit with readOnly := false },
          [Effect.actionEdit w.id false])

/-- `FPwin::tabSwitch (index)`, as far as the pages and the "Edit" action go: no page
is written, and the action is shown for a read-only text that is not uneditable
("'Help' is an exception"). -/
def FPwin.tabSwitch (w : FPwin) (index : Int) : Except Fault (FPwin × List Effect) :=
  if index = -1 then .ok (w, [])
  else
    match w.widget index with
    | none => .error Fault.nullPage
    | some textEdit =>
      let visible : Bool :=
        if textEdit.fileName.isEmpty && !textEdit.modified && !textEdit.text.isEmpty then false
        else textEdit.readOnly && !textEdit.uneditable
      .ok (w, [Effect.closeWarningBar w.id, Effect.actionEdit w.id visible])

/-- Modelled from the spec: `FPsingleton::newWin` is not among the sources. It makes
a window, "created empty", with the constructor `FPwin::FPwin`, which sets the counter
to zero and `rightClicked_` to `-1`, gets its side pane from `applyConfigOnStarting`
when the configuration asks for one and ends with `newTab()`; the new window enters
the registry. -/
def newWin (id : Nat) (sidePane : Bool) (f : Fresh) : FPwin :=
  (FPwin.createEmptyTab
    { id := id
      pages := []
      currentIndex := -1
      sidePane_ := sidePane
      items := []
      currentItem := none
      sideItems_ := []
      rightClicked_ := -1
      loadingProcesses_ := 0 } true f).1

/-- The part of `detachTab` and of `dropTab` that puts the moved page into the window
that receives it: `insertTab` and, with a side pane, the new item, which becomes
current. -/
def FPwin.receiveTab (w : FPwin) (index : Int) (tabPage : TabPage) (f : Fresh) : FPwin :=
  let w1 : FPwin := w.insertTab index tabPage
  if w1.sidePane_ then (w1.addItem f tabPage.id).setCurrentItem (some f.item) else w1

/-- `FPwin::detachTab()`: the window, the other windows of the registry, to which the
new window is added, and the effects. The prompt of `closeTabAtIndex (0)` on the new
window gets its answers from `e`. -/
def FPwin.detachTab (w : FPwin) (others : List FPwin) (n : NewWin) (e : Env) :
    Except Fault (FPwin × List FPwin × List Effect) :=
  if !w.isReady then .ok (w, others, [])
  else
    let index : Int := w.closeTabIndex
    if index = -1 || w.count = 1 then .ok (w, others, [Effect.finishMouseMoveEvent w.id])
    else
      match w.widget index with
      | none => .error Fault.nullPage
      | some tabPage =>
        let w1 : FPwin := w.removeTab index
        let w2 : FPwin :=
          if w1.sidePane_ && !w1.sideItems_.isEmpty then
            match hashKey w1.sideItems_ tabPage.id with
            | some wi =>
              let w0 : FPwin := { w1 with sideItems_ := hashRemove w1.sideItems_ wi }
              w0.takeItem (w0.row (some wi))
            | none => w1
          else w1
        match (newWin n.id n.sidePane n.fresh).closeTabAtIndex 0 e with
        | .error f => .error f
        | .ok (dropTarget, _) =>
          .ok (w2, others ++ [dropTarget.receiveTab 0 tabPage n.item], [])

/-- `QString::split ("+", QString::SkipEmptyParts)`, on the characters of the string:
`cur` holds the part that is being read, last character first. -/
def splitParts (sep : Char) : List Char → List Char → List (List Char)
  | [], cur => if cur.isEmpty then [] else [cur.reverse]
  | c :: cs, cur =>
    if c = sep then
      (if cur.isEmpty then splitParts sep cs [] else cur.reverse :: splitParts sep cs [])
    else splitParts sep cs (c :: cur)

/-- The number that a string of decimal digits writes, `none` when a character is not
a digit or there is none. -/
def digitsValue : List Char → Option Nat
  | [] => none
  | cs =>
    cs.foldl (fun acc c =>
      match acc with
      | none => none
      | some n => if 48 ≤ c.toNat ∧ c.toNat ≤ 57 then some (10 * n + (c.toNat - 48)) else none)
      (some 0)

/-- `QString::toInt()`: white space around the number is skipped, a sign may come
first, and the result is `0` when the rest is not a decimal number or does not fit
an `int`. -/
def toInt (s : List Char) : Int :=
  let t : List Char := ((s.dropWhile Char.isWhitespace).reverse.dropWhile Char.isWhitespace).reverse
  let v : Option Int :=
    match t with
    | '-' :: ds => (digitsValue ds).map (fun n => - (n : Int))
    | '+' :: ds => (digitsValue ds).map (fun n => (n : Int))
    | ds => (digitsValue ds).map (fun n => (n : Int))
  match v with
  | some n => if -2147483648 ≤ n ∧ n ≤ 2147483647 then n else 0
  | none => 0

/-- The window of the registry, the receiver first, whose `winId()` is the `uint`
that the `int` is cast to. -/
def findWin (wins : List FPwin) (n : Int) : Option FPwin :=
  wins.find? (fun x => decide ((x.id : Int) = n % 4294967296))

/-- `FPwin::dropTab (str)`: the window, the other windows of the registry and the
effects; `f` is the item made for the dropped tab when the window has a side pane. -/
def FPwin.dropTab (w : FPwin) (others : List FPwin) (f : Fresh) (str : String) :
    Except Fault (FPwin × List FPwin × List Effect) :=
  match splitParts '+' str.toList [] with
  | [first, second] =>
    let index : Int := toInt second
    if index ≤ -1 then .ok (w, others, [Effect.finishMouseMoveEvent w.id])
    else
      match findWin (w :: others) (toInt first) with
      | none => .ok (w, others, [Effect.finishMouseMoveEvent w.id])
      | some dragSource =>
        if dragSource.id = w.id then .ok (w, others, [Effect.finishMouseMoveEvent w.id])
        else
          match dragSource.widget index with
          | none => .error Fault.nullPage
          | some tabPage =>
            let source : FPwin := dragSource.removeTab index
            let count : Int := source.count
            let insertIndex : Int := w.currentIndex + 1
            let w1 : FPwin := (w.receiveTab insertIndex tabPage f).setCurrentIndex insertIndex
            .ok (w1, others.map (fun x => if x.id = dragSource.id then source else x),
              [Effect.closeWarningBar w.id, Effect.closeWarningBar dragSource.id] ++
                (if count = 0 then [Effect.closeLater dragSource.id] else []))
  | _ => .ok (w, others, [Effect.finishMouseMoveEvent w.id])

/-- A window with its running `Loading` threads, the static variables of `addText`
and the effects so far. -/
structure Loader where
  win : FPwin
  threads : List Loading
  statics : Statics
  log : List Effect
  deriving DecidableEq, Repr

/-- A call of `loadText`, or the call of `addText` that the completion of the running
thread at position `thread` makes. -/
inductive LoadCall where
  | loadText (fileName : String)
      (enforceEncod reload saveCursor enforceUneditable multiple : Bool)
      (checkToEncoding : String)
  | addText (thread : Nat) (e : AddEnv) (a : Completed)
  deriving DecidableEq, Repr

/-- One call on a window and its threads: `none` when there is no such running thread
to complete, or when the call stops on a null page. -/
def Loader.call (s : Loader) : LoadCall → Option Loader
  | LoadCall.loadText fileName enforceEncod reload saveCursor enforceUneditable multiple
      checkToEncoding =>
    let r := s.win.loadText fileName enforceEncod reload saveCursor enforceUneditable multiple
      checkToEncoding
    some { s with win := r.1, threads := s.threads ++ [r.2.1], log := s.log ++ r.2.2 }
  | LoadCall.addText thread e a =>
    if thread < s.threads.length then
      match s.win.addText s.statics e a with
      | .error _ => none
      | .ok (w1, st, ev) =>
        some { win := w1, threads := s.threads.eraseIdx thread, statics := st, log := s.log ++ ev }
    else none

/-- A sequence of calls. -/
def Loader.run (s : Loader) : List LoadCall → Option Loader
  | [] => some s
  | c :: cs =>
    match s.call c with
    | none => none
    | some s1 => s1.run cs

/-- A window in which nothing is being loaded: the counter is zero, as the
constructor leaves it, and no thread runs. -/
def Loader.idle (w : FPwin) : Loader :=
  { win := { w with loadingProcesses_ := 0 }
    threads := []
    statics := { scrollToFirstItem := false, firstPage := none }
    log := [] }

/-- The number of times `finishedLoading` is emitted in a list of effects. -/
def emissions (ev : List Effect) : Nat :=
  (ev.filter (fun x => match x with
    | Effect.finishedLoading _ => true
    | _ => false)).length

/-- The current index of a tab widget: `-1` when it has no tab, and the index of one
of its tabs otherwise. -/
def FPwin.CurrentValid (w : FPwin) : Prop :=
  (w.currentIndex = -1 ∧ w.pages = []) ∨ (0 ≤ w.currentIndex ∧ w.currentIndex < w.count)

instance (w : FPwin) : Decidable w.CurrentValid := by
  unfold FPwin.CurrentValid
  infer_instance

/-- A call of `loadText`. -/
def LoadCall.isLoad : LoadCall → Bool
  | LoadCall.loadText _ _ _ _ _ _ _ => true
  | LoadCall.addText _ _ _ => false

/-- The calls are the completions of `n` running threads, in some order: each is a
call of `addText` by one of the threads that still run. -/
def completes : Nat → List LoadCall → Bool
  | 0, [] => true
  | n + 1, LoadCall.addText thread _ _ :: cs => decide (thread < n + 1) && completes n cs
  | _, _ => false

/-- Every text edit of the window that is uneditable is read-only. -/
def FPwin.Locked (w : FPwin) : Prop :=
  ∀ p ∈ w.pages, p.uneditable = true → p.readOnly = true

instance (w : FPwin) : Decidable w.Locked := by
  unfold FPwin.Locked
  infer_instance

/-! ## The encoding menu -/

/-- The actions of the encoding menu, which the constructor puts into the exclusive
group `aGroup_`. -/
inductive EncodingAction where
  | actionUTF_8
  | actionUTF_16
  | actionWindows_Arabic
  | actionISO_8859_1
  | actionISO_8859_15
  | actionWindows_1252
  | actionCyrillic_CP1251
  | actionCyrillic_KOI8_U
  | actionCyrillic_ISO_8859_5
  | actionChineese_BIG5
  | actionChinese_GB18030
  | actionJapanese_ISO_2022_JP
  | actionJapanese_ISO_2022_JP_2
  | actionJapanese_ISO_2022_KR
  | actionJapanese_CP932
  | actionJapanese_EUC_JP
  | actionKorean_CP949
  | actionKorean_CP1361
  | actionKorean_EUC_KR
  | actionOther
  deriving DecidableEq, Repr

/-- The state of the encoding menu: which actions are checked, and whether "Other" is
disabled. -/
structure EncodingMenu where
  isChecked : EncodingAction → Bool
  otherDisabled : Bool

/-- `action->setChecked (true)` on a member of an exclusive `QActionGroup`: the action
becomes the checked one and the others are unchecked. -/
def EncodingMenu.setChecked (m : EncodingMenu) (a : EncodingAction) : EncodingMenu :=
  { m with isChecked := fun b => decide (b = a) }

/-- `FPwin::encodingToCheck (encoding)`. -/
def encodingToCheck (m : EncodingMenu) (encoding : String) : EncodingMenu :=
  let m1 : EncodingMenu := if encoding ≠ "UTF-8" then { m with otherDisabled := true } else m
  if encoding = "UTF-8" then m1.setChecked EncodingAction.actionUTF_8
  else if encoding = "UTF-16" then m1.setChecked EncodingAction.actionUTF_16
  else if encoding = "CP1256" then m1.setChecked EncodingAction.actionWindows_Arabic
  else if encoding = "ISO-8859-1" then m1.setChecked EncodingAction.actionISO_8859_1
  else if encoding = "ISO-8859-15" then m1.setChecked EncodingAction.actionISO_8859_15
  else if encoding = "CP1252" then m1.setChecked EncodingAction.actionWindows_1252
  else if encoding = "CP1251" then m1.setChecked EncodingAction.actionCyrillic_CP1251
  else if encoding = "KOI8-U" then m1.setChecked EncodingAction.actionCyrillic_KOI8_U
  else if encoding = "ISO-8859-5" then m1.setChecked EncodingAction.actionCyrillic_ISO_8859_5
  else if encoding = "BIG5" then m1.setChecked EncodingAction.actionChineese_BIG5
  else if encoding = "B18030" then m1.setChecked EncodingAction.actionChinese_GB18030
  else if encoding = "ISO-2022-JP" then m1.setChecked EncodingAction.actionJapanese_ISO_2022_JP
  else if encoding = "ISO-2022-JP-2" then
    m1.setChecked EncodingAction.actionJapanese_ISO_2022_JP_2
  else if encoding = "ISO-2022-KR" then m1.setChecked EncodingAction.actionJapanese_ISO_2022_KR
  else if encoding = "CP932" then m1.setChecked EncodingAction.actionJapanese_CP932
  else if encoding = "EUC-JP" then m1.setChecked EncodingAction.actionJapanese_EUC_JP
  else if encoding = "CP949" then m1.setChecked EncodingAction.actionKorean_CP949
  else if encoding = "CP1361" then m1.setChecked EncodingAction.actionKorean_CP1361
  else if encoding = "EUC-KR" then m1.setChecked EncodingAction.actionKorean_EUC_KR
  else ({ m1 with otherDisabled := false }).setChecked EncodingAction.actionOther

/-- `FPwin::checkToEncoding()`. -/
def checkToEncoding (m : EncodingMenu) : String :=
  if m.isChecked EncodingAction.actionUTF_8 then "UTF-8"
  else if m.isChecked EncodingAction.actionUTF_16 then "UTF-16"
  else if m.isChecked EncodingAction.actionWindows_Arabic then "CP1256"
  else if m.isChecked EncodingAction.actionISO_8859_1 then "ISO-8859-1"
  else if m.isChecked EncodingAction.actionISO_8859_15 then "ISO-8859-15"
  else if m.isChecked EncodingAction.actionWindows_1252 then "CP1252"
  else if m.isChecked EncodingAction.actionCyrillic_CP1251 then "CP1251"
  else if m.isChecked EncodingAction.actionCyrillic_KOI8_U then "KOI8-U"
  else if m.isChecked EncodingAction.actionCyrillic_ISO_8859_5 then "ISO-8859-5"
  else if m.isChecked EncodingAction.actionChineese_BIG5 then "BIG5"
  else if m.isChecked EncodingAction.actionChinese_GB18030 then "B18030"
  else if m.isChecked EncodingAction.actionJapanese_ISO_2022_JP then "ISO-2022-JP"
  else if m.isChecked EncodingAction.actionJapanese_ISO_2022_JP_2 then "ISO-2022-JP-2"
  else if m.isChecked EncodingAction.actionJapanese_ISO_2022_KR then "ISO-2022-KR"
  else if m.isChecked EncodingAction.actionJapanese_CP932 then "CP932"
  else if m.isChecked EncodingAction.actionJapanese_EUC_JP then "EUC-JP"
  else if m.isChecked EncodingAction.actionKorean_CP949 then "CP949"
  else if m.isChecked EncodingAction.actionKorean_CP1361 then "CP1361"
  else if m.isChecked EncodingAction.actionKorean_EUC_KR then "EUC-KR"
  else "UTF-8"

/-- The encoding names that `encodingToCheck` compares its argument with. -/
def encodingNames : List String :=
  ["UTF-8", "UTF-16", "CP1256", "ISO-8859-1", "ISO-8859-15", "CP1252", "CP1251", "KOI8-U",
   "ISO-8859-5", "BIG5", "B18030", "ISO-2022-JP", "ISO-2022-JP-2", "ISO-2022-KR", "CP932",
   "EUC-JP", "CP949", "CP1361", "EUC-KR"]

/-! ## Trailing spaces -/

/-- `QChar::isSpace()`: the characters `U+0009` to `U+000D`, the space, `U+0085`,
`U+00A0` and the Unicode separators. -/
def isSpace (c : Char) : Bool :=
  c.toNat = 0x20 || (decide (0x09 ≤ c.toNat) && decide (c.toNat ≤ 0x0d)) || c.toNat = 0x85 ||
  c.toNat = 0xa0 || c.toNat = 0x1680 ||
  (decide (0x2000 ≤ c.toNat) && decide (c.toNat ≤ 0x200a)) || c.toNat = 0x2028 ||
  c.toNat = 0x2029 || c.toNat = 0x202f || c.toNat = 0x205f || c.toNat = 0x3000

/-- The loop of `trailingSpaces`:
`while (i < str.length()) { if (!str.at (str.length() - 1 - i).isSpace()) return i; ++i; }
return i;`. The result is `none` when the fuel runs out or `at` is out of range. -/
def trailingSpacesLoop (str : List Char) : Nat → Nat → Option Nat
  | 0, _ => none
  | fuel + 1, i =>
    if i < str.length then
      match str[str.length - 1 - i]? with
      | none => none
      | some c => if !isSpace c then some i else trailingSpacesLoop str fuel (i + 1)
    else some i

/-- The static function `trailingSpaces (str)`; every iteration of its loop but the
last one counts `i` up towards `str.length()`. -/
def trailingSpaces (str : List Char) : Option Nat :=
  trailingSpacesLoop str (str.length + 1) 0

/-- The body of the loop over the text blocks in `saveFile` and in `autoSave`, on the
text of one block: the cursor is put at the end of the block, moved back over `num`
characters (over `num - 2` in a markdown text with more than one trailing space), and
the selection is removed. -/
def stripBlock (prog : String) (text : List Char) : Option (List Char) :=
  match trailingSpaces text with
  | none => none
  | some num =>
    if num ≠ 0 then
      if decide (num > 1) && decide (prog = "markdown") then
        some (text.take (text.length - (num - 2)))
      else some (text.take (text.length - num))
    else some text

/-- The pass of `saveFile` and of `autoSave` that removes trailing spaces, over the
text blocks of the document from `firstBlock()` on. -/
def removeTrailingSpaces (prog : String) : List (List Char) → Option (List (List Char))
  | [] => some []
  | block :: rest =>
    match stripBlock prog block with
    | none => none
    | some b =>
      match removeTrailingSpaces prog rest with
      | none => none
      | some bs => some (b :: bs)

/-! ## Auto-saving and external processes -/

/-- The members of `FPwin` that auto-saving uses: the timer `autoSaver_` (`none` is the
null pointer, otherwise whether the timer is active), whether the elapsed timer
`autoSaverPause_` is valid, and the number of the passes that `autoSave` has given to
`QTimer::singleShot (0, ...)` and that the event loop has not run yet. -/
structure AutoSaver where
  autoSaver_ : Option Bool
  pauseValid : Bool
  queued : Nat := 0
  deriving DecidableEq, Repr

/-- `FPwin::autoSave()`, the slot of the timer: while `autoSaverPause_` is valid it
returns at once; otherwise it gives the pass over the tabs to `QTimer::singleShot (0,
...)`, and the pass runs when the control is back in an event loop. -/
def FPwin.autoSave (_w : FPwin) (s : AutoSaver) : AutoSaver :=
  if s.pauseValid then s else { s with queued := s.queued + 1 }

/-- The pass over the tabs that `autoSave` has scheduled (the lambda that it gives to
`QTimer::singleShot`), when an event loop runs it: the state and the pages that it
gets to write, `exists` being `QFile::exists`. The pass returns at once without an
active timer or a current tab; it does not look at `autoSaverPause_`. -/
def FPwin.autoSavePass (w : FPwin) (s : AutoSaver) (exists_ : String → Bool) :
    AutoSaver × List Nat :=
  if s.queued = 0 then (s, [])
  else
    let s1 : AutoSaver := { s with queued := s.queued - 1 }
    if s.autoSaver_ ≠ some true then (s1, [])
    else if w.currentIndex = -1 then (s1, [])
    else
      (s1, w.pages.filterMap (fun p =>
        if p.uneditable || !p.modified then none
        else if p.fileName.isEmpty || !exists_ p.fileName then none
        else some p.id))

/-- `FPwin::pauseAutoSaving (pause)`; `expired` is
`autoSaverPause_.hasExpired (autoSaverRemainingTime_)`, in which case the end of the
pause calls `autoSave()`. -/
def FPwin.pauseAutoSaving (w : FPwin) (s : AutoSaver) (pause expired : Bool) : AutoSaver :=
  if s.autoSaver_ = none then s
  else if pause then { s with pauseValid := true }
  else if s.pauseValid then
    if expired then w.autoSave { s with pauseValid := false }
    else { s with pauseValid := false }
  else s

/-- What `executeProcess` reads from outside: the object names of the dialogs of the
window, `config.getExecuteScripts()`, `getProg()` of the current text edit, whether
its file is executable, `config.getExecuteCommand()` and the `new QProcess`. -/
structure ExecEnv where
  dialogs : List String
  executeScripts : Bool
  prog : String
  isExecutable : Bool
  executeCommand : String
  process : Nat
  deriving DecidableEq, Repr

/-- What `executeProcess` shows and starts. -/
inductive ProcessEffect where
  | closeWarningBar
  | showWarningBar
  | start (process : Nat) (page : Nat) (command : String)
  deriving DecidableEq, Repr

/-- `FPwin::isScriptLang (lang)`. -/
def isScriptLang (lang : String) : Bool :=
  lang == "sh" || lang == "python" || lang == "ruby" || lang == "lua" || lang == "perl"

/-- `FPwin::executeProcess()`. The `QProcess` objects are the pairs of a process and
the page that is its parent; `findChild<QProcess *>` of a page finds a process whose
parent is that page. The command is `getExecuteCommand()`, a space when it is not
empty, and the file name between double quotes (the character `34`), in which every
double quote is tripled. -/
def FPwin.executeProcess (w : FPwin) (procs : List (Nat × Nat)) (e : ExecEnv) :
    List (Nat × Nat) × List ProcessEffect :=
  if e.dialogs.any (fun name => name != "processDialog" && name != "sessionDialog") then
    (procs, [])
  else if !e.executeScripts then (procs, [ProcessEffect.closeWarningBar])
  else
    match w.widget w.currentIndex with
    | none => (procs, [ProcessEffect.closeWarningBar])
    | some tabPage =>
      if procs.any (fun pp => pp.2 == tabPage.id) then
        (procs, [ProcessEffect.closeWarningBar, ProcessEffect.showWarningBar])
      else if !isScriptLang e.prog || !e.isExecutable then
        (procs, [ProcessEffect.closeWarningBar])
      else
        let command : String :=
          if !e.executeCommand.isEmpty then e.executeCommand ++ " " else e.executeCommand
        let quote : String := String.singleton (Char.ofNat 34)
        let fName : String :=
          String.join (tabPage.fileName.toList.map (fun c =>
            if c = Char.ofNat 34 then quote ++ quote ++ quote else String.singleton c))
        (procs ++ [(e.process, tabPage.id)],
          [ProcessEffect.closeWarningBar,
           ProcessEffect.start e.process tabPage.id (command ++ quote ++ fName ++ quote)])

/-- `FPwin::closeOtherTabs()`; `env` answers the prompts of the first call of
`closeTabs` and `env2` those of the second one. -/
def FPwin.closeOtherTabs (w : FPwin) (env env2 : Nat → Env) :
    Except Fault (FPwin × List Event) :=
  match w.closeTabs w.rightClicked_ (-1) env with
  | .error f => .error f
  | .ok (keep, w1, ev1) =>
    if !keep then
      match w1.closeTabs (-1) w1.rightClicked_ env2 with
      | .error f => .error f
      | .ok (_, w2, ev2) => .ok (w2, ev1 ++ ev2)
    else .ok (w1, ev1)

/-- The pages of the processes are pairwise different: no page has two processes. -/
def OnePerTab (procs : List (Nat × Nat)) : Prop := (procs.map Prod.snd).Nodup

instance (procs : List (Nat × Nat)) : Decidable (OnePerTab procs) := by
  unfold OnePerTab
  infer_instance

/-! ## Activating the side pane -/

/-- The loop of `toggleSidePane` over the tabs, from tab `i` on: each page gets a new
item, `sideItems_.insert (lwi, tabPage)`, and the item of the tab `curIndex` becomes
current; `fs i` holds the `new QListWidgetItem` of tab `i` and the row at which the
list widget puts it. -/
def FPwin.addItems (w : FPwin) (curIndex : Int) (fs : Nat → Fresh) :
    Nat → List TabPage → FPwin
  | _, [] => w
  | i, tabPage :: rest =>
    let w1 : FPwin := w.addItem (fs i) tabPage.id
    let w2 : FPwin :=
      if (i : Int) = curIndex then w1.setCurrentItem (some (fs i).item) else w1
    FPwin.addItems w2 curIndex fs (i + 1) rest

/-- `FPwin::toggleSidePane()`: without a side pane, a new one is made, whose list is
empty, and filled from the tabs; with one, the list gets the focus when it has not got
it (`hasFocus`), and otherwise the side pane is deleted and `sideItems_` cleared. -/
def FPwin.toggleSidePane (w : FPwin) (fs : Nat → Fresh) (hasFocus : Bool) : FPwin :=
  if !w.sidePane_ then
    let w1 : FPwin := { w with sidePane_ := true, items := [], currentItem := none }
    if w1.count > 0 then w1.addItems w1.currentIndex fs 0 w1.pages else w1
  else if !hasFocus then w
  else { w with sideItems_ := [], sidePane_ := false, items := [], currentItem := none }

/-- The part of `Mirrored` that does not speak of the current item, for the pages with
the identities `ids`: `S` pairs every item with one of them and each of them with one
item. -/
def PairedWith (items : List Nat) (S : List (Nat × Nat)) (ids : List Nat) : Prop :=
  items.Nodup ∧ (S.map Prod.fst).Nodup ∧ (S.map Prod.snd).Nodup ∧
  (∀ kv ∈ S, kv.1 ∈ items ∧ kv.2 ∈ ids) ∧
  (∀ i ∈ items, i ∈ S.map Prod.fst) ∧
  (∀ p ∈ ids, p ∈ S.map Prod.snd)

/-- The side list is in the order of the tabs: the pages of its rows are the pages of
the tabs, one after the other. -/
def FPwin.InTabOrder (w : FPwin) : Prop :=
  w.items.map (fun i => hashValue w.sideItems_ (some i)) = w.pages.map (fun p => some p.id)

instance (w : FPwin) : Decidable w.InTabOrder := by
  unfold FPwin.InTabOrder
  infer_instance

/-- The window `v` inside the loop of `toggleSidePane` over the pages `P`, before tab
`i`: the tabs before `i` have their items, which are among the first `i` new ones, and
the item of the tab `c` is current once that tab has been passed. -/
def FilledTo (P : List TabPage) (c : Int) (fs : Nat → Fresh) (i : Nat) (v : FPwin) : Prop :=
  v.pages = P ∧ v.sidePane_ = true ∧ v.currentIndex = c ∧
  PairedWith v.items v.sideItems_ ((P.take i).map TabPage.id) ∧
  (∀ x ∈ v.items, ∃ j, j < i ∧ x = (fs j).item) ∧
  ((∃ (cn : Nat) (pg : TabPage) (x : Nat), c = (cn : Int) ∧ cn < i ∧ P[cn]? = some pg ∧
      v.currentItem = some x ∧ v.sideItems_.lookup x = some pg.id) ∨
    (v.currentItem = none ∧ ¬ (0 ≤ c ∧ c < (i : Int))))

/-! ## Sample data -/

/-- A window with a side pane whose rows are in another order than the tabs; the
second tab is modified. -/
def sampleWindow : FPwin :=
  { id := 1
    pages := [{ id := 10, fileName := "", modified := false }, { id := 11, fileName := "/home/u/notes.txt", modified := true }, { id := 12, fileName := "", modified := false }]
    currentIndex := 0
    sidePane_ := true
    items := [22, 20, 21]
    currentItem := some 20
    sideItems_ := [(20, 10), (21, 11), (22, 12)]
    rightClicked_ := -1
    loadingProcesses_ := 0 }

/-- A user who clicks the same button at every prompt, on a disk where every named
file is in place, while no other window has a dialog; a save succeeds. -/
def answerAll (button : StandardButton) : Nat → Env := fun _ =>
  { fileExists := true
    isFile := true
    wins := []
    exec := fun _ => button
    save := ⟨true, "/home/u/saved.txt", false, false⟩ }

/-- A window without a side pane, with three untitled, unmodified tabs. -/
def threeTabs : FPwin :=
  { id := 1
    pages := [{ id := 10, fileName := "", modified := false }, { id := 11, fileName := "", modified := false }, { id := 12, fileName := "", modified := false }]
    currentIndex := 0
    sidePane_ := false
    items := []
    currentItem := none
    sideItems_ := []
    rightClicked_ := -1
    loadingProcesses_ := 0 }

/-- The sample window after its two lower rows have been closed. -/
def sampleRest : FPwin :=
  { id := 1
    pages := [{ id := 12, fileName := "", modified := false }]
    currentIndex := 0
    sidePane_ := true
    items := [22]
    currentItem := some 22
    sideItems_ := [(22, 12)]
    rightClicked_ := -1
    loadingProcesses_ := 0 }

/-- The trace of closing the two lower rows of the sample window when the user
answers "No to all". -/
def sampleDiscardTrace : List Event :=
  [Event.pauseAutoSaving true, Event.msgBox 11 false true,
    Event.savePrompt 11 true DOCSTATE.DISCARDED, Event.deleteTabPage 11,
    Event.deleteTabPage 10, Event.pauseAutoSaving false]

/-- A window without a side pane whose first tab is current and whose second tab is
modified. -/
def twoTabs : FPwin :=
  { id := 1
    pages := [{ id := 10, fileName := "", modified := false }, { id := 11, fileName := "/home/u/notes.txt", modified := true }]
    currentIndex := 0
    sidePane_ := false
    items := []
    currentItem := none
    sideItems_ := []
    rightClicked_ := -1
    loadingProcesses_ := 0 }

/-- The trace of closing the second of the two tabs when the user cancels. -/
def twoTabsCancelTrace : List Event :=
  [Event.pauseAutoSaving true, Event.msgBox 11 false false,
    Event.savePrompt 11 false DOCSTATE.UNDECIDED, Event.pauseAutoSaving false]

/-- A window with one unmodified tab that shows a named file. -/
def oneTab : FPwin :=
  { id := 1
    pages := [{ id := 10, fileName := "/home/u/gone.txt", modified := false }]
    currentIndex := 0
    sidePane_ := false
    items := []
    currentItem := none
    sideItems_ := []
    rightClicked_ := -1
    loadingProcesses_ := 0 }

/-- A disk from which the named files have been removed, and a user who cancels
every prompt; no other window has a dialog. -/
def goneEnv : Nat → Env := fun _ =>
  { fileExists := false
    isFile := false
    wins := []
    exec := fun _ => StandardButton.Cancel
    save := ⟨false, "", false, false⟩ }

/-- A disk from which the named files have been removed, while another window of the
application shows a modal dialog. -/
def blockedEnv : Env :=
  { fileExists := false
    isFile := false
    wins := [⟨1, []⟩, ⟨2, ["prefDialog"]⟩]
    exec := fun _ => StandardButton.Save
    save := ⟨true, "/home/u/gone.txt", false, false⟩ }

/-- The objects of the calls of `createEmptyTab` in the samples. -/
def sampleFresh (n : Nat) : Fresh := { page := 100 + n, item := 200 + n, row := 0 }

/-- The outside of `addText` in the samples: the file is open nowhere else. -/
def sampleAddEnv : AddEnv :=
  { fresh := sampleFresh 1
    fresh2 := sampleFresh 2
    alreadyOpen := false
    sortsBefore := false
    scrollbar := false }

/-- A file that has been read, one of several that are being opened. -/
def sampleFile : Completed :=
  { text := "hello"
    fileName := "/home/u/a.txt"
    charset := "UTF-8"
    enforceEncod := false
    reload := false
    saveCursor := false
    uneditable := false
    multiple := true }

/-- A file that is too large: it has a name and no character set. -/
def hugeFile : Completed := { sampleFile with text := "", fileName := "/home/u/b.iso", charset := "" }

/-- A file that could not be read: it has no name. -/
def deniedFile : Completed := { sampleFile with text := "", fileName := "" }

/-- Two files are opened; the second load completes first, as too large. -/
def sampleCalls : List LoadCall :=
  [LoadCall.loadText "/home/u/a.txt" false false false false true "",
    LoadCall.loadText "/home/u/b.iso" false false false false true "",
    LoadCall.addText 1 sampleAddEnv hugeFile,
    LoadCall.addText 0 sampleAddEnv sampleFile]

/-- The window of two tabs after the sample calls: the text is in the first tab,
which was empty. -/
def sampleLoaded : Loader :=
  { win := { twoTabs with
      pages := [{ id := 10, fileName := "/home/u/a.txt", modified := false, text := "hello" },
        { id := 11, fileName := "/home/u/notes.txt", modified := true }] }
    threads := []
    statics := { scrollToFirstItem := false, firstPage := none }
    log := [Effect.closeWarningBar 1, Effect.lockTabs 1 true, Effect.lockTabs 1 true,
      Effect.connectFinishedLoading 1 Slot.onOpeningHugeFiles, Effect.lockTabs 1 false,
      Effect.finishedLoading 1] }

/-- A window without a side pane that has no tab. -/
def noTabs : FPwin :=
  { id := 1
    pages := []
    currentIndex := -1
    sidePane_ := false
    items := []
    currentItem := none
    sideItems_ := []
    rightClicked_ := -1
    loadingProcesses_ := 1 }

/-- A file that has been read again for a reload. -/
def reloadedFile : Completed := { sampleFile with reload := true, multiple := false }

/-- A ready window whose only tab holds a text that was loaded as uneditable. -/
def lockedTab : FPwin :=
  { id := 1
    pages := [{ id := 10, fileName := "/home/u/a.bin", modified := false, text := "data",
                readOnly := true, uneditable := true }]
    currentIndex := 0
    sidePane_ := false
    items := []
    currentItem := none
    sideItems_ := []
    rightClicked_ := -1
    loadingProcesses_ := 0 }

/-- What a detaching window gets from the application: a window with the `winId()`
`3` and no side pane, and the objects made for its first tab and for the tab that it
receives. -/
def sampleNewWin : NewWin :=
  { id := 3, sidePane := false, fresh := sampleFresh 0, item := sampleFresh 1 }

/-- A second window, with a side pane and two tabs. -/
def sideSource : FPwin :=
  { id := 2
    pages := [{ id := 30, fileName := "/home/u/x.txt", modified := false }, { id := 31, fileName := "", modified := true }]
    currentIndex := 0
    sidePane_ := true
    items := [40, 41]
    currentItem := some 40
    sideItems_ := [(40, 30), (41, 31)]
    rightClicked_ := -1
    loadingProcesses_ := 0 }

/-- A second window with a single tab. -/
def lastTab : FPwin :=
  { id := 2
    pages := [{ id := 30, fileName := "/home/u/x.txt", modified := true }]
    currentIndex := 0
    sidePane_ := false
    items := []
    currentItem := none
    sideItems_ := []
    rightClicked_ := -1
    loadingProcesses_ := 0 }

/-- The encoding menu as the constructor leaves it: `UTF-8` is checked and "Other" is
disabled. -/
def sampleMenu : EncodingMenu :=
  { isChecked := fun a => decide (a = EncodingAction.actionUTF_8), otherDisabled := true }

/-- A configuration that runs executable scripts with `sh`, while no dialog is open
and the current text is an executable shell script; the new process is `300`. -/
def sampleExec : ExecEnv :=
  { dialogs := []
    executeScripts := true
    prog := "sh"
    isExecutable := true
    executeCommand := "sh"
    process := 300 }

/-- The sample window after its row `2` has been closed. -/
def sampleKept : FPwin :=
  { sampleWindow with
    pages := [{ id := 10, fileName := "", modified := false }, { id := 12, fileName := "", modified := false }]
    items := [22, 20]
    sideItems_ := [(20, 10), (22, 12)] }

/-- The trace of closing row `2` of the sample window when the user discards the
changes. -/
def sampleKeptTrace : List Event :=
  [Event.pauseAutoSaving true, Event.msgBox 11 false false,
   Event.savePrompt 11 false DOCSTATE.SAVED, Event.deleteTabPage 11,
   Event.pauseAutoSaving false]

/-- A window with a side pane whose two rows are in the order of its two tabs. -/
def orderedSide : FPwin :=
  { id := 1
    pages := [{ id := 10, fileName := "/home/u/a.txt", modified := false }, { id := 11, fileName := "/home/u/b.txt", modified := false }]
    currentIndex := 0
    sidePane_ := true
    items := [20, 21]
    currentItem := some 20
    sideItems_ := [(20, 10), (21, 11)]
    rightClicked_ := -1
    loadingProcesses_ := 0 }

/-- A second window, without a side pane, with two tabs. -/
def plainSource : FPwin :=
  { id := 2
    pages := [{ id := 30, fileName := "/home/u/x.txt", modified := false }, { id := 31, fileName := "", modified := true }]
    currentIndex := 0
    sidePane_ := false
    items := []
    currentItem := none
    sideItems_ := []
    rightClicked_ := -1
    loadingProcesses_ := 0 }

/-- A window without a side pane whose two tabs show uneditable texts; the first tab
is current. -/
def lockedPair : FPwin :=
  { id := 1
    pages := [{ id := 10, fileName := "/home/u/a.bin", modified := false, text := "data",
                readOnly := true, uneditable := true },
              { id := 11, fileName := "/home/u/b.bin", modified := false, text := "more",
                readOnly := true, uneditable := true }]
    currentIndex := 0
    sidePane_ := false
    items := []
    currentItem := none
    sideItems_ := []
    rightClicked_ := -1
    loadingProcesses_ := 0 }

/-- A disk from which the named files have been removed, and a user who answers every
prompt with "Save"; the save succeeds, the file is open in no other tab and no other
window has a dialog. -/
def restoreEnv : Env :=
  { fileExists := false
    isFile := false
    wins := []
    exec := fun _ => StandardButton.Save
    save := ⟨true, "/home/u/a.bin", false, false⟩ }

/-- A window without a side pane whose second tab is current and has been
right-clicked; the texts of the other two tabs are modified and have files. -/
def otherTabs : FPwin :=
  { id := 1
    pages := [{ id := 10, fileName := "/home/u/a.txt", modified := true }, { id := 11, fileName := "", modified := false }, { id := 12, fileName := "/home/u/c.txt", modified := true }]
    currentIndex := 1
    sidePane_ := false
    items := []
    currentItem := none
    sideItems_ := []
    rightClicked_ := 1
    loadingProcesses_ := 0 }

/-! # Proofs -/

/-! ## Lists at `int` positions -/

theorem atIndex_natCast {α : Type} (l : List α) (n : Nat) : atIndex l (n : Int) = l[n]? := by
  simp [atIndex]

theorem atIndex_of_neg {α : Type} (l : List α) {i : Int} (h : i < 0) : atIndex l i = none := by
  have : ¬ (0 ≤ i) := by omega
  simp [atIndex, this]

theorem atIndex_eq_some {α : Type} {l : List α} {i : Int} {a : α} (h : atIndex l i = some a) :
    ∃ n : Nat, i = n ∧ n < l.length ∧ l[n]? = some a := by
  unfold atIndex at h
  split at h
  · refine ⟨i.toNat, by omega, ?_, h⟩
    exact (List.getElem?_eq_some.1 h).1
  · exact absurd h (by simp)

theorem removeAt_natCast {α : Type} (l : List α) (n : Nat) :
    removeAt l (n : Int) = l.eraseIdx n := by
  simp [removeAt]

theorem positionOf_of_getElem? {l : List Nat} (hl : l.Nodup) {n : Nat} {a : Nat}
    (h : l[n]? = some a) : positionOf l a = n := by
  obtain ⟨hn, rfl⟩ := List.getElem?_eq_some.1 h
  have hmem : l[n] ∈ l := List.getElem_mem hn
  simp only [positionOf, hmem, if_true]
  rw [List.indexOf_getElem hl n hn]

theorem positionOf_of_mem {l : List Nat} {a : Nat} (h : a ∈ l) :
    ∃ n : Nat, positionOf l a = n ∧ l[n]? = some a := by
  refine ⟨l.indexOf a, by simp [positionOf, h], ?_⟩
  have := List.indexOf_get? h
  rwa [List.get?_eq_getElem?] at this

theorem positionOf_of_not_mem {l : List Nat} {a : Nat} (h : a ∉ l) : positionOf l a = -1 := by
  simp [positionOf, h]

/-! ## The hash `sideItems_` -/

theorem lookup_of_mem {S : List (Nat × Nat)} (hk : (S.map Prod.fst).Nodup) {k v : Nat}
    (h : (k, v) ∈ S) : S.lookup k = some v := by
  induction S with
  | nil => simp at h
  | cons x S ih =>
    obtain ⟨a, b⟩ := x
    simp only [List.map_cons, List.nodup_cons, List.mem_map, not_exists, not_and] at hk
    rcases List.mem_cons.1 h with h | h
    · cases h
      simp [List.lookup]
    · have hne : k ≠ a := by
        intro hka
        exact hk.1 (k, v) h hka
      have : (k == a) = false := by simpa using hne
      simp only [List.lookup, this]
      exact ih hk.2 h

theorem mem_of_lookup {S : List (Nat × Nat)} {k v : Nat} (h : S.lookup k = some v) :
    (k, v) ∈ S := by
  induction S with
  | nil => simp at h
  | cons x S ih =>
    obtain ⟨a, b⟩ := x
    by_cases hka : k = a
    · subst hka
      simp [List.lookup] at h
      simp [h]
    · have : (k == a) = false := by simpa using hka
      simp only [List.lookup, this] at h
      exact List.mem_cons_of_mem _ (ih h)

theorem hashKey_of_mem {S : List (Nat × Nat)} (hv : (S.map Prod.snd).Nodup) {k v : Nat}
    (h : (k, v) ∈ S) : hashKey S v = some k := by
  induction S with
  | nil => simp at h
  | cons x S ih =>
    obtain ⟨a, b⟩ := x
    simp only [List.map_cons, List.nodup_cons, List.mem_map, not_exists, not_and] at hv
    rcases List.mem_cons.1 h with h | h
    · cases h
      simp [hashKey]
    · have hne : b ≠ v := by
        intro hbv
        exact hv.1 (k, v) h hbv.symm
      have : (b == v) = false := by simpa using hne
      have ih := ih hv.2 h
      simp only [hashKey] at ih ⊢
      simp only [List.find?, this]
      exact ih

theorem mem_of_hashKey {S : List (Nat × Nat)} {k v : Nat} (h : hashKey S v = some k) :
    (k, v) ∈ S := by
  simp only [hashKey, Option.map_eq_some'] at h
  obtain ⟨⟨a, b⟩, hfind, hk⟩ := h
  have h1 := List.find?_some hfind
  have h2 := List.mem_of_find?_eq_some hfind
  simp at h1 hk
  subst h1; subst hk
  exact h2

theorem mem_hashRemove {S : List (Nat × Nat)} {wi : Nat} {kv : Nat × Nat} :
    kv ∈ hashRemove S wi ↔ kv ∈ S ∧ kv.1 ≠ wi := by
  simp [hashRemove]

theorem lookup_hashRemove {S : List (Nat × Nat)} {wi k : Nat} (h : k ≠ wi) :
    (hashRemove S wi).lookup k = S.lookup k := by
  induction S with
  | nil => simp [hashRemove]
  | cons x S ih =>
    obtain ⟨a, b⟩ := x
    simp only [hashRemove] at ih ⊢
    by_cases ha : a = wi
    · subst ha
      have : (k == a) = false := by simpa using h
      simp [List.filter, List.lookup, this, ih]
    · have h1 : (a != wi) = true := by simpa using ha
      simp only [List.filter, h1]
      by_cases hka : k = a
      · subst hka
        simp [List.lookup]
      · have : (k == a) = false := by simpa using hka
        simp [List.lookup, this, ih]

/-! ## What the small operations leave alone -/

theorem SameTabs.refl (w : FPwin) : SameTabs w w := ⟨rfl, rfl, rfl, rfl, rfl, rfl, rfl⟩

theorem SameTabs.trans {a b c : FPwin} (h1 : SameTabs a b) (h2 : SameTabs b c) : SameTabs a c := by
  obtain ⟨h11, h12, h13, h14, h15, h16, h17⟩ := h1
  obtain ⟨h21, h22, h23, h24, h25, h26, h27⟩ := h2
  exact ⟨h21.trans h11, h22.trans h12, h23.trans h13, h24.trans h14, h25.trans h15,
    h26.trans h16, h27.trans h17⟩

theorem setCurrentIndex_sameTabs (w : FPwin) (i : Int) : SameTabs w (w.setCurrentIndex i) := by
  unfold FPwin.setCurrentIndex
  split
  · exact ⟨rfl, rfl, rfl, rfl, rfl, rfl, rfl⟩
  · exact SameTabs.refl w

theorem setCurrentIndex_currentItem (w : FPwin) (i : Int) :
    (w.setCurrentIndex i).currentItem = w.currentItem := by
  unfold FPwin.setCurrentIndex
  split <;> rfl

theorem setCurrentIndex_of_valid (w : FPwin) (n : Nat) (h : n < w.pages.length) :
    (w.setCurrentIndex n).currentIndex = n := by
  have : (0 : Int) ≤ n ∧ (n : Int) < w.count := by
    simp only [FPwin.count]
    omega
  simp [FPwin.setCurrentIndex, this]

theorem setCurrentWidget_sameTabs (w : FPwin) (p : Option Nat) :
    SameTabs w (w.setCurrentWidget p) :=
  setCurrentIndex_sameTabs w _

theorem setCurrentWidget_currentItem (w : FPwin) (p : Option Nat) :
    (w.setCurrentWidget p).currentItem = w.currentItem :=
  setCurrentIndex_currentItem w _

theorem changeTab_sameTabs (w : FPwin) (c : Option Nat) : SameTabs w (w.changeTab c) := by
  unfold FPwin.changeTab
  split
  · exact SameTabs.refl w
  · exact setCurrentWidget_sameTabs w _

theorem changeTab_currentItem (w : FPwin) (c : Option Nat) :
    (w.changeTab c).currentItem = w.currentItem := by
  unfold FPwin.changeTab
  split
  · rfl
  · exact setCurrentWidget_currentItem w _

theorem setCurrentItem_sameTabs (w : FPwin) (c : Option Nat) :
    SameTabs w (w.setCurrentItem c) := by
  unfold FPwin.setCurrentItem
  simp only
  generalize (if 0 ≤ w.row c then c else none) = new
  split
  · exact SameTabs.refl w
  · exact SameTabs.trans ⟨rfl, rfl, rfl, rfl, rfl, rfl, rfl⟩ (changeTab_sameTabs _ _)

theorem attend_sameTabs (w : FPwin) (t : Int) (p : TabPage) : SameTabs w (w.attend t p) := by
  unfold FPwin.attend
  split
  · split
    · exact setCurrentItem_sameTabs w _
    · exact setCurrentIndex_sameTabs w _
  · exact SameTabs.refl w

theorem SameTabs.count {w w1 : FPwin} (h : SameTabs w w1) : w1.count = w.count := by
  simp [FPwin.count, h.2.1]

theorem SameTabs.widget {w w1 : FPwin} (h : SameTabs w w1) (i : Int) :
    w1.widget i = w.widget i := by
  simp [FPwin.widget, h.2.1]

theorem SameTabs.isReady {w w1 : FPwin} (h : SameTabs w w1) : w1.isReady = w.isReady := by
  simp [FPwin.isReady, h.2.2.2.2.2.2]

theorem SameTabs.indexOf {w w1 : FPwin} (h : SameTabs w w1) (p : Option Nat) :
    w1.indexOf p = w.indexOf p := by
  cases p <;> simp [FPwin.indexOf, h.2.1]

theorem SameTabs.byPosition {w w1 : FPwin} (h : SameTabs w w1) (hs : Bool) :
    w1.byPosition hs = w.byPosition hs := by
  unfold FPwin.byPosition
  simp only [h.2.1, h.2.2.2.1, h.2.2.2.2.1]
  split
  · apply List.map_congr_left
    intro i _
    rw [h.indexOf, h.widget]
  · rfl

theorem SameTabs.tabIndexAt {w w1 : FPwin} (h : SameTabs w w1) (hs : Bool) (j : Int) :
    w1.tabIndexAt hs j = w.tabIndexAt hs j := by
  unfold FPwin.tabIndexAt
  split
  · rw [h.indexOf, h.2.2.2.2.1]
    simp [FPwin.item, h.2.2.2.1]
  · rfl

/-! ## Consequences of well-formedness -/

theorem index_unique {pages : List TabPage} (hn : (pages.map TabPage.id).Nodup) {a b : Nat}
    {p q : TabPage} (ha : pages[a]? = some p) (hb : pages[b]? = some q) (h : p.id = q.id) :
    a = b := by
  have h1 : (pages.map TabPage.id)[a]? = some p.id := by simp [ha]
  have h2 : (pages.map TabPage.id)[b]? = some p.id := by simp [hb, h]
  have e1 := positionOf_of_getElem? hn h1
  have e2 := positionOf_of_getElem? hn h2
  omega

theorem indexOf_of_page {w : FPwin} (hn : (w.pages.map TabPage.id).Nodup) {t : Nat}
    {page : TabPage} (ht : w.pages[t]? = some page) : w.indexOf (some page.id) = t := by
  simp only [FPwin.indexOf]
  apply positionOf_of_getElem? hn
  simp [ht]

theorem widget_natCast (w : FPwin) (t : Nat) : w.widget t = w.pages[t]? := by
  simp [FPwin.widget, atIndex_natCast]

theorem mem_ids_of_getElem? {pages : List TabPage} {t : Nat} {page : TabPage}
    (ht : pages[t]? = some page) : page.id ∈ pages.map TabPage.id := by
  obtain ⟨h, rfl⟩ := List.getElem?_eq_some.1 ht
  exact List.mem_map_of_mem _ (List.getElem_mem h)

theorem key_unique {S : List (Nat × Nat)} (hv : (S.map Prod.snd).Nodup) {k k1 v : Nat}
    (h : (k, v) ∈ S) (h1 : (k1, v) ∈ S) : k = k1 := by
  have e := hashKey_of_mem hv h
  have e1 := hashKey_of_mem hv h1
  rw [e] at e1
  exact Option.some.inj e1

theorem value_unique {S : List (Nat × Nat)} (hk : (S.map Prod.fst).Nodup) {k v v1 : Nat}
    (h : (k, v) ∈ S) (h1 : (k, v1) ∈ S) : v = v1 := by
  have e := lookup_of_mem hk h
  have e1 := lookup_of_mem hk h1
  rw [e] at e1
  exact Option.some.inj e1

theorem FPwin.Mirrored.key_of_page {w : FPwin} (hm : w.Mirrored) {p : Nat}
    (hp : p ∈ w.pages.map TabPage.id) :
    ∃ wi, (wi, p) ∈ w.sideItems_ ∧ wi ∈ w.items := by
  obtain ⟨_, _, _, h4, _, h6, _, _⟩ := hm
  have := h6 p hp
  obtain ⟨⟨k, v⟩, hkv, hv⟩ := List.mem_map.1 this
  simp only at hv
  subst hv
  exact ⟨k, hkv, (h4 _ hkv).1⟩

theorem FPwin.Mirrored.page_of_item {w : FPwin} (hm : w.Mirrored) {i : Nat} (hi : i ∈ w.items) :
    ∃ v, (i, v) ∈ w.sideItems_ ∧ v ∈ w.pages.map TabPage.id := by
  obtain ⟨_, _, _, h4, h5, _, _, _⟩ := hm
  have := h5 i hi
  obtain ⟨⟨k, v⟩, hkv, hk⟩ := List.mem_map.1 this
  simp only at hk
  subst hk
  exact ⟨v, hkv, (h4 _ hkv).2⟩

theorem FPwin.Mirrored.length_eq {w : FPwin} (hn : (w.pages.map TabPage.id).Nodup) (hm : w.Mirrored) :
    w.items.length = w.pages.length := by
  obtain ⟨h1, h2, h3, h4, h5, h6, _, _⟩ := hm
  have p1 : w.items.Perm (w.sideItems_.map Prod.fst) := by
    rw [List.perm_ext_iff_of_nodup h1 h2]
    intro a
    constructor
    · exact h5 a
    · intro ha
      obtain ⟨kv, hkv, rfl⟩ := List.mem_map.1 ha
      exact (h4 kv hkv).1
  have p2 : (w.pages.map TabPage.id).Perm (w.sideItems_.map Prod.snd) := by
    rw [List.perm_ext_iff_of_nodup hn h3]
    intro a
    constructor
    · exact h6 a
    · intro ha
      obtain ⟨kv, hkv, rfl⟩ := List.mem_map.1 ha
      exact (h4 kv hkv).2
  have e1 := p1.length_eq
  have e2 := p2.length_eq
  simp only [List.length_map] at e1 e2
  omega

theorem wellFormed_of_sameTabs {w w1 : FPwin} (h : SameTabs w w1) (hwf : w.WellFormed)
    (hcur : w.sidePane_ = true → ∀ i ∈ w1.currentItem.toList, i ∈ w.items)
    (hsync : w.sidePane_ = true → hashValue w1.sideItems_ w1.currentItem = w1.currentWidget) :
    w1.WellFormed := by
  obtain ⟨h1, h2, h3, h4, h5, h6, h7⟩ := h
  refine ⟨by rw [h2]; exact hwf.1, ?_⟩
  intro hs
  rw [h3] at hs
  obtain ⟨m1, m2, m3, m4, m5, m6, _, _⟩ := hwf.2 hs
  refine ⟨by rw [h4]; exact m1, by rw [h5]; exact m2, by rw [h5]; exact m3, ?_, ?_, ?_,
    by rw [h4]; exact hcur hs, hsync hs⟩
  · rw [h5, h4, h2]; exact m4
  · rw [h5, h4]; exact m5
  · rw [h5, h2]; exact m6

theorem currentWidget_of_index {w : FPwin} {t : Nat} {page : TabPage}
    (ht : w.pages[t]? = some page) (hc : w.currentIndex = t) :
    w.currentWidget = some page.id := by
  simp [FPwin.currentWidget, hc, widget_natCast, ht]

theorem attend_spec {w : FPwin} (hwf : w.WellFormed) {t : Nat} {page : TabPage}
    (ht : w.pages[t]? = some page) :
    SameTabs w (w.attend t page) ∧ (w.attend t page).currentIndex = t ∧
      (w.attend t page).WellFormed := by
  have hst := attend_sameTabs w t page
  have hlt : t < w.pages.length := (List.getElem?_eq_some.1 ht).1
  have hmem := mem_ids_of_getElem? ht
  refine ⟨hst, ?_⟩
  unfold FPwin.attend at hst ⊢
  by_cases hcur : (t : Int) = w.currentIndex
  · simp only [hcur, ne_eq, not_true_eq_false, if_false]
    exact ⟨trivial, hwf⟩
  · simp only [ne_eq, hcur, not_false_eq_true, if_true] at hst ⊢
    by_cases hside : (w.sidePane_ && !w.sideItems_.isEmpty) = true
    · simp only [hside, if_true] at hst ⊢
      have hsp : w.sidePane_ = true := by
        simp only [Bool.and_eq_true] at hside
        exact hside.1
      have hne : w.sideItems_.isEmpty = false := by
        simp only [Bool.and_eq_true, Bool.not_eq_true'] at hside
        exact hside.2
      have hm := hwf.2 hsp
      obtain ⟨wi, hwi, hwim⟩ := hm.key_of_page hmem
      have hkey := hashKey_of_mem hm.2.2.1 hwi
      have hval := lookup_of_mem hm.2.1 hwi
      obtain ⟨r, hr, _⟩ := positionOf_of_mem hwim
      have hrow : (0 : Int) ≤ w.row (some wi) := by
        simp only [FPwin.row, hr]
        omega
      have hcw : some wi ≠ w.currentItem := by
        intro hci
        have hsync := hm.2.2.2.2.2.2.2
        rw [← hci] at hsync
        simp only [hashValue, hval] at hsync
        simp only [FPwin.currentWidget] at hsync
        cases hw : w.widget w.currentIndex with
        | none => rw [hw] at hsync; simp at hsync
        | some q =>
          rw [hw] at hsync
          simp only [Option.map_some', Option.some.injEq] at hsync
          obtain ⟨n, hn, _, hq⟩ := atIndex_eq_some hw
          have := index_unique hwf.1 ht hq hsync
          apply hcur
          rw [hn, this]
      have hidx : ∀ w0 : FPwin, SameTabs w w0 →
          (w0.setCurrentWidget (some page.id)).currentIndex = t := by
        intro w0 h0
        unfold FPwin.setCurrentWidget
        rw [h0.indexOf, indexOf_of_page hwf.1 ht]
        apply setCurrentIndex_of_valid
        rw [h0.2.1]
        exact hlt
      have hstep : w.setCurrentItem (hashKey w.sideItems_ page.id) =
          ({ w with currentItem := some wi } : FPwin).setCurrentWidget (some page.id) := by
        unfold FPwin.setCurrentItem
        simp only [hkey, hrow, if_true, hcw, if_false]
        unfold FPwin.changeTab
        simp only [hsp, hne, Bool.not_true, Bool.or_false, Bool.false_eq_true, if_false,
          hashValue, hval]
      rw [hstep] at hst ⊢
      have h0 : SameTabs w ({ w with currentItem := some wi } : FPwin) :=
        ⟨rfl, rfl, rfl, rfl, rfl, rfl, rfl⟩
      have hci := hidx _ h0
      refine ⟨hci, wellFormed_of_sameTabs hst hwf ?_ ?_⟩
      · intro _ i hi
        rw [setCurrentWidget_currentItem] at hi
        simp only [Option.toList, List.mem_singleton] at hi
        rw [hi]
        exact hwim
      intro _
      rw [setCurrentWidget_currentItem, hst.2.2.2.2.1]
      simp only [hashValue, hval]
      symm
      apply currentWidget_of_index _ hci
      rw [hst.2.1]
      exact ht
    · simp only [hside, Bool.false_eq_true, if_false] at hst ⊢
      have hci := setCurrentIndex_of_valid w t hlt
      have hfalse : w.sidePane_ = true → False := by
        intro hsp
        have hm := hwf.2 hsp
        obtain ⟨wi, hwi, _⟩ := hm.key_of_page hmem
        simp only [hsp, Bool.true_and, Bool.not_eq_true', Bool.not_eq_false] at hside
        cases hS : w.sideItems_ with
        | nil => rw [hS] at hwi; simp at hwi
        | cons x xs => rw [hS] at hside; simp at hside
      refine ⟨hci, wellFormed_of_sameTabs hst hwf (fun h => (hfalse h).elim) ?_⟩
      intro hsp
      exfalso
      have hm := hwf.2 hsp
      obtain ⟨wi, hwi, _⟩ := hm.key_of_page hmem
      simp only [hsp, Bool.true_and, Bool.not_eq_true', Bool.not_eq_false] at hside
      cases hS : w.sideItems_ with
      | nil => rw [hS] at hwi; simp at hwi
      | cons x xs => rw [hS] at hside; simp at hside

/-! ## `saveFile` and `savePrompt` on a well-formed window -/

theorem SameTabs.sameFrame {w w1 : FPwin} (h : SameTabs w w1) : SameFrame w w1 :=
  ⟨h.1, h.2.2.1, h.2.2.2.1, h.2.2.2.2.1, h.2.2.2.2.2.1, h.2.2.2.2.2.2⟩

theorem SameFrame.same (w : FPwin) : SameFrame w w := ⟨rfl, rfl, rfl, rfl, rfl, rfl⟩

theorem SameFrame.chain {a b c : FPwin} (h1 : SameFrame a b) (h2 : SameFrame b c) :
    SameFrame a c := by
  obtain ⟨h11, h12, h13, h14, h15, h16⟩ := h1
  obtain ⟨h21, h22, h23, h24, h25, h26⟩ := h2
  exact ⟨h21.trans h11, h22.trans h12, h23.trans h13, h24.trans h14, h25.trans h15,
    h26.trans h16⟩

theorem SameFrame.ready {w w1 : FPwin} (h : SameFrame w w1) : w1.isReady = w.isReady := by
  simp [FPwin.isReady, h.2.2.2.2.2]

theorem set_self_of_getElem? {α : Type} {l : List α} {t : Nat} {a : α} (h : l[t]? = some a) :
    l.set t a = l := by
  apply List.ext_getElem?
  intro n
  rw [List.getElem?_set]
  split
  · next hn =>
    subst hn
    split
    · exact h.symm
    · next hlt =>
      rw [List.getElem?_eq_none (by omega)]
  · rfl

theorem ids_set {pages : List TabPage} {t : Nat} {page q : TabPage}
    (ht : pages[t]? = some page) (hq : q.id = page.id) :
    (pages.set t q).map TabPage.id = pages.map TabPage.id := by
  rw [List.map_set, hq]
  apply set_self_of_getElem?
  simp [ht]

theorem saveFile_spec {w : FPwin} (hr : w.isReady = true) {t : Nat} {page : TabPage}
    (ht : w.pages[t]? = some page) (hc : w.currentIndex = t) (o : SaveOutcome) :
    ∃ (q : TabPage) (ev : List Effect),
      w.saveFile o = (o.success, { w with pages := w.pages.set t q }, ev) ∧
      q.id = page.id := by
  unfold FPwin.saveFile
  simp only [hr, Bool.not_true, Bool.false_eq_true, if_false, hc, widget_natCast, ht,
    FPwin.setPage, Int.toNat_ofNat]
  have h0 : (0 : Int) ≤ (t : Int) := by omega
  simp only [h0, if_true]
  cases hs : o.success
  · exact ⟨{ page with modified := page.modified || o.edited }, [], by simp, rfl⟩
  · exact ⟨{ page with modified := false, fileName := o.fileName },
      if page.readOnly && !o.alreadyOpen then [Effect.makeEditableLater w.id] else [],
      by simp, rfl⟩

theorem wellFormed_set {w : FPwin} (hwf : w.WellFormed) {t : Nat} {page q : TabPage}
    (ht : w.pages[t]? = some page) (hq : q.id = page.id) :
    ({ w with pages := w.pages.set t q } : FPwin).WellFormed := by
  have hids := ids_set ht hq
  refine ⟨by simp only [hids]; exact hwf.1, ?_⟩
  intro hs
  obtain ⟨m1, m2, m3, m4, m5, m6, mc, m7⟩ := hwf.2 hs
  refine ⟨m1, m2, m3, ?_, m5, ?_, mc, ?_⟩
  · simp only [hids]; exact m4
  · simp only [hids]; exact m6
  · simp only
    rw [m7]
    simp only [FPwin.currentWidget, FPwin.widget]
    unfold atIndex
    split
    · rw [← List.getElem?_map, ← List.getElem?_map, hids]
    · rfl

/-- The effect of `savePrompt` at a valid tab of a ready, well-formed window. -/
theorem savePrompt_spec {w : FPwin} (hwf : w.WellFormed) (hr : w.isReady = true) {t : Nat}
    {page : TabPage} (ht : w.pages[t]? = some page) (b : Bool) (e : Env) :
    ∃ (w1 : FPwin) (q : TabPage),
      w.savePrompt t b e = .ok ((promptSpec w.id page b w.pages.length e).1, w1,
        (promptSpec w.id page b w.pages.length e).2) ∧
      w1.pages = w.pages.set t q ∧ q.id = page.id ∧ SameFrame w w1 ∧ w1.WellFormed ∧
      (q = page ∨ e.exec (b && decide (w.pages.length > 1)) = StandardButton.Save) ∧
      ((∃ r o, Event.msgBox page.id r o ∈ (promptSpec w.id page b w.pages.length e).2) →
        w1.currentIndex = t) := by
  have hself : w.pages.set t page = w.pages := set_self_of_getElem? ht
  unfold FPwin.savePrompt promptSpec
  simp only [widget_natCast, ht]
  by_cases hneed : (page.modified || page.isRemoved e) = true
  · simp only [hneed, if_true]
    by_cases hdlg : hasAnotherDialog w.id e.wins = true
    · simp only [hdlg, if_true]
      refine ⟨w, page, rfl, hself.symm, rfl, SameFrame.same w, hwf, Or.inl rfl, ?_⟩
      rintro ⟨r, o, hmem⟩
      simp at hmem
    · simp only [hdlg, Bool.false_eq_true, if_false]
      obtain ⟨hst, hci, hwf1⟩ := attend_spec hwf ht
      have hcount : (decide ((w.attend t page).count > 1)) = decide (w.pages.length > 1) := by
        rw [hst.count]
        simp [FPwin.count]
      rw [hcount]
      cases hx : e.exec (b && decide (w.pages.length > 1)) with
      | Save =>
        simp only
        have hr1 : (w.attend t page).isReady = true := by rw [hst.isReady]; exact hr
        have ht1 : (w.attend t page).pages[t]? = some page := by rw [hst.2.1]; exact ht
        obtain ⟨q, sched, hsave, hq⟩ := saveFile_spec hr1 ht1 hci e.save
        rw [hsave]
        have hwf2 := wellFormed_set hwf1 ht1 hq
        have hfr : SameFrame w ({ (w.attend t page) with
            pages := (w.attend t page).pages.set t q } : FPwin) :=
          ⟨hst.1, hst.2.2.1, hst.2.2.2.1, hst.2.2.2.2.1, hst.2.2.2.2.2.1, hst.2.2.2.2.2.2⟩
        cases hs : e.save.success
        · refine ⟨_, q, by simp, by simp [hst.2.1], hq, hfr, hwf2, Or.inr trivial, ?_⟩
          intro _
          exact hci
        · refine ⟨_, q, by simp, by simp [hst.2.1], hq, hfr, hwf2, Or.inr trivial, ?_⟩
          intro _
          exact hci
      | Discard =>
        exact ⟨_, page, rfl, by rw [hst.2.1, hself], rfl, hst.sameFrame, hwf1, Or.inl rfl,
          fun _ => hci⟩
      | Cancel =>
        exact ⟨_, page, rfl, by rw [hst.2.1, hself], rfl, hst.sameFrame, hwf1, Or.inl rfl,
          fun _ => hci⟩
      | NoToAll =>
        exact ⟨_, page, rfl, by rw [hst.2.1, hself], rfl, hst.sameFrame, hwf1, Or.inl rfl,
          fun _ => hci⟩
  · simp only [hneed, Bool.false_eq_true, if_false]
    refine ⟨w, page, rfl, hself.symm, rfl, SameFrame.same w, hwf, Or.inl rfl, ?_⟩
    rintro ⟨r, o, hmem⟩
    simp at hmem

/-! ## `deleteTabPage` on a well-formed window -/

theorem map_eraseIdx {α β : Type} (f : α → β) (l : List α) (n : Nat) :
    (l.eraseIdx n).map f = (l.map f).eraseIdx n := by
  rw [List.eraseIdx_eq_take_drop_succ, List.eraseIdx_eq_take_drop_succ, List.map_append,
    List.map_take, List.map_drop]

theorem eraseIdx_eq_erase {l : List Nat} (hl : l.Nodup) {n a : Nat} (h : l[n]? = some a) :
    l.eraseIdx n = l.erase a := by
  obtain ⟨hn, rfl⟩ := List.getElem?_eq_some.1 h
  exact (hl.erase_getElem n hn).symm

theorem removeTab_eq (w : FPwin) {t : Nat} (hlt : t < w.pages.length) :
    w.removeTab t = { w with
      pages := w.pages.eraseIdx t
      currentIndex :=
        if (t : Int) = w.currentIndex then
          (if (t : Int) < w.count - 1 then (t : Int) else w.count - 2)
        else if (t : Int) < w.currentIndex then w.currentIndex - 1
        else w.currentIndex } := by
  have : (0 : Int) ≤ t ∧ (t : Int) < w.count := by
    simp only [FPwin.count]
    omega
  simp only [FPwin.removeTab, this, and_self, if_true, removeAt_natCast]

theorem currentWidget_removeTab {w : FPwin} {t : Nat} (hlt : t < w.pages.length)
    (hne : w.currentIndex ≠ t) : (w.removeTab t).currentWidget = w.currentWidget := by
  rw [removeTab_eq w hlt]
  have h1 : ¬ ((t : Int) = w.currentIndex) := fun h => hne h.symm
  simp only [FPwin.currentWidget, FPwin.widget, h1, if_false]
  congr 1
  by_cases hneg : w.currentIndex < 0
  · have h2 : ¬ ((t : Int) < w.currentIndex) := by omega
    simp only [h2, if_false]
    rw [atIndex_of_neg _ hneg, atIndex_of_neg _ hneg]
  · obtain ⟨c, hc⟩ : ∃ c : Nat, w.currentIndex = c := ⟨w.currentIndex.toNat, by omega⟩
    rw [hc] at h1 ⊢
    by_cases hlt2 : t < c
    · have h2 : (t : Int) < (c : Int) := by omega
      have h3 : ((c : Int) - 1) = ((c - 1 : Nat) : Int) := by omega
      simp only [h2, if_true, h3, atIndex_natCast]
      rw [List.getElem?_eraseIdx_of_ge _ _ _ (by omega)]
      congr 1
      omega
    · have h2 : ¬ ((t : Int) < (c : Int)) := by omega
      simp only [h2, if_false, atIndex_natCast]
      rw [List.getElem?_eraseIdx_of_lt _ _ _ (by omega)]

theorem currentWidget_of_nil {w : FPwin} (h : w.pages = []) : w.currentWidget = none := by
  simp only [FPwin.currentWidget, FPwin.widget, h, atIndex]
  split <;> simp

theorem removeTab_sameFrame (w : FPwin) (i : Int) : SameFrame w (w.removeTab i) := by
  unfold FPwin.removeTab
  split
  · exact ⟨rfl, rfl, rfl, rfl, rfl, rfl⟩
  · exact SameFrame.same w

theorem removeTab_currentItem (w : FPwin) (i : Int) :
    (w.removeTab i).currentItem = w.currentItem := by
  unfold FPwin.removeTab
  split <;> rfl

/-- The static part of the mirror after a page and its item have been removed. -/
theorem mirrored_of_erase {w w2 : FPwin} (hwf : w.WellFormed) (hm : w.Mirrored) {t r : Nat}
    {page : TabPage} {wi : Nat} (ht : w.pages[t]? = some page) (hr : w.items[r]? = some wi)
    (hwi : (wi, page.id) ∈ w.sideItems_)
    (hp : w2.pages = w.pages.eraseIdx t) (hi : w2.items = w.items.eraseIdx r)
    (hS : w2.sideItems_ = hashRemove w.sideItems_ wi) :
    w2.items.Nodup ∧ (w2.sideItems_.map Prod.fst).Nodup ∧ (w2.sideItems_.map Prod.snd).Nodup ∧
    (∀ kv ∈ w2.sideItems_, kv.1 ∈ w2.items ∧ kv.2 ∈ w2.pages.map TabPage.id) ∧
    (∀ i ∈ w2.items, i ∈ w2.sideItems_.map Prod.fst) ∧
    (∀ p ∈ w2.pages.map TabPage.id, p ∈ w2.sideItems_.map Prod.snd) := by
  obtain ⟨m1, m2, m3, m4, m5, m6, _, _⟩ := hm
  have hids : (w.pages.map TabPage.id)[t]? = some page.id := by simp [ht]
  have e1 : w2.pages.map TabPage.id = (w.pages.map TabPage.id).erase page.id := by
    rw [hp, map_eraseIdx, eraseIdx_eq_erase hwf.1 hids]
  have e2 : w2.items = w.items.erase wi := by
    rw [hi, eraseIdx_eq_erase m1 hr]
  have hsub : (hashRemove w.sideItems_ wi).Sublist w.sideItems_ := List.filter_sublist _
  refine ⟨?_, ?_, ?_, ?_, ?_, ?_⟩
  · rw [e2]; exact m1.erase _
  · rw [hS]; exact m2.sublist (hsub.map _)
  · rw [hS]; exact m3.sublist (hsub.map _)
  · intro kv hkv
    rw [hS, mem_hashRemove] at hkv
    rw [e1, e2, m1.mem_erase_iff, hwf.1.mem_erase_iff]
    refine ⟨⟨hkv.2, (m4 kv hkv.1).1⟩, ?_, (m4 kv hkv.1).2⟩
    intro h
    apply hkv.2
    have : (kv.1, page.id) ∈ w.sideItems_ := by rw [← h]; exact hkv.1
    exact key_unique m3 this hwi
  · intro i hi2
    rw [e2, m1.mem_erase_iff] at hi2
    obtain ⟨kv, hkv, hk⟩ := List.mem_map.1 (m5 i hi2.2)
    rw [hS]
    apply List.mem_map.2
    refine ⟨kv, ?_, hk⟩
    rw [mem_hashRemove]
    exact ⟨hkv, by rw [hk]; exact hi2.1⟩
  · intro p hp2
    rw [e1, hwf.1.mem_erase_iff] at hp2
    obtain ⟨kv, hkv, hk⟩ := List.mem_map.1 (m6 p hp2.2)
    rw [hS]
    apply List.mem_map.2
    refine ⟨kv, ?_, hk⟩
    rw [mem_hashRemove]
    refine ⟨hkv, ?_⟩
    intro h
    apply hp2.1
    have h1 : (wi, p) ∈ w.sideItems_ := by
      have : kv = (wi, p) := by
        cases kv
        simp only at h hk
        rw [h, hk]
      rw [← this]; exact hkv
    exact value_unique m2 h1 hwi

theorem takeItem_current {w : FPwin} {r wi : Nat} (hr : w.items[r]? = some wi)
    (hc : w.currentItem = some wi) :
    w.takeItem r = ({ w with items := w.items.eraseIdx r,
                             currentItem := nextItem w.items r } : FPwin).changeTab
      (nextItem w.items r) := by
  unfold FPwin.takeItem
  simp only [FPwin.item, atIndex_natCast, hr, hc, if_true, removeAt_natCast, nextItem]

theorem takeItem_other {w : FPwin} {r wi : Nat} (hr : w.items[r]? = some wi)
    (hc : w.currentItem ≠ some wi) :
    w.takeItem r = { w with items := w.items.eraseIdx r } := by
  unfold FPwin.takeItem
  simp only [FPwin.item, atIndex_natCast, hr, hc, if_false, removeAt_natCast]

theorem hashValue_nil (c : Option Nat) : hashValue [] c = none := by
  cases c <;> simp [hashValue]

theorem nextItem_spec {items : List Nat} (hn : items.Nodup) {r wi k : Nat}
    (hr : items[r]? = some wi) (hk : k ∈ items) (hne : k ≠ wi) :
    ∃ j, nextItem items r = some j ∧ j ∈ items ∧ j ≠ wi := by
  obtain ⟨hrl, hrv⟩ := List.getElem?_eq_some.1 hr
  obtain ⟨r1, hr1l, hr1v⟩ := List.getElem_of_mem hk
  have hr1 : r1 ≠ r := by
    intro h
    subst h
    exact hne (hr1v.symm.trans hrv)
  have hinj : ∀ a (ha : a < items.length), a ≠ r → items[a] ≠ wi := by
    intro a ha har h
    apply har
    have := (List.Nodup.getElem_inj_iff hn).1 (show items[a] = items[r] from h.trans hrv.symm)
    exact this
  unfold nextItem
  by_cases h1 : r + 1 < items.length
  · have e : atIndex items ((r : Int) + 1) = some items[r + 1] := by
      have : ((r : Int) + 1) = ((r + 1 : Nat) : Int) := by omega
      rw [this, atIndex_natCast, List.getElem?_eq_getElem h1]
    rw [e]
    exact ⟨_, rfl, List.getElem_mem h1, hinj _ h1 (by omega)⟩
  · have e : atIndex items ((r : Int) + 1) = none := by
      have : ((r : Int) + 1) = ((r + 1 : Nat) : Int) := by omega
      rw [this, atIndex_natCast, List.getElem?_eq_none (by omega)]
    rw [e]
    have h2 : r - 1 < items.length := by omega
    have e2 : atIndex items ((r : Int) - 1) = some items[r - 1] := by
      have : ((r : Int) - 1) = ((r - 1 : Nat) : Int) := by omega
      rw [this, atIndex_natCast, List.getElem?_eq_getElem h2]
    rw [e2]
    exact ⟨_, rfl, List.getElem_mem h2, hinj _ h2 (by omega)⟩

theorem nextItem_mem {items : List Nat} (hn : items.Nodup) {r wi j : Nat}
    (hr : items[r]? = some wi) (h : nextItem items r = some j) : j ∈ items ∧ j ≠ wi := by
  obtain ⟨hrl, hrv⟩ := List.getElem?_eq_some.1 hr
  have key : ∀ (a : Int), a ≠ r → atIndex items a = some j → j ∈ items ∧ j ≠ wi := by
    intro a har ha
    obtain ⟨n, hn1, hn2, hn3⟩ := atIndex_eq_some ha
    obtain ⟨_, hv⟩ := List.getElem?_eq_some.1 hn3
    refine ⟨by rw [← hv]; exact List.getElem_mem hn2, ?_⟩
    intro hj
    have := (List.Nodup.getElem_inj_iff hn).1
      (show items[n] = items[r] from hv.trans (hj.trans hrv.symm))
    omega
  unfold nextItem at h
  cases h1 : atIndex items ((r : Int) + 1) with
  | some k =>
    rw [h1] at h
    simp only [Option.some.injEq] at h
    subst h
    exact key _ (by omega) h1
  | none =>
    rw [h1] at h
    exact key _ (by omega) h

/-- The effect of `deleteTabPage` at a valid tab of a well-formed window. -/
theorem deleteTabPage_spec {w : FPwin} (hwf : w.WellFormed) {t : Nat} {page : TabPage}
    (ht : w.pages[t]? = some page) :
    ∃ w2 : FPwin, w.deleteTabPage t = .ok (w2, [Event.deleteTabPage page.id]) ∧
      w2.pages = w.pages.eraseIdx t ∧ w2.id = w.id ∧ w2.sidePane_ = w.sidePane_ ∧
      w2.loadingProcesses_ = w.loadingProcesses_ ∧ w2.rightClicked_ = w.rightClicked_ ∧
      w2.WellFormed ∧
      (w.sidePane_ = true → ∃ wi r, w.items[r]? = some wi ∧ (wi, page.id) ∈ w.sideItems_ ∧
        w2.items = w.items.eraseIdx r ∧ w2.sideItems_ = hashRemove w.sideItems_ wi) := by
  have hlt : t < w.pages.length := (List.getElem?_eq_some.1 ht).1
  have hmem := mem_ids_of_getElem? ht
  have hnd2 : ((w.pages.eraseIdx t).map TabPage.id).Nodup :=
    hwf.1.sublist ((List.eraseIdx_sublist _ _).map _)
  unfold FPwin.deleteTabPage
  simp only [widget_natCast, ht]
  cases hsp : w.sidePane_ with
  | false =>
    simp only [Bool.false_and, Bool.false_eq_true, if_false]
    have hfr := removeTab_sameFrame w t
    refine ⟨_, rfl, by rw [removeTab_eq w hlt], hfr.1, by rw [hfr.2.1, hsp],
      hfr.2.2.2.2.2, hfr.2.2.2.2.1, ?_, by simp⟩
    refine ⟨by rw [removeTab_eq w hlt]; exact hnd2, ?_⟩
    intro h
    rw [hfr.2.1, hsp] at h
    exact absurd h (by simp)
  | true =>
    have hm := hwf.2 hsp
    obtain ⟨wi, hwi, hwim⟩ := hm.key_of_page hmem
    have hkey := hashKey_of_mem hm.2.2.1 hwi
    have hne : w.sideItems_.isEmpty = false := by
      cases hS : w.sideItems_ with
      | nil => rw [hS] at hwi; simp at hwi
      | cons x xs => rfl
    obtain ⟨r, hrpos, hr⟩ := positionOf_of_mem hwim
    simp only [hne, Bool.not_false, Bool.and_self, if_true, hkey, FPwin.row, hrpos]
    -- the window after `sideItems_.remove (wi)`
    generalize hw0 : ({ w with sideItems_ := hashRemove w.sideItems_ wi,
                               sidePane_ := true } : FPwin) = w0
    have h0p : w0.pages = w.pages := by rw [← hw0]
    have h0i : w0.items = w.items := by rw [← hw0]
    have h0S : w0.sideItems_ = hashRemove w.sideItems_ wi := by rw [← hw0]
    have h0c : w0.currentItem = w.currentItem := by rw [← hw0]
    have h0x : w0.currentIndex = w.currentIndex := by rw [← hw0]
    have h0sp : w0.sidePane_ = true := by rw [← hw0]
    have hr0 : w0.items[r]? = some wi := by rw [h0i]; exact hr
    have hsyncw := hm.2.2.2.2.2.2.2
    have hcurw := hm.2.2.2.2.2.2.1
    by_cases hci : w.currentItem = some wi
    · -- the current item is taken
      have hcur : w.currentIndex = t := by
        rw [hci] at hsyncw
        simp only [hashValue, lookup_of_mem hm.2.1 hwi, FPwin.currentWidget] at hsyncw
        cases hw : w.widget w.currentIndex with
        | none => rw [hw] at hsyncw; simp at hsyncw
        | some q =>
          rw [hw] at hsyncw
          simp only [Option.map_some', Option.some.injEq] at hsyncw
          obtain ⟨n, hn, _, hq⟩ := atIndex_eq_some hw
          have := index_unique hwf.1 ht hq hsyncw
          rw [hn, this]
      rw [takeItem_current hr0 (by rw [h0c]; exact hci)]
      generalize hw1 : ({ w0 with items := w0.items.eraseIdx r,
                                  currentItem := nextItem w0.items r } : FPwin) = w1
      have h1p : w1.pages = w.pages := by rw [← hw1]; exact h0p
      have h1i : w1.items = w.items.eraseIdx r := by rw [← hw1, ← h0i]
      have h1S : w1.sideItems_ = hashRemove w.sideItems_ wi := by rw [← hw1]; exact h0S
      have h1c : w1.currentItem = nextItem w.items r := by rw [← hw1, ← h0i]
      have h1x : w1.currentIndex = t := by rw [← hw1]; simp only; rw [h0x, hcur]
      have h1sp : w1.sidePane_ = true := by rw [← hw1]; exact h0sp
      have h1id : w1.id = w.id ∧ w1.loadingProcesses_ = w.loadingProcesses_ ∧
          w1.rightClicked_ = w.rightClicked_ := by
        rw [← hw1, ← hw0]; exact ⟨rfl, rfl, rfl⟩
      have hct := changeTab_sameTabs w1 (nextItem w0.items r)
      have hcti := changeTab_currentItem w1 (nextItem w0.items r)
      generalize hw2 : w1.changeTab (nextItem w0.items r) = w2 at hct hcti
      have hfr := removeTab_sameFrame w2 t
      have hlt2 : t < w2.pages.length := by rw [hct.2.1, h1p]; exact hlt
      have hpages : (w2.removeTab t).pages = w.pages.eraseIdx t := by
        rw [removeTab_eq w2 hlt2]; simp only; rw [hct.2.1, h1p]
      have hitems : (w2.removeTab t).items = w.items.eraseIdx r := by
        rw [hfr.2.2.1, hct.2.2.2.1, h1i]
      have hSS : (w2.removeTab t).sideItems_ = hashRemove w.sideItems_ wi := by
        rw [hfr.2.2.2.1, hct.2.2.2.2.1, h1S]
      have hstat := mirrored_of_erase hwf hm ht hr hwi hpages hitems hSS
      refine ⟨_, rfl, hpages, by rw [hfr.1, hct.1, h1id.1],
        by rw [hfr.2.1, hct.2.2.1, h1sp], by rw [hfr.2.2.2.2.2, hct.2.2.2.2.2.2, h1id.2.1],
        by rw [hfr.2.2.2.2.1, hct.2.2.2.2.2.1, h1id.2.2], ?_,
        fun _ => ⟨wi, r, hr, hwi, hitems, hSS⟩⟩
      refine ⟨by rw [hpages]; exact hnd2, fun _ => ?_⟩
      obtain ⟨s1, s2, s3, s4, s5, s6⟩ := hstat
      refine ⟨s1, s2, s3, s4, s5, s6, ?_, ?_⟩
      · intro i hi
        rw [removeTab_currentItem, hcti, h1c] at hi
        simp only [Option.mem_toList, Option.mem_def] at hi
        obtain ⟨h1, h2⟩ := nextItem_mem hm.1 hr hi
        rw [hitems, eraseIdx_eq_erase hm.1 hr, hm.1.mem_erase_iff]
        exact ⟨h2, h1⟩
      rw [removeTab_currentItem, hcti, h1c, hSS]
      cases hS1 : hashRemove w.sideItems_ wi with
      | nil =>
        rw [hashValue_nil]
        symm
        apply currentWidget_of_nil
        have : (w2.removeTab t).pages.map TabPage.id = [] := by
          apply List.eq_nil_iff_forall_not_mem.2
          intro p hp
          have := s6 p hp
          rw [hSS, hS1] at this
          simp at this
        simpa using this
      | cons x xs =>
        have hx : x ∈ hashRemove w.sideItems_ wi := by rw [hS1]; simp
        rw [mem_hashRemove] at hx
        obtain ⟨j, hj, hjm, hjne⟩ :=
          nextItem_spec hm.1 hr (hm.2.2.2.1 x hx.1).1 hx.2
        obtain ⟨q, hq, hqm⟩ := hm.page_of_item hjm
        have hval : (hashRemove w.sideItems_ wi).lookup j = some q := by
          rw [lookup_hashRemove hjne]
          exact lookup_of_mem hm.2.1 hq
        rw [← hS1, hj]
        simp only [hashValue, hval]
        obtain ⟨c, _, hc⟩ := positionOf_of_mem hqm
        obtain ⟨pq, hpq, hpqid⟩ : ∃ pq, w.pages[c]? = some pq ∧ pq.id = q := by
          rw [List.getElem?_map] at hc
          cases h : w.pages[c]? with
          | none => rw [h] at hc; simp at hc
          | some pq => rw [h] at hc; exact ⟨pq, rfl, by simpa using hc⟩
        have hct_ne : c ≠ t := by
          intro h
          subst h
          rw [ht] at hpq
          cases hpq
          apply hjne
          rw [← hpqid] at hq
          exact key_unique hm.2.2.1 hq hwi
        have hw2x : w2.currentIndex = c := by
          rw [← hw2]
          unfold FPwin.changeTab
          have : w1.sideItems_.isEmpty = false := by rw [h1S, hS1]; rfl
          simp only [h1sp, this, Bool.not_true, Bool.or_false, Bool.false_eq_true, if_false]
          rw [h0i, hj, h1S]
          simp only [hashValue, hval]
          unfold FPwin.setCurrentWidget
          have hidx : w1.indexOf (some q) = c := by
            rw [← hpqid]
            apply indexOf_of_page (w := w1)
            · rw [h1p]; exact hwf.1
            · rw [h1p]; exact hpq
          rw [hidx]
          apply setCurrentIndex_of_valid
          rw [h1p]
          exact (List.getElem?_eq_some.1 hpq).1
        rw [currentWidget_removeTab hlt2 (by rw [hw2x]; omega)]
        rw [← hpqid]
        symm
        apply currentWidget_of_index _ hw2x
        rw [hct.2.1, h1p]
        exact hpq
    · -- another item is current
      rw [takeItem_other hr0 (by rw [h0c]; exact hci)]
      generalize hw1 : ({ w0 with items := w0.items.eraseIdx r } : FPwin) = w1
      have h1p : w1.pages = w.pages := by rw [← hw1]; exact h0p
      have h1i : w1.items = w.items.eraseIdx r := by rw [← hw1, ← h0i]
      have h1S : w1.sideItems_ = hashRemove w.sideItems_ wi := by rw [← hw1]; exact h0S
      have h1c : w1.currentItem = w.currentItem := by rw [← hw1]; exact h0c
      have h1x : w1.currentIndex = w.currentIndex := by rw [← hw1]; exact h0x
      have h1sp : w1.sidePane_ = true := by rw [← hw1]; exact h0sp
      have h1id : w1.id = w.id ∧ w1.loadingProcesses_ = w.loadingProcesses_ ∧
          w1.rightClicked_ = w.rightClicked_ := by
        rw [← hw1, ← hw0]; exact ⟨rfl, rfl, rfl⟩
      have hfr := removeTab_sameFrame w1 t
      have hlt2 : t < w1.pages.length := by rw [h1p]; exact hlt
      have hpages : (w1.removeTab t).pages = w.pages.eraseIdx t := by
        rw [removeTab_eq w1 hlt2]; simp only; rw [h1p]
      have hitems : (w1.removeTab t).items = w.items.eraseIdx r := by
        rw [hfr.2.2.1, h1i]
      have hSS : (w1.removeTab t).sideItems_ = hashRemove w.sideItems_ wi := by
        rw [hfr.2.2.2.1, h1S]
      have hstat := mirrored_of_erase hwf hm ht hr hwi hpages hitems hSS
      refine ⟨_, rfl, hpages, by rw [hfr.1, h1id.1],
        by rw [hfr.2.1, h1sp], by rw [hfr.2.2.2.2.2, h1id.2.1],
        by rw [hfr.2.2.2.2.1, h1id.2.2], ?_,
        fun _ => ⟨wi, r, hr, hwi, hitems, hSS⟩⟩
      refine ⟨by rw [hpages]; exact hnd2, fun _ => ?_⟩
      obtain ⟨s1, s2, s3, s4, s5, s6⟩ := hstat
      refine ⟨s1, s2, s3, s4, s5, s6, ?_, ?_⟩
      · intro i hi
        rw [removeTab_currentItem, h1c] at hi
        have h1 := hcurw i hi
        simp only [Option.mem_toList, Option.mem_def] at hi
        rw [hitems, eraseIdx_eq_erase hm.1 hr, hm.1.mem_erase_iff]
        refine ⟨?_, h1⟩
        intro h
        apply hci
        rw [hi, h]
      rw [removeTab_currentItem, h1c, hSS]
      have hv : hashValue (hashRemove w.sideItems_ wi) w.currentItem =
          hashValue w.sideItems_ w.currentItem := by
        cases hc : w.currentItem with
        | none => rfl
        | some j =>
          simp only [hashValue]
          apply lookup_hashRemove
          intro h
          apply hci
          rw [hc, h]
      rw [hv, hsyncw]
      have hxne : w1.currentIndex ≠ t := by
        rw [h1x]
        intro h
        have hcw := currentWidget_of_index ht h
        rw [hcw] at hsyncw
        cases hc : w.currentItem with
        | none => rw [hc] at hsyncw; simp [hashValue] at hsyncw
        | some j =>
          rw [hc] at hsyncw
          simp only [hashValue] at hsyncw
          have := key_unique hm.2.2.1 (mem_of_lookup hsyncw) hwi
          apply hci
          rw [hc, this]
      rw [currentWidget_removeTab hlt2 hxne]
      simp only [FPwin.currentWidget, FPwin.widget, h1p, h1x]

/-! ## Positions -/

theorem slot_eq {w : FPwin} (hn : (w.pages.map TabPage.id).Nodup) {i v c : Nat} {pq : TabPage}
    (hl : w.sideItems_.lookup i = some v) (hc : w.pages[c]? = some pq) (hid : pq.id = v) :
    w.indexOf (hashValue w.sideItems_ (some i)) = c ∧
      w.widget (w.indexOf (hashValue w.sideItems_ (some i))) = some pq := by
  have h1 : w.indexOf (hashValue w.sideItems_ (some i)) = c := by
    simp only [hashValue, hl]
    rw [← hid]
    exact indexOf_of_page hn hc
  rw [h1, widget_natCast]
  exact ⟨rfl, hc⟩

theorem page_of_id {pages : List TabPage} {v : Nat} (hv : v ∈ pages.map TabPage.id) :
    ∃ (c : Nat) (pq : TabPage), pages[c]? = some pq ∧ pq.id = v := by
  obtain ⟨pq, hpq, hid⟩ := List.mem_map.1 hv
  obtain ⟨c, hc, hcv⟩ := List.getElem_of_mem hpq
  exact ⟨c, pq, by rw [List.getElem?_eq_getElem hc, hcv], hid⟩

theorem byPosition_length {w : FPwin} (hwf : w.WellFormed) {hs : Bool}
    (hhs : hs = w.sidePane_) : (w.byPosition hs).length = w.pages.length := by
  unfold FPwin.byPosition
  cases hs with
  | false => simp
  | true =>
    simp only [if_true, List.length_map]
    exact (hwf.2 hhs.symm).length_eq hwf.1

/-- At a valid position of a well-formed window, the tab index computed by
`closeTabs` names an existing page, the one that is at this position. -/
theorem position_spec {w : FPwin} (hwf : w.WellFormed) {hs : Bool} (hhs : hs = w.sidePane_)
    {j : Nat} (hj : j < w.pages.length) :
    ∃ (t : Nat) (page : TabPage), w.tabIndexAt hs j = t ∧ w.pages[t]? = some page ∧
      (w.byPosition hs)[j]? = some (some page) := by
  cases hs with
  | false =>
    refine ⟨j, w.pages[j], by simp [FPwin.tabIndexAt], List.getElem?_eq_getElem hj, ?_⟩
    simp [FPwin.byPosition, List.getElem?_eq_getElem hj]
  | true =>
    have hm := hwf.2 hhs.symm
    have hlen := hm.length_eq hwf.1
    have hji : j < w.items.length := by omega
    obtain ⟨v, hv, hvm⟩ := hm.page_of_item (List.getElem_mem hji)
    obtain ⟨c, pq, hc, hid⟩ := page_of_id hvm
    have hl := lookup_of_mem hm.2.1 hv
    obtain ⟨e1, e2⟩ := slot_eq hwf.1 hl hc hid
    refine ⟨c, pq, ?_, hc, ?_⟩
    · simp only [FPwin.tabIndexAt, if_true, FPwin.item, atIndex_natCast,
        List.getElem?_eq_getElem hji]
      exact e1
    · simp only [FPwin.byPosition, if_true, List.getElem?_map, List.getElem?_eq_getElem hji,
        Option.map_some']
      rw [e2]

/-- In a side list, the row of a position is the row of the item of its page. -/
theorem row_of_position {w : FPwin} (hwf : w.WellFormed) (hsp : w.sidePane_ = true) {j r : Nat}
    {page : TabPage} {wi : Nat} (hj : (w.byPosition true)[j]? = some (some page))
    (hr : w.items[r]? = some wi) (hwi : (wi, page.id) ∈ w.sideItems_) : j = r := by
  have hm := hwf.2 hsp
  simp only [FPwin.byPosition, if_true, List.getElem?_map] at hj
  cases hi : w.items[j]? with
  | none => rw [hi] at hj; simp at hj
  | some i =>
    rw [hi] at hj
    simp only [Option.map_some', Option.some.injEq] at hj
    have hji := (List.getElem?_eq_some.1 hi).1
    have him : i ∈ w.items := by
      obtain ⟨h, rfl⟩ := List.getElem?_eq_some.1 hi
      exact List.getElem_mem h
    obtain ⟨v, hv, hvm⟩ := hm.page_of_item him
    obtain ⟨c, pq, hc, hid⟩ := page_of_id hvm
    obtain ⟨_, e2⟩ := slot_eq hwf.1 (lookup_of_mem hm.2.1 hv) hc hid
    rw [e2] at hj
    cases hj
    rw [hid] at hwi
    have : i = wi := key_unique hm.2.2.1 hv hwi
    subst this
    have h1 := positionOf_of_getElem? hm.1 hi
    have h2 := positionOf_of_getElem? hm.1 hr
    omega

theorem byPosition_set {w w1 : FPwin} (hwf : w.WellFormed) {hs : Bool}
    (hhs : hs = w.sidePane_) {j t : Nat} {page q : TabPage}
    (hj : (w.byPosition hs)[j]? = some (some page)) (htab : w.tabIndexAt hs j = t)
    (ht : w.pages[t]? = some page) (hp : w1.pages = w.pages.set t q) (hq : q.id = page.id)
    (hfr : SameFrame w w1) : w1.byPosition hs = (w.byPosition hs).set j (some q) := by
  cases hs with
  | false =>
    simp only [FPwin.tabIndexAt, Bool.false_eq_true, if_false] at htab
    have : j = t := by omega
    subst this
    simp only [FPwin.byPosition, Bool.false_eq_true, if_false, hp, List.map_set]
  | true =>
    have hsp := hhs.symm
    have hm := hwf.2 hsp
    obtain ⟨wi, hwi, hwim⟩ := hm.key_of_page (mem_ids_of_getElem? ht)
    obtain ⟨r, hr⟩ := List.getElem_of_mem hwim
    obtain ⟨hrl, hrv⟩ := hr
    have hr : w.items[r]? = some wi := by rw [List.getElem?_eq_getElem hrl, hrv]
    have hjr := row_of_position hwf hsp hj hr hwi
    subst hjr
    have hids := ids_set ht hq
    apply List.ext_getElem?
    intro n
    rw [List.getElem?_set]
    simp only [FPwin.byPosition, if_true, hfr.2.2.1, hfr.2.2.2.1, List.getElem?_map,
      List.length_map]
    cases hn : w.items[n]? with
    | none =>
      have : w.items.length ≤ n := by
        rcases Nat.lt_or_ge n w.items.length with h | h
        · rw [List.getElem?_eq_getElem h] at hn; cases hn
        · exact h
      have hne : j ≠ n := by omega
      simp [hne]
    | some i =>
      have hnl := (List.getElem?_eq_some.1 hn).1
      have him : i ∈ w.items := by
        obtain ⟨h, rfl⟩ := List.getElem?_eq_some.1 hn
        exact List.getElem_mem h
      obtain ⟨v, hv, hvm⟩ := hm.page_of_item him
      obtain ⟨c, pq, hc, hid⟩ := page_of_id hvm
      have hl := lookup_of_mem hm.2.1 hv
      obtain ⟨_, e2⟩ := slot_eq hwf.1 hl hc hid
      simp only [Option.map_some']
      rw [e2]
      by_cases hjn : j = n
      · subst hjn
        have hiw : wi = i := Option.some.inj (hr.symm.trans hn)
        rw [hiw] at hwi
        have hvp : v = page.id := value_unique hm.2.1 hv hwi
        have hct : c = t := index_unique hwf.1 hc ht (hid.trans hvp)
        subst hct
        have hc1 : w1.pages[c]? = some q := by
          rw [hp, List.getElem?_set_self (List.getElem?_eq_some.1 hc).1]
        have hl1 : w1.sideItems_.lookup i = some v := by rw [hfr.2.2.2.1]; exact hl
        obtain ⟨_, e3⟩ := slot_eq (w := w1) (by rw [hp, hids]; exact hwf.1) hl1 hc1
          (hq.trans hvp.symm)
        rw [hfr.2.2.2.1] at e3
        simp only [if_true, hrl]
        rw [e3]
      · simp only [hjn, if_false]
        have hct : c ≠ t := by
          intro h
          subst h
          rw [ht] at hc
          cases hc
          rw [hid] at hwi
          have : i = wi := key_unique hm.2.2.1 hv hwi
          subst this
          have h1 := positionOf_of_getElem? hm.1 hn
          have h2 := positionOf_of_getElem? hm.1 hr
          omega
        have hc1 : w1.pages[c]? = some pq := by
          rw [hp, List.getElem?_set_ne (by omega)]
          exact hc
        have hl1 : w1.sideItems_.lookup i = some v := by rw [hfr.2.2.2.1]; exact hl
        obtain ⟨_, e3⟩ := slot_eq (w := w1) (by rw [hp, hids]; exact hwf.1) hl1 hc1 hid
        rw [hfr.2.2.2.1] at e3
        rw [e3]

theorem byPosition_erase {w w2 : FPwin} (hwf : w.WellFormed) {hs : Bool}
    (hhs : hs = w.sidePane_) {j t : Nat} {page : TabPage}
    (hj : (w.byPosition hs)[j]? = some (some page)) (htab : w.tabIndexAt hs j = t)
    (ht : w.pages[t]? = some page) (hp : w2.pages = w.pages.eraseIdx t)
    (hside : w.sidePane_ = true → ∃ wi r, w.items[r]? = some wi ∧
      (wi, page.id) ∈ w.sideItems_ ∧ w2.items = w.items.eraseIdx r ∧
      w2.sideItems_ = hashRemove w.sideItems_ wi) :
    w2.byPosition hs = (w.byPosition hs).eraseIdx j := by
  cases hs with
  | false =>
    simp only [FPwin.tabIndexAt, Bool.false_eq_true, if_false] at htab
    have : j = t := by omega
    subst this
    simp only [FPwin.byPosition, Bool.false_eq_true, if_false, hp, map_eraseIdx]
  | true =>
    have hsp := hhs.symm
    have hm := hwf.2 hsp
    obtain ⟨wi, r, hr, hwi, hi2, hS2⟩ := hside hsp
    have hjr := row_of_position hwf hsp hj hr hwi
    subst hjr
    have hnd2 : (w2.pages.map TabPage.id).Nodup := by
      rw [hp]
      exact hwf.1.sublist ((List.eraseIdx_sublist _ _).map _)
    simp only [FPwin.byPosition, if_true, hi2, ← map_eraseIdx]
    apply List.map_congr_left
    intro i hi
    rw [eraseIdx_eq_erase hm.1 hr, hm.1.mem_erase_iff] at hi
    obtain ⟨v, hv, hvm⟩ := hm.page_of_item hi.2
    obtain ⟨c, pq, hc, hid⟩ := page_of_id hvm
    have hl := lookup_of_mem hm.2.1 hv
    obtain ⟨_, e2⟩ := slot_eq hwf.1 hl hc hid
    rw [e2]
    have hct : c ≠ t := by
      intro h
      subst h
      rw [ht] at hc
      cases hc
      rw [hid] at hwi
      exact hi.1 (key_unique hm.2.2.1 hv hwi)
    have hl2 : w2.sideItems_.lookup i = some v := by
      rw [hS2, lookup_hashRemove hi.1]
      exact hl
    by_cases hlt : c < t
    · have hc2 : w2.pages[c]? = some pq := by
        rw [hp, List.getElem?_eraseIdx_of_lt _ _ _ hlt]
        exact hc
      exact (slot_eq hnd2 hl2 hc2 hid).2
    · have hc2 : w2.pages[c - 1]? = some pq := by
        rw [hp, List.getElem?_eraseIdx_of_ge _ _ _ (by omega)]
        have : c - 1 + 1 = c := by omega
        rw [this]
        exact hc
      exact (slot_eq hnd2 hl2 hc2 hid).2

theorem items_erase {w w2 : FPwin} (hwf : w.WellFormed) {hs : Bool} (hhs : hs = w.sidePane_)
    (htrue : hs = true) {j : Nat} {page : TabPage}
    (hj : (w.byPosition hs)[j]? = some (some page))
    (hside : w.sidePane_ = true → ∃ wi r, w.items[r]? = some wi ∧
      (wi, page.id) ∈ w.sideItems_ ∧ w2.items = w.items.eraseIdx r ∧
      w2.sideItems_ = hashRemove w.sideItems_ wi) :
    w2.items = w.items.eraseIdx j := by
  subst htrue
  obtain ⟨wi, r, hr, hwi, hi2, _⟩ := hside hhs.symm
  have hjr := row_of_position hwf hhs.symm hj hr hwi
  rw [hjr]
  exact hi2

/-! ## Segments of the positions -/

theorem segment_self (B : List (Option TabPage)) (lo hi : Nat) (h : hi ≤ lo) :
    segment B lo hi = [] := by
  unfold segment
  have : (B.take hi).drop lo = [] := by
    apply List.drop_eq_nil_of_le
    rw [List.length_take]
    omega
  rw [this]
  rfl

theorem segment_step {B : List (Option TabPage)} {lo hi : Nat} {page : TabPage} (h : lo < hi)
    (hB : B[hi - 1]? = some (some page)) :
    segment B lo hi = page :: segment (B.eraseIdx (hi - 1)) lo (hi - 1) := by
  unfold segment
  have hlen : hi - 1 < B.length := (List.getElem?_eq_some.1 hB).1
  have e1 : B.take hi = B.take (hi - 1) ++ [some page] := by
    have : hi = (hi - 1) + 1 := by omega
    rw [this, List.take_succ]
    simp only [Nat.add_sub_cancel, hB, Option.toList]
  have e2 : (B.eraseIdx (hi - 1)).take (hi - 1) = B.take (hi - 1) := by
    rw [List.eraseIdx_eq_take_drop_succ, List.take_append_of_le_length (by
      rw [List.length_take]; omega)]
    rw [List.take_take]
    simp
  rw [e1, e2, List.drop_append_of_le_length (by rw [List.length_take]; omega),
    List.reverse_append]
  simp [List.reduceOption_cons_of_some]

theorem take_eraseIdx_of_le {α : Type} (l : List α) {n k : Nat} (h : n ≤ k) :
    (l.eraseIdx k).take n = l.take n := by
  apply List.ext_getElem?
  intro i
  rw [List.getElem?_take, List.getElem?_take]
  split
  · rw [List.getElem?_eraseIdx_of_lt _ _ _ (by omega)]
  · rfl

theorem drop_eraseIdx_self {α : Type} (l : List α) (k : Nat) :
    (l.eraseIdx k).drop k = l.drop (k + 1) := by
  apply List.ext_getElem?
  intro i
  rw [List.getElem?_drop, List.getElem?_drop, List.getElem?_eraseIdx_of_ge _ _ _ (by omega)]
  congr 1
  omega

theorem mem_eraseIdx_of_ne {α : Type} {l : List α} {t : Nat} {p page : α} (hp : p ∈ l)
    (ht : l[t]? = some page) (hne : p ≠ page) : p ∈ l.eraseIdx t := by
  rw [List.mem_eraseIdx_iff_getElem?]
  obtain ⟨i, hi, hv⟩ := List.getElem_of_mem hp
  refine ⟨i, ?_, by rw [List.getElem?_eq_getElem hi, hv]⟩
  intro h
  subst h
  rw [List.getElem?_eq_getElem hi, hv] at ht
  exact hne (Option.some.inj ht)

theorem SameWindow.compose {a b c : FPwin} (h1 : SameWindow a b) (h2 : SameWindow b c) :
    SameWindow a c :=
  ⟨h2.1.trans h1.1, h2.2.1.trans h1.2.1, h2.2.2.1.trans h1.2.2.1, h2.2.2.2.trans h1.2.2.2⟩

/-! ## The loops of `closeTabs` -/

/-- The inner loop deletes every page of the range that is left, rightmost first. -/
theorem discardLoop_spec (hs : Bool) (first : Int) (lo : Nat) (hfirst : first = (lo : Int) - 1) :
    ∀ (fuel : Nat) (hi : Nat) (last : Int) (w : FPwin), w.WellFormed → hs = w.sidePane_ →
      ((last < 0 ∧ hi = w.pages.length) ∨ (last = hi ∧ hi ≤ w.pages.length)) →
      lo ≤ hi → hi - lo < fuel →
      ∃ w1 : FPwin,
        discardLoop fuel hs first last ((hi : Int) - 1) (w.tabIndexAt hs ((hi : Int) - 1)) w =
          .ok (w1, (segment (w.byPosition hs) lo hi).map (fun p => Event.deleteTabPage p.id)) ∧
        w1.WellFormed ∧ SameWindow w w1 ∧
        w1.byPosition hs = (w.byPosition hs).take lo ++ (w.byPosition hs).drop hi ∧
        w1.pages.Sublist w.pages ∧ w1.pages.length + (hi - lo) = w.pages.length ∧
        (hs = true → w1.items = w.items.take lo ++ w.items.drop hi) ∧
        (∀ p ∈ w.pages, Event.deleteTabPage p.id ∉
            (segment (w.byPosition hs) lo hi).map (fun p => Event.deleteTabPage p.id) →
          p ∈ w1.pages) := by
  intro fuel
  induction fuel with
  | zero => intro hi last w _ _ _ _ h; omega
  | succ fuel ih =>
    intro hi last w hwf hhs hlast hle hfuel
    unfold discardLoop
    by_cases hdone : hi = lo
    · subst hdone
      have h1 : ¬ ((hi : Int) - 1 > first) := by omega
      simp only [h1, if_false]
      refine ⟨w, ?_, hwf, ⟨rfl, rfl, rfl, rfl⟩, ?_, List.Sublist.refl _, by omega, ?_,
        fun p hp _ => hp⟩
      · rw [segment_self _ _ _ (le_refl _)]
        rfl
      · rw [List.take_append_drop]
      · intro _
        rw [List.take_append_drop]
    · have hlt : lo < hi := by omega
      have h1 : (hi : Int) - 1 > first := by omega
      have h2 : ¬ (last = 0) := by omega
      simp only [h1, if_true, h2, if_false]
      have hpos : hi - 1 < w.pages.length := by omega
      obtain ⟨t, page, htab, ht, hj⟩ := position_spec hwf hhs hpos
      have hcast : ((hi : Int) - 1) = ((hi - 1 : Nat) : Int) := by omega
      rw [hcast, htab]
      obtain ⟨w2, hdel, hp2, hid2, hsp2, hld2, hrc2, hwf2, hside2⟩ := deleteTabPage_spec hwf ht
      rw [hdel]
      simp only
      have hB2 := byPosition_erase hwf hhs hj htab ht hp2 hside2
      have hlen2 : w2.pages.length = w.pages.length - 1 := by
        rw [hp2, List.length_eraseIdx]
        have := (List.getElem?_eq_some.1 ht).1
        simp [this]
      have hlast2 : ((if last < 0 then last else last - 1) < 0 ∧ hi - 1 = w2.pages.length) ∨
          ((if last < 0 then last else last - 1) = ((hi - 1 : Nat) : Int) ∧
            hi - 1 ≤ w2.pages.length) := by
        rcases hlast with ⟨hl, hh⟩ | ⟨hl, hh⟩
        · left
          simp only [hl, if_true, true_and]
          omega
        · right
          have : ¬ (last < 0) := by omega
          simp only [this, if_false]
          constructor <;> omega
      have hidx : (if last < 0 then w2.count - 1 else (if last < 0 then last else last - 1) - 1) =
          (((hi - 1 : Nat) : Int) - 1) := by
        rcases hlast with ⟨hl, hh⟩ | ⟨hl, hh⟩
        · simp only [hl, if_true, FPwin.count]
          omega
        · have : ¬ (last < 0) := by omega
          simp only [this, if_false]
          omega
      rw [hidx]
      obtain ⟨w3, hrun, hwf3, hsw3, hB3, hsub3, hlen3, hit3, hkept3⟩ :=
        ih (hi - 1) _ w2 hwf2 (by rw [hsp2]; exact hhs) hlast2 (by omega) (by omega)
      rw [hrun]
      simp only
      refine ⟨w3, ?_, hwf3, SameWindow.compose ⟨hid2, hsp2, hld2, hrc2⟩ hsw3, ?_, ?_, by omega,
        ?_, ?_⟩
      rotate_left 3
      · intro htrue
        rw [hit3 htrue, items_erase hwf hhs htrue hj hside2,
          take_eraseIdx_of_le _ (by omega), drop_eraseIdx_self]
        have : hi - 1 + 1 = hi := by omega
        rw [this]
      · intro p hp hnot
        rw [segment_step hlt hj] at hnot
        simp only [List.map_cons, List.mem_cons, Event.deleteTabPage.injEq, not_or] at hnot
        apply hkept3 p
        · rw [hp2]
          exact mem_eraseIdx_of_ne hp ht (fun h => hnot.1 (by rw [h]))
        · rw [hB2]
          exact hnot.2
      · rw [segment_step hlt hj, hB2]
        simp
      · rw [hB3, hB2, take_eraseIdx_of_le _ (by omega), drop_eraseIdx_self]
        have : hi - 1 + 1 = hi := by omega
        rw [this]
      · exact hsub3.trans (by rw [hp2]; exact List.eraseIdx_sublist _ _)

theorem eraseIdx_set_self {α : Type} (l : List α) (n : Nat) (a : α) :
    (l.set n a).eraseIdx n = l.eraseIdx n := by
  apply List.ext_getElem?
  intro i
  rw [List.getElem?_eraseIdx, List.getElem?_eraseIdx]
  split
  · rw [List.getElem?_set_ne (by omega)]
  · rw [List.getElem?_set_ne (by omega)]

theorem tabIndexAt_congr {w w1 : FPwin} (hfr : SameFrame w w1)
    (hids : w1.pages.map TabPage.id = w.pages.map TabPage.id) (hs : Bool) (j : Int) :
    w1.tabIndexAt hs j = w.tabIndexAt hs j := by
  unfold FPwin.tabIndexAt
  split
  · simp only [FPwin.item, hfr.2.2.1, hfr.2.2.2.1]
    cases hashValue w.sideItems_ (atIndex w.items j) with
    | none => rfl
    | some v => simp only [FPwin.indexOf, hids]
  · rfl

theorem mem_pages_of_byPosition {w : FPwin} {hs : Bool} {j : Nat} {p : TabPage}
    (h : (w.byPosition hs)[j]? = some (some p)) : p ∈ w.pages := by
  unfold FPwin.byPosition at h
  cases hs with
  | false =>
    simp only [Bool.false_eq_true, if_false, List.getElem?_map] at h
    cases hp : w.pages[j]? with
    | none => rw [hp] at h; simp at h
    | some q =>
      rw [hp] at h
      simp only [Option.map_some', Option.some.injEq] at h
      subst h
      obtain ⟨hl, rfl⟩ := List.getElem?_eq_some.1 hp
      exact List.getElem_mem hl
  | true =>
    simp only [if_true, List.getElem?_map] at h
    cases hi : w.items[j]? with
    | none => rw [hi] at h; simp at h
    | some i =>
      rw [hi] at h
      simp only [Option.map_some', Option.some.injEq] at h
      obtain ⟨n, _, hl, hn⟩ := atIndex_eq_some h
      obtain ⟨hl, rfl⟩ := List.getElem?_eq_some.1 hn
      exact List.getElem_mem hl

theorem segment_length {w : FPwin} (hwf : w.WellFormed) {hs : Bool} (hhs : hs = w.sidePane_)
    {lo hi : Nat} (hhi : hi ≤ w.pages.length) :
    (segment (w.byPosition hs) lo hi).length = hi - lo := by
  unfold segment
  have hlen := byPosition_length hwf hhs
  have hall : ∀ x ∈ (((w.byPosition hs).take hi).drop lo).reverse, x.isSome = true := by
    intro x hx
    rw [List.mem_reverse] at hx
    have hx1 := List.mem_of_mem_take (List.mem_of_mem_drop hx)
    obtain ⟨j, hj, hjv⟩ := List.getElem_of_mem hx1
    obtain ⟨t, page, _, _, hp⟩ := position_spec hwf hhs (j := j) (by omega)
    rw [List.getElem?_eq_getElem hj, hjv] at hp
    cases hp
    rfl
  rw [List.reduceOption_length_eq_iff.2 hall]
  simp only [List.length_reverse, List.length_drop, List.length_take]
  omega

theorem promptSpec_msgBox {this : Nat} {page : TabPage} {b : Bool} {n : Nat} {e : Env}
    {p : Nat} {r o : Bool} (h : Event.msgBox p r o ∈ (promptSpec this page b n e).2) :
    p = page.id := by
  unfold promptSpec at h
  split at h
  · split at h
    · simp at h
    · simp only [List.mem_cons, Event.msgBox.injEq, List.mem_singleton, reduceCtorEq,
        or_false, List.not_mem_nil] at h
      exact h.1
  · simp at h

theorem promptSpec_discarded {this : Nat} {page : TabPage} {b : Bool} {n : Nat} {e : Env}
    (h : (promptSpec this page b n e).1 = DOCSTATE.DISCARDED) :
    e.exec (b && decide (n > 1)) = StandardButton.NoToAll := by
  unfold promptSpec at h
  split at h
  · split at h
    · simp at h
    · simp only at h
      cases hx : e.exec (b && decide (n > 1)) with
      | Save =>
        rw [hx] at h
        simp only at h
        split at h <;> simp at h
      | Discard => rw [hx] at h; simp at h
      | Cancel => rw [hx] at h; simp at h
      | NoToAll => rfl
  · simp at h

theorem closeLoop_none (fuel : Nat) (hs : Bool) (first last : Int) (w : FPwin) (env : Nat → Env)
    (h : first ≥ (if last < 0 then w.count - 1 else last - 1)) :
    closeLoop (fuel + 1) hs first last false w env = .ok (false, w, []) := by
  unfold closeLoop
  split
  · split
    · rfl
    · simp only [h, if_true]
  · rfl

theorem loopPost_nothing (hs : Bool) (lo : Nat) (env : Nat → Env) {w : FPwin}
    (hwf : w.WellFormed) : LoopPost hs lo lo env w w (false, 0, []) := by
  refine ⟨hwf, ⟨rfl, rfl, rfl, rfl⟩, by simp, by simp, List.Sublist.refl _, ?_,
    fun p hp _ => Or.inl hp, ?_, ?_⟩
  · intro _
    simp
  · intro _
    simp
  · intro h
    simp at h

/-- One prompt of the outer loop, at a valid position. -/
theorem prompt_step {w : FPwin} (hwf : w.WellFormed) (hrdy : w.isReady = true) {hs : Bool}
    (hhs : hs = w.sidePane_) {j : Nat} (hj : j < w.pages.length) (b : Bool) (e : Env) :
    ∃ (t : Nat) (page q : TabPage) (w1 : FPwin),
      w.tabIndexAt hs j = t ∧ (w.byPosition hs)[j]? = some (some page) ∧
      w.pages[t]? = some page ∧
      w.savePrompt t b e = .ok ((promptSpec w.id page b w.pages.length e).1, w1,
        (promptSpec w.id page b w.pages.length e).2) ∧
      AfterPrompt hs j t page q b e w w1 := by
  obtain ⟨t, page, htab, ht, hpos⟩ := position_spec hwf hhs hj
  obtain ⟨w1, q, hsave, hp1, hq, hfr1, hwf1, hqp, hcur1⟩ := savePrompt_spec hwf hrdy ht b e
  have hids1 : w1.pages.map TabPage.id = w.pages.map TabPage.id := by
    rw [hp1]; exact ids_set ht hq
  refine ⟨t, page, q, w1, htab, hpos, ht, hsave, hp1, hq, hfr1, hwf1,
    byPosition_set hwf hhs hpos htab ht hp1 hq hfr1, ?_, hqp, ?_⟩
  · rw [tabIndexAt_congr hfr1 hids1]; exact htab
  · intro h
    rw [← hq]
    apply currentWidget_of_index _ (hcur1 h)
    rw [hp1, List.getElem?_set_self (List.getElem?_eq_some.1 ht).1]

/-- The deletion that follows a prompt that returned `SAVED`. -/
theorem delete_step {w w1 : FPwin} {hs : Bool} (hhs : hs = w.sidePane_)
    {j t : Nat} {page q : TabPage} {b : Bool} {e : Env}
    (hpos : (w.byPosition hs)[j]? = some (some page)) (ht : w.pages[t]? = some page)
    (h : AfterPrompt hs j t page q b e w w1) :
    ∃ w2 : FPwin, w1.deleteTabPage t = .ok (w2, [Event.deleteTabPage page.id]) ∧
      AfterDelete hs j t w1 w2 := by
  obtain ⟨hp1, hq, hfr1, hwf1, hB1, htab1, _, _⟩ := h
  have hjlt : j < (w.byPosition hs).length := (List.getElem?_eq_some.1 hpos).1
  have ht1 : w1.pages[t]? = some q := by
    rw [hp1, List.getElem?_set_self (List.getElem?_eq_some.1 ht).1]
  have hhs1 : hs = w1.sidePane_ := by rw [hfr1.2.1]; exact hhs
  have hj1 : (w1.byPosition hs)[j]? = some (some q) := by
    rw [hB1, List.getElem?_set_self hjlt]
  obtain ⟨w2, hdel, hp2, hid2, hsp2, hld2, hrc2, hwf2, hside2⟩ := deleteTabPage_spec hwf1 ht1
  rw [hq] at hdel
  refine ⟨w2, hdel, hp2, ⟨hid2, hsp2, hld2, hrc2⟩, hwf2,
    byPosition_erase hwf1 hhs1 hj1 htab1 ht1 hp2 hside2, ?_⟩
  intro htrue
  exact items_erase hwf1 hhs1 htrue hj1 hside2

theorem loopPost_saved {hs : Bool} {lo hi t : Nat} {env : Nat → Env} {w w1 w2 w3 : FPwin}
    {page q : TabPage} {b : Bool} {rest : List TabPage} {pev ev3 : List Event} {k : Bool}
    {d : Nat} (hwf : w.WellFormed) (hlt : lo < hi) (ht : w.pages[t]? = some page)
    (hseg : segment (w.byPosition hs) lo hi = page :: rest)
    (hmsg : ∀ p r o, Event.msgBox p r o ∈ pev → p = page.id)
    (h1 : AfterPrompt hs (hi - 1) t page q b (env 0) w w1)
    (h2 : AfterDelete hs (hi - 1) t w1 w2)
    (hrest : segment (w2.byPosition hs) lo (hi - 1) = rest)
    (h3 : LoopPost hs lo (hi - 1) (fun n => env (n + 1)) w2 w3 (k, d, ev3)) :
    LoopPost hs lo hi env w w3 (k, d + 1, pev ++ [Event.deleteTabPage page.id] ++ ev3) := by
  obtain ⟨hp1, hq, hfr1, hwf1, hB1, _, _, _⟩ := h1
  obtain ⟨hp2, hsw2, hwf2, hB2, hit2⟩ := h2
  obtain ⟨hwf3, hsw3, hd3, hlen3, hsub3, hit3, hkept3, hF, hT⟩ := h3
  simp only at hd3 hlen3 hit3 hkept3 hF hT
  have hB2' : w2.byPosition hs = (w.byPosition hs).eraseIdx (hi - 1) := by
    rw [hB2, hB1, eraseIdx_set_self]
  have hp2' : w2.pages = w.pages.eraseIdx t := by rw [hp2, hp1, eraseIdx_set_self]
  have htl := (List.getElem?_eq_some.1 ht).1
  have hlen2 : w2.pages.length = w.pages.length - 1 := by
    rw [hp2', List.length_eraseIdx]
    simp [htl]
  have hsucc : hi - 1 + 1 = hi := by omega
  refine ⟨hwf3, ?_, by simp only; omega, by simp only; omega, ?_, ?_, ?_, ?_, ?_⟩
  · exact SameWindow.compose ⟨hfr1.1, hfr1.2.1, hfr1.2.2.2.2.2, hfr1.2.2.2.2.1⟩
      (SameWindow.compose hsw2 hsw3)
  · refine hsub3.trans ?_
    rw [hp2']
    exact (List.eraseIdx_sublist _ _).map _
  · intro htrue
    have hi2 : w2.items = w.items.eraseIdx (hi - 1) := by
      rw [hit2 htrue, hfr1.2.2.1]
    have e : hi - 1 - d = hi - (d + 1) := by omega
    simp only
    rw [hit3 htrue, hi2, take_eraseIdx_of_le _ (by omega), drop_eraseIdx_self, hsucc, e]
  · intro p hp hnot
    simp only [List.append_assoc, List.mem_append, List.mem_cons, Event.deleteTabPage.injEq,
      List.not_mem_nil, or_false, not_or] at hnot
    have hne : p ≠ page := fun h => hnot.2.1 (by rw [h])
    rcases hkept3 p (by rw [hp2']; exact mem_eraseIdx_of_ne hp ht hne) hnot.2.2 with h | h
    · exact Or.inl h
    · refine Or.inr ⟨h.1, ?_⟩
      rw [hseg]
      simp only [List.getElem?_cons_succ]
      rw [← hrest]
      exact h.2
  · intro hk
    obtain ⟨e1, e2⟩ := hF hk
    refine ⟨by simp only; omega, ?_⟩
    rw [e2, hB2', take_eraseIdx_of_le _ (by omega), drop_eraseIdx_self, hsucc]
  · intro hk
    obtain ⟨page3, q3, e0, e1, e2, e3, e4, e5, e6⟩ := hT hk
    have hidx : hi - (d + 1) - 1 = hi - 1 - d - 1 := by omega
    have hmem3 : page3 ∈ w2.pages := mem_pages_of_byPosition e1
    have hne3 : page3.id ≠ page.id := by
      intro h
      have h1 : page3.id ∈ w2.pages.map TabPage.id := List.mem_map_of_mem _ hmem3
      have hidt : (w.pages.map TabPage.id)[t]? = some page.id := by simp [ht]
      rw [hp2', map_eraseIdx, eraseIdx_eq_erase hwf.1 hidt, hwf.1.mem_erase_iff] at h1
      exact h1.1 h
    refine ⟨page3, q3, ?_, ?_, e2, by simp only; omega, ?_, ?_, ?_⟩
    · rw [hseg]
      simp only [List.getElem?_cons_succ]
      rw [← hrest]
      exact e0
    · simp only
      rw [hidx]
      rw [hB2', List.getElem?_eraseIdx_of_lt _ _ _ (by omega)] at e1
      exact e1
    · simp only
      rw [hidx, e4, hB2', take_eraseIdx_of_le _ (by omega), drop_eraseIdx_self, hsucc]
    · rintro ⟨r, o, hmem⟩
      apply e5
      simp only [List.append_assoc, List.mem_append, List.mem_cons, reduceCtorEq,
        List.not_mem_nil, or_false, false_or] at hmem
      rcases hmem with hmem | hmem
      · exact absurd (hmsg _ _ _ hmem) hne3
      · exact ⟨r, o, hmem⟩
    · rcases e6 with e6 | ⟨k, b, e6⟩
      · exact Or.inl e6
      · exact Or.inr ⟨k + 1, b, e6⟩

theorem loopPost_undecided {hs : Bool} {lo hi t : Nat} {env : Nat → Env} {w w1 : FPwin}
    {page q : TabPage} {b : Bool} {rest : List TabPage} (hlt : lo < hi)
    (hBlen : hi ≤ (w.byPosition hs).length)
    (hpos : (w.byPosition hs)[hi - 1]? = some (some page)) (ht : w.pages[t]? = some page)
    (hseg : segment (w.byPosition hs) lo hi = page :: rest)
    (h1 : AfterPrompt hs (hi - 1) t page q b (env 0) w w1) :
    LoopPost hs lo hi env w w1 (true, 0, (promptSpec w.id page b w.pages.length (env 0)).2) := by
  obtain ⟨hp1, hq, hfr1, hwf1, hB1, _, hqp, hcur1⟩ := h1
  have hids1 : w1.pages.map TabPage.id = w.pages.map TabPage.id := by
    rw [hp1]; exact ids_set ht hq
  refine ⟨hwf1, ⟨hfr1.1, hfr1.2.1, hfr1.2.2.2.2.2, hfr1.2.2.2.2.1⟩, by simp,
    by simp only [hp1, List.length_set]; omega, by rw [hids1], ?_, ?_, ?_, ?_⟩
  · intro _
    simp only [Nat.sub_zero]
    rw [hfr1.2.2.1, List.take_append_drop]
  · intro p hp _
    by_cases hpp : p = page
    · exact Or.inr ⟨rfl, by rw [hseg]; simp [hpp]⟩
    · left
      obtain ⟨i, hi, hv⟩ := List.getElem_of_mem hp
      have hit : i ≠ t := by
        intro h
        subst h
        rw [List.getElem?_eq_getElem hi, hv] at ht
        exact hpp (Option.some.inj ht)
      have : w1.pages[i]? = some p := by
        rw [hp1, List.getElem?_set_ne (by omega), List.getElem?_eq_getElem hi, hv]
      obtain ⟨h1, h2⟩ := List.getElem?_eq_some.1 this
      rw [← h2]
      exact List.getElem_mem h1
  · intro h
    simp at h
  · intro _
    refine ⟨page, q, by rw [hseg]; simp, by simpa using hpos, hq, by simp only; omega, ?_,
      hcur1, ?_⟩
    · simp only [Nat.sub_zero]
      rw [hB1, List.set_eq_take_append_cons_drop]
      have : hi - 1 < (w.byPosition hs).length := by omega
      simp only [this, if_true]
      have : hi - 1 + 1 = hi := by omega
      rw [this]
    · rcases hqp with h | h
      · exact Or.inl h
      · exact Or.inr ⟨0, _, h⟩

theorem loopPost_discarded {hs : Bool} {lo hi t : Nat} {env : Nat → Env} {w w1 w3 : FPwin}
    {page : TabPage} {b : Bool} {rest : List TabPage} {pev : List Event} (hlt : lo < hi)
    (hpos : (w.byPosition hs)[hi - 1]? = some (some page)) (ht : w.pages[t]? = some page)
    (hrestlen : rest.length = hi - 1 - lo)
    (h1 : AfterPrompt hs (hi - 1) t page page b (env 0) w w1)
    (hwf3 : w3.WellFormed) (hsw3 : SameWindow w1 w3)
    (hB3 : w3.byPosition hs = (w1.byPosition hs).take lo ++ (w1.byPosition hs).drop hi)
    (hsub3 : w3.pages.Sublist w1.pages) (hlen3 : w3.pages.length + (hi - lo) = w1.pages.length)
    (hit3 : hs = true → w3.items = w1.items.take lo ++ w1.items.drop hi)
    (hkept3 : ∀ p ∈ w1.pages, Event.deleteTabPage p.id ∉
        (page :: rest).map (fun p => Event.deleteTabPage p.id) → p ∈ w3.pages) :
    LoopPost hs lo hi env w w3
      (false, rest.length + 1, pev ++ (page :: rest).map (fun p => Event.deleteTabPage p.id)) := by
  obtain ⟨hp1, _, hfr1, hwf1, hB1, _, _, _⟩ := h1
  have hpe : w1.pages = w.pages := by rw [hp1]; exact set_self_of_getElem? ht
  have hB1' : w1.byPosition hs = w.byPosition hs := by
    rw [hB1]; exact set_self_of_getElem? hpos
  refine ⟨hwf3, ?_, by simp only; omega, by simp only; rw [← hpe]; omega, ?_, ?_, ?_, ?_, ?_⟩
  · exact SameWindow.compose ⟨hfr1.1, hfr1.2.1, hfr1.2.2.2.2.2, hfr1.2.2.2.2.1⟩ hsw3
  · rw [← hpe]
    exact hsub3.map _
  · intro htrue
    simp only
    rw [hit3 htrue, hfr1.2.2.1]
    have : hi - (rest.length + 1) = lo := by omega
    rw [this]
  · intro p hp hnot
    left
    apply hkept3 p
    · rw [hpe]; exact hp
    · intro h
      apply hnot
      exact List.mem_append_right _ h
  · intro _
    refine ⟨by simp only; omega, ?_⟩
    rw [hB3, hB1']
  · intro h
    simp at h

/-- The outer loop of `closeTabs` on a ready, well-formed window runs as the
specification says. -/
theorem closeLoop_spec (hs : Bool) (first : Int) (lo : Nat) (hfirst : first = (lo : Int) - 1) :
    ∀ (fuel : Nat) (hi : Nat) (last : Int) (w : FPwin) (env : Nat → Env),
      w.WellFormed → w.isReady = true → hs = w.sidePane_ →
      ((last < 0 ∧ hi = w.pages.length) ∨ (last = hi ∧ hi ≤ w.pages.length)) →
      lo ≤ hi → hi - lo < fuel →
      ∃ w1 : FPwin,
        closeLoop fuel hs first last false w env =
          .ok ((runSpec w.id (segment (w.byPosition hs) lo hi) w.pages.length env).1, w1,
            (runSpec w.id (segment (w.byPosition hs) lo hi) w.pages.length env).2.2) ∧
        LoopPost hs lo hi env w w1
          (runSpec w.id (segment (w.byPosition hs) lo hi) w.pages.length env) := by
  intro fuel
  induction fuel with
  | zero => intro hi last w env _ _ _ _ _ h; omega
  | succ fuel ih =>
    intro hi last w env hwf hrdy hhs hlast hle hfuel
    have hhi : hi ≤ w.pages.length := by
      rcases hlast with ⟨_, h⟩ | ⟨_, h⟩ <;> omega
    by_cases hdone : hi = lo
    · subst hdone
      rw [segment_self _ _ _ (le_refl _)]
      simp only [runSpec]
      refine ⟨w, closeLoop_none _ _ _ _ _ _ ?_, loopPost_nothing _ _ _ hwf⟩
      simp only [FPwin.count]
      rcases hlast with ⟨h1, h2⟩ | ⟨h1, h2⟩
      · simp only [h1, if_true]
        omega
      · have : ¬ (last < 0) := by omega
        simp only [this, if_false]
        omega
    have hlt : lo < hi := by omega
    have hBlen := byPosition_length hwf hhs
    obtain ⟨t, page, q, w1, htab, hpos, ht, hsave, h1⟩ :=
      prompt_step hwf hrdy hhs (j := hi - 1) (by omega)
        (!decide (first = (hi : Int) - 1 - 1)) (env 0)
    obtain ⟨w2, hdel, h2⟩ := delete_step hhs hpos ht h1
    have hseg := segment_step hlt hpos
    have hB2 : w2.byPosition hs = (w.byPosition hs).eraseIdx (hi - 1) := by
      rw [h2.2.2.2.1, h1.2.2.2.2.1, eraseIdx_set_self]
    rw [← hB2] at hseg
    generalize hrest : segment (w2.byPosition hs) lo (hi - 1) = rest at hseg
    have hlen1 : w1.pages.length = w.pages.length := by rw [h1.1, List.length_set]
    have hlen2 : w2.pages.length = w.pages.length - 1 := by
      rw [h2.1, h1.1, eraseIdx_set_self, List.length_eraseIdx]
      have := (List.getElem?_eq_some.1 ht).1
      simp [this]
    have hhs1 : hs = w1.sidePane_ := by rw [h1.2.2.1.2.1]; exact hhs
    have hhs2 : hs = w2.sidePane_ := by rw [h2.2.1.2.1]; exact hhs1
    have hrestlen : rest.length = hi - 1 - lo := by
      rw [← hrest]
      exact segment_length h2.2.2.1 hhs2 (by omega)
    have hb : (!decide (first = (hi : Int) - 1 - 1)) = !rest.isEmpty := by
      cases rest with
      | nil =>
        simp only [List.length_nil] at hrestlen
        have : first = (hi : Int) - 1 - 1 := by omega
        simp [this]
      | cons x xs =>
        simp only [List.length_cons] at hrestlen
        have : ¬ (first = (hi : Int) - 1 - 1) := by omega
        simp [this]
    rw [hb] at hsave h1
    have hcast : ((hi : Int) - 1) = ((hi - 1 : Nat) : Int) := by omega
    have hindex : (if last < 0 then w.count - 1 else last - 1) = ((hi - 1 : Nat) : Int) := by
      rcases hlast with ⟨hl, hh⟩ | ⟨hl, hh⟩
      · simp only [hl, if_true, FPwin.count]
        omega
      · have : ¬ (last < 0) := by omega
        simp only [this, if_false]
        omega
    have hcount : w.count > 0 := by
      simp only [FPwin.count]
      omega
    have hl0 : ¬ (last = 0) := by omega
    have hnd : ¬ (first ≥ ((hi - 1 : Nat) : Int)) := by omega
    have hb2 : (!decide (first = ((hi - 1 : Nat) : Int) - 1)) = !rest.isEmpty := by
      rw [← hcast]; exact hb
    unfold closeLoop
    simp only [hcount, if_true, hl0, if_false, hindex, hnd, htab, hb2, hsave]
    rw [hseg]
    cases hst : (promptSpec w.id page (!rest.isEmpty) w.pages.length (env 0)).1 with
    | SAVED =>
      simp only [runSpec, hst, hdel]
      have hlast2 : ((if last > -1 then last - 1 else last) < 0 ∧ hi - 1 = w2.pages.length) ∨
          ((if last > -1 then last - 1 else last) = ((hi - 1 : Nat) : Int) ∧
            hi - 1 ≤ w2.pages.length) := by
        rcases hlast with ⟨hl, hh⟩ | ⟨hl, hh⟩
        · left
          have : ¬ (last > -1) := by omega
          simp only [this, if_false]
          omega
        · right
          have : last > -1 := by omega
          simp only [this, if_true]
          constructor <;> omega
      have hrdy2 : w2.isReady = true := by
        simp only [FPwin.isReady, h2.2.1.2.2.1, h1.2.2.1.2.2.2.2.2]
        exact hrdy
      have hid2 : w2.id = w.id := by rw [h2.2.1.1, h1.2.2.1.1]
      obtain ⟨w3, hrun, h3⟩ :=
        ih (hi - 1) _ w2 (fun k => env (k + 1)) h2.2.2.1 hrdy2 hhs2 hlast2 (by omega) (by omega)
      rw [hrest, hid2, hlen2] at hrun h3
      rw [hrun]
      exact ⟨w3, rfl, loopPost_saved hwf hlt ht hseg
        (fun p r o h => promptSpec_msgBox h) h1 h2 hrest h3⟩
    | UNDECIDED =>
      simp only [runSpec, hst]
      exact ⟨w1, rfl, loopPost_undecided hlt (by omega) hpos ht hseg h1⟩
    | DISCARDED =>
      simp only [runSpec, hst]
      have hqe : q = page := by
        rcases h1.2.2.2.2.2.2.1 with h | h
        · exact h
        · rw [promptSpec_discarded hst] at h
          cases h
      subst hqe
      have hB1' : w1.byPosition hs = w.byPosition hs := by
        rw [h1.2.2.2.2.1]
        exact set_self_of_getElem? hpos
      have hlast1 : (last < 0 ∧ hi = w1.pages.length) ∨ (last = hi ∧ hi ≤ w1.pages.length) := by
        rw [hlen1]; exact hlast
      obtain ⟨w3, hrun, hwf3, hsw3, hB3, hsub3, hlen3, hit3, hkept3⟩ :=
        discardLoop_spec hs first lo hfirst (w1.pages.length + 1) hi last w1 h1.2.2.2.1 hhs1
          hlast1 hle (by omega)
      rw [hcast, h1.2.2.2.2.2.1, hB1', hseg] at hrun
      rw [hB1', hseg] at hkept3
      rw [hrun]
      exact ⟨w3, rfl, loopPost_discarded hlt hpos ht hrestlen h1 hwf3 hsw3 hB3 hsub3 hlen3
        hit3 hkept3⟩

/-! ## `closeTabs` -/

theorem hasSideList_of_pages {w : FPwin} (hwf : w.WellFormed) (h : w.pages ≠ []) :
    w.hasSideList = w.sidePane_ := by
  unfold FPwin.hasSideList
  cases hsp : w.sidePane_ with
  | false => rfl
  | true =>
    have hm := hwf.2 hsp
    obtain ⟨p, hp⟩ := List.exists_mem_of_ne_nil _ h
    obtain ⟨wi, hwi, _⟩ := hm.key_of_page (List.mem_map_of_mem _ hp)
    cases hS : w.sideItems_ with
    | nil => rw [hS] at hwi; simp at hwi
    | cons x xs => rfl

theorem hasSideList_of_nil {w : FPwin} (hwf : w.WellFormed) (h : w.pages = []) :
    w.hasSideList = false := by
  unfold FPwin.hasSideList
  cases hsp : w.sidePane_ with
  | false => rfl
  | true =>
    have hm := hwf.2 hsp
    cases hS : w.sideItems_ with
    | nil => rfl
    | cons x xs =>
      have := (hm.2.2.2.1 x (by rw [hS]; simp)).2
      rw [h] at this
      simp at this

theorem mem_take_append_drop {α : Type} {l : List α} {c a b : Nat} {i : α}
    (h : l[c]? = some i) (hc : c < a ∨ b ≤ c) : i ∈ l.take a ++ l.drop b := by
  rw [List.mem_append]
  obtain ⟨hl, hv⟩ := List.getElem?_eq_some.1 h
  rcases hc with hc | hc
  · left
    rw [List.mem_iff_getElem?]
    exact ⟨c, by rw [List.getElem?_take_of_lt hc]; exact h⟩
  · right
    rw [List.mem_iff_getElem?]
    refine ⟨c - b, ?_⟩
    rw [List.getElem?_drop]
    have : b + (c - b) = c := by omega
    rw [this]
    exact h

theorem setCurrentItem_wellFormed {w : FPwin} (hwf : w.WellFormed) {i : Nat}
    (hi : w.sidePane_ = true → i ∈ w.items) : (w.setCurrentItem (some i)).WellFormed := by
  have hst := setCurrentItem_sameTabs w (some i)
  by_cases hsp : w.sidePane_ = true
  swap
  · exact wellFormed_of_sameTabs hst hwf (fun h => absurd h hsp) (fun h => absurd h hsp)
  · have hm := hwf.2 hsp
    have him := hi hsp
    obtain ⟨v, hv, hvm⟩ := hm.page_of_item him
    obtain ⟨c, pq, hc, hid⟩ := page_of_id hvm
    subst hid
    have hval := lookup_of_mem hm.2.1 hv
    obtain ⟨r, hr, _⟩ := positionOf_of_mem him
    have hrow : (0 : Int) ≤ w.row (some i) := by
      simp only [FPwin.row, hr]
      omega
    have hne : w.sideItems_.isEmpty = false := by
      cases hS : w.sideItems_ with
      | nil => rw [hS] at hv; simp at hv
      | cons x xs => rfl
    unfold FPwin.setCurrentItem at hst ⊢
    simp only [hrow, if_true] at hst ⊢
    by_cases hcur : some i = w.currentItem
    · simp only [hcur, if_true]
      exact hwf
    · simp only [hcur, if_false] at hst ⊢
      generalize hw0 : ({ w with currentItem := some i } : FPwin) = w0 at hst ⊢
      have h0 : SameTabs w w0 := by rw [← hw0]; exact ⟨rfl, rfl, rfl, rfl, rfl, rfl, rfl⟩
      have h0c : w0.currentItem = some i := by rw [← hw0]
      have hcond : (!w0.sidePane_ || w0.sideItems_.isEmpty) = false := by
        rw [h0.2.2.1, h0.2.2.2.2.1, hsp, hne]
        rfl
      have hstep : w0.changeTab (some i) = w0.setCurrentWidget (some pq.id) := by
        unfold FPwin.changeTab
        rw [if_neg (by rw [hcond]; simp), h0.2.2.2.2.1]
        simp only [hashValue, hval]
      rw [hstep] at hst ⊢
      have hidx : (w0.setCurrentWidget (some pq.id)).currentIndex = c := by
        unfold FPwin.setCurrentWidget
        have : w0.indexOf (some pq.id) = c :=
          indexOf_of_page (w := w0) (by rw [h0.2.1]; exact hwf.1) (by rw [h0.2.1]; exact hc)
        rw [this]
        apply setCurrentIndex_of_valid
        rw [h0.2.1]
        exact (List.getElem?_eq_some.1 hc).1
      refine wellFormed_of_sameTabs hst hwf ?_ ?_
      · intro _ j hj
        rw [setCurrentWidget_currentItem, h0c] at hj
        simp only [Option.toList, List.mem_singleton] at hj
        rw [hj]
        exact him
      · intro _
        rw [setCurrentWidget_currentItem, h0c, hst.2.2.2.2.1]
        simp only [hashValue, hval]
        symm
        apply currentWidget_of_index _ hidx
        rw [hst.2.1]
        exact hc

theorem LoopPost.transfer {hs : Bool} {lo hi : Nat} {env : Nat → Env} {w w1 w2 : FPwin}
    {s : Bool × Nat × List Event} (h : LoopPost hs lo hi env w w1 s) (hst : SameTabs w1 w2)
    (hwf : w2.WellFormed) (hkeep : s.1 = true → w2 = w1) : LoopPost hs lo hi env w w2 s := by
  obtain ⟨_, h2, h3, h4, h5, h6, h7, h8, h9⟩ := h
  refine ⟨hwf, ?_, h3, ?_, ?_, ?_, ?_, ?_, ?_⟩
  · exact SameWindow.compose h2 ⟨hst.1, hst.2.2.1, hst.2.2.2.2.2.2, hst.2.2.2.2.2.1⟩
  · rw [hst.2.1]; exact h4
  · rw [hst.2.1]; exact h5
  · rw [hst.2.2.2.1]; exact h6
  · rw [hst.2.1]; exact h7
  · rw [hst.byPosition]; exact h8
  · intro hk
    rw [hkeep hk]
    exact h9 hk

theorem currentRow_spec {w : FPwin} {i : Nat} (hc : w.currentItem = some i) (hi : i ∈ w.items) :
    ∃ c : Nat, w.currentRow = c ∧ w.items[c]? = some i := by
  obtain ⟨c, h1, h2⟩ := positionOf_of_mem hi
  exact ⟨c, by simp only [FPwin.currentRow, FPwin.row, hc, h1], h2⟩

/-- The restoring step of `closeTabs` keeps the tabs and the well-formedness. -/
theorem restore_spec {w w1 : FPwin} (hwf : w.WellFormed) (hwf1 : w1.WellFormed)
    (hsw : SameWindow w w1) {first last : Int} (hfirst : -1 ≤ first) (hlast : -1 ≤ last)
    {k hi : Nat} (hk : lowerEnd first ≤ k)
    (hhi : 0 ≤ last → hi ≤ max (lowerEnd first) last.toNat)
    (hitems : w.hasSideList = true → w1.items = w.items.take k ++ w.items.drop hi) :
    SameTabs w1 (w1.restoreCurrent (w.curPageOf first last) (w.curItemOf first last)) ∧
      (w1.restoreCurrent (w.curPageOf first last) (w.curItemOf first last)).WellFormed := by
  unfold FPwin.restoreCurrent
  cases hp : w.curPageOf first last with
  | some p =>
    simp only
    have hst := setCurrentWidget_sameTabs w1 (some p)
    refine ⟨hst, wellFormed_of_sameTabs hst hwf1 ?_ ?_⟩ <;>
    · intro hsp
      exfalso
      rw [hsw.2.1] at hsp
      unfold FPwin.curPageOf at hp
      split at hp
      · next hcond =>
        simp only [Bool.and_eq_true, Bool.not_eq_true'] at hcond
        by_cases hnil : w.pages = []
        · rw [currentWidget_of_nil hnil] at hp
          cases hp
        · rw [hasSideList_of_pages hwf hnil, hsp] at hcond
          cases hcond.1
      · cases hp
  | none =>
    simp only
    cases hrec : w.curItemOf first last with
    | none => exact ⟨SameTabs.refl _, hwf1⟩
    | some i =>
      simp only
      refine ⟨setCurrentItem_sameTabs _ _, setCurrentItem_wellFormed hwf1 ?_⟩
      intro hsp1
      have hsp : w.sidePane_ = true := by rw [← hsw.2.1]; exact hsp1
      unfold FPwin.curItemOf at hrec
      split at hrec
      swap
      · cases hrec
      next hcond =>
      simp only [Bool.and_eq_true] at hcond
      have hm := hwf.2 hsp
      have him : i ∈ w.items := hm.2.2.2.2.2.2.1 i (by rw [hrec]; simp)
      obtain ⟨c, hc, hci⟩ := currentRow_spec hrec him
      rw [hitems hcond.1]
      apply mem_take_append_drop hci
      have hout := hcond.2
      rw [hc] at hout
      simp only [outsideRange, Bool.not_eq_true', Bool.and_eq_false_imp, decide_eq_true_eq,
        Bool.or_eq_false_iff, decide_eq_false_iff_not] at hout
      unfold lowerEnd at hk
      by_cases h1 : first < (c : Int)
      · right
        have := hout h1
        have h2 := hhi (by omega)
        rcases le_max_iff.1 h2 with h3 | h3
        · unfold lowerEnd at h3
          omega
        · omega
      · left
        omega

/-- `closeTabs` on a ready, well-formed window runs as the specification says. -/
theorem closeTabs_spec {w : FPwin} (hwf : w.WellFormed) (hrdy : w.isReady = true)
    {first last : Int} (hfirst : -1 ≤ first) (hlast : -1 ≤ last) (hcount : last ≤ w.count)
    (env : Nat → Env) :
    ∃ w1 : FPwin,
      w.closeTabs first last env =
        .ok ((runSpec w.id (w.candidates w.hasSideList first last) w.pages.length env).1, w1,
          [Event.pauseAutoSaving true] ++
            (runSpec w.id (w.candidates w.hasSideList first last) w.pages.length env).2.2 ++
            [Event.pauseAutoSaving false]) ∧
      LoopPost w.hasSideList (lowerEnd first) (rangeEnd w first last) env w w1
        (runSpec w.id (w.candidates w.hasSideList first last) w.pages.length env) := by
  have hlo : first = ((lowerEnd first : Nat) : Int) - 1 := by
    unfold lowerEnd
    omega
  have hupper : (last < 0 ∧ upperEnd w last = w.pages.length) ∨
      (last = upperEnd w last ∧ upperEnd w last ≤ w.pages.length) := by
    unfold upperEnd
    simp only [FPwin.count] at hcount
    by_cases h : last < 0
    · left
      simp [h]
    · right
      simp only [h, if_false]
      omega
  -- the loop
  have hloop : ∃ w1 : FPwin,
      closeLoop (w.pages.length + 1) w.hasSideList first last false w env =
        .ok ((runSpec w.id (w.candidates w.hasSideList first last) w.pages.length env).1, w1,
          (runSpec w.id (w.candidates w.hasSideList first last) w.pages.length env).2.2) ∧
      LoopPost w.hasSideList (lowerEnd first) (rangeEnd w first last) env w w1
        (runSpec w.id (w.candidates w.hasSideList first last) w.pages.length env) := by
    unfold FPwin.candidates rangeEnd
    by_cases hle : upperEnd w last ≤ lowerEnd first
    · rw [segment_self _ _ _ hle, max_eq_left hle]
      simp only [runSpec]
      refine ⟨w, closeLoop_none _ _ _ _ _ _ ?_, loopPost_nothing _ _ _ hwf⟩
      simp only [FPwin.count]
      rcases hupper with ⟨h1, h2⟩ | ⟨h1, h2⟩
      · simp only [h1, if_true]
        omega
      · have : ¬ (last < 0) := by omega
        simp only [this, if_false]
        omega
    · have hlt : lowerEnd first < upperEnd w last := by omega
      rw [max_eq_right (by omega)]
      have hne : w.pages ≠ [] := by
        intro h
        rw [h] at hupper
        simp only [List.length_nil] at hupper
        omega
      exact closeLoop_spec w.hasSideList first (lowerEnd first) hlo (w.pages.length + 1)
        (upperEnd w last) last w env hwf hrdy (hasSideList_of_pages hwf hne) hupper
        (by omega) (by omega)
  obtain ⟨w1, hrun, hpost⟩ := hloop
  unfold FPwin.closeTabs
  simp only [hrdy, Bool.not_true, Bool.false_eq_true, if_false, hrun]
  generalize runSpec w.id (w.candidates w.hasSideList first last) w.pages.length env = s at *
  obtain ⟨keep, d, ev⟩ := s
  cases keep with
  | true =>
    exact ⟨w1, by simp, hpost⟩
  | false =>
    simp only [Bool.not_false, if_true]
    have hd := hpost.2.2.1
    have hge : lowerEnd first ≤ rangeEnd w first last := le_max_left _ _
    simp only at hd
    obtain ⟨h1, h2⟩ := @restore_spec w _ hwf hpost.1 hpost.2.1 first last hfirst hlast
      (rangeEnd w first last - d) (rangeEnd w first last)
      (by omega)
      (by
        intro h
        unfold rangeEnd upperEnd
        have : ¬ (last < 0) := by omega
        simp only [this, if_false]
        exact le_refl _)
      hpost.2.2.2.2.2.1
    exact ⟨_, rfl, hpost.transfer h1 h2 (by simp)⟩

/-! ## Traces -/

theorem append_split {α : Type} {A B pre post : List α} {x : α}
    (h : A ++ B = pre ++ x :: post) :
    (∃ post1, A = pre ++ x :: post1 ∧ post = post1 ++ B) ∨
      (∃ pre1, pre = A ++ pre1 ∧ B = pre1 ++ x :: post) := by
  rcases List.append_eq_append_iff.1 h with ⟨a, h1, h2⟩ | ⟨c, h1, h2⟩
  · exact Or.inr ⟨a, h1, h2⟩
  · cases c with
    | nil =>
      refine Or.inr ⟨[], by simpa using h1.symm, by simpa using h2.symm⟩
    | cons y c =>
      simp only [List.cons_append, List.cons.injEq] at h2
      obtain ⟨rfl, h3⟩ := h2
      exact Or.inl ⟨c, h1, h3⟩

theorem promptSpec_no_delete (this : Nat) (page : TabPage) (b : Bool) (n : Nat) (e : Env)
    (p : Nat) : Event.deleteTabPage p ∉ (promptSpec this page b n e).2 := by
  unfold promptSpec
  split
  · split <;> simp
  · simp

theorem promptSpec_last (this : Nat) (page : TabPage) (b : Bool) (n : Nat) (e : Env) :
    Event.savePrompt page.id b (promptSpec this page b n e).1 ∈ (promptSpec this page b n e).2 := by
  unfold promptSpec
  split
  · split <;> simp
  · simp

theorem decided_nil : Decided [] := by
  intro pre p post h
  simp at h

theorem runSpec_decided (this : Nat) :
    ∀ (cands : List TabPage) (n : Nat) (env : Nat → Env), Decided (runSpec this cands n env).2.2 := by
  intro cands
  induction cands with
  | nil =>
    intro n env
    exact decided_nil
  | cons c rest ih =>
    intro n env pre p post h
    have hlast := promptSpec_last this c (!rest.isEmpty) n (env 0)
    have hnd := promptSpec_no_delete this c (!rest.isEmpty) n (env 0)
    simp only [runSpec] at h
    cases hst : (promptSpec this c (!rest.isEmpty) n (env 0)).1 with
    | SAVED =>
      rw [hst] at hlast
      simp only [hst, List.append_assoc, List.singleton_append] at h
      rcases append_split h with ⟨post1, h1, _⟩ | ⟨pre1, h1, h2⟩
      · exact absurd (by rw [h1]; simp) (hnd p)
      · cases pre1 with
        | nil =>
          simp only [List.nil_append, List.cons.injEq, Event.deleteTabPage.injEq] at h2
          refine ⟨_, by rw [h1]; exact List.mem_append_left _ hlast, ?_⟩
          simp only [Permits]
          exact h2.1
        | cons y pre2 =>
          simp only [List.cons_append, List.cons.injEq] at h2
          obtain ⟨e1, he1, he2⟩ := ih _ _ pre2 p post h2.2
          refine ⟨e1, ?_, he2⟩
          rw [h1]
          exact List.mem_append_right _ (List.mem_cons_of_mem _ he1)
    | UNDECIDED =>
      simp only [hst] at h
      exact absurd (by rw [h]; simp) (hnd p)
    | DISCARDED =>
      rw [hst] at hlast
      simp only [hst] at h
      rcases append_split h with ⟨post1, h1, _⟩ | ⟨pre1, h1, _⟩
      · exact absurd (by rw [h1]; simp) (hnd p)
      · refine ⟨_, by rw [h1]; exact List.mem_append_left _ hlast, ?_⟩
        simp only [Permits]

theorem decided_wrap {ev : List Event} (h : Decided ev) :
    Decided ([Event.pauseAutoSaving true] ++ ev ++ [Event.pauseAutoSaving false]) := by
  intro pre p post heq
  cases pre with
  | nil => simp at heq
  | cons x pre1 =>
    simp only [List.singleton_append, List.cons_append, List.cons.injEq] at heq
    obtain ⟨rfl, heq⟩ := heq
    rcases append_split heq with ⟨post1, h1, _⟩ | ⟨pre2, _, h2⟩
    · obtain ⟨e, he, hp⟩ := h pre1 p post1 h1
      exact ⟨e, List.mem_cons_of_mem _ he, hp⟩
    · cases pre2 with
      | nil => simp at h2
      | cons y pre3 =>
        simp only [List.cons_append, List.cons.injEq] at h2
        have := h2.2
        simp at this

/-- When every prompt is answered "Cancel", a deleted page was a candidate that is
unmodified and whose file had not been removed when it was asked about. -/
theorem runSpec_cancel (this : Nat) :
    ∀ (cands : List TabPage) (n : Nat) (env : Nat → Env),
      (∀ k b, (env k).exec b = StandardButton.Cancel) →
      ∀ p, Event.deleteTabPage p ∈ (runSpec this cands n env).2.2 →
        ∃ c ∈ cands, c.id = p ∧ c.modified = false ∧ ∃ k, c.isRemoved (env k) = false := by
  intro cands
  induction cands with
  | nil =>
    intro n env _ p h
    simp [runSpec] at h
  | cons c rest ih =>
    intro n env hc p h
    have hnd := promptSpec_no_delete this c (!rest.isEmpty) n (env 0)
    have hstate : (promptSpec this c (!rest.isEmpty) n (env 0)).1 = DOCSTATE.SAVED →
        c.modified = false ∧ c.isRemoved (env 0) = false := by
      unfold promptSpec
      split
      · split
        · simp
        · simp [hc 0]
      · next hneed =>
        intro _
        simpa using hneed
    have hnot : (promptSpec this c (!rest.isEmpty) n (env 0)).1 ≠ DOCSTATE.DISCARDED := by
      intro hd
      have := promptSpec_discarded hd
      rw [hc 0] at this
      cases this
    simp only [runSpec] at h
    cases hst : (promptSpec this c (!rest.isEmpty) n (env 0)).1 with
    | SAVED =>
      simp only [hst, List.append_assoc, List.singleton_append, List.mem_append,
        List.mem_cons, Event.deleteTabPage.injEq] at h
      rcases h with h | h | h
      · exact absurd h (hnd p)
      · exact ⟨c, by simp, h.symm, (hstate hst).1, 0, (hstate hst).2⟩
      · obtain ⟨c1, hc1, h1, h2, k, h3⟩ := ih (n - 1) (fun k => env (k + 1)) (fun k b => hc _ b) p h
        exact ⟨c1, List.mem_cons_of_mem _ hc1, h1, h2, k + 1, h3⟩
    | UNDECIDED =>
      simp only [hst] at h
      exact absurd h (hnd p)
    | DISCARDED => exact absurd hst hnot

/-! ## `savePrompt`, `closeTab` and `closeTabAtIndex` on any window -/

theorem saveFile_ids (w : FPwin) (o : SaveOutcome) :
    (w.saveFile o).2.1.pages.map TabPage.id = w.pages.map TabPage.id := by
  unfold FPwin.saveFile
  split
  · rfl
  · simp only
    cases hw : w.widget w.currentIndex with
    | none => rfl
    | some tabPage =>
      obtain ⟨n, hn, _, hp⟩ := atIndex_eq_some hw
      have h0 : (0 : Int) ≤ w.currentIndex := by omega
      have hto : w.currentIndex.toNat = n := by omega
      simp only
      cases o.success
      · simp only [Bool.false_eq_true, if_false, FPwin.setPage, h0, if_true, hto]
        exact ids_set hp rfl
      · simp only [if_true, FPwin.setPage, h0, hto]
        exact ids_set hp rfl

theorem widget_of_ids {w w1 : FPwin} (h : w1.pages.map TabPage.id = w.pages.map TabPage.id)
    {i : Int} {page : TabPage} (hw : w.widget i = some page) :
    ∃ q, w1.widget i = some q ∧ q.id = page.id := by
  obtain ⟨n, hn, _, hp⟩ := atIndex_eq_some hw
  have h1 : (w1.pages.map TabPage.id)[n]? = some page.id := by rw [h]; simp [hp]
  rw [List.getElem?_map] at h1
  cases hq : w1.pages[n]? with
  | none => rw [hq] at h1; simp at h1
  | some q =>
    rw [hq] at h1
    refine ⟨q, ?_, by simpa using h1⟩
    rw [hn, widget_natCast]
    exact hq

/-- What `savePrompt` returns and logs at a tab that exists, on any window. -/
theorem savePrompt_general {w : FPwin} {i : Int} {page : TabPage} (h : w.widget i = some page)
    (b : Bool) (e : Env) :
    ∃ (st : DOCSTATE) (w1 : FPwin) (pre : List Event),
      w.savePrompt i b e = .ok (st, w1, pre ++ [Event.savePrompt page.id b st]) ∧
      w1.pages.map TabPage.id = w.pages.map TabPage.id ∧
      (∀ x ∈ pre, x = Event.warningBar page.id ∨
        x = Event.msgBox page.id (page.isRemoved e) (b && decide (w.count > 1))) ∧
      (st = DOCSTATE.DISCARDED →
        e.exec (b && decide (w.count > 1)) = StandardButton.NoToAll) ∧
      (st = DOCSTATE.SAVED → (page.modified || page.isRemoved e) = true →
        e.exec (b && decide (w.count > 1)) ≠ StandardButton.Cancel) ∧
      (e.exec (b && decide (w.count > 1)) ≠ StandardButton.Save → w1.pages = w.pages) := by
  unfold FPwin.savePrompt
  simp only [h]
  by_cases hneed : (page.modified || page.isRemoved e) = true
  · simp only [hneed, if_true]
    by_cases hdlg : hasAnotherDialog w.id e.wins = true
    · simp only [hdlg, if_true]
      refine ⟨_, _, [Event.warningBar page.id], rfl, rfl, by simp, by simp, by simp,
        fun _ => rfl⟩
    · simp only [hdlg, Bool.false_eq_true, if_false]
      have hst := attend_sameTabs w i page
      have hcount : (decide ((w.attend i page).count > 1)) = decide (w.count > 1) := by
        rw [hst.count]
      rw [hcount]
      have hmem : ∀ x ∈ [Event.msgBox page.id (page.isRemoved e) (b && decide (w.count > 1))],
          x = Event.warningBar page.id ∨
            x = Event.msgBox page.id (page.isRemoved e) (b && decide (w.count > 1)) := by
        intro x hx
        simp only [List.mem_singleton] at hx
        exact Or.inr hx
      cases hx : e.exec (b && decide (w.count > 1)) with
      | Save =>
        simp only
        have hids := saveFile_ids (w.attend i page) e.save
        rw [hst.2.1] at hids
        cases hs : ((w.attend i page).saveFile e.save).1
        · exact ⟨_, _, _, by simp; rfl, hids, hmem, by simp, by simp, by simp⟩
        · exact ⟨_, _, _, by simp; rfl, hids, hmem, by simp, by simp, by simp⟩
      | Discard =>
        exact ⟨_, _, _, rfl, by rw [hst.2.1], hmem, by simp, by simp, fun _ => hst.2.1⟩
      | Cancel =>
        exact ⟨_, _, _, rfl, by rw [hst.2.1], hmem, by simp, by simp, fun _ => hst.2.1⟩
      | NoToAll =>
        exact ⟨_, _, _, rfl, by rw [hst.2.1], hmem, by simp, by simp, fun _ => hst.2.1⟩
  · simp only [hneed, Bool.false_eq_true, if_false]
    exact ⟨_, _, [], rfl, rfl, by simp, by simp, by simp [hneed], fun _ => rfl⟩

theorem deleteTabPage_general {w : FPwin} {i : Int} {q : TabPage} (h : w.widget i = some q) :
    ∃ w2 : FPwin, w.deleteTabPage i = .ok (w2, [Event.deleteTabPage q.id]) := by
  unfold FPwin.deleteTabPage
  simp only [h]
  exact ⟨_, rfl⟩

theorem decided_single {page : Nat} {st : DOCSTATE} {pre : List Event}
    (hpre : ∀ p, Event.deleteTabPage p ∉ pre) : Decided (singleTrace page st pre) := by
  intro pre1 p post h
  by_cases hst : st = DOCSTATE.SAVED
  · subst hst
    have h1 : Event.pauseAutoSaving true ::
        (pre ++ [Event.savePrompt page false DOCSTATE.SAVED, Event.deleteTabPage page,
          Event.pauseAutoSaving false]) = pre1 ++ Event.deleteTabPage p :: post := by
      simpa [singleTrace] using h
    cases pre1 with
    | nil => simp at h1
    | cons x pre2 =>
      simp only [List.cons_append, List.cons.injEq] at h1
      rcases append_split h1.2 with ⟨post1, h2, _⟩ | ⟨pre3, h2, h3⟩
      · exact absurd (by rw [h2]; simp) (hpre p)
      · cases pre3 with
        | nil => simp at h3
        | cons y pre4 =>
          simp only [List.cons_append, List.cons.injEq] at h3
          cases pre4 with
          | nil =>
            simp only [List.nil_append, List.cons.injEq, Event.deleteTabPage.injEq] at h3
            refine ⟨Event.savePrompt page false DOCSTATE.SAVED, ?_, ?_⟩
            · rw [h2, ← h3.1]
              simp
            · simp only [Permits]
              exact h3.2.1
          | cons z pre5 =>
            simp only [List.cons_append, List.cons.injEq] at h3
            cases pre5 with
            | nil => simp at h3
            | cons u pre6 =>
              have := h3.2.2
              simp at this
  · exfalso
    have hmem : Event.deleteTabPage p ∈ singleTrace page st pre := by
      rw [h]; simp
    simp only [singleTrace, hst, if_false, List.append_assoc, List.mem_append,
      List.mem_singleton, reduceCtorEq, List.not_mem_nil, or_false, false_or] at hmem
    exact hpre p hmem

/-- The run of `closeTabAtIndex` at a tab that exists. -/
theorem closeTabAtIndex_trace {w : FPwin} {index : Int} {page : TabPage}
    (h : w.widget index = some page) (e : Env) :
    ∃ (w1 : FPwin) (st : DOCSTATE) (pre : List Event),
      w.closeTabAtIndex index e = .ok (w1, singleTrace page.id st pre) ∧
      (∀ x ∈ pre, x = Event.warningBar page.id ∨
        x = Event.msgBox page.id (page.isRemoved e) false) ∧
      (st = DOCSTATE.DISCARDED → e.exec false = StandardButton.NoToAll) ∧
      (st = DOCSTATE.SAVED → (page.modified || page.isRemoved e) = true →
        e.exec false ≠ StandardButton.Cancel) ∧
      (st ≠ DOCSTATE.SAVED → e.exec false ≠ StandardButton.Save → w1.pages = w.pages) := by
  obtain ⟨st, w1, pre, hsave, hids, hpre, hdis, hsav, hpages⟩ := savePrompt_general h false e
  simp only [Bool.false_and] at hpre hdis hsav hpages
  unfold FPwin.closeTabAtIndex
  simp only [hsave]
  by_cases hst : st = DOCSTATE.SAVED
  · obtain ⟨q, hq, hqid⟩ := widget_of_ids hids h
    obtain ⟨w2, hdel⟩ := deleteTabPage_general hq
    rw [hqid] at hdel
    simp only [hst, ne_eq, not_true_eq_false, if_false, hdel]
    exact ⟨_, DOCSTATE.SAVED, pre, rfl, hpre, by simp, fun _ => hsav hst,
      fun hne => (hne rfl).elim⟩
  · simp only [ne_eq, hst, not_false_eq_true, if_true]
    have htr : singleTrace page.id st pre = [Event.pauseAutoSaving true] ++
        (pre ++ [Event.savePrompt page.id false st]) ++ [Event.pauseAutoSaving false] := by
      simp [singleTrace, hst]
    exact ⟨_, st, pre, by rw [htr], hpre, hdis, hsav, fun _ => hpages⟩

/-- The run of `closeTab` on a ready window whose target tab exists. -/
theorem closeTab_trace {w : FPwin} (hrdy : w.isReady = true) {page : TabPage}
    (h : w.widget w.closeTabIndex = some page) (e : Env) :
    ∃ (w1 : FPwin) (st : DOCSTATE) (pre : List Event),
      w.closeTab e = .ok (w1, singleTrace page.id st pre) ∧
      (∀ x ∈ pre, x = Event.warningBar page.id ∨
        x = Event.msgBox page.id (page.isRemoved e) false) ∧
      (st = DOCSTATE.DISCARDED → e.exec false = StandardButton.NoToAll) ∧
      (st = DOCSTATE.SAVED → (page.modified || page.isRemoved e) = true →
        e.exec false ≠ StandardButton.Cancel) ∧
      (st ≠ DOCSTATE.SAVED → e.exec false ≠ StandardButton.Save → w1.pages = w.pages) := by
  obtain ⟨st, w1, pre, hsave, hids, hpre, hdis, hsav, hpages⟩ := savePrompt_general h false e
  simp only [Bool.false_and] at hpre hdis hsav hpages
  have hidx : ¬ (w.closeTabIndex = -1) := by
    intro h1
    rw [h1] at h
    simp [FPwin.widget, atIndex] at h
  unfold FPwin.closeTab
  simp only [hrdy, Bool.not_true, Bool.false_eq_true, if_false, hidx, decide_False,
    Bool.and_false, hsave]
  by_cases hst : st = DOCSTATE.SAVED
  · obtain ⟨q, hq, hqid⟩ := widget_of_ids hids h
    obtain ⟨w2, hdel⟩ := deleteTabPage_general hq
    rw [hqid] at hdel
    simp only [hst, ne_eq, not_true_eq_false, if_false, hdel]
    exact ⟨_, DOCSTATE.SAVED, pre, rfl, hpre, by simp, fun _ => hsav hst,
      fun hne => (hne rfl).elim⟩
  · simp only [ne_eq, hst, not_false_eq_true, if_true]
    have htr : singleTrace page.id st pre = [Event.pauseAutoSaving true] ++
        (pre ++ [Event.savePrompt page.id false st]) ++ [Event.pauseAutoSaving false] := by
      simp [singleTrace, hst]
    exact ⟨_, st, pre, by rw [htr], hpre, hdis, hsav, fun _ => hpages⟩

theorem mem_pages_of_mem_byPosition {w : FPwin} {hs : Bool} {p : TabPage}
    (h : some p ∈ w.byPosition hs) : p ∈ w.pages := by
  obtain ⟨j, hj⟩ := List.mem_iff_getElem?.1 h
  exact mem_pages_of_byPosition hj

theorem mem_pages_of_mem_segment {w : FPwin} {hs : Bool} {lo hi : Nat} {c : TabPage}
    (h : c ∈ segment (w.byPosition hs) lo hi) : c ∈ w.pages := by
  unfold segment at h
  rw [List.reduceOption_mem_iff, List.mem_reverse] at h
  exact mem_pages_of_mem_byPosition (List.mem_of_mem_take (List.mem_of_mem_drop h))

theorem page_eq_of_id {pages : List TabPage} (hn : (pages.map TabPage.id).Nodup)
    {p c : TabPage} (hp : p ∈ pages) (hc : c ∈ pages) (h : p.id = c.id) : p = c := by
  obtain ⟨i, hi, hiv⟩ := List.getElem_of_mem hp
  obtain ⟨j, hj, hjv⟩ := List.getElem_of_mem hc
  have h1 : pages[i]? = some p := by rw [List.getElem?_eq_getElem hi, hiv]
  have h2 : pages[j]? = some c := by rw [List.getElem?_eq_getElem hj, hjv]
  have := index_unique hn h1 h2 h
  subst this
  rw [h1] at h2
  exact Option.some.inj h2

theorem closeTabs_notReady {w : FPwin} (h : w.isReady = false) (first last : Int)
    (env : Nat → Env) : w.closeTabs first last env = .ok (true, w, []) := by
  simp [FPwin.closeTabs, h]

theorem mem_wrap {ev : List Event} {p : Nat}
    (h : Event.deleteTabPage p ∈
      [Event.pauseAutoSaving true] ++ ev ++ [Event.pauseAutoSaving false]) :
    Event.deleteTabPage p ∈ ev := by
  simpa using h

/-- C1 (closing needs a decision). In a run of `closeTabs`, `closeTabAtIndex` or
`closeTab`, every `deleteTabPage` comes after a `savePrompt` that returned `SAVED`
for that very page or after one that returned `DISCARDED` ("No to all"); and when
every prompt is answered "Cancel", no page that is modified or whose file has been
removed is deleted: it is still among the pages afterwards. -/
theorem closing_needs_decision (w : FPwin) (first last index : Int) (env : Nat → Env) (e : Env)
    (page target : TabPage) (hwf : w.WellFormed) (hfirst : -1 ≤ first) (hlast : -1 ≤ last)
    (hcount : last ≤ w.count) (hindex : w.widget index = some page)
    (htarget : w.widget w.closeTabIndex = some target ∨
      (w.closesItem = false ∧ w.closeTabIndex = -1)) :
    (∃ keep w1 ev, w.closeTabs first last env = .ok (keep, w1, ev) ∧ Decided ev ∧
      ((∀ k b, (env k).exec b = StandardButton.Cancel) →
        ∀ p ∈ w.pages, (p.modified = true ∨ ∀ k, p.isRemoved (env k) = true) →
          Event.deleteTabPage p.id ∉ ev ∧ p ∈ w1.pages)) ∧
    (∃ w1 ev, w.closeTabAtIndex index e = .ok (w1, ev) ∧ Decided ev ∧
      ((∀ b, e.exec b = StandardButton.Cancel) →
        (page.modified = true ∨ page.isRemoved e = true) →
          (∀ p, Event.deleteTabPage p ∉ ev) ∧ w1.pages = w.pages)) ∧
    (∃ w1 ev, w.closeTab e = .ok (w1, ev) ∧ Decided ev ∧
      ((∀ b, e.exec b = StandardButton.Cancel) →
        (target.modified = true ∨ target.isRemoved e = true) →
          (∀ p, Event.deleteTabPage p ∉ ev) ∧ w1.pages = w.pages)) := by
  have hsingle : ∀ (pg : TabPage) (st : DOCSTATE) (pre : List Event) (w1 : FPwin),
      (∀ x ∈ pre, x = Event.warningBar pg.id ∨ x = Event.msgBox pg.id (pg.isRemoved e) false) →
      (st = DOCSTATE.DISCARDED → e.exec false = StandardButton.NoToAll) →
      (st = DOCSTATE.SAVED → (pg.modified || pg.isRemoved e) = true →
        e.exec false ≠ StandardButton.Cancel) →
      (st ≠ DOCSTATE.SAVED → e.exec false ≠ StandardButton.Save → w1.pages = w.pages) →
      Decided (singleTrace pg.id st pre) ∧
      ((∀ b, e.exec b = StandardButton.Cancel) →
        (pg.modified = true ∨ pg.isRemoved e = true) →
          (∀ p, Event.deleteTabPage p ∉ singleTrace pg.id st pre) ∧ w1.pages = w.pages) := by
    intro pg st pre w1 hpre hdis hsav hpages
    have hnd : ∀ p, Event.deleteTabPage p ∉ pre := by
      intro p hp
      rcases hpre _ hp with h | h <;> cases h
    refine ⟨decided_single hnd, ?_⟩
    intro hc hneed
    have hneed1 : (pg.modified || pg.isRemoved e) = true := by
      rcases hneed with h | h <;> simp [h]
    have hst : st ≠ DOCSTATE.SAVED := fun h => hsav h hneed1 (hc false)
    refine ⟨?_, hpages hst (by rw [hc false]; simp)⟩
    intro p hp
    simp only [singleTrace, hst, if_false, List.append_assoc, List.mem_append,
      List.mem_singleton, reduceCtorEq, List.not_mem_nil, or_false, false_or] at hp
    exact hnd p hp
  refine ⟨?_, ?_, ?_⟩
  · cases hrdy : w.isReady with
    | false =>
      refine ⟨true, w, [], closeTabs_notReady hrdy _ _ _, decided_nil, ?_⟩
      intro _ p hp _
      exact ⟨by simp, hp⟩
    | true =>
      obtain ⟨w1, hrun, hpost⟩ := closeTabs_spec hwf hrdy hfirst hlast hcount env
      refine ⟨_, w1, _, hrun, decided_wrap (runSpec_decided _ _ _ _), ?_⟩
      intro hc p hp hneed
      have hnot : Event.deleteTabPage p.id ∉
          (runSpec w.id (w.candidates w.hasSideList first last) w.pages.length env).2.2 := by
        intro hmem
        obtain ⟨c, hcm, hid, hmod, k, hrem⟩ := runSpec_cancel _ _ _ _ hc _ hmem
        have hcp : c ∈ w.pages := mem_pages_of_mem_segment hcm
        have := page_eq_of_id hwf.1 hcp hp hid
        subst this
        rcases hneed with h | h
        · rw [h] at hmod; cases hmod
        · rw [h k] at hrem; cases hrem
      refine ⟨fun h => hnot (mem_wrap h), ?_⟩
      rcases hpost.2.2.2.2.2.2.1 p hp hnot with h | ⟨hk, hseg⟩
      · exact h
      · obtain ⟨pg, q, e0, _, _, _, e4, _, e6⟩ := hpost.2.2.2.2.2.2.2.2 hk
        rw [hseg] at e0
        have hpg : pg = p := (Option.some.inj e0).symm
        subst hpg
        have hq : q = pg := by
          rcases e6 with h | ⟨k, b, h⟩
          · exact h
          · rw [hc k b] at h
            cases h
        subst hq
        apply @mem_pages_of_mem_byPosition _ w.hasSideList
        rw [e4]
        simp
  · obtain ⟨w1, st, pre, hrun, hpre, hdis, hsav, hpages⟩ := closeTabAtIndex_trace hindex e
    obtain ⟨h1, h2⟩ := hsingle page st pre w1 hpre hdis hsav hpages
    exact ⟨w1, _, hrun, h1, h2⟩
  · cases hrdy : w.isReady with
    | false =>
      refine ⟨w, [], by simp [FPwin.closeTab, hrdy], decided_nil, ?_⟩
      intro _ _
      exact ⟨by simp, rfl⟩
    | true =>
      rcases htarget with htarget | ⟨h1, h2⟩
      · obtain ⟨w1, st, pre, hrun, hpre, hdis, hsav, hpages⟩ := closeTab_trace hrdy htarget e
        obtain ⟨h1, h2⟩ := hsingle target st pre w1 hpre hdis hsav hpages
        exact ⟨w1, _, hrun, h1, h2⟩
      · refine ⟨w, [Event.pauseAutoSaving true, Event.pauseAutoSaving false],
          by simp [FPwin.closeTab, hrdy, h1, h2], ?_, ?_⟩
        · intro pre p post h
          have : Event.deleteTabPage p ∈
              [Event.pauseAutoSaving true, Event.pauseAutoSaving false] := by
            rw [h]; simp
          simp at this
        · intro _ _
          exact ⟨by simp, rfl⟩

theorem closing_needs_decision_witness :
    sampleWindow.WellFormed ∧ (-1 : Int) ≤ -1 ∧ (-1 : Int) ≤ sampleWindow.count ∧
    sampleWindow.widget 1 = some { id := 11, fileName := "/home/u/notes.txt", modified := true } ∧
    sampleWindow.widget sampleWindow.closeTabIndex = some { id := 10, fileName := "", modified := false } ∧
    (∃ keep w1 ev, sampleWindow.closeTabs (-1) (-1) (answerAll StandardButton.Cancel) =
        .ok (keep, w1, ev) ∧ Decided ev ∧
      ((∀ k b, (answerAll StandardButton.Cancel k).exec b = StandardButton.Cancel) →
        ∀ p ∈ sampleWindow.pages,
          (p.modified = true ∨ ∀ k, p.isRemoved (answerAll StandardButton.Cancel k) = true) →
          Event.deleteTabPage p.id ∉ ev ∧ p ∈ w1.pages)) :=
  ⟨by decide, by decide, by decide, by decide, by decide,
    (closing_needs_decision sampleWindow (-1) (-1) 1 (answerAll StandardButton.Cancel)
      (answerAll StandardButton.Cancel 0) { id := 11, fileName := "/home/u/notes.txt", modified := true } { id := 10, fileName := "", modified := false }
      (by decide) (by decide) (by decide) (by decide) (by decide) (Or.inl (by decide))).1⟩

/-- The trace of one prompt: advisory or dialog events, then the return of
`savePrompt`. -/
theorem promptSpec_shape (this : Nat) (page : TabPage) (b : Bool) (n : Nat) (e : Env) :
    ∃ pre : List Event,
      (promptSpec this page b n e).2 =
        pre ++ [Event.savePrompt page.id b (promptSpec this page b n e).1] ∧
      ∀ x ∈ pre, x = Event.warningBar page.id ∨
        x = Event.msgBox page.id (page.isRemoved e) (b && decide (n > 1)) := by
  unfold promptSpec
  split
  · split
    · exact ⟨[Event.warningBar page.id], rfl, by simp⟩
    · exact ⟨[Event.msgBox page.id (page.isRemoved e) (b && decide (n > 1))], rfl, by simp⟩
  · exact ⟨[], rfl, by simp⟩

theorem deleted_append (a b : List Event) : deleted (a ++ b) = deleted a ++ deleted b := by
  simp [deleted, List.filterMap_append]

theorem prompted_append (a b : List Event) : prompted (a ++ b) = prompted a ++ prompted b := by
  simp [prompted, List.filterMap_append]

theorem deleted_promptSpec (this : Nat) (page : TabPage) (b : Bool) (n : Nat) (e : Env) :
    deleted (promptSpec this page b n e).2 = [] := by
  unfold promptSpec
  split
  · split <;> simp [deleted]
  · simp [deleted]

theorem prompted_promptSpec (this : Nat) (page : TabPage) (b : Bool) (n : Nat) (e : Env) :
    prompted (promptSpec this page b n e).2 = [page.id] := by
  unfold promptSpec
  split
  · split <;> simp [prompted]
  · simp [prompted]

theorem deleted_deletions (l : List TabPage) :
    deleted (l.map (fun p => Event.deleteTabPage p.id)) = l.map TabPage.id := by
  induction l with
  | nil => rfl
  | cons a l ih =>
    simp only [List.map_cons]
    rw [← ih]
    simp [deleted]

theorem prompted_deletions (l : List TabPage) :
    prompted (l.map (fun p => Event.deleteTabPage p.id)) = [] := by
  induction l with
  | nil => rfl
  | cons a l ih =>
    simp only [List.map_cons]
    rw [← ih]
    simp [prompted]

theorem deleted_wrap (ev : List Event) :
    deleted ([Event.pauseAutoSaving true] ++ ev ++ [Event.pauseAutoSaving false]) = deleted ev := by
  simp [deleted, List.filterMap_append]

theorem prompted_wrap (ev : List Event) :
    prompted ([Event.pauseAutoSaving true] ++ ev ++ [Event.pauseAutoSaving false]) =
      prompted ev := by
  simp [prompted, List.filterMap_append]

/-- The run deletes the first candidates, in their order. -/
theorem runSpec_deleted (this : Nat) :
    ∀ (cands : List TabPage) (n : Nat) (env : Nat → Env),
      deleted (runSpec this cands n env).2.2 =
        (cands.take (runSpec this cands n env).2.1).map TabPage.id := by
  intro cands
  induction cands with
  | nil =>
    intro n env
    rfl
  | cons c rest ih =>
    intro n env
    simp only [runSpec]
    cases hst : (promptSpec this c (!rest.isEmpty) n (env 0)).1 with
    | SAVED =>
      simp only [deleted_append, deleted_promptSpec, ih, List.take_succ_cons, List.map_cons,
        List.nil_append]
      simp [deleted]
    | UNDECIDED =>
      simp only [deleted_promptSpec, List.take_zero, List.map_nil]
    | DISCARDED =>
      simp only [deleted_append, deleted_promptSpec, deleted_deletions, List.nil_append]
      rw [List.take_of_length_le (by simp)]

/-- The run prompts the first candidates, in their order. -/
theorem runSpec_prompted (this : Nat) :
    ∀ (cands : List TabPage) (n : Nat) (env : Nat → Env),
      ∃ m, m ≤ (runSpec this cands n env).2.1 + 1 ∧
        prompted (runSpec this cands n env).2.2 = (cands.take m).map TabPage.id := by
  intro cands
  induction cands with
  | nil =>
    intro n env
    exact ⟨0, by simp, rfl⟩
  | cons c rest ih =>
    intro n env
    simp only [runSpec]
    cases hst : (promptSpec this c (!rest.isEmpty) n (env 0)).1 with
    | SAVED =>
      obtain ⟨m, hm, h⟩ := ih (n - 1) (fun k => env (k + 1))
      refine ⟨m + 1, by simpa using hm, ?_⟩
      simp only [prompted_append, prompted_promptSpec, h, List.take_succ_cons, List.map_cons]
      simp [prompted]
    | UNDECIDED =>
      exact ⟨1, by simp, by simp [prompted_promptSpec]⟩
    | DISCARDED =>
      refine ⟨1, by simp, ?_⟩
      simp only [prompted_append, prompted_promptSpec, prompted_deletions]
      simp

theorem not_mem_deletions {x : Event} (l : List TabPage)
    (hx : ∀ p, x ≠ Event.deleteTabPage p) : x ∉ l.map (fun p => Event.deleteTabPage p.id) := by
  intro h
  obtain ⟨a, _, ha⟩ := List.mem_map.1 h
  exact hx a.id ha.symm

/-- A prompt that returns `UNDECIDED` ends the run: nothing is logged after it, the
run keeps the window open and the page asked about is the first candidate that has
not been deleted. -/
theorem runSpec_undecided (this : Nat) :
    ∀ (cands : List TabPage) (n : Nat) (env : Nat → Env) (p : Nat) (b : Bool),
      Event.savePrompt p b DOCSTATE.UNDECIDED ∈ (runSpec this cands n env).2.2 →
      (runSpec this cands n env).1 = true ∧
      ∃ (c : TabPage) (pre : List Event), cands[(runSpec this cands n env).2.1]? = some c ∧
        c.id = p ∧
        (runSpec this cands n env).2.2 = pre ++ [Event.savePrompt p b DOCSTATE.UNDECIDED] := by
  intro cands
  induction cands with
  | nil =>
    intro n env p b h
    simp [runSpec] at h
  | cons c rest ih =>
    intro n env p b h
    obtain ⟨pre0, hshape, hpre0⟩ := promptSpec_shape this c (!rest.isEmpty) n (env 0)
    have hin : ∀ st, Event.savePrompt p b DOCSTATE.UNDECIDED ∈
        pre0 ++ [Event.savePrompt c.id (!rest.isEmpty) st] →
        c.id = p ∧ (!rest.isEmpty) = b ∧ st = DOCSTATE.UNDECIDED := by
      intro st hm
      rcases List.mem_append.1 hm with hm | hm
      · rcases hpre0 _ hm with h1 | h1 <;> cases h1
      · simp only [List.mem_singleton, Event.savePrompt.injEq] at hm
        exact ⟨hm.1.symm, hm.2.1.symm, hm.2.2.symm⟩
    simp only [runSpec] at h ⊢
    cases hst : (promptSpec this c (!rest.isEmpty) n (env 0)).1 with
    | SAVED =>
      rw [hst] at hshape
      simp only [hst] at h ⊢
      rcases List.mem_append.1 h with h1 | h1
      · rcases List.mem_append.1 h1 with h2 | h2
        · rw [hshape] at h2
          have := (hin _ h2).2.2
          cases this
        · simp at h2
      · obtain ⟨hk, c1, pre1, hc1, hid, htr⟩ := ih (n - 1) (fun k => env (k + 1)) p b h1
        refine ⟨hk, c1, (promptSpec this c (!rest.isEmpty) n (env 0)).2 ++
          [Event.deleteTabPage c.id] ++ pre1, ?_, hid, ?_⟩
        · simpa using hc1
        · rw [htr]
          simp
    | UNDECIDED =>
      rw [hst] at hshape
      simp only [hst] at h ⊢
      rw [hshape] at h
      obtain ⟨h1, h2, _⟩ := hin _ h
      refine ⟨by simp, c, pre0, by simp, h1, ?_⟩
      rw [hshape, h1, h2]
    | DISCARDED =>
      rw [hst] at hshape
      simp only [hst] at h ⊢
      rcases List.mem_append.1 h with h1 | h1
      · rw [hshape] at h1
        have := (hin _ h1).2.2
        cases this
      · exact absurd h1 (not_mem_deletions _ (by intro q hq; cases hq))

/-- After a prompt that returns `DISCARDED` the run only deletes: the page asked
about and every candidate after it, in their order, and the window is not kept
open. -/
theorem runSpec_discarded (this : Nat) :
    ∀ (cands : List TabPage) (n : Nat) (env : Nat → Env) (p : Nat) (b : Bool),
      Event.savePrompt p b DOCSTATE.DISCARDED ∈ (runSpec this cands n env).2.2 →
      (runSpec this cands n env).1 = false ∧ (runSpec this cands n env).2.1 = cands.length ∧
      ∃ (m : Nat) (c : TabPage) (pre : List Event), cands[m]? = some c ∧ c.id = p ∧
        deleted pre = (cands.take m).map TabPage.id ∧
        (runSpec this cands n env).2.2 =
          pre ++ Event.savePrompt p b DOCSTATE.DISCARDED ::
            (cands.drop m).map (fun q => Event.deleteTabPage q.id) := by
  intro cands
  induction cands with
  | nil =>
    intro n env p b h
    simp [runSpec] at h
  | cons c rest ih =>
    intro n env p b h
    obtain ⟨pre0, hshape, hpre0⟩ := promptSpec_shape this c (!rest.isEmpty) n (env 0)
    have hdel0 := deleted_promptSpec this c (!rest.isEmpty) n (env 0)
    have hin : ∀ st, Event.savePrompt p b DOCSTATE.DISCARDED ∈
        pre0 ++ [Event.savePrompt c.id (!rest.isEmpty) st] →
        c.id = p ∧ (!rest.isEmpty) = b ∧ st = DOCSTATE.DISCARDED := by
      intro st hm
      rcases List.mem_append.1 hm with hm | hm
      · rcases hpre0 _ hm with h1 | h1 <;> cases h1
      · simp only [List.mem_singleton, Event.savePrompt.injEq] at hm
        exact ⟨hm.1.symm, hm.2.1.symm, hm.2.2.symm⟩
    simp only [runSpec] at h ⊢
    cases hst : (promptSpec this c (!rest.isEmpty) n (env 0)).1 with
    | SAVED =>
      rw [hst] at hshape
      simp only [hst] at h ⊢
      rcases List.mem_append.1 h with h1 | h1
      · rcases List.mem_append.1 h1 with h2 | h2
        · rw [hshape] at h2
          have := (hin _ h2).2.2
          cases this
        · simp at h2
      · obtain ⟨hk, hd, m, c1, pre1, hc1, hid, hdel, htr⟩ :=
          ih (n - 1) (fun k => env (k + 1)) p b h1
        refine ⟨hk, by simp [hd], m + 1, c1, (promptSpec this c (!rest.isEmpty) n (env 0)).2 ++
          [Event.deleteTabPage c.id] ++ pre1, by simpa using hc1, hid, ?_, ?_⟩
        · simp only [deleted_append, hdel0, hdel, List.nil_append, List.take_succ_cons,
            List.map_cons]
          simp [deleted]
        · rw [htr]
          simp
    | UNDECIDED =>
      rw [hst] at hshape
      simp only [hst] at h
      rw [hshape] at h
      have := (hin _ h).2.2
      cases this
    | DISCARDED =>
      rw [hst] at hshape
      simp only [hst] at h ⊢
      rcases List.mem_append.1 h with h1 | h1
      · rw [hshape] at h1
        obtain ⟨h2, h3, _⟩ := hin _ h1
        refine ⟨by simp, by simp, 0, c, pre0, by simp, h2, ?_, ?_⟩
        · rw [hshape, deleted_append] at hdel0
          simpa using (List.append_eq_nil.1 hdel0).1
        · rw [hshape, h2, h3]
          simp
      · exact absurd h1 (not_mem_deletions _ (by intro q hq; cases hq))

theorem promptSpec_dialog {this : Nat} {page : TabPage} {b : Bool} {n : Nat} {e : Env}
    {pre post : List Event} {p : Nat} {r o : Bool}
    (h : (promptSpec this page b n e).2 = pre ++ Event.msgBox p r o :: post) :
    deleted pre = [] ∧ p = page.id ∧ r = page.isRemoved e ∧ o = (b && decide (n > 1)) := by
  have hdel := deleted_promptSpec this page b n e
  rw [h, deleted_append] at hdel
  refine ⟨(List.append_eq_nil.1 hdel).1, ?_⟩
  obtain ⟨pre0, hshape, hpre0⟩ := promptSpec_shape this page b n e
  have hm : Event.msgBox p r o ∈ (promptSpec this page b n e).2 := by
    rw [h]
    simp
  rw [hshape] at hm
  rcases List.mem_append.1 hm with hm | hm
  · rcases hpre0 _ hm with h1 | h1
    · cases h1
    · simp only [Event.msgBox.injEq] at h1
      exact h1
  · simp at hm

/-- Every dialog of the run is about the first candidate that has not been deleted,
and it offers "No to all" exactly when more than one candidate is left. -/
theorem runSpec_button (this : Nat) :
    ∀ (cands : List TabPage) (n : Nat) (env : Nat → Env), cands.length ≤ n →
      ∀ (pre post : List Event) (p : Nat) (r o : Bool),
        (runSpec this cands n env).2.2 = pre ++ Event.msgBox p r o :: post →
        (∃ c, cands[(deleted pre).length]? = some c ∧ c.id = p) ∧
          (o = true ↔ 1 < cands.length - (deleted pre).length) := by
  intro cands
  induction cands with
  | nil =>
    intro n env _ pre post p r o h
    simp [runSpec] at h
  | cons c rest ih =>
    intro n env hlen pre post p r o h
    simp only [List.length_cons] at hlen
    have hfirst : ∀ post1, (promptSpec this c (!rest.isEmpty) n (env 0)).2 =
        pre ++ Event.msgBox p r o :: post1 →
        (∃ c1, (c :: rest)[(deleted pre).length]? = some c1 ∧ c1.id = p) ∧
          (o = true ↔ 1 < (c :: rest).length - (deleted pre).length) := by
      intro post1 h1
      obtain ⟨hd, hp, _, ho⟩ := promptSpec_dialog h1
      rw [hd]
      refine ⟨⟨c, by simp, hp.symm⟩, ?_⟩
      rw [ho]
      cases rest with
      | nil => simp
      | cons a l =>
        simp only [List.length_cons] at hlen
        simp only [List.isEmpty_cons, Bool.not_false, Bool.true_and, decide_eq_true_eq,
          List.length_cons, List.length_nil, Nat.sub_zero]
        omega
    simp only [runSpec] at h
    cases hst : (promptSpec this c (!rest.isEmpty) n (env 0)).1 with
    | SAVED =>
      simp only [hst] at h
      rcases append_split h with ⟨post1, h1, _⟩ | ⟨pre1, h1, h2⟩
      · rcases append_split h1 with ⟨post2, h3, _⟩ | ⟨pre2, _, h4⟩
        · exact hfirst _ h3
        · cases pre2 with
          | nil => simp at h4
          | cons x l => simp at h4
      · obtain ⟨⟨c1, hc1, hid⟩, hiff⟩ :=
          ih (n - 1) (fun k => env (k + 1)) (by omega) pre1 post p r o h2
        have hd : (deleted pre).length = (deleted pre1).length + 1 := by
          rw [h1]
          simp only [deleted_append, deleted_promptSpec, List.nil_append, List.length_append]
          simp [deleted]
          omega
        rw [hd]
        refine ⟨⟨c1, by simpa using hc1, hid⟩, ?_⟩
        rw [hiff]
        simp only [List.length_cons]
        omega
    | UNDECIDED =>
      simp only [hst] at h
      exact hfirst _ h
    | DISCARDED =>
      simp only [hst] at h
      rcases append_split h with ⟨post1, h1, _⟩ | ⟨pre1, _, h2⟩
      · exact hfirst _ h1
      · have hm : Event.msgBox p r o ∈ (c :: rest).map (fun q => Event.deleteTabPage q.id) := by
          rw [h2]
          simp
        exact absurd hm (not_mem_deletions _ (by intro q hq; cases hq))

theorem runSpec_le (this : Nat) :
    ∀ (cands : List TabPage) (n : Nat) (env : Nat → Env),
      (runSpec this cands n env).2.1 ≤ cands.length := by
  intro cands
  induction cands with
  | nil =>
    intro n env
    simp [runSpec]
  | cons c rest ih =>
    intro n env
    simp only [runSpec]
    cases hst : (promptSpec this c (!rest.isEmpty) n (env 0)).1 with
    | SAVED =>
      have := ih (n - 1) (fun k => env (k + 1))
      simpa using this
    | UNDECIDED => simp
    | DISCARDED => simp

theorem length_deleted_runSpec (this : Nat) (cands : List TabPage) (n : Nat) (env : Nat → Env) :
    (deleted (runSpec this cands n env).2.2).length = (runSpec this cands n env).2.1 := by
  rw [runSpec_deleted, List.length_map, List.length_take]
  exact min_eq_left (runSpec_le this cands n env)

theorem candidates_eq (w : FPwin) (hs : Bool) (first last : Int) :
    w.candidates hs first last =
      segment (w.byPosition hs) (lowerEnd first) (rangeEnd w first last) := by
  unfold FPwin.candidates rangeEnd
  by_cases h : upperEnd w last ≤ lowerEnd first
  · rw [max_eq_left h, segment_self _ _ _ h, segment_self _ _ _ (le_refl _)]
  · rw [max_eq_right (by omega)]

/-- C2, counterexample. On three untitled, unmodified tabs `closeTabs (0, 2)` returns
`false` after closing the one tab between the two positions, not `last - first = 2`
tabs. -/
theorem closes_between_counterexample :
    (0 : Int) < 2 ∧ (2 : Int) ≤ threeTabs.count ∧
    threeTabs.closeTabs 0 2 (answerAll StandardButton.Cancel) =
      .ok (false, { threeTabs with pages := [{ id := 10, fileName := "", modified := false }, { id := 12, fileName := "", modified := false }] },
        [Event.pauseAutoSaving true, Event.savePrompt 11 false DOCSTATE.SAVED,
          Event.deleteTabPage 11, Event.pauseAutoSaving false]) ∧
    threeTabs.count - FPwin.count { threeTabs with pages := [{ id := 10, fileName := "", modified := false }, { id := 12, fileName := "", modified := false }] } ≠
      2 - 0 :=
  ⟨by decide, by decide, rfl, by decide⟩

/-- C2, amended. For `-1 ≤ first < last ≤ count`, `closeTabs (first, last)` either
closes exactly the `last - first - 1` tabs between the two positions and returns
`false`, or returns `true` having closed only the positions from some `m` up to
`last` (the prompt at position `m - 1` was not answered with a decision): the
positions below `m - 1` hold the same pages as before, which are still tabs of the
window. The remaining tabs keep their order. -/
theorem closeTabs_closes_between (w : FPwin) (first last : Int) (env : Nat → Env)
    (hwf : w.WellFormed) (hfirst : -1 ≤ first) (hlt : first < last) (hcount : last ≤ w.count) :
    ∃ keep w1 ev, w.closeTabs first last env = .ok (keep, w1, ev) ∧
      (w1.pages.map TabPage.id).Sublist (w.pages.map TabPage.id) ∧
      ((keep = false ∧ w1.count = w.count - (last - first - 1) ∧
          ((deleted ev).length : Int) = last - first - 1) ∨
        (keep = true ∧ ∃ m : Nat, (w.isReady = true → first + 1 < m) ∧ (m : Int) ≤ last ∧
          w1.count = w.count - (last - m) ∧
          ((deleted ev).length : Int) = last - m ∧
          (w1.byPosition w.hasSideList).take (m - 1) =
            (w.byPosition w.hasSideList).take (m - 1) ∧
          ∀ p, some p ∈ (w.byPosition w.hasSideList).take (m - 1) → p ∈ w1.pages)) := by
  by_cases hrdy : w.isReady = true
  · obtain ⟨w1, hrun, hpost⟩ := closeTabs_spec hwf hrdy hfirst (by omega) hcount env
    have hlen := length_deleted_runSpec w.id (w.candidates w.hasSideList first last)
      w.pages.length env
    have hhi : ((rangeEnd w first last : Nat) : Int) = last := by
      unfold rangeEnd upperEnd lowerEnd
      have : ¬ (last < 0) := by omega
      simp only [this, if_false]
      omega
    have hlo : ((lowerEnd first : Nat) : Int) = first + 1 := by
      unfold lowerEnd
      omega
    refine ⟨_, w1, _, hrun, hpost.2.2.2.2.1, ?_⟩
    rw [deleted_wrap, hlen]
    have hcnt := hpost.2.2.2.1
    simp only [FPwin.count]
    cases hk : (runSpec w.id (w.candidates w.hasSideList first last) w.pages.length env).1 with
    | false =>
      left
      have hd := (hpost.2.2.2.2.2.2.2.1 hk).1
      exact ⟨rfl, by omega, by omega⟩
    | true =>
      right
      obtain ⟨page, q, _, hB, _, hd, hby, _, _⟩ := hpost.2.2.2.2.2.2.2.2 hk
      have hBl := (List.getElem?_eq_some.1 hB).1
      have htake : (w1.byPosition w.hasSideList).take (rangeEnd w first last -
          (runSpec w.id (w.candidates w.hasSideList first last) w.pages.length env).2.1 - 1) =
          (w.byPosition w.hasSideList).take (rangeEnd w first last -
          (runSpec w.id (w.candidates w.hasSideList first last) w.pages.length env).2.1 - 1) := by
        rw [hby]
        apply List.take_left'
        rw [List.length_take]
        omega
      refine ⟨rfl, rangeEnd w first last -
        (runSpec w.id (w.candidates w.hasSideList first last) w.pages.length env).2.1,
        fun _ => by omega, by omega, by omega, by omega, htake, ?_⟩
      intro p hp
      rw [← htake] at hp
      exact mem_pages_of_mem_byPosition (List.mem_of_mem_take hp)
  · have hnr : w.isReady = false := by simpa using hrdy
    refine ⟨true, w, [], closeTabs_notReady hnr first last env, List.Sublist.refl _, Or.inr
      ⟨rfl, last.toNat, fun h => absurd h hrdy, by omega, by omega, ?_, rfl, ?_⟩⟩
    · simp [deleted]
      omega
    · intro p hp
      exact mem_pages_of_mem_byPosition (List.mem_of_mem_take hp)

theorem closeTabs_closes_between_witness :
    threeTabs.WellFormed ∧ (-1 : Int) ≤ 0 ∧ (0 : Int) < 2 ∧ (2 : Int) ≤ threeTabs.count ∧
    ∃ keep w1 ev, threeTabs.closeTabs 0 2 (answerAll StandardButton.Cancel) = .ok (keep, w1, ev) ∧
      (w1.pages.map TabPage.id).Sublist (threeTabs.pages.map TabPage.id) ∧
      ((keep = false ∧ w1.count = threeTabs.count - (2 - 0 - 1) ∧
          ((deleted ev).length : Int) = 2 - 0 - 1) ∨
        (keep = true ∧ ∃ m : Nat, (threeTabs.isReady = true → (0 : Int) + 1 < m) ∧
          (m : Int) ≤ 2 ∧
          w1.count = threeTabs.count - (2 - m) ∧
          ((deleted ev).length : Int) = 2 - m ∧
          (w1.byPosition threeTabs.hasSideList).take (m - 1) =
            (threeTabs.byPosition threeTabs.hasSideList).take (m - 1) ∧
          ∀ p, some p ∈ (threeTabs.byPosition threeTabs.hasSideList).take (m - 1) →
            p ∈ w1.pages)) :=
  ⟨by decide, by decide, by decide, by decide,
    closeTabs_closes_between threeTabs 0 2 (answerAll StandardButton.Cancel)
      (by decide) (by decide) (by decide) (by decide)⟩

/-- What a run of `closeTabs` that logged an event returned: the window was ready
and the run is the one of the specification. -/
theorem closeTabs_run {w : FPwin} (hwf : w.WellFormed) {first last : Int} (hfirst : -1 ≤ first)
    (hlast : -1 ≤ last) (hcount : last ≤ w.count) {env : Nat → Env} {keep : Bool} {w1 : FPwin}
    {ev : List Event} (hrun : w.closeTabs first last env = .ok (keep, w1, ev)) (hev : ev ≠ []) :
    w.isReady = true ∧
    keep = (runSpec w.id (w.candidates w.hasSideList first last) w.pages.length env).1 ∧
    ev = [Event.pauseAutoSaving true] ++
      (runSpec w.id (w.candidates w.hasSideList first last) w.pages.length env).2.2 ++
      [Event.pauseAutoSaving false] ∧
    LoopPost w.hasSideList (lowerEnd first) (rangeEnd w first last) env w w1
      (runSpec w.id (w.candidates w.hasSideList first last) w.pages.length env) := by
  by_cases hrdy : w.isReady = true
  · obtain ⟨w2, hrun2, hpost⟩ := closeTabs_spec hwf hrdy hfirst hlast hcount env
    rw [hrun2] at hrun
    simp only [Except.ok.injEq, Prod.mk.injEq] at hrun
    obtain ⟨h1, h2, h3⟩ := hrun
    subst h2
    exact ⟨hrdy, h1.symm, h3.symm, hpost⟩
  · have hnr : w.isReady = false := by simpa using hrdy
    rw [closeTabs_notReady hnr] at hrun
    simp only [Except.ok.injEq, Prod.mk.injEq] at hrun
    exact absurd hrun.2.2.symm hev

/-- C3 ("No to all" closes the rest). If `savePrompt` returns `DISCARDED` in a run
of `closeTabs (first, last)`, the rest of the run is the deletion of the page asked
about and of every candidate after it, with no further `savePrompt`; all candidates
are deleted, the positions outside the range keep their pages and `closeTabs`
returns `false`. -/
theorem no_to_all_closes_rest (w : FPwin) (first last : Int) (env : Nat → Env) (keep : Bool)
    (w1 : FPwin) (ev : List Event) (p : Nat) (b : Bool) (hwf : w.WellFormed)
    (hfirst : -1 ≤ first) (hlast : -1 ≤ last) (hcount : last ≤ w.count)
    (hrun : w.closeTabs first last env = .ok (keep, w1, ev))
    (h : Event.savePrompt p b DOCSTATE.DISCARDED ∈ ev) :
    keep = false ∧
    (∃ (m : Nat) (c : TabPage) (pre : List Event),
      (w.candidates w.hasSideList first last)[m]? = some c ∧ c.id = p ∧
      deleted pre = ((w.candidates w.hasSideList first last).take m).map TabPage.id ∧
      ev = pre ++ Event.savePrompt p b DOCSTATE.DISCARDED ::
        ((w.candidates w.hasSideList first last).drop m).map
          (fun q => Event.deleteTabPage q.id) ++ [Event.pauseAutoSaving false]) ∧
    deleted ev = (w.candidates w.hasSideList first last).map TabPage.id ∧
    w1.byPosition w.hasSideList =
      (w.byPosition w.hasSideList).take (lowerEnd first) ++
        (w.byPosition w.hasSideList).drop (rangeEnd w first last) := by
  obtain ⟨_, hk, hev, hpost⟩ := closeTabs_run hwf hfirst hlast hcount hrun
    (List.ne_nil_of_mem h)
  have hin : Event.savePrompt p b DOCSTATE.DISCARDED ∈
      (runSpec w.id (w.candidates w.hasSideList first last) w.pages.length env).2.2 := by
    rw [hev] at h
    simpa using h
  obtain ⟨hfalse, hd, m, c, pre, hc, hid, hdel, htr⟩ := runSpec_discarded _ _ _ _ _ _ hin
  refine ⟨hk.trans hfalse, ⟨m, c, [Event.pauseAutoSaving true] ++ pre, hc, hid, ?_, ?_⟩, ?_,
    (hpost.2.2.2.2.2.2.2.1 hfalse).2⟩
  · rw [deleted_append, hdel]
    simp [deleted]
  · rw [hev, htr]
    simp
  · rw [hev, deleted_wrap, runSpec_deleted, hd, List.take_length]

theorem no_to_all_closes_rest_witness :
    sampleWindow.WellFormed ∧ (-1 : Int) ≤ 0 ∧ (-1 : Int) ≤ -1 ∧ (-1 : Int) ≤ sampleWindow.count ∧
    sampleWindow.closeTabs 0 (-1) (answerAll StandardButton.NoToAll) =
      .ok (false, sampleRest, sampleDiscardTrace) ∧
    Event.savePrompt 11 true DOCSTATE.DISCARDED ∈ sampleDiscardTrace ∧
    (false = false ∧
    (∃ (m : Nat) (c : TabPage) (pre : List Event),
      (sampleWindow.candidates sampleWindow.hasSideList 0 (-1))[m]? = some c ∧ c.id = 11 ∧
      deleted pre =
        ((sampleWindow.candidates sampleWindow.hasSideList 0 (-1)).take m).map TabPage.id ∧
      sampleDiscardTrace = pre ++ Event.savePrompt 11 true DOCSTATE.DISCARDED ::
        ((sampleWindow.candidates sampleWindow.hasSideList 0 (-1)).drop m).map
          (fun q => Event.deleteTabPage q.id) ++ [Event.pauseAutoSaving false]) ∧
    deleted sampleDiscardTrace =
      (sampleWindow.candidates sampleWindow.hasSideList 0 (-1)).map TabPage.id ∧
    sampleRest.byPosition sampleWindow.hasSideList =
      (sampleWindow.byPosition sampleWindow.hasSideList).take (lowerEnd 0) ++
        (sampleWindow.byPosition sampleWindow.hasSideList).drop (rangeEnd sampleWindow 0 (-1))) :=
  ⟨by decide, by decide, by decide, by decide, rfl, by decide,
    no_to_all_closes_rest sampleWindow 0 (-1) (answerAll StandardButton.NoToAll) false sampleRest
      sampleDiscardTrace 11 true (by decide) (by decide) (by decide) (by decide) rfl
      (by decide)⟩

/-- The run over pages that are unmodified and whose files are in place: every
prompt returns `SAVED` without a dialog and every candidate is deleted. -/
theorem runSpec_clean (this : Nat) :
    ∀ (cands : List TabPage) (n : Nat) (env : Nat → Env),
      (∀ c ∈ cands, c.modified = false ∧ ∀ k, c.isRemoved (env k) = false) →
      (runSpec this cands n env).1 = false ∧ (runSpec this cands n env).2.1 = cands.length ∧
      ∀ x ∈ (runSpec this cands n env).2.2,
        (∃ p b, x = Event.savePrompt p b DOCSTATE.SAVED) ∨ ∃ p, x = Event.deleteTabPage p := by
  intro cands
  induction cands with
  | nil =>
    intro n env _
    simp [runSpec]
  | cons c rest ih =>
    intro n env hall
    obtain ⟨h1, h2, h3⟩ := ih (n - 1) (fun k => env (k + 1)) (fun a ha =>
      ⟨(hall a (List.mem_cons_of_mem _ ha)).1, fun k => (hall a (List.mem_cons_of_mem _ ha)).2 _⟩)
    obtain ⟨hm, hr⟩ := hall c (List.mem_cons_self _ _)
    have hp : promptSpec this c (!rest.isEmpty) n (env 0) =
        (DOCSTATE.SAVED, [Event.savePrompt c.id (!rest.isEmpty) DOCSTATE.SAVED]) := by
      simp [promptSpec, hm, hr 0]
    simp only [runSpec, hp]
    refine ⟨h1, by simp [h2], ?_⟩
    intro x hx
    simp only [List.cons_append, List.nil_append, List.singleton_append, List.mem_cons] at hx
    rcases hx with h4 | h4 | h4
    · exact Or.inl ⟨_, _, h4⟩
    · exact Or.inr ⟨_, h4⟩
    · exact h3 x h4

/-- C5, counterexample. The only tab is unmodified but its file has been removed:
`closeTabs (-1, -1)` shows the prompt (with the "file removed" message), the user
cancels, no tab is deleted and the result is `true`. -/
theorem close_all_unmodified_counterexample :
    oneTab.isReady = true ∧ (∀ p ∈ oneTab.pages, p.modified = false) ∧
    oneTab.closeTabs (-1) (-1) goneEnv =
      .ok (true, oneTab,
        [Event.pauseAutoSaving true, Event.msgBox 10 true false,
          Event.savePrompt 10 false DOCSTATE.UNDECIDED, Event.pauseAutoSaving false]) :=
  ⟨by decide, by decide, rfl⟩

/-- C5, amended. `closeTabs (-1, -1)` on a ready window all of whose tabs are
unmodified and are untitled or have their file in place deletes every tab, shows no
dialog and no advisory, and returns `false`. -/
theorem close_all_unmodified (w : FPwin) (env : Nat → Env) (hwf : w.WellFormed)
    (hrdy : w.isReady = true)
    (hall : ∀ p ∈ w.pages, p.modified = false ∧ ∀ k, p.isRemoved (env k) = false) :
    ∃ w1 ev, w.closeTabs (-1) (-1) env = .ok (false, w1, ev) ∧ w1.pages = [] ∧
      (deleted ev).length = w.pages.length ∧
      (∀ p ∈ w.pages, Event.deleteTabPage p.id ∈ ev) ∧
      (∀ p r o, Event.msgBox p r o ∉ ev) ∧ (∀ p, Event.warningBar p ∉ ev) := by
  obtain ⟨w1, hrun, hpost⟩ := closeTabs_spec hwf hrdy (le_refl _) (le_refl _)
    (by simp only [FPwin.count]; omega) env
  obtain ⟨hk, hd, hev⟩ := runSpec_clean w.id (w.candidates w.hasSideList (-1) (-1))
    w.pages.length env (fun c hc => hall c (mem_pages_of_mem_segment hc))
  have hcnt := hpost.2.2.2.1
  have hd2 := (hpost.2.2.2.2.2.2.2.1 hk).1
  have hhi : rangeEnd w (-1) (-1) - lowerEnd (-1) = w.pages.length := by
    simp [rangeEnd, lowerEnd, upperEnd]
  have hnil : w1.pages = [] := by
    apply List.eq_nil_of_length_eq_zero
    omega
  rw [hk] at hrun
  refine ⟨w1, _, hrun, hnil, ?_, ?_, ?_, ?_⟩
  · rw [deleted_wrap, length_deleted_runSpec, hd2, hhi]
  · intro p hp
    by_contra hno
    have hno2 : Event.deleteTabPage p.id ∉
        (runSpec w.id (w.candidates w.hasSideList (-1) (-1)) w.pages.length env).2.2 :=
      fun hin => hno (by simp [hin])
    rcases hpost.2.2.2.2.2.2.1 p hp hno2 with h1 | h1
    · rw [hnil] at h1
      simp at h1
    · rw [hk] at h1
      simp at h1
  · intro p r o hin
    have : Event.msgBox p r o ∈
        (runSpec w.id (w.candidates w.hasSideList (-1) (-1)) w.pages.length env).2.2 := by
      simpa using hin
    rcases hev _ this with ⟨_, _, h1⟩ | ⟨_, h1⟩ <;> cases h1
  · intro p hin
    have : Event.warningBar p ∈
        (runSpec w.id (w.candidates w.hasSideList (-1) (-1)) w.pages.length env).2.2 := by
      simpa using hin
    rcases hev _ this with ⟨_, _, h1⟩ | ⟨_, h1⟩ <;> cases h1

theorem close_all_unmodified_witness :
    threeTabs.WellFormed ∧ threeTabs.isReady = true ∧
    (∀ p ∈ threeTabs.pages,
      p.modified = false ∧ ∀ k, p.isRemoved (answerAll StandardButton.Cancel k) = false) ∧
    ∃ w1 ev, threeTabs.closeTabs (-1) (-1) (answerAll StandardButton.Cancel) = .ok (false, w1, ev) ∧
      w1.pages = [] ∧ (deleted ev).length = threeTabs.pages.length ∧
      (∀ p ∈ threeTabs.pages, Event.deleteTabPage p.id ∈ ev) ∧
      (∀ p r o, Event.msgBox p r o ∉ ev) ∧ (∀ p, Event.warningBar p ∉ ev) :=
  ⟨by decide, by decide, by simp [threeTabs, TabPage.isRemoved, answerAll],
    close_all_unmodified threeTabs (answerAll StandardButton.Cancel) (by decide) (by decide)
      (by simp [threeTabs, TabPage.isRemoved, answerAll])⟩

theorem savePrompt_clean {w : FPwin} {i : Int} {page : TabPage} (h : w.widget i = some page)
    (b : Bool) (e : Env) (hneed : (page.modified || page.isRemoved e) = false) :
    w.savePrompt i b e = .ok (DOCSTATE.SAVED, w, [Event.savePrompt page.id b DOCSTATE.SAVED]) := by
  unfold FPwin.savePrompt
  simp only [h, hneed, Bool.false_eq_true, if_false]

theorem savePrompt_blocked {w : FPwin} {i : Int} {page : TabPage} (h : w.widget i = some page)
    (b : Bool) (e : Env) (hneed : (page.modified || page.isRemoved e) = true)
    (hd : hasAnotherDialog w.id e.wins = true) :
    w.savePrompt i b e = .ok (DOCSTATE.UNDECIDED, w,
      [Event.warningBar page.id, Event.savePrompt page.id b DOCSTATE.UNDECIDED]) := by
  unfold FPwin.savePrompt
  simp only [h, hneed, hd, if_true]

/-- The prompt that is shown: its dialog, and the state it returns according to the
button the user clicks and to whether `saveFile` succeeds. -/
theorem savePrompt_shown {w : FPwin} {i : Int} {page : TabPage} (h : w.widget i = some page)
    (b : Bool) (e : Env) (hneed : (page.modified || page.isRemoved e) = true)
    (hd : hasAnotherDialog w.id e.wins = false) :
    ∃ (st : DOCSTATE) (w1 : FPwin),
      w.savePrompt i b e = .ok (st, w1,
        [Event.msgBox page.id (page.isRemoved e) (b && decide ((w.attend i page).count > 1)),
          Event.savePrompt page.id b st]) ∧
      ((st = DOCSTATE.SAVED ∧
          ((e.exec (b && decide ((w.attend i page).count > 1)) = StandardButton.Save ∧
              ((w.attend i page).saveFile e.save).1 = true) ∨
            e.exec (b && decide ((w.attend i page).count > 1)) = StandardButton.Discard)) ∨
        (st = DOCSTATE.UNDECIDED ∧
          (e.exec (b && decide ((w.attend i page).count > 1)) = StandardButton.Cancel ∨
            (e.exec (b && decide ((w.attend i page).count > 1)) = StandardButton.Save ∧
              ((w.attend i page).saveFile e.save).1 = false))) ∨
        (st = DOCSTATE.DISCARDED ∧
          e.exec (b && decide ((w.attend i page).count > 1)) = StandardButton.NoToAll)) := by
  unfold FPwin.savePrompt
  simp only [h, hneed, hd, if_true, Bool.false_eq_true, if_false]
  cases hx : e.exec (b && decide ((w.attend i page).count > 1)) with
  | Save =>
    cases hs : ((w.attend i page).saveFile e.save).1 with
    | false => exact ⟨DOCSTATE.UNDECIDED, ((w.attend i page).saveFile e.save).2.1, by simp [hs], by simp⟩
    | true => exact ⟨DOCSTATE.SAVED, ((w.attend i page).saveFile e.save).2.1, by simp [hs], by simp⟩
  | Discard => exact ⟨DOCSTATE.SAVED, _, rfl, by simp⟩
  | Cancel => exact ⟨DOCSTATE.UNDECIDED, _, rfl, by simp⟩
  | NoToAll => exact ⟨DOCSTATE.DISCARDED, _, rfl, by simp⟩

/-- C6, counterexample. The tab is unmodified and its file has been removed, but
another window shows a modal dialog: `savePrompt` shows the advisory only, no prompt,
and returns `UNDECIDED`. -/
theorem removed_file_prompt_counterexample :
    oneTab.widget 0 = some { id := 10, fileName := "/home/u/gone.txt", modified := false } ∧
    TabPage.isRemoved { id := 10, fileName := "/home/u/gone.txt", modified := false } blockedEnv = true ∧
    oneTab.savePrompt 0 false blockedEnv =
      .ok (DOCSTATE.UNDECIDED, oneTab,
        [Event.warningBar 10, Event.savePrompt 10 false DOCSTATE.UNDECIDED]) ∧
    ∀ r o, Event.msgBox 10 r o ∉
      [Event.warningBar 10, Event.savePrompt 10 false DOCSTATE.UNDECIDED] :=
  ⟨by decide, by decide, rfl, by decide⟩

/-- C6, amended. A page is removed when it has a file name and that path does not
exist or is not a regular file. For such a page, modified or not, `savePrompt` shows
the prompt with the "file removed" message, unless another window shows a modal
dialog: then it shows the advisory only and returns `UNDECIDED`. It returns `SAVED`
without prompt or advisory exactly when the document is unmodified and the page is
not removed. -/
theorem removed_file_prompt (w : FPwin) (tabIndex : Int) (noToAll : Bool) (e : Env)
    (page : TabPage) (hw : w.widget tabIndex = some page) :
    ∃ st w1 ev, w.savePrompt tabIndex noToAll e = .ok (st, w1, ev) ∧
      (page.isRemoved e = true ↔
        (page.fileName.isEmpty = false ∧ (e.fileExists = false ∨ e.isFile = false))) ∧
      (page.isRemoved e = true → hasAnotherDialog w.id e.wins = false →
        (∃ o, Event.msgBox page.id true o ∈ ev) ∧ ∀ p o, Event.msgBox p false o ∉ ev) ∧
      (page.isRemoved e = true → hasAnotherDialog w.id e.wins = true →
        st = DOCSTATE.UNDECIDED ∧ Event.warningBar page.id ∈ ev ∧
          ∀ p r o, Event.msgBox p r o ∉ ev) ∧
      ((st = DOCSTATE.SAVED ∧ (∀ p r o, Event.msgBox p r o ∉ ev) ∧
          ∀ p, Event.warningBar p ∉ ev) ↔
        (page.modified = false ∧ page.isRemoved e = false)) := by
  have hrem : page.isRemoved e = true ↔
      (page.fileName.isEmpty = false ∧ (e.fileExists = false ∨ e.isFile = false)) := by
    simp [TabPage.isRemoved]
  by_cases hneed : (page.modified || page.isRemoved e) = true
  · have hnot : ¬ (page.modified = false ∧ page.isRemoved e = false) := by
      intro h
      rw [h.1, h.2] at hneed
      simp at hneed
    by_cases hd : hasAnotherDialog w.id e.wins = true
    · refine ⟨_, _, _, savePrompt_blocked hw noToAll e hneed hd, hrem, ?_, ?_, ?_⟩
      · intro _ h
        rw [hd] at h
        cases h
      · intro _ _
        simp
      · simp [hnot]
    · have hd1 : hasAnotherDialog w.id e.wins = false := by simpa using hd
      obtain ⟨st, w1, hrun, _⟩ := savePrompt_shown hw noToAll e hneed hd1
      refine ⟨_, _, _, hrun, hrem, ?_, ?_, ?_⟩
      · intro hr _
        rw [hr]
        simp
      · intro _ h
        rw [hd1] at h
        cases h
      · constructor
        · rintro ⟨_, hno, _⟩
          exact absurd (List.mem_cons_self _ _) (hno _ _ _)
        · intro h
          exact absurd h hnot
  · have hneed1 : (page.modified || page.isRemoved e) = false := by simpa using hneed
    refine ⟨_, _, _, savePrompt_clean hw noToAll e hneed1, hrem, ?_, ?_, ?_⟩
    · intro hr
      rw [hr] at hneed1
      simp at hneed1
    · intro hr
      rw [hr] at hneed1
      simp at hneed1
    · have : page.modified = false ∧ page.isRemoved e = false := by
        simpa using hneed1
      simp [this]

theorem removed_file_prompt_witness :
    oneTab.widget 0 = some { id := 10, fileName := "/home/u/gone.txt", modified := false } ∧
    ∃ st w1 ev, oneTab.savePrompt 0 false (goneEnv 0) = .ok (st, w1, ev) ∧
      (TabPage.isRemoved { id := 10, fileName := "/home/u/gone.txt", modified := false } (goneEnv 0) = true ↔
        (("/home/u/gone.txt" : String).isEmpty = false ∧
          ((goneEnv 0).fileExists = false ∨ (goneEnv 0).isFile = false))) ∧
      (TabPage.isRemoved { id := 10, fileName := "/home/u/gone.txt", modified := false } (goneEnv 0) = true →
        hasAnotherDialog oneTab.id (goneEnv 0).wins = false →
        (∃ o, Event.msgBox 10 true o ∈ ev) ∧ ∀ p o, Event.msgBox p false o ∉ ev) ∧
      (TabPage.isRemoved { id := 10, fileName := "/home/u/gone.txt", modified := false } (goneEnv 0) = true →
        hasAnotherDialog oneTab.id (goneEnv 0).wins = true →
        st = DOCSTATE.UNDECIDED ∧ Event.warningBar 10 ∈ ev ∧
          ∀ p r o, Event.msgBox p r o ∉ ev) ∧
      ((st = DOCSTATE.SAVED ∧ (∀ p r o, Event.msgBox p r o ∉ ev) ∧
          ∀ p, Event.warningBar p ∉ ev) ↔
        ((false : Bool) = false ∧
          TabPage.isRemoved { id := 10, fileName := "/home/u/gone.txt", modified := false } (goneEnv 0) = false)) :=
  ⟨by decide,
    removed_file_prompt oneTab 0 false (goneEnv 0) { id := 10, fileName := "/home/u/gone.txt", modified := false } (by decide)⟩

/-- C7 (the states of the prompt). For a page that needs a prompt, `savePrompt`
returns a state: `SAVED` iff the dialog was shown and the user chose Save and
`saveFile` succeeded, or chose Discard; `UNDECIDED` iff another window shows a modal
dialog, or the user chose Cancel, or chose Save and `saveFile` failed; `DISCARDED`
iff the dialog was shown and the user chose "No to all". When another window shows a
modal dialog only the advisory is shown, otherwise the dialog is. -/
theorem savePrompt_states (w : FPwin) (tabIndex : Int) (noToAll : Bool) (e : Env)
    (page : TabPage) (hw : w.widget tabIndex = some page)
    (hneed : (page.modified || page.isRemoved e) = true) :
    ∃ st w1 ev, w.savePrompt tabIndex noToAll e = .ok (st, w1, ev) ∧
      (st = DOCSTATE.SAVED ↔ hasAnotherDialog w.id e.wins = false ∧
        ((e.exec (noToAll && decide ((w.attend tabIndex page).count > 1)) =
              StandardButton.Save ∧
            ((w.attend tabIndex page).saveFile e.save).1 = true) ∨
          e.exec (noToAll && decide ((w.attend tabIndex page).count > 1)) =
            StandardButton.Discard)) ∧
      (st = DOCSTATE.UNDECIDED ↔ hasAnotherDialog w.id e.wins = true ∨
        e.exec (noToAll && decide ((w.attend tabIndex page).count > 1)) =
          StandardButton.Cancel ∨
        (e.exec (noToAll && decide ((w.attend tabIndex page).count > 1)) =
            StandardButton.Save ∧
          ((w.attend tabIndex page).saveFile e.save).1 = false)) ∧
      (st = DOCSTATE.DISCARDED ↔ hasAnotherDialog w.id e.wins = false ∧
        e.exec (noToAll && decide ((w.attend tabIndex page).count > 1)) =
          StandardButton.NoToAll) ∧
      (hasAnotherDialog w.id e.wins = true →
        ev = [Event.warningBar page.id, Event.savePrompt page.id noToAll st]) ∧
      (hasAnotherDialog w.id e.wins = false →
        ev = [Event.msgBox page.id (page.isRemoved e)
            (noToAll && decide ((w.attend tabIndex page).count > 1)),
          Event.savePrompt page.id noToAll st]) := by
  by_cases hd : hasAnotherDialog w.id e.wins = true
  · refine ⟨_, _, _, savePrompt_blocked hw noToAll e hneed hd, ?_⟩
    simp [hd]
  · have hd1 : hasAnotherDialog w.id e.wins = false := by simpa using hd
    obtain ⟨st, w1, hrun, hst⟩ := savePrompt_shown hw noToAll e hneed hd1
    refine ⟨_, _, _, hrun, ?_⟩
    rcases hst with ⟨h1, h2 | h2⟩ | ⟨h1, h2 | h2⟩ | ⟨h1, h2⟩
    · simp [h1, hd1, h2.1, h2.2]
    · simp [h1, hd1, h2]
    · simp [h1, hd1, h2]
    · simp [h1, hd1, h2.1, h2.2]
    · simp [h1, hd1, h2]

theorem savePrompt_states_witness :
    twoTabs.widget 1 = some { id := 11, fileName := "/home/u/notes.txt", modified := true } ∧
    ((true : Bool) ||
      TabPage.isRemoved { id := 11, fileName := "/home/u/notes.txt", modified := true } (answerAll StandardButton.Save 0)) = true ∧
    ∃ st w1 ev, twoTabs.savePrompt 1 true (answerAll StandardButton.Save 0) = .ok (st, w1, ev) ∧
      st = DOCSTATE.SAVED ∧ Event.savePrompt 11 true DOCSTATE.SAVED ∈ ev :=
  ⟨by decide, by decide, by
    obtain ⟨st, w1, ev, hrun, hsaved, _, _, _, hev⟩ :=
      savePrompt_states twoTabs 1 true (answerAll StandardButton.Save 0)
        { id := 11, fileName := "/home/u/notes.txt", modified := true } (by decide) (by decide)
    have hst : st = DOCSTATE.SAVED := hsaved.2 ⟨by decide, Or.inl ⟨by decide, by decide⟩⟩
    refine ⟨st, w1, ev, hrun, hst, ?_⟩
    rw [hev (by decide), hst]
    simp⟩

theorem wrap_split {a z x : Event} {mid pre post : List Event} (ha : x ≠ a) (hz : x ≠ z)
    (h : [a] ++ mid ++ [z] = pre ++ x :: post) :
    ∃ pre1 post1, pre = a :: pre1 ∧ mid = pre1 ++ x :: post1 ∧ post = post1 ++ [z] := by
  cases pre with
  | nil =>
    simp only [List.singleton_append, List.cons_append, List.nil_append, List.cons.injEq] at h
    exact absurd h.1.symm ha
  | cons y pre1 =>
    simp only [List.singleton_append, List.cons_append, List.cons.injEq] at h
    obtain ⟨hy, h⟩ := h
    rcases append_split h with ⟨post1, h1, h2⟩ | ⟨pre2, _, h2⟩
    · exact ⟨pre1, post1, by rw [hy], h1, h2⟩
    · cases pre2 with
      | nil =>
        simp only [List.nil_append, List.cons.injEq] at h2
        exact absurd h2.1.symm hz
      | cons u l => simp at h2

theorem candidates_length_le {w : FPwin} (hwf : w.WellFormed) (first last : Int) :
    (w.candidates w.hasSideList first last).length ≤ w.pages.length := by
  have hlen : (w.byPosition w.hasSideList).length = w.pages.length := by
    cases hs : w.hasSideList with
    | false => simp [FPwin.byPosition]
    | true =>
      apply byPosition_length hwf
      simp only [FPwin.hasSideList, Bool.and_eq_true] at hs
      exact hs.1.symm
  unfold FPwin.candidates segment
  refine le_trans (List.reduceOption_length_le _) ?_
  rw [List.length_reverse, List.length_drop, List.length_take, hlen]
  omega

theorem singleTrace_button {page : Nat} {isRemoved : Bool} {st : DOCSTATE} {pre : List Event}
    {e : Env}
    (hpre : ∀ x ∈ pre, x = Event.warningBar page ∨ x = Event.msgBox page isRemoved false)
    (hdis : st = DOCSTATE.DISCARDED → e.exec false = StandardButton.NoToAll)
    (hoffer : e.exec false ≠ StandardButton.NoToAll) :
    (∀ p r o, Event.msgBox p r o ∈ singleTrace page st pre → o = false) ∧
    (∀ p b s, Event.savePrompt p b s ∈ singleTrace page st pre → b = false) ∧
    ∀ p b, Event.savePrompt p b DOCSTATE.DISCARDED ∉ singleTrace page st pre := by
  have hst : st ≠ DOCSTATE.DISCARDED := fun h => hoffer (hdis h)
  have hsp : ∀ p b s, Event.savePrompt p b s ∈ singleTrace page st pre → b = false ∧ s = st := by
    intro p b s h
    unfold singleTrace at h
    simp only [List.mem_append, List.mem_singleton, reduceCtorEq, false_or, or_false,
      Event.savePrompt.injEq] at h
    rcases h with (h | h) | h
    · rcases hpre _ h with h1 | h1 <;> cases h1
    · exact ⟨h.2.1, h.2.2⟩
    · split at h <;> simp at h
  refine ⟨?_, fun p b s h => (hsp p b s h).1, fun p b h => hst (hsp p b _ h).2.symm⟩
  intro p r o h
  unfold singleTrace at h
  simp only [List.mem_append, List.mem_singleton, reduceCtorEq, false_or, or_false] at h
  rcases h with h | h
  · rcases hpre _ h with h1 | h1
    · cases h1
    · simp only [Event.msgBox.injEq] at h1
      exact h1.2.2
  · split at h <;> simp at h

/-- C8 (when "No to all" is offered). Every dialog of a run of `closeTabs` is about
the rightmost candidate that has not been deleted, and it offers "No to all" iff more
than one candidate has not been deleted yet. `closeTabAtIndex` and `closeTab` call
`savePrompt` without "No to all", their dialog does not offer the button and, as a
dialog returns only a button it has, `savePrompt` never returns `DISCARDED` to
them. -/
theorem no_to_all_offered (w : FPwin) (first last index : Int) (env : Nat → Env) (e : Env)
    (page target : TabPage) (hwf : w.WellFormed) (hfirst : -1 ≤ first) (hlast : -1 ≤ last)
    (hcount : last ≤ w.count) (hindex : w.widget index = some page)
    (htarget : w.widget w.closeTabIndex = some target ∨
      (w.closesItem = false ∧ w.closeTabIndex = -1))
    (hoffer : e.exec false ≠ StandardButton.NoToAll) :
    (∃ keep w1 ev, w.closeTabs first last env = .ok (keep, w1, ev) ∧
      ∀ pre post p r o, ev = pre ++ Event.msgBox p r o :: post →
        (∃ c, (w.candidates w.hasSideList first last)[(deleted pre).length]? = some c ∧
          c.id = p) ∧
        (o = true ↔
          1 < (w.candidates w.hasSideList first last).length - (deleted pre).length)) ∧
    (∃ w1 ev, w.closeTabAtIndex index e = .ok (w1, ev) ∧
      (∀ p r o, Event.msgBox p r o ∈ ev → o = false) ∧
      (∀ p b s, Event.savePrompt p b s ∈ ev → b = false) ∧
      ∀ p b, Event.savePrompt p b DOCSTATE.DISCARDED ∉ ev) ∧
    (∃ w1 ev, w.closeTab e = .ok (w1, ev) ∧
      (∀ p r o, Event.msgBox p r o ∈ ev → o = false) ∧
      (∀ p b s, Event.savePrompt p b s ∈ ev → b = false) ∧
      ∀ p b, Event.savePrompt p b DOCSTATE.DISCARDED ∉ ev) := by
  refine ⟨?_, ?_, ?_⟩
  · cases hrdy : w.isReady with
    | false =>
      refine ⟨true, w, [], closeTabs_notReady hrdy _ _ _, ?_⟩
      intro pre post p r o h
      simp at h
    | true =>
      obtain ⟨w1, hrun, _⟩ := closeTabs_spec hwf hrdy hfirst hlast hcount env
      refine ⟨_, w1, _, hrun, ?_⟩
      intro pre post p r o h
      obtain ⟨pre1, post1, h1, h2, _⟩ := wrap_split (by simp) (by simp) h
      have hd : deleted pre = deleted pre1 := by
        rw [h1]
        simp [deleted]
      rw [hd]
      exact runSpec_button w.id _ _ env (candidates_length_le hwf first last) pre1 post1 p r o h2
  · obtain ⟨w1, st, pre, hrun, hpre, hdis, _, _⟩ := closeTabAtIndex_trace hindex e
    exact ⟨w1, _, hrun, singleTrace_button hpre hdis hoffer⟩
  · cases hrdy : w.isReady with
    | false =>
      exact ⟨w, [], by simp [FPwin.closeTab, hrdy], by simp⟩
    | true =>
      rcases htarget with htarget | ⟨h1, h2⟩
      · obtain ⟨w1, st, pre, hrun, hpre, hdis, _, _⟩ := closeTab_trace hrdy htarget e
        exact ⟨w1, _, hrun, singleTrace_button hpre hdis hoffer⟩
      · exact ⟨w, [Event.pauseAutoSaving true, Event.pauseAutoSaving false],
          by simp [FPwin.closeTab, hrdy, h1, h2], by simp⟩

theorem no_to_all_offered_witness :
    sampleWindow.WellFormed ∧ (-1 : Int) ≤ -1 ∧ (-1 : Int) ≤ sampleWindow.count ∧
    sampleWindow.widget 1 = some { id := 11, fileName := "/home/u/notes.txt", modified := true } ∧
    sampleWindow.widget sampleWindow.closeTabIndex = some { id := 10, fileName := "", modified := false } ∧
    (answerAll StandardButton.Cancel 0).exec false ≠ StandardButton.NoToAll ∧
    (∃ keep w1 ev, sampleWindow.closeTabs (-1) (-1) (answerAll StandardButton.Cancel) =
        .ok (keep, w1, ev) ∧
      ∀ pre post p r o, ev = pre ++ Event.msgBox p r o :: post →
        (∃ c, (sampleWindow.candidates sampleWindow.hasSideList (-1) (-1))[(deleted pre).length]? =
            some c ∧ c.id = p) ∧
        (o = true ↔
          1 < (sampleWindow.candidates sampleWindow.hasSideList (-1) (-1)).length -
            (deleted pre).length)) ∧
    (∃ w1 ev, sampleWindow.closeTabAtIndex 1 (answerAll StandardButton.Cancel 0) = .ok (w1, ev) ∧
      (∀ p r o, Event.msgBox p r o ∈ ev → o = false) ∧
      (∀ p b s, Event.savePrompt p b s ∈ ev → b = false) ∧
      ∀ p b, Event.savePrompt p b DOCSTATE.DISCARDED ∉ ev) ∧
    (∃ w1 ev, sampleWindow.closeTab (answerAll StandardButton.Cancel 0) = .ok (w1, ev) ∧
      (∀ p r o, Event.msgBox p r o ∈ ev → o = false) ∧
      (∀ p b s, Event.savePrompt p b s ∈ ev → b = false) ∧
      ∀ p b, Event.savePrompt p b DOCSTATE.DISCARDED ∉ ev) :=
  ⟨by decide, by decide, by decide, by decide, by decide, by decide,
    no_to_all_offered sampleWindow (-1) (-1) 1 (answerAll StandardButton.Cancel)
      (answerAll StandardButton.Cancel 0) { id := 11, fileName := "/home/u/notes.txt", modified := true } { id := 10, fileName := "", modified := false }
      (by decide) (by decide) (by decide) (by decide) (by decide) (Or.inl (by decide))
      (by decide)⟩

theorem reduceOption_map_some {α : Type} (l : List α) : (l.map some).reduceOption = l := by
  induction l with
  | nil => rfl
  | cons a l ih => simp [List.reduceOption_cons_of_some, ih]

theorem map_some_reduceOption {α : Type} (B : List (Option α))
    (h : ∀ x ∈ B, ∃ p, x = some p) : B.reduceOption.map some = B := by
  induction B with
  | nil => rfl
  | cons a B ih =>
    obtain ⟨p, hp⟩ := h a (List.mem_cons_self _ _)
    subst hp
    rw [List.reduceOption_cons_of_some, List.map_cons,
      ih (fun x hx => h x (List.mem_cons_of_mem _ hx))]

/-- In a well-formed window every position holds a page. -/
theorem byPosition_eq_map {w : FPwin} (hwf : w.WellFormed) :
    ∃ L : List TabPage, w.byPosition w.hasSideList = L.map some ∧ L.length = w.pages.length := by
  cases hs : w.hasSideList with
  | false => exact ⟨w.pages, by simp [FPwin.byPosition], rfl⟩
  | true =>
    have hsp : true = w.sidePane_ := by
      simp only [FPwin.hasSideList, Bool.and_eq_true] at hs
      exact hs.1.symm
    have hlen := byPosition_length hwf hsp
    have hall : ∀ x ∈ w.byPosition true, ∃ p, x = some p := by
      intro x hx
      obtain ⟨j, hj⟩ := List.mem_iff_getElem?.1 hx
      have hjl : j < w.pages.length := by
        rw [← hlen]
        exact (List.getElem?_eq_some.1 hj).1
      obtain ⟨_, page, _, _, hB⟩ := position_spec hwf hsp hjl
      rw [hB] at hj
      exact ⟨page, (Option.some.inj hj).symm⟩
    have hmap := map_some_reduceOption _ hall
    refine ⟨(w.byPosition true).reduceOption, hmap.symm, ?_⟩
    rw [← hlen]
    conv_rhs => rw [← hmap]
    simp

theorem segment_map_some (L : List TabPage) (lo hi : Nat) :
    segment (L.map some) lo hi = ((L.take hi).drop lo).reverse := by
  unfold segment
  rw [← List.map_take, ← List.map_drop, ← List.map_reverse, reduceOption_map_some]

/-- The candidates are the pages of the positions of the range, from the upper end
down: candidate `i` is the page of position `rangeEnd - 1 - i`. -/
theorem candidate_position {w : FPwin} (hwf : w.WellFormed) {first last : Int}
    (hcount : last ≤ w.count) {i : Nat} {c : TabPage}
    (h : (w.candidates w.hasSideList first last)[i]? = some c) :
    lowerEnd first + i < rangeEnd w first last ∧
      (w.byPosition w.hasSideList)[rangeEnd w first last - 1 - i]? = some (some c) := by
  obtain ⟨L, hL, hlen⟩ := byPosition_eq_map hwf
  rw [candidates_eq, hL, segment_map_some] at h
  have hup : rangeEnd w first last ≤ L.length ∨ rangeEnd w first last = lowerEnd first := by
    unfold rangeEnd upperEnd
    simp only [FPwin.count] at hcount
    split <;> omega
  have hi : i < ((L.take (rangeEnd w first last)).drop (lowerEnd first)).reverse.length :=
    (List.getElem?_eq_some.1 h).1
  have hi2 := hi
  rw [List.length_reverse, List.length_drop, List.length_take] at hi2
  rw [List.length_reverse] at hi
  rw [List.getElem?_reverse hi, List.getElem?_drop, List.length_drop, List.length_take] at h
  have hidx : lowerEnd first + (min (rangeEnd w first last) L.length - lowerEnd first - 1 - i) =
      rangeEnd w first last - 1 - i := by omega
  rw [hidx, List.getElem?_take_of_lt (by omega)] at h
  refine ⟨by omega, ?_⟩
  rw [hL, List.getElem?_map, h]
  rfl

/-- In a well-formed window no page is at two positions. -/
theorem byPosition_nodup {w : FPwin} (hwf : w.WellFormed) :
    (w.byPosition w.hasSideList).Nodup := by
  cases hs : w.hasSideList with
  | false =>
    simp only [FPwin.byPosition, Bool.false_eq_true, if_false]
    exact (List.Nodup.of_map TabPage.id hwf.1).map (Option.some_injective _)
  | true =>
    have hsp : w.sidePane_ = true := by
      simp only [FPwin.hasSideList, Bool.and_eq_true] at hs
      exact hs.1
    have hm := hwf.2 hsp
    simp only [FPwin.byPosition, if_true]
    have hslot : ∀ x ∈ w.items, ∃ pq : TabPage, (x, pq.id) ∈ w.sideItems_ ∧
        w.widget (w.indexOf (hashValue w.sideItems_ (some x))) = some pq := by
      intro x hx
      obtain ⟨v, hxv, hv⟩ := hm.page_of_item hx
      obtain ⟨pq, hpq, hid⟩ := List.mem_map.1 hv
      obtain ⟨c, hc, hcv⟩ := List.getElem_of_mem hpq
      have hc1 : w.pages[c]? = some pq := by rw [List.getElem?_eq_getElem hc, hcv]
      refine ⟨pq, by rw [hid]; exact hxv, ?_⟩
      exact (slot_eq hwf.1 (lookup_of_mem hm.2.1 hxv) hc1 hid).2
    apply List.Nodup.map_on _ hm.1
    intro x hx y hy hxy
    obtain ⟨p1, hp1, hf1⟩ := hslot x hx
    obtain ⟨p2, hp2, hf2⟩ := hslot y hy
    rw [hf1, hf2] at hxy
    have : p1 = p2 := Option.some.inj hxy
    subst this
    exact key_unique hm.2.2.1 hp1 hp2

theorem mem_deleted {ev : List Event} {p : Nat} :
    p ∈ deleted ev ↔ Event.deleteTabPage p ∈ ev := by
  unfold deleted
  rw [List.mem_filterMap]
  constructor
  · rintro ⟨e, he, h⟩
    cases e <;> simp at h
    subst h
    exact he
  · intro h
    exact ⟨_, h, rfl⟩

theorem getElem?_take_map {α β : Type} {l : List α} {m i : Nat} {f : α → β} {x : β}
    (h : ((l.take m).map f)[i]? = some x) : ∃ c, l[i]? = some c ∧ f c = x := by
  rw [List.getElem?_map, List.getElem?_take] at h
  split at h
  · cases hc : l[i]? with
    | none => rw [hc] at h; simp at h
    | some c =>
      rw [hc] at h
      exact ⟨c, rfl, by simpa using h⟩
  · simp at h

theorem three_split {α : Type} (B : List α) {lo hi : Nat} (h : lo ≤ hi) :
    B = B.take lo ++ (B.take hi).drop lo ++ B.drop hi := by
  have h1 : (B.take hi).take lo = B.take lo := by
    rw [List.take_take, min_eq_left h]
  rw [← h1, List.take_append_drop, List.take_append_drop]

/-- C9 (downward, inside the range). `closeTabs (first, last)` returns; its `i`-th
prompt and its `i`-th deletion are about the page of position `rangeEnd - 1 - i`, the
positions of the range from its upper end down. A page of a position `≤ first` or,
when `last ≥ 0`, `≥ last` is never deleted and is still a tab afterwards; these
positions hold the same pages in the same order, below and above what is left of the
range, and the remaining tabs keep their order. -/
theorem closes_downward (w : FPwin) (first last : Int) (env : Nat → Env) (hwf : w.WellFormed)
    (hfirst : -1 ≤ first) (hlast : -1 ≤ last) (hcount : last ≤ w.count) :
    ∃ keep w1 ev, w.closeTabs first last env = .ok (keep, w1, ev) ∧
      (∀ i x, (prompted ev)[i]? = some x → ∃ c : TabPage, c.id = x ∧
        lowerEnd first + i < rangeEnd w first last ∧
        (w.byPosition w.hasSideList)[rangeEnd w first last - 1 - i]? = some (some c)) ∧
      (∀ i x, (deleted ev)[i]? = some x → ∃ c : TabPage, c.id = x ∧
        lowerEnd first + i < rangeEnd w first last ∧
        (w.byPosition w.hasSideList)[rangeEnd w first last - 1 - i]? = some (some c)) ∧
      (∀ (j : Nat) (p : TabPage), (w.byPosition w.hasSideList)[j]? = some (some p) →
        ((j : Int) ≤ first ∨ (0 ≤ last ∧ last ≤ (j : Int))) →
        p ∈ w1.pages ∧ Event.deleteTabPage p.id ∉ ev) ∧
      (∃ mid, w1.byPosition w.hasSideList =
        (w.byPosition w.hasSideList).take (lowerEnd first) ++ mid ++
          (w.byPosition w.hasSideList).drop (rangeEnd w first last)) ∧
      (w1.pages.map TabPage.id).Sublist (w.pages.map TabPage.id) := by
  have hle : lowerEnd first ≤ rangeEnd w first last := le_max_left _ _
  have hmain : ∃ keep w1 ev, w.closeTabs first last env = .ok (keep, w1, ev) ∧
      (∃ m, prompted ev = ((w.candidates w.hasSideList first last).take m).map TabPage.id) ∧
      (∃ d, deleted ev = ((w.candidates w.hasSideList first last).take d).map TabPage.id) ∧
      (∃ mid, w1.byPosition w.hasSideList =
        (w.byPosition w.hasSideList).take (lowerEnd first) ++ mid ++
          (w.byPosition w.hasSideList).drop (rangeEnd w first last)) ∧
      (w1.pages.map TabPage.id).Sublist (w.pages.map TabPage.id) := by
    cases hrdy : w.isReady with
    | false =>
      exact ⟨true, w, [], closeTabs_notReady hrdy _ _ _, ⟨0, rfl⟩, ⟨0, rfl⟩,
        ⟨_, three_split _ hle⟩, List.Sublist.refl _⟩
    | true =>
      obtain ⟨w1, hrun, hpost⟩ := closeTabs_spec hwf hrdy hfirst hlast hcount env
      obtain ⟨m, _, hm⟩ := runSpec_prompted w.id (w.candidates w.hasSideList first last)
        w.pages.length env
      refine ⟨_, w1, _, hrun, ⟨m, by rw [prompted_wrap, hm]⟩,
        ⟨_, by rw [deleted_wrap, runSpec_deleted]⟩, ?_, hpost.2.2.2.2.1⟩
      cases hk : (runSpec w.id (w.candidates w.hasSideList first last) w.pages.length env).1 with
      | false =>
        exact ⟨[], by rw [(hpost.2.2.2.2.2.2.2.1 hk).2]; simp⟩
      | true =>
        obtain ⟨page, q, _, _, _, hd, hby, _, _⟩ := hpost.2.2.2.2.2.2.2.2 hk
        refine ⟨((w.byPosition w.hasSideList).take (rangeEnd w first last -
          (runSpec w.id (w.candidates w.hasSideList first last) w.pages.length env).2.1 -
            1)).drop (lowerEnd first) ++ [some q], ?_⟩
        rw [hby]
        have h1 : ((w.byPosition w.hasSideList).take (rangeEnd w first last -
            (runSpec w.id (w.candidates w.hasSideList first last) w.pages.length env).2.1 -
              1)).take (lowerEnd first) = (w.byPosition w.hasSideList).take (lowerEnd first) := by
          rw [List.take_take, min_eq_left (by omega)]
        rw [← h1]
        simp only [List.append_assoc, List.singleton_append]
        rw [← List.append_assoc, List.take_append_drop]
  obtain ⟨keep, w1, ev, hrun, ⟨m, hm⟩, ⟨d, hd⟩, ⟨mid, hmid⟩, hsub⟩ := hmain
  refine ⟨keep, w1, ev, hrun, ?_, ?_, ?_, ⟨mid, hmid⟩, hsub⟩
  · intro i x h
    rw [hm] at h
    obtain ⟨c, hc, hid⟩ := getElem?_take_map h
    obtain ⟨h1, h2⟩ := candidate_position hwf hcount hc
    exact ⟨c, hid, h1, h2⟩
  · intro i x h
    rw [hd] at h
    obtain ⟨c, hc, hid⟩ := getElem?_take_map h
    obtain ⟨h1, h2⟩ := candidate_position hwf hcount hc
    exact ⟨c, hid, h1, h2⟩
  · intro j p hj hout
    have hout2 : j < lowerEnd first ∨ rangeEnd w first last ≤ j := by
      unfold rangeEnd upperEnd lowerEnd
      split <;> omega
    have hjl : j < (w.byPosition w.hasSideList).length := (List.getElem?_eq_some.1 hj).1
    constructor
    · apply @mem_pages_of_mem_byPosition _ w.hasSideList
      rw [hmid]
      rcases hout2 with h | h
      · apply List.mem_append_left
        apply List.mem_append_left
        apply List.mem_iff_getElem?.2
        exact ⟨j, by rw [List.getElem?_take_of_lt h, hj]⟩
      · apply List.mem_append_right
        apply List.mem_iff_getElem?.2
        refine ⟨j - rangeEnd w first last, ?_⟩
        rw [List.getElem?_drop, ← hj]
        congr 1
        omega
    · intro hdel
      have hin := mem_deleted.2 hdel
      rw [hd] at hin
      obtain ⟨c, hc, hid⟩ := List.mem_map.1 hin
      obtain ⟨i, hi⟩ := List.mem_iff_getElem?.1 (List.mem_of_mem_take hc)
      obtain ⟨h1, h2⟩ := candidate_position hwf hcount hi
      have hcp : c ∈ w.pages := mem_pages_of_byPosition h2
      have hpp : p ∈ w.pages := mem_pages_of_byPosition hj
      have hceq := page_eq_of_id hwf.1 hcp hpp hid
      subst hceq
      have := List.getElem?_inj hjl (byPosition_nodup hwf) (hj.trans h2.symm)
      omega

theorem closes_downward_witness :
    sampleWindow.WellFormed ∧ (-1 : Int) ≤ 0 ∧ (-1 : Int) ≤ -1 ∧ (-1 : Int) ≤ sampleWindow.count ∧
    ∃ keep w1 ev, sampleWindow.closeTabs 0 (-1) (answerAll StandardButton.Discard) =
        .ok (keep, w1, ev) ∧
      (∀ i x, (prompted ev)[i]? = some x → ∃ c : TabPage, c.id = x ∧
        lowerEnd 0 + i < rangeEnd sampleWindow 0 (-1) ∧
        (sampleWindow.byPosition sampleWindow.hasSideList)[rangeEnd sampleWindow 0 (-1) - 1 - i]? =
          some (some c)) ∧
      (∀ i x, (deleted ev)[i]? = some x → ∃ c : TabPage, c.id = x ∧
        lowerEnd 0 + i < rangeEnd sampleWindow 0 (-1) ∧
        (sampleWindow.byPosition sampleWindow.hasSideList)[rangeEnd sampleWindow 0 (-1) - 1 - i]? =
          some (some c)) ∧
      (∀ (j : Nat) (p : TabPage),
        (sampleWindow.byPosition sampleWindow.hasSideList)[j]? = some (some p) →
        ((j : Int) ≤ 0 ∨ ((0 : Int) ≤ -1 ∧ (-1 : Int) ≤ (j : Int))) →
        p ∈ w1.pages ∧ Event.deleteTabPage p.id ∉ ev) ∧
      (∃ mid, w1.byPosition sampleWindow.hasSideList =
        (sampleWindow.byPosition sampleWindow.hasSideList).take (lowerEnd 0) ++ mid ++
          (sampleWindow.byPosition sampleWindow.hasSideList).drop (rangeEnd sampleWindow 0 (-1))) ∧
      (w1.pages.map TabPage.id).Sublist (sampleWindow.pages.map TabPage.id) :=
  ⟨by decide, by decide, by decide, by decide,
    closes_downward sampleWindow 0 (-1) (answerAll StandardButton.Discard) (by decide)
      (by decide) (by decide) (by decide)⟩

/-- C10 (veto of the window close). `closeEvent` returns; it ignores the event and
leaves the registry of windows as it is iff `closeTabs (-1, -1)` returns `true`;
otherwise it accepts the event and the registry is the one `removeWin` leaves. -/
theorem closeEvent_veto (w : FPwin) (wins : List Nat) (env : Nat → Env) (hwf : w.WellFormed) :
    ∃ keep w1 ev accepted registry,
      w.closeTabs (-1) (-1) env = .ok (keep, w1, ev) ∧
      w.closeEvent wins env = .ok (accepted, registry, w1, ev) ∧
      (accepted = false ↔ keep = true) ∧
      (keep = true → registry = wins) ∧
      (keep = false → accepted = true ∧ registry = removeWin wins w.id) := by
  have hrun : ∃ keep w1 ev, w.closeTabs (-1) (-1) env = .ok (keep, w1, ev) := by
    cases hrdy : w.isReady with
    | false => exact ⟨true, w, [], closeTabs_notReady hrdy _ _ _⟩
    | true =>
      obtain ⟨w1, h, _⟩ := closeTabs_spec hwf hrdy (le_refl _) (le_refl _)
        (by simp only [FPwin.count]; omega) env
      exact ⟨_, w1, _, h⟩
  obtain ⟨keep, w1, ev, h⟩ := hrun
  cases keep with
  | true =>
    exact ⟨true, w1, ev, false, wins, h, by simp [FPwin.closeEvent, h], by simp, by simp,
      by simp⟩
  | false =>
    exact ⟨false, w1, ev, true, removeWin wins w.id, h, by simp [FPwin.closeEvent, h],
      by simp, by simp, by simp⟩

theorem closeEvent_veto_witness :
    twoTabs.WellFormed ∧
    ∃ keep w1 ev accepted registry,
      twoTabs.closeTabs (-1) (-1) (answerAll StandardButton.Cancel) = .ok (keep, w1, ev) ∧
      twoTabs.closeEvent [1, 2] (answerAll StandardButton.Cancel) =
        .ok (accepted, registry, w1, ev) ∧
      (accepted = false ↔ keep = true) ∧
      (keep = true → registry = [1, 2]) ∧
      (keep = false → accepted = true ∧ registry = removeWin [1, 2] twoTabs.id) :=
  ⟨by decide, closeEvent_veto twoTabs [1, 2] (answerAll StandardButton.Cancel) (by decide)⟩

theorem SameTabs.sameWindow {w w1 : FPwin} (h : SameTabs w w1) : SameWindow w w1 :=
  ⟨h.1, h.2.2.1, h.2.2.2.2.2.2, h.2.2.2.2.2.1⟩

theorem sameWindow_refl (w : FPwin) : SameWindow w w := ⟨rfl, rfl, rfl, rfl⟩

theorem insertTab_sameWindow (w : FPwin) (i : Int) (p : TabPage) :
    SameWindow w (w.insertTab i p) := ⟨rfl, rfl, rfl, rfl⟩

theorem addItem_sameWindow (w : FPwin) (f : Fresh) (p : Nat) : SameWindow w (w.addItem f p) :=
  ⟨rfl, rfl, rfl, rfl⟩

theorem setPage_sameWindow (w : FPwin) (i : Int) (p : TabPage) : SameWindow w (w.setPage i p) := by
  unfold FPwin.setPage
  split
  · exact ⟨rfl, rfl, rfl, rfl⟩
  · exact sameWindow_refl w

theorem createEmptyTab_sameWindow (w : FPwin) (b : Bool) (f : Fresh) :
    SameWindow w (w.createEmptyTab b f).1 := by
  unfold FPwin.createEmptyTab
  simp only
  have h1 := insertTab_sameWindow w (w.currentIndex + 1)
    { id := f.page, fileName := "", modified := false }
  generalize w.insertTab (w.currentIndex + 1)
    { id := f.page, fileName := "", modified := false } = w1 at h1
  have h2 : SameWindow w
      (if w1.sidePane_ = true then
        if (b || decide (w.currentIndex = -1)) = true then
          (w1.addItem f f.page).setCurrentItem (some f.item)
        else w1.addItem f f.page
      else w1) := by
    split
    · split
      · exact (h1.compose (addItem_sameWindow w1 f f.page)).compose
          (setCurrentItem_sameTabs _ _).sameWindow
      · exact h1.compose (addItem_sameWindow w1 f f.page)
    · exact h1
  generalize (if w1.sidePane_ = true then
        if (b || decide (w.currentIndex = -1)) = true then
          (w1.addItem f f.page).setCurrentItem (some f.item)
        else w1.addItem f f.page
      else w1) = w2 at h2
  split
  · exact h2.compose (setCurrentWidget_sameTabs _ _).sameWindow
  · exact h2

theorem selectFirstPage_sameTabs (w : FPwin) (fp : Option Nat) :
    SameTabs w (w.selectFirstPage fp) := by
  unfold FPwin.selectFirstPage
  split
  · split
    · exact setCurrentItem_sameTabs _ _
    · exact SameTabs.refl _
  · exact SameTabs.refl _

theorem targetTab_sameWindow {w w2 : FPwin} {e : AddEnv} {a : Completed} {m o : Bool}
    {i : Int} {t : TabPage} (h : w.targetTab e a m = .ok (w2, i, t, o)) :
    SameWindow w w2 ∧ w2.widget i = some t := by
  unfold FPwin.targetTab at h
  simp only at h
  have h1 : SameWindow w (if w.currentIndex = -1 then w.createEmptyTab (!m) e.fresh
      else (w, w.currentIndex)).1 := by
    split
    · exact createEmptyTab_sameWindow _ _ _
    · exact sameWindow_refl w
  generalize (if w.currentIndex = -1 then w.createEmptyTab (!m) e.fresh
      else (w, w.currentIndex)) = r1 at h h1
  split at h
  · cases h
  · rename_i textEdit _
    have h2 : SameWindow w (if (!(!a.reload && !a.enforceEncod &&
        (!textEdit.text.isEmpty || textEdit.modified || !textEdit.fileName.isEmpty))) = true
        then r1 else r1.1.createEmptyTab (!m) e.fresh2).1 := by
      split
      · exact h1
      · exact h1.compose (createEmptyTab_sameWindow _ _ _)
    generalize (if (!(!a.reload && !a.enforceEncod &&
        (!textEdit.text.isEmpty || textEdit.modified || !textEdit.fileName.isEmpty))) = true
        then r1 else r1.1.createEmptyTab (!m) e.fresh2) = r2 at h h2
    split at h
    · cases h
    · rename_i target hw
      simp only [Except.ok.injEq, Prod.mk.injEq] at h
      obtain ⟨e1, e2, e3, _⟩ := h
      subst e1 e2 e3
      exact ⟨h2, hw⟩

theorem SameTabs.isLoading {w w1 : FPwin} (h : SameTabs w w1) : w1.isLoading = w.isLoading := by
  simp [FPwin.isLoading, h.2.2.2.2.2.2]

theorem endOfLoad_sameTabs (w : FPwin) (a : Completed) (e : AddEnv) (t : Nat) (sc : Bool)
    (fp : Option Nat) (shown : List Effect) :
    SameTabs w (w.endOfLoad a e t sc fp shown).1 := by
  unfold FPwin.endOfLoad
  split
  · simp only
    split
    · exact SameTabs.refl _
    · exact selectFirstPage_sameTabs _ _
  · exact SameTabs.refl _

/-- Every return of `addText` has decremented the counter once; the window keeps its
identity and its side pane. -/
theorem addText_counter {w w1 : FPwin} {s st : Statics} {e : AddEnv} {a : Completed}
    {ev : List Effect} (h : w.addText s e a = .ok (w1, st, ev)) :
    w1.loadingProcesses_ = w.loadingProcesses_ - 1 ∧ w1.id = w.id ∧
      w1.sidePane_ = w.sidePane_ := by
  unfold FPwin.addText at h
  split at h
  · simp only [Except.ok.injEq, Prod.mk.injEq] at h
    rw [← h.1]
    exact ⟨rfl, rfl, rfl⟩
  · simp only at h
    split at h
    · cases h
    · rename_i w2 index target o ht
      obtain ⟨h2, _⟩ := targetTab_sameWindow ht
      have h3 := h2.compose (setPage_sameWindow w2 index (target.install a e.alreadyOpen))
      simp only [Except.ok.injEq] at h
      have h5 := endOfLoad_sameTabs (w2.setPage index (target.install a e.alreadyOpen)).loaded
        a e target.id
        (s.scrollToFirstItem || (o && w.sidePane_ && !a.reload && !a.enforceEncod))
        (if ((s.scrollToFirstItem || (o && w.sidePane_ && !a.reload && !a.enforceEncod)) &&
          (s.firstPage.isNone || e.sortsBefore)) = true then some target.id else s.firstPage)
        (loadedEffects w.id a e.alreadyOpen
          (!(if (a.enforceEncod || a.reload) = true then false else a.multiple) || o)
          target.readOnly)
      rw [h] at h5
      simp only at h5
      refine ⟨?_, ?_, ?_⟩
      · rw [h5.2.2.2.2.2.2]
        simp only [FPwin.loaded]
        rw [h3.2.2.1]
      · rw [h5.1]
        exact h3.1
      · rw [h5.2.2.1]
        exact h3.2.1

theorem emissions_append (a b : List Effect) : emissions (a ++ b) = emissions a + emissions b := by
  simp [emissions, List.filter_append]

theorem emissions_loadedEffects (win : Nat) (a : Completed) (o c r : Bool) :
    emissions (loadedEffects win a o c r) = 0 := by
  unfold loadedEffects
  rw [emissions_append]
  have h1 : emissions (if a.uneditable = true then
      [Effect.connectFinishedLoading win Slot.onOpeningUneditable] else []) = 0 := by
    split <;> simp [emissions]
  have h2 : emissions (if (a.uneditable || o) = true then
      (if (c && !a.uneditable) = true then [Effect.actionEdit win true] else [])
      else if r = true then [Effect.makeEditableLater win] else []) = 0 := by
    split
    · split <;> simp [emissions]
    · split <;> simp [emissions]
  rw [h1, h2]

theorem endOfLoad_emissions (w : FPwin) (a : Completed) (e : AddEnv) (t : Nat) (sc : Bool)
    (fp : Option Nat) {shown : List Effect} (hs : emissions shown = 0) :
    (w.isLoading = true → emissions (w.endOfLoad a e t sc fp shown).2.2 = 0) ∧
    (w.isLoading = false → emissions (w.endOfLoad a e t sc fp shown).2.2 = 1 ∧
      (w.endOfLoad a e t sc fp shown).2.2.getLast? = some (Effect.finishedLoading w.id)) := by
  unfold FPwin.endOfLoad
  cases hl : w.isLoading with
  | true => simp [hs]
  | false =>
    simp only [Bool.not_false, if_true, emissions_append, hs]
    refine ⟨by simp, fun _ => ⟨?_, ?_⟩⟩
    · split <;> simp [emissions]
    · split <;> simp

/-- A call of `addText` emits `finishedLoading` exactly when it leaves no load
outstanding, once and as the last thing it does. -/
theorem addText_emissions {w w1 : FPwin} {s st : Statics} {e : AddEnv} {a : Completed}
    {ev : List Effect} (h : w.addText s e a = .ok (w1, st, ev)) :
    (w1.isLoading = true → emissions ev = 0) ∧
    (w1.isLoading = false →
      emissions ev = 1 ∧ ev.getLast? = some (Effect.finishedLoading w.id)) := by
  unfold FPwin.addText at h
  split at h
  · simp only [Except.ok.injEq, Prod.mk.injEq] at h
    obtain ⟨h1, _, h3⟩ := h
    subst h1
    subst h3
    cases hl : w.loaded.isLoading <;> simp [emissions]
  · simp only at h
    split at h
    · cases h
    · rename_i w2 index target o ht
      obtain ⟨h2, _⟩ := targetTab_sameWindow ht
      have h3 := h2.compose (setPage_sameWindow w2 index (target.install a e.alreadyOpen))
      simp only [Except.ok.injEq] at h
      have h5 := endOfLoad_sameTabs (w2.setPage index (target.install a e.alreadyOpen)).loaded
        a e target.id
        (s.scrollToFirstItem || (o && w.sidePane_ && !a.reload && !a.enforceEncod))
        (if ((s.scrollToFirstItem || (o && w.sidePane_ && !a.reload && !a.enforceEncod)) &&
          (s.firstPage.isNone || e.sortsBefore)) = true then some target.id else s.firstPage)
        (loadedEffects w.id a e.alreadyOpen
          (!(if (a.enforceEncod || a.reload) = true then false else a.multiple) || o)
          target.readOnly)
      have h6 := endOfLoad_emissions (w2.setPage index (target.install a e.alreadyOpen)).loaded
        a e target.id
        (s.scrollToFirstItem || (o && w.sidePane_ && !a.reload && !a.enforceEncod))
        (if ((s.scrollToFirstItem || (o && w.sidePane_ && !a.reload && !a.enforceEncod)) &&
          (s.firstPage.isNone || e.sortsBefore)) = true then some target.id else s.firstPage)
        (emissions_loadedEffects w.id a e.alreadyOpen
          (!(if (a.enforceEncod || a.reload) = true then false else a.multiple) || o)
          target.readOnly)
      rw [h] at h5 h6
      simp only at h5 h6
      rw [h5.isLoading]
      have hid : (w2.setPage index (target.install a e.alreadyOpen)).loaded.id = w.id := h3.1
      rw [hid] at h6
      exact h6

theorem call_counter {s s1 : Loader} {c : LoadCall}
    (hinv : s.win.loadingProcesses_ = s.threads.length) (h : s.call c = some s1) :
    s1.win.loadingProcesses_ = s1.threads.length := by
  cases c with
  | loadText fileName enforceEncod reload saveCursor enforceUneditable multiple checked =>
    simp only [Loader.call, Option.some.injEq] at h
    subst h
    simp only [FPwin.loadText, List.length_append, List.length_singleton, Nat.cast_add,
      Nat.cast_one]
    omega
  | addText thread e a =>
    simp only [Loader.call] at h
    split at h
    · rename_i hlt
      split at h
      · cases h
      · rename_i w1 st ev hadd
        simp only [Option.some.injEq] at h
        subst h
        simp only [List.length_eraseIdx, hlt, if_true]
        rw [(addText_counter hadd).1, hinv]
        omega
    · cases h

theorem run_counter :
    ∀ (calls : List LoadCall) (s s1 : Loader),
      s.win.loadingProcesses_ = s.threads.length → s.run calls = some s1 →
      s1.win.loadingProcesses_ = s1.threads.length := by
  intro calls
  induction calls with
  | nil =>
    intro s s1 hinv h
    simp only [Loader.run, Option.some.injEq] at h
    subst h
    exact hinv
  | cons c cs ih =>
    intro s s1 hinv h
    simp only [Loader.run] at h
    split at h
    · cases h
    · rename_i s2 hc
      exact ih s2 s1 (call_counter hinv hc) h

theorem setCurrentIndex_valid {w : FPwin} (h : w.CurrentValid) (i : Int) :
    (w.setCurrentIndex i).CurrentValid := by
  unfold FPwin.setCurrentIndex
  split
  · rename_i hi
    right
    exact hi
  · exact h

theorem SameTabs.valid_of_index {w w1 : FPwin} (hst : SameTabs w w1) (h : w.CurrentValid)
    (hi : w1.currentIndex = w.currentIndex) : w1.CurrentValid := by
  unfold FPwin.CurrentValid FPwin.count at *
  rw [hst.2.1, hi]
  exact h

theorem setCurrentWidget_valid {w : FPwin} (h : w.CurrentValid) (p : Option Nat) :
    (w.setCurrentWidget p).CurrentValid :=
  setCurrentIndex_valid h _

theorem changeTab_valid {w : FPwin} (h : w.CurrentValid) (c : Option Nat) :
    (w.changeTab c).CurrentValid := by
  unfold FPwin.changeTab
  split
  · exact h
  · exact setCurrentWidget_valid h _

theorem setCurrentItem_valid {w : FPwin} (h : w.CurrentValid) (c : Option Nat) :
    (w.setCurrentItem c).CurrentValid := by
  unfold FPwin.setCurrentItem
  simp only
  generalize (if 0 ≤ w.row c then c else none) = new
  split
  · exact h
  · apply changeTab_valid
    exact h

theorem insertTab_valid {w : FPwin} (h : w.CurrentValid) (i : Int) (p : TabPage) :
    (w.insertTab i p).CurrentValid := by
  unfold FPwin.CurrentValid FPwin.count at *
  simp only [FPwin.insertTab, FPwin.count]
  right
  have hlen : (List.take (if 0 ≤ i ∧ i ≤ (w.pages.length : Int) then i.toNat else w.pages.length)
      w.pages ++ p :: List.drop (if 0 ≤ i ∧ i ≤ (w.pages.length : Int) then i.toNat
        else w.pages.length) w.pages).length = w.pages.length + 1 := by
    simp only [List.length_append, List.length_take, List.length_cons, List.length_drop]
    split <;> omega
  rw [hlen]
  rcases h with ⟨h1, h2⟩ | ⟨h1, h2⟩
  · simp [h2]
  · have hne : w.pages.isEmpty = false := by
      cases hp : w.pages with
      | nil => rw [hp] at h2; simp at h2; omega
      | cons a l => rfl
    simp only [hne, Bool.false_eq_true, if_false]
    split <;> constructor <;> push_cast <;> omega

theorem addItem_valid {w : FPwin} (h : w.CurrentValid) (f : Fresh) (p : Nat) :
    (w.addItem f p).CurrentValid := h

theorem createEmptyTab_valid {w : FPwin} (h : w.CurrentValid) (b : Bool) (f : Fresh) :
    (w.createEmptyTab b f).1.CurrentValid := by
  unfold FPwin.createEmptyTab
  simp only
  have h1 := insertTab_valid h (w.currentIndex + 1)
    { id := f.page, fileName := "", modified := false }
  generalize w.insertTab (w.currentIndex + 1)
    { id := f.page, fileName := "", modified := false } = w1 at h1
  have h2 : FPwin.CurrentValid
      (if w1.sidePane_ = true then
        if (b || decide (w.currentIndex = -1)) = true then
          (w1.addItem f f.page).setCurrentItem (some f.item)
        else w1.addItem f f.page
      else w1) := by
    split
    · split
      · exact setCurrentItem_valid (addItem_valid h1 f f.page) _
      · exact addItem_valid h1 f f.page
    · exact h1
  generalize (if w1.sidePane_ = true then
        if (b || decide (w.currentIndex = -1)) = true then
          (w1.addItem f f.page).setCurrentItem (some f.item)
        else w1.addItem f f.page
      else w1) = w2 at h2
  split
  · exact setCurrentWidget_valid h2 _
  · exact h2

theorem setPage_valid {w : FPwin} (h : w.CurrentValid) (i : Int) (p : TabPage) :
    (w.setPage i p).CurrentValid := by
  unfold FPwin.setPage
  split
  · unfold FPwin.CurrentValid FPwin.count at *
    simp only [List.length_set]
    rcases h with ⟨h1, h2⟩ | h
    · left
      exact ⟨h1, by rw [h2]; rfl⟩
    · right
      exact h
  · exact h

theorem loaded_valid {w : FPwin} (h : w.CurrentValid) : w.loaded.CurrentValid := h

theorem selectFirstPage_valid {w : FPwin} (h : w.CurrentValid) (fp : Option Nat) :
    (w.selectFirstPage fp).CurrentValid := by
  unfold FPwin.selectFirstPage
  split
  · split
    · exact setCurrentItem_valid h _
    · exact h
  · exact h

theorem endOfLoad_valid {w : FPwin} (h : w.CurrentValid) (a : Completed) (e : AddEnv) (t : Nat)
    (sc : Bool) (fp : Option Nat) (shown : List Effect) :
    (w.endOfLoad a e t sc fp shown).1.CurrentValid := by
  unfold FPwin.endOfLoad
  split
  · simp only
    split
    · exact h
    · exact selectFirstPage_valid h _
  · exact h

theorem widget_of_valid {w : FPwin} (h : w.CurrentValid) (hne : ¬ w.currentIndex = -1) :
    ∃ t, w.widget w.currentIndex = some t := by
  rcases h with ⟨h1, _⟩ | ⟨h1, h2⟩
  · exact absurd h1 hne
  · simp only [FPwin.count] at h2
    have hlt : w.currentIndex.toNat < w.pages.length := by omega
    refine ⟨w.pages[w.currentIndex.toNat], ?_⟩
    simp [FPwin.widget, atIndex, h1, List.getElem?_eq_getElem hlt]

theorem widget_indexOf {w : FPwin} {p : Nat} (h : p ∈ w.pages.map TabPage.id) :
    ∃ t, w.widget (w.indexOf (some p)) = some t ∧ t.id = p := by
  obtain ⟨n, hn, hv⟩ := positionOf_of_mem h
  simp only [FPwin.indexOf, hn, widget_natCast]
  rw [List.getElem?_map] at hv
  cases ht : w.pages[n]? with
  | none => rw [ht] at hv; simp at hv
  | some t =>
    rw [ht] at hv
    exact ⟨t, rfl, by simpa using hv⟩

theorem createEmptyTab_pages (w : FPwin) (b : Bool) (f : Fresh) :
    (w.createEmptyTab b f).1.pages =
      (w.insertTab (w.currentIndex + 1) { id := f.page, fileName := "", modified := false }).pages := by
  unfold FPwin.createEmptyTab
  simp only
  generalize w.insertTab (w.currentIndex + 1)
    { id := f.page, fileName := "", modified := false } = w1
  have h2 : FPwin.pages
      (if w1.sidePane_ = true then
        if (b || decide (w.currentIndex = -1)) = true then
          (w1.addItem f f.page).setCurrentItem (some f.item)
        else w1.addItem f f.page
      else w1) = w1.pages := by
    split
    · split
      · exact (setCurrentItem_sameTabs _ _).2.1
      · rfl
    · rfl
  generalize (if w1.sidePane_ = true then
        if (b || decide (w.currentIndex = -1)) = true then
          (w1.addItem f f.page).setCurrentItem (some f.item)
        else w1.addItem f f.page
      else w1) = w2 at h2
  split
  · rw [(setCurrentWidget_sameTabs _ _).2.1, h2]
  · exact h2

theorem createEmptyTab_widget (w : FPwin) (b : Bool) (f : Fresh) :
    ∃ t, (w.createEmptyTab b f).1.widget (w.createEmptyTab b f).2 = some t ∧ t.id = f.page := by
  have hmem : f.page ∈ (w.createEmptyTab b f).1.pages.map TabPage.id := by
    rw [createEmptyTab_pages]
    simp [FPwin.insertTab]
  have h := widget_indexOf hmem
  have h2 : (w.createEmptyTab b f).2 = (w.createEmptyTab b f).1.indexOf (some f.page) := by
    simp only [FPwin.createEmptyTab]
  rw [h2]
  exact h

/-- In a window whose current index is valid, `addText` finds a text edit. -/
theorem targetTab_total {w : FPwin} (hv : w.CurrentValid) (e : AddEnv) (a : Completed)
    (m : Bool) :
    ∃ w2 i t o, w.targetTab e a m = .ok (w2, i, t, o) ∧ w2.CurrentValid := by
  unfold FPwin.targetTab
  simp only
  have h1 : (∃ t, (if w.currentIndex = -1 then w.createEmptyTab (!m) e.fresh
      else (w, w.currentIndex)).1.widget (if w.currentIndex = -1 then
        w.createEmptyTab (!m) e.fresh else (w, w.currentIndex)).2 = some t) ∧
      (if w.currentIndex = -1 then w.createEmptyTab (!m) e.fresh
        else (w, w.currentIndex)).1.CurrentValid := by
    split
    · obtain ⟨t, ht, _⟩ := createEmptyTab_widget w (!m) e.fresh
      exact ⟨⟨t, ht⟩, createEmptyTab_valid hv _ _⟩
    · rename_i hne
      exact ⟨widget_of_valid hv hne, hv⟩
  generalize (if w.currentIndex = -1 then w.createEmptyTab (!m) e.fresh
      else (w, w.currentIndex)) = r1 at h1
  obtain ⟨⟨textEdit, ht⟩, hv1⟩ := h1
  rw [ht]
  simp only
  have h2 : (∃ t, (if (!(!a.reload && !a.enforceEncod &&
        (!textEdit.text.isEmpty || textEdit.modified || !textEdit.fileName.isEmpty))) = true
        then r1 else r1.1.createEmptyTab (!m) e.fresh2).1.widget
      (if (!(!a.reload && !a.enforceEncod &&
        (!textEdit.text.isEmpty || textEdit.modified || !textEdit.fileName.isEmpty))) = true
        then r1 else r1.1.createEmptyTab (!m) e.fresh2).2 = some t) ∧
      (if (!(!a.reload && !a.enforceEncod &&
        (!textEdit.text.isEmpty || textEdit.modified || !textEdit.fileName.isEmpty))) = true
        then r1 else r1.1.createEmptyTab (!m) e.fresh2).1.CurrentValid := by
    split
    · exact ⟨⟨textEdit, ht⟩, hv1⟩
    · obtain ⟨t, ht2, _⟩ := createEmptyTab_widget r1.1 (!m) e.fresh2
      exact ⟨⟨t, ht2⟩, createEmptyTab_valid hv1 _ _⟩
  generalize (if (!(!a.reload && !a.enforceEncod &&
        (!textEdit.text.isEmpty || textEdit.modified || !textEdit.fileName.isEmpty))) = true
        then r1 else r1.1.createEmptyTab (!m) e.fresh2) = r2 at h2
  obtain ⟨⟨target, ht2⟩, hv2⟩ := h2
  rw [ht2]
  exact ⟨_, _, _, _, rfl, hv2⟩

/-- In a window whose current index is valid, `addText` returns, and the current index
is valid afterwards. -/
theorem addText_total {w : FPwin} (hv : w.CurrentValid) (s : Statics) (e : AddEnv)
    (a : Completed) :
    ∃ w1 st ev, w.addText s e a = .ok (w1, st, ev) ∧ w1.CurrentValid := by
  unfold FPwin.addText
  split
  · exact ⟨_, _, _, rfl, loaded_valid hv⟩
  · simp only
    obtain ⟨w2, i, t, o, ht, hv2⟩ := targetTab_total hv e a
      (if (a.enforceEncod || a.reload) = true then false else a.multiple)
    rw [ht]
    simp only
    exact ⟨_, _, _, rfl, endOfLoad_valid (loaded_valid (setPage_valid hv2 _ _)) _ _ _ _ _ _⟩

theorem run_append (s : Loader) (xs ys : List LoadCall) :
    s.run (xs ++ ys) = (s.run xs).bind (fun s1 => s1.run ys) := by
  induction xs generalizing s with
  | nil => rfl
  | cons c cs ih =>
    simp only [List.cons_append, Loader.run]
    cases s.call c with
    | none => rfl
    | some s1 => exact ih s1

/-- Calls of `loadText` start one thread each and emit nothing. -/
theorem run_loads :
    ∀ (loads : List LoadCall) (s : Loader), loads.all LoadCall.isLoad = true →
      ∃ s1, s.run loads = some s1 ∧
        s1.win.loadingProcesses_ = s.win.loadingProcesses_ + loads.length ∧
        s1.threads.length = s.threads.length + loads.length ∧
        emissions s1.log = emissions s.log ∧ s1.win.id = s.win.id ∧
        (s.win.CurrentValid → s1.win.CurrentValid) := by
  intro loads
  induction loads with
  | nil =>
    intro s _
    exact ⟨s, rfl, by simp, by simp, rfl, rfl, id⟩
  | cons c cs ih =>
    intro s hall
    simp only [List.all_cons, Bool.and_eq_true] at hall
    cases c with
    | addText k e a => simp [LoadCall.isLoad] at hall
    | loadText fileName enforceEncod reload saveCursor enforceUneditable multiple checked =>
      obtain ⟨s1, h1, h2, h3, h4, h5, h6⟩ := ih
        { s with
          win := (s.win.loadText fileName enforceEncod reload saveCursor enforceUneditable
            multiple checked).1
          threads := s.threads ++ [(s.win.loadText fileName enforceEncod reload saveCursor
            enforceUneditable multiple checked).2.1]
          log := s.log ++ (s.win.loadText fileName enforceEncod reload saveCursor
            enforceUneditable multiple checked).2.2 } hall.2
      have hem : emissions ((if s.win.loadingProcesses_ = 0 then
          [Effect.closeWarningBar s.win.id] else []) ++
          [Effect.lockTabs s.win.id true]) = 0 := by
        split <;> simp [emissions]
      simp only [FPwin.loadText, List.length_append, List.length_singleton,
        emissions_append, hem] at h2 h3 h4 h5 h6
      refine ⟨s1, ?_, ?_, ?_, ?_, ?_, ?_⟩
      · simp only [Loader.run, Loader.call]
        exact h1
      · rw [h2]
        simp only [List.length_cons]
        push_cast
        omega
      · rw [h3]
        simp only [List.length_cons]
        omega
      · rw [h4]
        rfl
      · exact h5
      · exact h6

theorem completes_zero {cs : List LoadCall} (h : completes 0 cs = true) : cs = [] := by
  cases cs with
  | nil => rfl
  | cons c l => simp [completes] at h

theorem completes_succ {n : Nat} {cs : List LoadCall} (h : completes (n + 1) cs = true) :
    ∃ k e a l, cs = LoadCall.addText k e a :: l ∧ k < n + 1 ∧ completes n l = true := by
  cases cs with
  | nil => simp [completes] at h
  | cons c l =>
    cases c with
    | loadText f b1 b2 b3 b4 b5 x => simp [completes] at h
    | addText k e a =>
      simp only [completes, Bool.and_eq_true, decide_eq_true_eq] at h
      exact ⟨k, e, a, l, rfl, h.1, h.2⟩

/-- The completions of the `n` running threads bring the counter to zero; only the
last one emits `finishedLoading`. -/
theorem run_completions :
    ∀ (cs : List LoadCall) (n : Nat) (s : Loader), completes n cs = true →
      s.win.loadingProcesses_ = n → s.threads.length = n → s.win.CurrentValid →
      ∃ s1, s.run cs = some s1 ∧ s1.win.loadingProcesses_ = 0 ∧ s1.threads.length = 0 ∧
        s1.win.id = s.win.id ∧
        emissions s1.log = emissions s.log + (if n = 0 then 0 else 1) ∧
        (0 < n → s1.log.getLast? = some (Effect.finishedLoading s.win.id) ∧
          ∃ s0, s.run cs.dropLast = some s0 ∧ emissions s0.log = emissions s.log ∧
            s0.win.loadingProcesses_ = 1) := by
  intro cs
  induction cs with
  | nil =>
    intro n s hc h1 h2 _
    cases n with
    | zero => exact ⟨s, rfl, h1, h2, rfl, by simp, fun h => absurd h (by omega)⟩
    | succ m => simp [completes] at hc
  | cons c cs ih =>
    intro n s hc h1 h2 hv
    cases n with
    | zero => simp [completes] at hc
    | succ m =>
      obtain ⟨k, e, a, l, hcs, hk, hl⟩ := completes_succ hc
      simp only [List.cons.injEq] at hcs
      obtain ⟨hc1, hc2⟩ := hcs
      subst hc1 hc2
      obtain ⟨w1, st, ev, hadd, hv1⟩ := addText_total hv s.statics e a
      obtain ⟨hcnt, hid, _⟩ := addText_counter hadd
      obtain ⟨hem0, hem1⟩ := addText_emissions hadd
      have hcall : s.call (LoadCall.addText k e a) =
          some { win := w1, threads := s.threads.eraseIdx k, statics := st,
                 log := s.log ++ ev } := by
        simp only [Loader.call, h2, hk, if_true, hadd]
      have hcnt1 : w1.loadingProcesses_ = (m : Int) := by
        rw [hcnt, h1]
        push_cast
        omega
      have hth : (s.threads.eraseIdx k).length = m := by
        rw [List.length_eraseIdx, h2]
        simp [hk]
      obtain ⟨s1, hr, e1, e2, e3, e4, e5⟩ := ih m
        { win := w1, threads := s.threads.eraseIdx k, statics := st, log := s.log ++ ev }
        hl hcnt1 hth hv1
      simp only at e3 e4 e5
      refine ⟨s1, ?_, e1, e2, e3.trans hid, ?_, ?_⟩
      · simp only [Loader.run, hcall]
        exact hr
      · rw [e4, emissions_append]
        cases m with
        | zero =>
          have hl0 : w1.isLoading = false := by simp [FPwin.isLoading, hcnt1]
          simp [(hem1 hl0).1]
        | succ j =>
          have hl1 : w1.isLoading = true := by
            simp only [FPwin.isLoading, hcnt1, decide_eq_true_eq]
            push_cast
            omega
          simp [hem0 hl1]
      · intro _
        cases m with
        | zero =>
          have hl0 : w1.isLoading = false := by simp [FPwin.isLoading, hcnt1]
          have hnil := completes_zero hl
          subst hnil
          simp only [Loader.run, Option.some.injEq] at hr
          subst hr
          refine ⟨?_, s, rfl, rfl, by rw [h1]; rfl⟩
          simp only
          have hne : ev ≠ [] := by
            intro h0
            have := (hem1 hl0).1
            rw [h0] at this
            simp [emissions] at this
          rw [List.getLast?_append_of_ne_nil _ hne]
          exact (hem1 hl0).2
        | succ j =>
          obtain ⟨g1, s0, g2, g3, g4⟩ := e5 (by omega)
          have hl1 : w1.isLoading = true := by
            simp only [FPwin.isLoading, hcnt1, decide_eq_true_eq]
            push_cast
            omega
          rw [hid] at g1
          refine ⟨g1, s0, ?_, ?_, g4⟩
          · obtain ⟨k2, e2b, a2, l2, hl2, _, _⟩ := completes_succ hl
            subst hl2
            simp only [List.dropLast_cons₂, Loader.run, hcall]
            exact g2
          · rw [g3, emissions_append, hem0 hl1]
            rfl

/-- C12 (a batch of loads finishes once). From a window in which nothing is being
loaded, `M ≥ 1` calls of `loadText` followed by the `M` calls of `addText` of their
threads, in any order and with any results, leave the counter at `0`; `finishedLoading`
has then been emitted once, as the last effect, and not before the last completion,
which starts with the counter at `1`. -/
theorem batch_finishes_once (w : FPwin) (loads completions : List LoadCall)
    (hv : w.CurrentValid) (hne : loads ≠ []) (hloads : loads.all LoadCall.isLoad = true)
    (hcompl : completes loads.length completions = true) :
    ∃ s s0, (Loader.idle w).run (loads ++ completions) = some s ∧
      s.win.loadingProcesses_ = 0 ∧ emissions s.log = 1 ∧
      s.log.getLast? = some (Effect.finishedLoading w.id) ∧
      (Loader.idle w).run (loads ++ completions.dropLast) = some s0 ∧
      emissions s0.log = 0 ∧ s0.win.loadingProcesses_ = 1 := by
  obtain ⟨s1, h1, h2, h3, h4, h5, h6⟩ := run_loads loads (Loader.idle w) hloads
  have hpos : 0 < loads.length := List.length_pos.2 hne
  have hc1 : s1.win.loadingProcesses_ = (loads.length : Int) := by
    rw [h2]
    simp [Loader.idle]
  have hc2 : s1.threads.length = loads.length := by
    rw [h3]
    simp [Loader.idle]
  obtain ⟨s, g1, g2, _, g4, g5, g6⟩ := run_completions completions loads.length s1 hcompl hc1 hc2
    (h6 hv)
  obtain ⟨g7, s0, g8, g9, g10⟩ := g6 hpos
  have hid : s1.win.id = w.id := h5
  have hem : emissions s1.log = 0 := by
    rw [h4]
    rfl
  refine ⟨s, s0, ?_, g2, ?_, ?_, ?_, ?_, g10⟩
  · rw [run_append, h1]
    exact g1
  · rw [g5, hem]
    have : ¬ loads.length = 0 := by omega
    simp [this]
  · rw [g7, hid]
  · rw [run_append, h1]
    exact g8
  · rw [g9, hem]

theorem batch_finishes_once_witness :
    twoTabs.CurrentValid ∧ sampleCalls.take 2 ≠ [] ∧
    (sampleCalls.take 2).all LoadCall.isLoad = true ∧
    completes (sampleCalls.take 2).length (sampleCalls.drop 2) = true ∧
    ∃ s s0, (Loader.idle twoTabs).run (sampleCalls.take 2 ++ sampleCalls.drop 2) = some s ∧
      s.win.loadingProcesses_ = 0 ∧ emissions s.log = 1 ∧
      s.log.getLast? = some (Effect.finishedLoading twoTabs.id) ∧
      (Loader.idle twoTabs).run (sampleCalls.take 2 ++ (sampleCalls.drop 2).dropLast) = some s0 ∧
      emissions s0.log = 0 ∧ s0.win.loadingProcesses_ = 1 :=
  ⟨by decide, by decide, by decide, by decide,
    batch_finishes_once twoTabs (sampleCalls.take 2) (sampleCalls.drop 2) (by decide) (by decide)
      (by decide) (by decide)⟩

/-- C13 (a failed load touches no tab). When the load completes with an empty file
name (permission denied) or with an empty character set (too large), `addText`
returns the same window, with the same tabs, current index and side list, in which
only the counter is one less, and the same static variables; it connects the slot of
the matching advisory to `finishedLoading`, which it emits when no load is left. -/
theorem failed_load_keeps_tabs (w : FPwin) (s : Statics) (e : AddEnv) (a : Completed)
    (h : a.fileName.isEmpty = true ∨ a.charset.isEmpty = true) :
    w.addText s e a =
      .ok ({ w with loadingProcesses_ := w.loadingProcesses_ - 1 }, s,
        [Effect.connectFinishedLoading w.id
          (if a.fileName.isEmpty then Slot.onPermissionDenied else Slot.onOpeningHugeFiles)] ++
        (if w.loadingProcesses_ - 1 > 0 then []
         else [Effect.lockTabs w.id false, Effect.finishedLoading w.id])) := by
  have hc : (a.fileName.isEmpty || a.charset.isEmpty) = true := by
    rcases h with h | h <;> simp [h]
  unfold FPwin.addText
  simp only [hc, if_true, FPwin.loaded, FPwin.isLoading]
  have hl : (if w.loadingProcesses_ - 1 > 0 then ([] : List Effect)
      else [Effect.lockTabs w.id false, Effect.finishedLoading w.id]) =
      (if (!decide (w.loadingProcesses_ - 1 > 0)) = true then
        [Effect.lockTabs w.id false, Effect.finishedLoading w.id] else []) := by
    by_cases hl : w.loadingProcesses_ - 1 > 0 <;> simp [hl]
  rw [hl]
  cases hf : a.fileName.isEmpty with
  | true => simp
  | false =>
    rw [hf] at hc
    simp only [Bool.false_or] at hc
    simp [hc]

theorem failed_load_keeps_tabs_witness :
    (hugeFile.fileName.isEmpty = true ∨ hugeFile.charset.isEmpty = true) ∧
    twoTabs.addText { scrollToFirstItem := false, firstPage := none } sampleAddEnv hugeFile =
      .ok ({ twoTabs with loadingProcesses_ := twoTabs.loadingProcesses_ - 1 },
        { scrollToFirstItem := false, firstPage := none },
        [Effect.connectFinishedLoading twoTabs.id
          (if hugeFile.fileName.isEmpty then Slot.onPermissionDenied
           else Slot.onOpeningHugeFiles)] ++
        (if twoTabs.loadingProcesses_ - 1 > 0 then []
         else [Effect.lockTabs twoTabs.id false, Effect.finishedLoading twoTabs.id])) :=
  ⟨by decide, failed_load_keeps_tabs twoTabs { scrollToFirstItem := false, firstPage := none }
    sampleAddEnv hugeFile (by decide)⟩

/-- A new tab enters after the current one, and `createEmptyTab` returns its index. -/
theorem createEmptyTab_spec (w : FPwin) (b : Bool) (f : Fresh) {n : Nat}
    (hn : w.currentIndex + 1 = (n : Int)) (hle : n ≤ w.pages.length)
    (hf : f.page ∉ w.pages.map TabPage.id) :
    (w.createEmptyTab b f).1.pages =
      w.pages.take n ++ { id := f.page, fileName := "", modified := false } :: w.pages.drop n ∧
    (w.createEmptyTab b f).2 = (n : Int) := by
  have hp : (w.createEmptyTab b f).1.pages =
      w.pages.take n ++ { id := f.page, fileName := "", modified := false } :: w.pages.drop n := by
    rw [createEmptyTab_pages]
    simp only [FPwin.insertTab, FPwin.count, hn]
    have : (0 : Int) ≤ n ∧ (n : Int) ≤ (w.pages.length : Int) := by omega
    simp [this]
  refine ⟨hp, ?_⟩
  have h2 : (w.createEmptyTab b f).2 = (w.createEmptyTab b f).1.indexOf (some f.page) := by
    simp only [FPwin.createEmptyTab]
  rw [h2]
  simp only [FPwin.indexOf, hp, positionOf, List.map_append, List.map_cons, List.mem_append,
    List.mem_cons, true_or, or_true, if_true]
  have hnot : f.page ∉ (w.pages.take n).map TabPage.id := by
    intro h
    apply hf
    obtain ⟨p, hp1, hid⟩ := List.mem_map.1 h
    exact List.mem_map.2 ⟨p, List.mem_of_mem_take hp1, hid⟩
  rw [List.indexOf_append_of_not_mem hnot, List.indexOf_cons_self]
  simp only [List.length_map, List.length_take, add_zero]
  rw [min_eq_left hle]

theorem endOfLoad_pages (w : FPwin) (a : Completed) (e : AddEnv) (t : Nat) (sc : Bool)
    (fp : Option Nat) (shown : List Effect) :
    (w.endOfLoad a e t sc fp shown).1.pages = w.pages :=
  (endOfLoad_sameTabs w a e t sc fp shown).2.1

/-- The pages after a call of `addText` that finds its text edit. -/
theorem addText_pages {w w2 : FPwin} {s : Statics} {e : AddEnv} {a : Completed} {i : Int}
    {t : TabPage} {o : Bool}
    (hok : (a.fileName.isEmpty || a.charset.isEmpty) = false)
    (ht : w.targetTab e a (if (a.enforceEncod || a.reload) = true then false else a.multiple) =
      .ok (w2, i, t, o)) :
    ∃ w1 st ev, w.addText s e a = .ok (w1, st, ev) ∧
      w1.pages = (w2.setPage i (t.install a e.alreadyOpen)).pages := by
  unfold FPwin.addText
  simp only [hok, Bool.false_eq_true, if_false, ht]
  exact ⟨(FPwin.endOfLoad _ _ _ _ _ _ _).1, (FPwin.endOfLoad _ _ _ _ _ _ _).2.1,
    (FPwin.endOfLoad _ _ _ _ _ _ _).2.2, rfl, endOfLoad_pages _ _ _ _ _ _ _⟩

theorem targetTab_current {w : FPwin} {e : AddEnv} {a : Completed} {m : Bool} {k : Nat}
    {cur : TabPage} (hk : w.currentIndex = (k : Int)) (hcur : w.pages[k]? = some cur)
    (hopen : (!(!a.reload && !a.enforceEncod &&
      (!cur.text.isEmpty || cur.modified || !cur.fileName.isEmpty))) = true) :
    w.targetTab e a m = .ok (w, (k : Int), cur, true) := by
  have hne : ¬ ((k : Int) = -1) := by omega
  unfold FPwin.targetTab
  simp only [hk, hne, if_false, widget_natCast, hcur, hopen, if_true]

theorem targetTab_new {w : FPwin} {e : AddEnv} {a : Completed} {m : Bool} {k : Nat}
    {cur : TabPage} (hk : w.currentIndex = (k : Int)) (hcur : w.pages[k]? = some cur)
    (hopen : (!(!a.reload && !a.enforceEncod &&
      (!cur.text.isEmpty || cur.modified || !cur.fileName.isEmpty))) = false)
    (hf : e.fresh2.page ∉ w.pages.map TabPage.id) :
    ∃ w2, w.targetTab e a m =
        .ok (w2, ((k + 1 : Nat) : Int), { id := e.fresh2.page, fileName := "", modified := false },
          false) ∧
      w2.pages = w.pages.take (k + 1) ++
        { id := e.fresh2.page, fileName := "", modified := false } :: w.pages.drop (k + 1) := by
  have hne : ¬ ((k : Int) = -1) := by omega
  have hlt : k < w.pages.length := (List.getElem?_eq_some.1 hcur).1
  obtain ⟨hp, hi⟩ := createEmptyTab_spec w (!m) e.fresh2 (n := k + 1)
    (by rw [hk]; push_cast; rfl) (by omega) hf
  unfold FPwin.targetTab
  simp only [hk, hne, if_false, widget_natCast, hcur, hopen, Bool.false_eq_true]
  rw [hi, widget_natCast, hp]
  have hget : (w.pages.take (k + 1) ++
      ({ id := e.fresh2.page, fileName := "", modified := false } : TabPage) ::
        w.pages.drop (k + 1))[k + 1]? =
      some { id := e.fresh2.page, fileName := "", modified := false } := by
    rw [List.getElem?_append_right (by simp)]
    simp [List.length_take, min_eq_left (show k + 1 ≤ w.pages.length by omega)]
  rw [hget]
  exact ⟨_, rfl, hp⟩

theorem targetTab_first {w : FPwin} {e : AddEnv} {a : Completed} {m : Bool}
    (hk : w.currentIndex = -1) (hnil : w.pages = []) :
    ∃ w2, w.targetTab e a m =
        .ok (w2, 0, { id := e.fresh.page, fileName := "", modified := false }, true) ∧
      w2.pages = [{ id := e.fresh.page, fileName := "", modified := false }] := by
  obtain ⟨hp, hi⟩ := createEmptyTab_spec w (!m) e.fresh (n := 0)
    (by rw [hk]; rfl) (by omega) (by simp [hnil])
  simp only [hnil, List.take_nil, List.drop_nil, List.nil_append] at hp
  have hw : (w.createEmptyTab (!m) e.fresh).1.widget ((0 : Nat) : Int) =
      some { id := e.fresh.page, fileName := "", modified := false } := by
    rw [widget_natCast, hp]
    rfl
  have hopen : (!(!a.reload && !a.enforceEncod &&
      (!("" : String).isEmpty || false || !("" : String).isEmpty))) = true := by
    have : ("" : String).isEmpty = true := by decide
    simp [this]
  unfold FPwin.targetTab
  simp only [hk, if_true, hi, hw, hopen]
  exact ⟨_, rfl, hp⟩

/-- C14, counterexample. The window has no tab when a reload completes: `addText`
creates a tab and puts the text into it. -/
theorem reload_creates_tab_counterexample :
    reloadedFile.reload = true ∧ noTabs.pages = [] ∧
    noTabs.addText { scrollToFirstItem := false, firstPage := none } sampleAddEnv reloadedFile =
      .ok ({ noTabs with
          pages := [{ id := 101, fileName := "/home/u/a.txt", modified := false, text := "hello" }]
          currentIndex := 0
          loadingProcesses_ := 0 },
        { scrollToFirstItem := false, firstPage := none },
        [Effect.lockTabs 1 false, Effect.finishedLoading 1]) :=
  ⟨by decide, by decide, rfl⟩

/-- C14, amended. A load that has read its file puts the text into one tab and leaves
the others as they are. With a current tab: a load that is neither a reload nor an
enforced encoding uses the current tab when it is empty, unmodified and without a file
name, and otherwise a new tab after the current one, so that every page is kept; a
reload or an enforced encoding uses the current tab. Without any tab, every load
creates a tab for its text. -/
theorem load_target (w : FPwin) (s : Statics) (e : AddEnv) (a : Completed)
    (hok : a.fileName.isEmpty = false ∧ a.charset.isEmpty = false)
    (hfresh : e.fresh2.page ∉ w.pages.map TabPage.id) :
    (∀ (k : Nat) (cur : TabPage), w.currentIndex = (k : Int) → w.pages[k]? = some cur →
      ∃ w1 st ev, w.addText s e a = .ok (w1, st, ev) ∧
        (a.reload = false → a.enforceEncod = false →
          (cur.text.isEmpty = true ∧ cur.modified = false ∧ cur.fileName.isEmpty = true →
            w1.pages = w.pages.set k (cur.install a e.alreadyOpen)) ∧
          (¬ (cur.text.isEmpty = true ∧ cur.modified = false ∧ cur.fileName.isEmpty = true) →
            w1.pages = w.pages.take (k + 1) ++
              TabPage.install { id := e.fresh2.page, fileName := "", modified := false } a
                e.alreadyOpen :: w.pages.drop (k + 1) ∧
            ∀ p ∈ w.pages, p ∈ w1.pages)) ∧
        (a.reload = true ∨ a.enforceEncod = true →
          w1.pages = w.pages.set k (cur.install a e.alreadyOpen))) ∧
    (w.currentIndex = -1 → w.pages = [] →
      ∃ w1 st ev, w.addText s e a = .ok (w1, st, ev) ∧
        w1.pages = [TabPage.install { id := e.fresh.page, fileName := "", modified := false } a
          e.alreadyOpen]) := by
  have hok1 : (a.fileName.isEmpty || a.charset.isEmpty) = false := by simp [hok.1, hok.2]
  constructor
  · intro k cur hk hcur
    have hlt : k < w.pages.length := (List.getElem?_eq_some.1 hcur).1
    by_cases hopen : (!(!a.reload && !a.enforceEncod &&
        (!cur.text.isEmpty || cur.modified || !cur.fileName.isEmpty))) = true
    · obtain ⟨w1, st, ev, hrun, hp⟩ := addText_pages (s := s) hok1
        (targetTab_current (e := e)
          (m := if (a.enforceEncod || a.reload) = true then false else a.multiple) hk hcur hopen)
      have hset : w1.pages = w.pages.set k (cur.install a e.alreadyOpen) := by
        rw [hp]
        simp [FPwin.setPage]
      refine ⟨w1, st, ev, hrun, ?_, fun _ => hset⟩
      intro hr he
      refine ⟨fun _ => hset, ?_⟩
      intro hnot
      exfalso
      apply hnot
      simp only [hr, he, Bool.not_false, Bool.true_and, Bool.not_eq_true', Bool.or_eq_false_iff,
        Bool.not_eq_false'] at hopen
      exact ⟨hopen.1.1, hopen.1.2, hopen.2⟩
    · have hopen1 : (!(!a.reload && !a.enforceEncod &&
          (!cur.text.isEmpty || cur.modified || !cur.fileName.isEmpty))) = false := by
        simpa using hopen
      obtain ⟨w2, ht, hp2⟩ := targetTab_new (e := e)
        (m := if (a.enforceEncod || a.reload) = true then false else a.multiple) hk hcur hopen1
        hfresh
      obtain ⟨w1, st, ev, hrun, hp⟩ := addText_pages (s := s) hok1 ht
      have hnew : w1.pages = w.pages.take (k + 1) ++
          TabPage.install { id := e.fresh2.page, fileName := "", modified := false } a
            e.alreadyOpen :: w.pages.drop (k + 1) := by
        rw [hp]
        have h0 : (0 : Int) ≤ ((k + 1 : Nat) : Int) := by omega
        simp only [FPwin.setPage, h0, if_true, Int.toNat_ofNat, hp2]
        rw [List.set_append_right _ _ (by simp)]
        simp [List.length_take, min_eq_left (show k + 1 ≤ w.pages.length by omega)]
      simp only [Bool.not_eq_false', Bool.and_eq_true, Bool.not_eq_true', Bool.or_eq_true]
        at hopen1
      refine ⟨w1, st, ev, hrun, ?_, ?_⟩
      · intro _ _
        refine ⟨?_, fun _ => ⟨hnew, ?_⟩⟩
        · rintro ⟨h1, h2, h3⟩
          rcases hopen1.2 with (h | h) | h
          · rw [h1] at h; cases h
          · rw [h2] at h; cases h
          · rw [h3] at h; cases h
        · intro p hpm
          rw [hnew]
          rw [← List.take_append_drop (k + 1) w.pages] at hpm
          rcases List.mem_append.1 hpm with h | h
          · exact List.mem_append_left _ h
          · exact List.mem_append_right _ (List.mem_cons_of_mem _ h)
      · intro hre
        rcases hre with h | h
        · rw [h] at hopen1; simp at hopen1
        · rw [h] at hopen1; simp at hopen1
  · intro hk hnil
    obtain ⟨w2, ht, hp2⟩ := targetTab_first (e := e) (a := a)
      (m := if (a.enforceEncod || a.reload) = true then false else a.multiple) hk hnil
    obtain ⟨w1, st, ev, hrun, hp⟩ := addText_pages (s := s) hok1 ht
    refine ⟨w1, st, ev, hrun, ?_⟩
    rw [hp]
    simp [FPwin.setPage, hp2]

theorem load_target_witness :
    (sampleFile.fileName.isEmpty = false ∧ sampleFile.charset.isEmpty = false) ∧
    sampleAddEnv.fresh2.page ∉ oneTab.pages.map TabPage.id ∧
    oneTab.currentIndex = ((0 : Nat) : Int) ∧
    oneTab.pages[0]? = some { id := 10, fileName := "/home/u/gone.txt", modified := false } ∧
    ∃ w1 st ev, oneTab.addText { scrollToFirstItem := false, firstPage := none } sampleAddEnv
        sampleFile = .ok (w1, st, ev) ∧
      w1.pages = oneTab.pages.take (0 + 1) ++
        TabPage.install { id := sampleAddEnv.fresh2.page, fileName := "", modified := false }
          sampleFile sampleAddEnv.alreadyOpen :: oneTab.pages.drop (0 + 1) ∧
      ∀ p ∈ oneTab.pages, p ∈ w1.pages :=
  ⟨by decide, by decide, by decide, by decide, by
    obtain ⟨w1, st, ev, hrun, h1, _⟩ :=
      (load_target oneTab { scrollToFirstItem := false, firstPage := none } sampleAddEnv
        sampleFile (by decide) (by decide)).1 0
        { id := 10, fileName := "/home/u/gone.txt", modified := false } (by decide) (by decide)
    exact ⟨w1, st, ev, hrun, (h1 (by decide) (by decide)).2 (by decide)⟩⟩

/-! ## The window that `detachTab` makes -/

theorem newWin_eq (id : Nat) (sp : Bool) (f : Fresh) :
    newWin id sp f =
      { id := id
        pages := [{ id := f.page, fileName := "", modified := false }]
        currentIndex := 0
        sidePane_ := sp
        items := if sp then [f.item] else []
        currentItem := if sp then some f.item else none
        sideItems_ := if sp then [(f.item, f.page)] else []
        rightClicked_ := -1
        loadingProcesses_ := 0 } := by
  cases sp <;>
    simp [newWin, FPwin.createEmptyTab, FPwin.insertTab, FPwin.addItem, FPwin.setCurrentItem,
      FPwin.setCurrentWidget, FPwin.setCurrentIndex, FPwin.indexOf, FPwin.changeTab, FPwin.row,
      FPwin.count, positionOf, hashInsert, hashRemove, hashValue]

theorem newWin_closed (id : Nat) (sp : Bool) (f : Fresh) (e : Env) :
    (newWin id sp f).closeTabAtIndex 0 e =
      .ok ({ id := id
             pages := []
             currentIndex := -1
             sidePane_ := sp
             items := []
             currentItem := none
             sideItems_ := []
             rightClicked_ := -1
             loadingProcesses_ := 0 },
        [Event.pauseAutoSaving true, Event.savePrompt f.page false DOCSTATE.SAVED,
         Event.deleteTabPage f.page, Event.pauseAutoSaving false]) := by
  rw [newWin_eq]
  have hneed : ∀ p : TabPage, p.fileName = "" → p.modified = false →
      (p.modified || p.isRemoved e) = false := by
    intro p h1 h2
    simp [TabPage.isRemoved, h1, h2, String.isEmpty]
  cases sp
  · have hs := @savePrompt_clean
      { id := id, pages := [{ id := f.page, fileName := "", modified := false }],
        currentIndex := 0, sidePane_ := false, items := [], currentItem := none,
        sideItems_ := [], rightClicked_ := -1, loadingProcesses_ := 0 } 0 _ rfl false e
      (hneed _ rfl rfl)
    simp only [FPwin.closeTabAtIndex, Bool.false_eq_true, if_false] at hs ⊢
    rw [hs]
    simp [FPwin.deleteTabPage, FPwin.widget, atIndex, FPwin.removeTab, FPwin.count, removeAt]
  · have hs := @savePrompt_clean
      { id := id, pages := [{ id := f.page, fileName := "", modified := false }],
        currentIndex := 0, sidePane_ := true, items := [f.item], currentItem := some f.item,
        sideItems_ := [(f.item, f.page)], rightClicked_ := -1, loadingProcesses_ := 0 } 0 _ rfl
      false e (hneed _ rfl rfl)
    simp only [FPwin.closeTabAtIndex, if_true] at hs ⊢
    rw [hs]
    simp [FPwin.deleteTabPage, FPwin.widget, atIndex, FPwin.removeTab, FPwin.count, removeAt,
      hashKey, hashRemove, FPwin.takeItem, FPwin.item, FPwin.row, positionOf, FPwin.changeTab]

/-! ## Uneditable texts -/

theorem locked_of_subset {w w1 : FPwin} (h : ∀ p ∈ w1.pages, p ∈ w.pages) (hl : w.Locked) :
    w1.Locked :=
  fun p hp => hl p (h p hp)

theorem locked_of_pages {w w1 : FPwin} (h : w1.pages = w.pages) (hl : w.Locked) : w1.Locked :=
  locked_of_subset (by rw [h]; exact fun _ hp => hp) hl

theorem mem_of_widget {w : FPwin} {i : Int} {t : TabPage} (h : w.widget i = some t) :
    t ∈ w.pages := by
  unfold FPwin.widget atIndex at h
  split at h
  · exact List.mem_iff_getElem?.2 ⟨_, h⟩
  · cases h

theorem insertTab_locked {w : FPwin} (hl : w.Locked) (i : Int) {q : TabPage}
    (hq : q.uneditable = true → q.readOnly = true) : (w.insertTab i q).Locked := by
  intro p hp
  simp only [FPwin.insertTab, List.mem_append, List.mem_cons] at hp
  rcases hp with hp | rfl | hp
  · exact hl p (List.mem_of_mem_take hp)
  · exact hq
  · exact hl p (List.mem_of_mem_drop hp)

theorem createEmptyTab_locked {w : FPwin} (hl : w.Locked) (b : Bool) (f : Fresh) :
    (w.createEmptyTab b f).1.Locked := by
  intro p hp
  rw [createEmptyTab_pages] at hp
  exact insertTab_locked hl _ (by simp) p hp

theorem setPage_locked {w : FPwin} (hl : w.Locked) (i : Int) {q : TabPage}
    (hq : q.uneditable = true → q.readOnly = true) : (w.setPage i q).Locked := by
  unfold FPwin.setPage
  split
  · intro p hp
    rcases List.mem_or_eq_of_mem_set hp with h | rfl
    · exact hl p h
    · exact hq
  · exact hl

theorem install_locked {t : TabPage} (ht : t.uneditable = true → t.readOnly = true)
    (a : Completed) (o : Bool) :
    (t.install a o).uneditable = true → (t.install a o).readOnly = true := by
  simp only [TabPage.install]
  cases a.uneditable <;> cases o <;> simp
  exact ht

theorem targetTab_locked {w w2 : FPwin} {e : AddEnv} {a : Completed} {m o : Bool}
    {i : Int} {t : TabPage} (hl : w.Locked) (h : w.targetTab e a m = .ok (w2, i, t, o)) :
    w2.Locked := by
  unfold FPwin.targetTab at h
  simp only at h
  have h1 : (if w.currentIndex = -1 then w.createEmptyTab (!m) e.fresh
      else (w, w.currentIndex)).1.Locked := by
    split
    · exact createEmptyTab_locked hl _ _
    · exact hl
  generalize (if w.currentIndex = -1 then w.createEmptyTab (!m) e.fresh
      else (w, w.currentIndex)) = r1 at h h1
  split at h
  · cases h
  · rename_i textEdit _
    have h2 : (if (!(!a.reload && !a.enforceEncod &&
        (!textEdit.text.isEmpty || textEdit.modified || !textEdit.fileName.isEmpty))) = true
        then r1 else r1.1.createEmptyTab (!m) e.fresh2).1.Locked := by
      split
      · exact h1
      · exact createEmptyTab_locked h1 _ _
    generalize (if (!(!a.reload && !a.enforceEncod &&
        (!textEdit.text.isEmpty || textEdit.modified || !textEdit.fileName.isEmpty))) = true
        then r1 else r1.1.createEmptyTab (!m) e.fresh2) = r2 at h h2
    split at h
    · cases h
    · simp only [Except.ok.injEq, Prod.mk.injEq] at h
      obtain ⟨e1, _, _, _⟩ := h
      subst e1
      exact h2

theorem mem_setPage {w : FPwin} {i : Int} {t : TabPage} (h : w.widget i = some t)
    (q : TabPage) : q ∈ (w.setPage i q).pages := by
  unfold FPwin.widget atIndex at h
  split at h
  · rename_i hi
    simp only [FPwin.setPage, hi, if_true]
    exact List.mem_iff_getElem?.2
      ⟨i.toNat, List.getElem?_set_self (List.getElem?_eq_some.1 h).1⟩
  · cases h

theorem widget_setPage {w : FPwin} {i : Int} {t : TabPage} (h : w.widget i = some t)
    (q : TabPage) : (w.setPage i q).widget i = some q := by
  unfold FPwin.widget atIndex at h ⊢
  split at h
  · rename_i hi
    simp only [FPwin.setPage, hi, if_true]
    rw [List.getElem?_set_self (List.getElem?_eq_some.1 h).1]
  · cases h

theorem loadedEffects_uneditable (win : Nat) {a : Completed} (h : a.uneditable = true)
    (o sh r : Bool) :
    loadedEffects win a o sh r = [Effect.connectFinishedLoading win Slot.onOpeningUneditable] := by
  simp [loadedEffects, h]

theorem endOfLoad_effects (w : FPwin) (a : Completed) (e : AddEnv) (t : Nat) (sc : Bool)
    (fp : Option Nat) (shown : List Effect) :
    ∀ x ∈ (w.endOfLoad a e t sc fp shown).2.2,
      x ∈ shown ∨ x = Effect.lockTabs w.id false ∨ x = Effect.restoreScrollbar w.id t ∨
        x = Effect.finishedLoading w.id := by
  intro x hx
  unfold FPwin.endOfLoad at hx
  split at hx
  · simp only [List.mem_append, List.mem_singleton] at hx
    rcases hx with ((hx | hx) | hx) | hx
    · exact Or.inl hx
    · exact Or.inr (Or.inl hx)
    · split at hx
      · exact Or.inr (Or.inr (Or.inl (List.mem_singleton.1 hx)))
      · cases hx
    · exact Or.inr (Or.inr (Or.inr hx))
  · exact Or.inl hx

theorem addText_locked {w w1 : FPwin} {s st : Statics} {e : AddEnv} {a : Completed}
    {ev : List Effect} (hl : w.Locked) (h : w.addText s e a = .ok (w1, st, ev)) :
    w1.Locked := by
  unfold FPwin.addText at h
  split at h
  · simp only [Except.ok.injEq, Prod.mk.injEq] at h
    rw [← h.1]
    exact hl
  · simp only at h
    split at h
    · cases h
    · rename_i w2 index target o ht
      have h2 := targetTab_locked hl ht
      obtain ⟨_, hw⟩ := targetTab_sameWindow ht
      have h3 : (w2.setPage index (target.install a e.alreadyOpen)).Locked :=
        setPage_locked h2 index (install_locked (h2 target (mem_of_widget hw)) a e.alreadyOpen)
      simp only [Except.ok.injEq] at h
      have h5 := endOfLoad_pages (w2.setPage index (target.install a e.alreadyOpen)).loaded
        a e target.id
        (s.scrollToFirstItem || (o && w.sidePane_ && !a.reload && !a.enforceEncod))
        (if ((s.scrollToFirstItem || (o && w.sidePane_ && !a.reload && !a.enforceEncod)) &&
          (s.firstPage.isNone || e.sortsBefore)) = true then some target.id else s.firstPage)
        (loadedEffects w.id a e.alreadyOpen
          (!(if (a.enforceEncod || a.reload) = true then false else a.multiple) || o)
          target.readOnly)
      rw [h] at h5
      exact locked_of_pages h5 h3

theorem addText_uneditable {w w1 : FPwin} {s st : Statics} {e : AddEnv} {a : Completed}
    {ev : List Effect} (hu : a.uneditable = true) (h : w.addText s e a = .ok (w1, st, ev)) :
    (∀ win, Effect.actionEdit win true ∉ ev ∧ Effect.makeEditableLater win ∉ ev) ∧
    ((a.fileName.isEmpty || a.charset.isEmpty) = false →
      ∃ t ∈ w1.pages, t.text = a.text ∧ t.fileName = a.fileName ∧ t.uneditable = true ∧
        t.readOnly = true) := by
  unfold FPwin.addText at h
  split at h
  · rename_i hfail
    simp only [Except.ok.injEq, Prod.mk.injEq] at h
    obtain ⟨_, _, h3⟩ := h
    subst h3
    refine ⟨fun win => ⟨?_, ?_⟩, fun hok => ?_⟩
    · intro hx
      simp only [List.mem_append, List.mem_singleton] at hx
      rcases hx with hx | hx
      · cases hx
      · split at hx
        · simp at hx
        · cases hx
    · intro hx
      simp only [List.mem_append, List.mem_singleton] at hx
      rcases hx with hx | hx
      · cases hx
      · split at hx
        · simp at hx
        · cases hx
    · rw [hok] at hfail
      cases hfail
  · simp only at h
    split at h
    · cases h
    · rename_i w2 index target o ht
      obtain ⟨_, hw⟩ := targetTab_sameWindow ht
      simp only [Except.ok.injEq] at h
      have h5 := endOfLoad_pages (w2.setPage index (target.install a e.alreadyOpen)).loaded
        a e target.id
        (s.scrollToFirstItem || (o && w.sidePane_ && !a.reload && !a.enforceEncod))
        (if ((s.scrollToFirstItem || (o && w.sidePane_ && !a.reload && !a.enforceEncod)) &&
          (s.firstPage.isNone || e.sortsBefore)) = true then some target.id else s.firstPage)
        (loadedEffects w.id a e.alreadyOpen
          (!(if (a.enforceEncod || a.reload) = true then false else a.multiple) || o)
          target.readOnly)
      have h6 := endOfLoad_effects (w2.setPage index (target.install a e.alreadyOpen)).loaded
        a e target.id
        (s.scrollToFirstItem || (o && w.sidePane_ && !a.reload && !a.enforceEncod))
        (if ((s.scrollToFirstItem || (o && w.sidePane_ && !a.reload && !a.enforceEncod)) &&
          (s.firstPage.isNone || e.sortsBefore)) = true then some target.id else s.firstPage)
        (loadedEffects w.id a e.alreadyOpen
          (!(if (a.enforceEncod || a.reload) = true then false else a.multiple) || o)
          target.readOnly)
      rw [h] at h5 h6
      simp only at h5 h6
      rw [loadedEffects_uneditable _ hu] at h6
      refine ⟨fun win => ⟨?_, ?_⟩, fun _ => ?_⟩
      · intro hx
        rcases h6 _ hx with hx | hx | hx | hx
        · simp at hx
        · cases hx
        · cases hx
        · cases hx
      · intro hx
        rcases h6 _ hx with hx | hx | hx | hx
        · simp at hx
        · cases hx
        · cases hx
        · cases hx
      · refine ⟨target.install a e.alreadyOpen, ?_, rfl, rfl, ?_, ?_⟩
        · rw [h5]
          exact mem_setPage hw _
        · simp [TabPage.install, hu]
        · simp [TabPage.install, hu]

theorem saveFile_locked {w : FPwin} (hl : w.Locked) (o : SaveOutcome) :
    (w.saveFile o).2.1.Locked := by
  unfold FPwin.saveFile
  split
  · exact hl
  · simp only
    split
    · exact hl
    · rename_i tabPage hw
      split
      · exact setPage_locked hl _ (hl tabPage (mem_of_widget hw))
      · exact setPage_locked hl _ (hl tabPage (mem_of_widget hw))

theorem removeTab_subset (w : FPwin) (i : Int) : ∀ p ∈ (w.removeTab i).pages, p ∈ w.pages := by
  intro p hp
  unfold FPwin.removeTab at hp
  split at hp
  · simp only [removeAt] at hp
    split at hp
    · exact (List.eraseIdx_sublist _ _).subset hp
    · exact hp
  · exact hp

theorem takeItem_pages (w : FPwin) (r : Int) : (w.takeItem r).pages = w.pages := by
  unfold FPwin.takeItem
  split
  · rfl
  · split
    · exact (changeTab_sameTabs _ _).2.1
    · rfl

theorem receiveTab_pages (w : FPwin) (i : Int) (q : TabPage) (f : Fresh) :
    (w.receiveTab i q f).pages = (w.insertTab i q).pages := by
  unfold FPwin.receiveTab
  simp only
  split
  · exact (setCurrentItem_sameTabs _ _).2.1
  · rfl

/-! ## Moving a tab -/

theorem receiveTab_nil (id : Nat) (sp : Bool) (q : TabPage) (f : Fresh) :
    (FPwin.receiveTab
      { id := id, pages := [], currentIndex := -1, sidePane_ := sp, items := [],
        currentItem := none, sideItems_ := [], rightClicked_ := -1, loadingProcesses_ := 0 }
      0 q f).pages = [q] := by
  rw [receiveTab_pages]
  simp [FPwin.insertTab, FPwin.count]

theorem receiveTab_id (w : FPwin) (i : Int) (q : TabPage) (f : Fresh) :
    (w.receiveTab i q f).id = w.id := by
  unfold FPwin.receiveTab
  simp only
  split
  · exact (setCurrentItem_sameTabs _ _).1
  · rfl

theorem mirror_taken_pages (w1 : FPwin) (p : Nat) :
    (if (w1.sidePane_ && !w1.sideItems_.isEmpty) = true then
      (match hashKey w1.sideItems_ p with
       | some wi =>
         FPwin.takeItem { w1 with sideItems_ := hashRemove w1.sideItems_ wi }
           (FPwin.row { w1 with sideItems_ := hashRemove w1.sideItems_ wi } (some wi))
       | none => w1)
     else w1).pages = w1.pages := by
  split
  · split
    · exact takeItem_pages _ _
    · rfl
  · rfl

theorem detachTab_moves {w : FPwin} (others : List FPwin) (n : NewWin) (e : Env)
    {tabPage : TabPage} (hr : w.isReady = true) (hi : w.closeTabIndex ≠ -1)
    (hc : w.count ≠ 1) (hw : w.widget w.closeTabIndex = some tabPage) :
    ∃ w1 d, w.detachTab others n e = .ok (w1, others ++ [d], []) ∧
      w1.pages = (w.removeTab w.closeTabIndex).pages ∧ d.pages = [tabPage] ∧ d.id = n.id := by
  unfold FPwin.detachTab
  simp only [hr, Bool.not_true, Bool.false_eq_true, if_false, hi, hc, decide_False,
    Bool.or_self, hw, newWin_closed]
  exact ⟨_, _, rfl, mirror_taken_pages _ _, receiveTab_nil _ _ _ _, receiveTab_id _ _ _ _⟩

theorem detachTab_inv {w w1 : FPwin} {others others1 : List FPwin} {n : NewWin} {e : Env}
    {ev : List Effect} (h : w.detachTab others n e = .ok (w1, others1, ev)) :
    (w1 = w ∧ others1 = others) ∨
    ∃ tabPage d, w.widget w.closeTabIndex = some tabPage ∧
      w1.pages = (w.removeTab w.closeTabIndex).pages ∧ others1 = others ++ [d] ∧
      d.pages = [tabPage] := by
  unfold FPwin.detachTab at h
  split at h
  · simp only [Except.ok.injEq, Prod.mk.injEq] at h
    exact Or.inl ⟨h.1.symm, h.2.1.symm⟩
  · simp only at h
    split at h
    · simp only [Except.ok.injEq, Prod.mk.injEq] at h
      exact Or.inl ⟨h.1.symm, h.2.1.symm⟩
    · split at h
      · cases h
      · rename_i tabPage hw
        rw [newWin_closed] at h
        simp only [Except.ok.injEq, Prod.mk.injEq] at h
        obtain ⟨h1, h2, _⟩ := h
        refine Or.inr ⟨tabPage, _, hw, ?_, h2.symm, receiveTab_nil _ _ _ _⟩
        rw [← h1]
        exact mirror_taken_pages _ _

theorem dropTab_moves {w : FPwin} (others : List FPwin) (f : Fresh) {str : String}
    {first second : List Char} {src : FPwin} {tabPage : TabPage}
    (hs : splitParts '+' str.toList [] = [first, second]) (hidx : ¬ toInt second ≤ -1)
    (hf : findWin (w :: others) (toInt first) = some src) (hne : src.id ≠ w.id)
    (hw : src.widget (toInt second) = some tabPage) :
    w.dropTab others f str =
      .ok ((w.receiveTab (w.currentIndex + 1) tabPage f).setCurrentIndex (w.currentIndex + 1),
        others.map (fun x => if x.id = src.id then src.removeTab (toInt second) else x),
        [Effect.closeWarningBar w.id, Effect.closeWarningBar src.id] ++
          (if (src.removeTab (toInt second)).count = 0 then [Effect.closeLater src.id]
           else [])) := by
  unfold FPwin.dropTab
  simp only [hs, hidx, if_false, hf, hne, hw]

theorem dropTab_inv {w w1 : FPwin} {others others1 : List FPwin} {f : Fresh} {str : String}
    {ev : List Effect} (h : w.dropTab others f str = .ok (w1, others1, ev)) :
    (w1 = w ∧ others1 = others ∧ ev = [Effect.finishMouseMoveEvent w.id]) ∨
    ∃ first second src tabPage,
      splitParts '+' str.toList [] = [first, second] ∧ ¬ toInt second ≤ -1 ∧
      findWin (w :: others) (toInt first) = some src ∧ src.id ≠ w.id ∧
      src.widget (toInt second) = some tabPage := by
  unfold FPwin.dropTab at h
  split at h
  · rename_i first second hs
    simp only at h
    split at h
    · simp only [Except.ok.injEq, Prod.mk.injEq] at h
      exact Or.inl ⟨h.1.symm, h.2.1.symm, h.2.2.symm⟩
    · rename_i hidx
      split at h
      · simp only [Except.ok.injEq, Prod.mk.injEq] at h
        exact Or.inl ⟨h.1.symm, h.2.1.symm, h.2.2.symm⟩
      · rename_i src hf
        split at h
        · simp only [Except.ok.injEq, Prod.mk.injEq] at h
          exact Or.inl ⟨h.1.symm, h.2.1.symm, h.2.2.symm⟩
        · rename_i hne
          split at h
          · cases h
          · rename_i tabPage hw
            exact Or.inr ⟨first, second, src, tabPage, hs, hidx, hf, hne, hw⟩
  · simp only [Except.ok.injEq, Prod.mk.injEq] at h
    exact Or.inl ⟨h.1.symm, h.2.1.symm, h.2.2.symm⟩

/-! ## C15: uneditable texts and `makeEditable` -/

/-- C15, at a failing input. Both tabs of `lockedPair` are uneditable and read-only, and
the file of the first, which is current, has been removed. The tab is closed and the
user answers the prompt with "Save": `saveFile` finds the text read-only and open
nowhere else and schedules `makeEditable`, without a look at `isUneditable()`, and the
tab is deleted. The scheduled `makeEditable` then writes `readOnly = false` into the
tab that is current by then, the second one, which stays uneditable. -/
theorem makeEditable_lifts_uneditable :
    lockedPair.Locked ∧ lockedPair.isReady = true ∧
    (lockedPair.attend 0
        { id := 10, fileName := "/home/u/a.bin", modified := false, text := "data",
          readOnly := true, uneditable := true }).saveFile restoreEnv.save =
      (true, lockedPair, [Effect.makeEditableLater 1]) ∧
    lockedPair.closeTabAtIndex 0 restoreEnv =
      .ok ({ lockedPair with
             pages := [{ id := 11, fileName := "/home/u/b.bin", modified := false,
                         text := "more", readOnly := true, uneditable := true }] },
        [Event.pauseAutoSaving true, Event.msgBox 10 true false,
          Event.savePrompt 10 false DOCSTATE.SAVED, Event.deleteTabPage 10,
          Event.pauseAutoSaving false]) ∧
    ({ lockedPair with
       pages := [{ id := 11, fileName := "/home/u/b.bin", modified := false,
                   text := "more", readOnly := true, uneditable := true }] } :
      FPwin).makeEditable =
      .ok ({ lockedPair with
             pages := [{ id := 11, fileName := "/home/u/b.bin", modified := false,
                         text := "more", readOnly := false, uneditable := true }] },
        [Effect.actionEdit 1 false]) ∧
    ¬ ({ lockedPair with
         pages := [{ id := 11, fileName := "/home/u/b.bin", modified := false,
                     text := "more", readOnly := false, uneditable := true }] } :
        FPwin).Locked :=
  ⟨by decide, by decide, rfl, rfl, rfl, by decide⟩

/-- In a window `w` of a registry in which every uneditable tab is read-only, `addText`,
`saveFile`, `tabSwitch`, `detachTab` and `dropTab` themselves leave every uneditable tab
of every window read-only. `addText` of an uneditable text makes the tab of that text
uneditable and read-only and neither shows the "Edit" action nor schedules
`makeEditable`; `tabSwitch` writes no tab and shows the "Edit" action only for a
read-only tab that is not uneditable; `makeEditable` keeps the uneditable tabs
read-only when the current tab is not uneditable. -/
theorem locked_kept (w : FPwin) (others : List FPwin) (hw : w.Locked)
    (ho : ∀ x ∈ others, x.Locked) :
    (∀ s e a w1 st ev, w.addText s e a = .ok (w1, st, ev) →
      w1.Locked ∧
      (a.uneditable = true →
        (∀ win, Effect.actionEdit win true ∉ ev ∧ Effect.makeEditableLater win ∉ ev) ∧
        ((a.fileName.isEmpty || a.charset.isEmpty) = false →
          ∃ t ∈ w1.pages, t.text = a.text ∧ t.fileName = a.fileName ∧
            t.uneditable = true ∧ t.readOnly = true))) ∧
    (∀ o, (w.saveFile o).2.1.Locked) ∧
    (∀ i w1 ev, w.tabSwitch i = .ok (w1, ev) →
      w1 = w ∧
      ∀ win, Effect.actionEdit win true ∈ ev →
        ∃ t, w.widget i = some t ∧ t.readOnly = true ∧ t.uneditable = false) ∧
    (∀ n e w1 others1 ev, w.detachTab others n e = .ok (w1, others1, ev) →
      w1.Locked ∧ ∀ x ∈ others1, x.Locked) ∧
    (∀ f str w1 others1 ev, w.dropTab others f str = .ok (w1, others1, ev) →
      w1.Locked ∧ ∀ x ∈ others1, x.Locked) ∧
    (∀ w1 ev, w.makeEditable = .ok (w1, ev) →
      ∀ t, w.widget w.currentIndex = some t → t.uneditable = false → w1.Locked) := by
  refine ⟨?_, ?_, ?_, ?_, ?_, ?_⟩
  · intro s e a w1 st ev h
    exact ⟨addText_locked hw h, fun hu => addText_uneditable hu h⟩
  · exact saveFile_locked hw
  · intro i w1 ev h
    unfold FPwin.tabSwitch at h
    split at h
    · simp only [Except.ok.injEq, Prod.mk.injEq] at h
      refine ⟨h.1.symm, fun win hx => ?_⟩
      rw [← h.2] at hx
      cases hx
    · split at h
      · cases h
      · rename_i textEdit hwd
        simp only [Except.ok.injEq, Prod.mk.injEq] at h
        refine ⟨h.1.symm, fun win hx => ?_⟩
        rw [← h.2] at hx
        simp only [List.mem_cons, List.mem_singleton, Effect.actionEdit.injEq, false_or,
          List.not_mem_nil, or_false] at hx
        rcases hx with hx | hx
        · cases hx
        · have hv := hx.2.symm
          split at hv
          · cases hv
          · simp only [Bool.and_eq_true, Bool.not_eq_true'] at hv
            exact ⟨textEdit, hwd, hv.1, hv.2⟩
  · intro n e w1 others1 ev h
    rcases detachTab_inv h with ⟨h1, h2⟩ | ⟨tabPage, d, hwd, hp, h2, hd⟩
    · subst h1 h2
      exact ⟨hw, ho⟩
    · subst h2
      refine ⟨locked_of_subset (by rw [hp]; exact removeTab_subset _ _) hw, fun x hx => ?_⟩
      rcases List.mem_append.1 hx with hx | hx
      · exact ho x hx
      · rw [List.mem_singleton.1 hx]
        intro p hp1
        rw [hd, List.mem_singleton] at hp1
        rw [hp1]
        exact hw tabPage (mem_of_widget hwd)
  · intro f str w1 others1 ev h
    rcases dropTab_inv h with ⟨h1, h2, _⟩ | ⟨first, second, src, tabPage, hs, hidx, hf, hne, hwd⟩
    · subst h1 h2
      exact ⟨hw, ho⟩
    · rw [dropTab_moves others f hs hidx hf hne hwd] at h
      simp only [Except.ok.injEq, Prod.mk.injEq] at h
      obtain ⟨h1, h2, _⟩ := h
      subst h1 h2
      have hsl : src.Locked := by
        rcases List.mem_cons.1 (List.mem_of_find?_eq_some hf) with hm | hm
        · rw [hm]
          exact hw
        · exact ho _ hm
      refine ⟨?_, fun x hx => ?_⟩
      · apply locked_of_pages (setCurrentIndex_sameTabs _ _).2.1
        apply locked_of_pages (receiveTab_pages _ _ _ _)
        exact insertTab_locked hw _ (hsl tabPage (mem_of_widget hwd))
      · obtain ⟨y, hy, hxy⟩ := List.mem_map.1 hx
        rw [← hxy]
        split
        · exact locked_of_subset (removeTab_subset _ _) hsl
        · exact ho y hy
  · intro w1 ev h
    unfold FPwin.makeEditable at h
    split at h
    · simp only [Except.ok.injEq, Prod.mk.injEq] at h
      rw [← h.1]
      exact fun _ _ _ => hw
    · simp only at h
      split at h
      · simp only [Except.ok.injEq, Prod.mk.injEq] at h
        rw [← h.1]
        exact fun _ _ _ => hw
      · split at h
        · cases h
        · rename_i textEdit hwd
          simp only [Except.ok.injEq, Prod.mk.injEq] at h
          rw [← h.1]
          intro t ht hu
          rw [hwd] at ht
          cases ht
          exact setPage_locked hw _ (by simp [hu])

theorem locked_kept_witness :
    lockedTab.Locked ∧ (∀ x ∈ [oneTab], x.Locked) ∧
    (lockedTab.saveFile
      { success := true, fileName := "/home/u/b.bin", edited := false,
        alreadyOpen := false }).2.1.Locked :=
  ⟨by decide, by decide,
    (locked_kept lockedTab [oneTab] (by decide) (by decide)).2.1 _⟩

theorem findWin_none {wins : List FPwin} {n : Int}
    (h : ∀ x ∈ wins, (x.id : Int) ≠ n % 4294967296) : findWin wins n = none := by
  unfold findWin
  rw [List.find?_eq_none]
  intro x hx
  simp only [decide_eq_true_eq]
  exact h x hx

theorem findWin_self {w : FPwin} (others : List FPwin) {n : Int}
    (h : (w.id : Int) = n % 4294967296) : findWin (w :: others) n = some w := by
  unfold findWin
  simp [List.find?_cons, h]

theorem findWin_mem {wins : List FPwin} {n : Int} {src : FPwin}
    (h : findWin wins n = some src) : src ∈ wins :=
  List.mem_of_find?_eq_some h

theorem dropTab_noop {w : FPwin} {others : List FPwin} {f : Fresh} {str : String}
    (h : ∀ first second src, splitParts '+' str.toList [] = [first, second] →
      ¬ toInt second ≤ -1 → findWin (w :: others) (toInt first) = some src → src.id = w.id) :
    w.dropTab others f str = .ok (w, others, [Effect.finishMouseMoveEvent w.id]) := by
  unfold FPwin.dropTab
  split
  · rename_i first second hs
    simp only
    split
    · rfl
    · rename_i hidx
      split
      · rfl
      · rename_i src hf
        simp only [h first second src hs hidx hf, if_true]
  · rfl

theorem dropTab_fault {w : FPwin} (others : List FPwin) (f : Fresh) {str : String}
    {first second : List Char} {src : FPwin}
    (hs : splitParts '+' str.toList [] = [first, second]) (hidx : ¬ toInt second ≤ -1)
    (hf : findWin (w :: others) (toInt first) = some src) (hne : src.id ≠ w.id)
    (hw : src.widget (toInt second) = none) :
    w.dropTab others f str = .error Fault.nullPage := by
  unfold FPwin.dropTab
  simp only [hs, hidx, if_false, hf, hne, hw]

theorem mem_receiveTab (w : FPwin) (i : Int) (q : TabPage) (f : Fresh) :
    q ∈ (w.receiveTab i q f).pages := by
  rw [receiveTab_pages]
  simp [FPwin.insertTab]

/-! ## C16: nothing to detach -/

/-- C16: `detachTab` on a window with exactly one tab, or with no tab to detach (the
index of the tab is `-1`), is a no-op: the window, with its tabs and its side list, and
the registry are returned as they were, so that no window is created; a ready window
only ends the mouse move of its tab bar. -/
theorem detach_single_noop (w : FPwin) (others : List FPwin) (n : NewWin) (e : Env)
    (h : w.count = 1 ∨ w.closeTabIndex = -1) :
    w.detachTab others n e =
      .ok (w, others, if w.isReady then [Effect.finishMouseMoveEvent w.id] else []) := by
  unfold FPwin.detachTab
  cases hr : w.isReady
  · simp
  · rcases h with h | h <;> simp [h]

theorem detach_single_noop_witness :
    (oneTab.count = 1 ∨ oneTab.closeTabIndex = -1) ∧
    oneTab.detachTab [lastTab] sampleNewWin blockedEnv =
      .ok (oneTab, [lastTab], [Effect.finishMouseMoveEvent 1]) :=
  ⟨by decide, detach_single_noop oneTab [lastTab] sampleNewWin blockedEnv (by decide)⟩

/-! ## C17: detaching one of two tabs -/

/-- C17: in a ready window with the two tabs `p` and `q`, `detachTab` of the tab at
index `k` returns the window with the other tab as its only one and adds one window to
the registry, `d`, with the `winId()` of the new window, whose only tab is the detached
page itself: the same object with the same modification flag, file name, encoding,
language and searched text. When the two pages are distinct objects that no other
window holds, the detached page is in no window but `d`. -/
theorem detach_from_two (w : FPwin) (others : List FPwin) (n : NewWin) (e : Env)
    (p q : TabPage) (k : Nat) (hr : w.isReady = true) (hp : w.pages = [p, q])
    (hk : w.closeTabIndex = (k : Int)) (hk2 : k < 2) (hne : p.id ≠ q.id)
    (hsep : ∀ x ∈ others, ∀ t ∈ x.pages, t.id ≠ p.id ∧ t.id ≠ q.id) :
    ∃ w1 d moved kept, [p, q][k]? = some moved ∧ [p, q][1 - k]? = some kept ∧
      w.detachTab others n e = .ok (w1, others ++ [d], []) ∧
      w1.pages = [kept] ∧ d.pages = [moved] ∧ d.id = n.id ∧
      ∀ x ∈ w1 :: others, ∀ t ∈ x.pages, t.id ≠ moved.id := by
  have hc : w.count ≠ 1 := by simp [FPwin.count, hp]
  have hi : w.closeTabIndex ≠ -1 := by
    rw [hk]
    omega
  have hlt : k < w.pages.length := by
    rw [hp]
    exact hk2
  have hm : w.pages[k]? = some w.pages[k] := List.getElem?_eq_getElem hlt
  have hw : w.widget w.closeTabIndex = some w.pages[k] := by
    rw [hk, widget_natCast]
    exact hm
  obtain ⟨w1, d, hrun, h1, h2, h3⟩ := detachTab_moves others n e hr hi hc hw
  rw [hk, removeTab_eq w hlt] at h1
  simp only at h1
  have hk01 : k = 0 ∨ k = 1 := by omega
  rcases hk01 with rfl | rfl
  · have hv : w.pages[0] = p := by simp [hp]
    rw [hv] at h2
    rw [hp] at h1
    refine ⟨w1, d, p, q, rfl, rfl, hrun, h1, h2, h3, ?_⟩
    intro x hx t ht
    rcases List.mem_cons.1 hx with hx | hx
    · rw [hx, h1] at ht
      rw [List.mem_singleton.1 ht]
      exact fun h => hne h.symm
    · exact (hsep x hx t ht).1
  · have hv : w.pages[1] = q := by simp [hp]
    rw [hv] at h2
    rw [hp] at h1
    refine ⟨w1, d, q, p, rfl, rfl, hrun, h1, h2, h3, ?_⟩
    intro x hx t ht
    rcases List.mem_cons.1 hx with hx | hx
    · rw [hx, h1] at ht
      rw [List.mem_singleton.1 ht]
      exact hne
    · exact (hsep x hx t ht).2

theorem detach_from_two_witness :
    ({ twoTabs with currentIndex := 1 } : FPwin).isReady = true ∧
    ({ twoTabs with currentIndex := 1 } : FPwin).closeTabIndex = ((1 : Nat) : Int) ∧
    (∀ x ∈ [lastTab], ∀ t ∈ x.pages, t.id ≠ 10 ∧ t.id ≠ 11) ∧
    ∃ w1 d, ({ twoTabs with currentIndex := 1 } : FPwin).detachTab [lastTab] sampleNewWin
        blockedEnv = .ok (w1, [lastTab] ++ [d], []) ∧
      w1.pages = [{ id := 10, fileName := "", modified := false }] ∧
      d.pages = [{ id := 11, fileName := "/home/u/notes.txt", modified := true }] ∧
      d.id = 3 :=
  ⟨by decide, by decide, by decide, by
    obtain ⟨w1, d, moved, kept, hm, hkept, hrun, h1, h2, h3, _⟩ :=
      detach_from_two { twoTabs with currentIndex := 1 } [lastTab] sampleNewWin blockedEnv
        { id := 10, fileName := "", modified := false }
        { id := 11, fileName := "/home/u/notes.txt", modified := true } 1
        (by decide) rfl (by decide) (by decide) (by decide) (by decide)
    cases hm
    cases hkept
    exact ⟨w1, d, hrun, h1, h2, h3⟩⟩

/-! ## C18: a drop from an unknown window or from the window itself -/

/-- C18: when the window id of the payload is the `winId()` of no window of the
registry, or is that of the window that receives the drop, `dropTab` is a no-op: the
window and the other windows of the registry are returned as they were, and the mouse
move of the tab bar is ended. -/
theorem drop_unknown_window (w : FPwin) (others : List FPwin) (f : Fresh) (str : String)
    (first second : List Char) (hs : splitParts '+' str.toList [] = [first, second])
    (hid : (∀ x ∈ w :: others, (x.id : Int) ≠ toInt first % 4294967296) ∨
      (w.id : Int) = toInt first % 4294967296) :
    w.dropTab others f str = .ok (w, others, [Effect.finishMouseMoveEvent w.id]) := by
  apply dropTab_noop
  intro first1 second1 src hs1 _ hf
  rw [hs] at hs1
  simp only [List.cons.injEq, and_true] at hs1
  rw [← hs1.1] at hf
  rcases hid with hid | hid
  · rw [findWin_none hid] at hf
    cases hf
  · rw [findWin_self others hid] at hf
    cases hf
    rfl

theorem drop_unknown_window_witness :
    splitParts '+' "7+0".toList [] = [['7'], ['0']] ∧
    (∀ x ∈ oneTab :: [sideSource], (x.id : Int) ≠ toInt ['7'] % 4294967296) ∧
    oneTab.dropTab [sideSource] (sampleFresh 0) "7+0" =
      .ok (oneTab, [sideSource], [Effect.finishMouseMoveEvent 1]) :=
  ⟨by decide, by decide,
    drop_unknown_window oneTab [sideSource] (sampleFresh 0) "7+0" ['7'] ['0'] (by decide)
      (Or.inl (by decide))⟩

/-! ## C19: malformed payloads -/

/-- C19, at two failing inputs. The second part of the payload `2+x` is not a number:
`toInt`, called without its `ok`, reads it as `0`, and `dropTab` moves the first tab of
window `2` into the receiving window. The payload `2+5` names a tab that window `2`,
which has two tabs, does not have: `widget (5)` is null and is dereferenced. -/
theorem drop_malformed_moves :
    splitParts '+' "2+x".toList [] = [['2'], ['x']] ∧ digitsValue ['x'] = none ∧
    toInt ['x'] = 0 ∧
    oneTab.dropTab [plainSource] (sampleFresh 0) "2+x" =
      .ok ({ oneTab with
             pages := [{ id := 10, fileName := "/home/u/gone.txt", modified := false },
                       { id := 30, fileName := "/home/u/x.txt", modified := false }]
             currentIndex := 1 },
        [{ plainSource with pages := [{ id := 31, fileName := "", modified := true }] }],
        [Effect.closeWarningBar 1, Effect.closeWarningBar 2]) ∧
    splitParts '+' "2+5".toList [] = [['2'], ['5']] ∧ toInt ['5'] = 5 ∧
    plainSource.count = 2 ∧ plainSource.widget 5 = none ∧
    oneTab.dropTab [plainSource] (sampleFresh 0) "2+5" = .error Fault.nullPage :=
  ⟨by decide, by decide, by decide, rfl, by decide, by decide, by decide, by decide, rfl⟩

/-- The payloads that the guards of `dropTab` catch: `dropTab` returns the window and
the registry as they were when the payload does not split at `+` into exactly two
non-empty parts, when `toInt` reads the second part as a negative number, or when the
number that `toInt` reads from the first part is the `winId()` of no window or of the
receiving window. -/
theorem drop_guarded_noop (w : FPwin) (others : List FPwin) (f : Fresh) (str : String)
    (h : ∀ first second, splitParts '+' str.toList [] = [first, second] →
        toInt second ≤ -1 ∨
        (∀ x ∈ w :: others, (x.id : Int) ≠ toInt first % 4294967296) ∨
        (w.id : Int) = toInt first % 4294967296) :
    w.dropTab others f str = .ok (w, others, [Effect.finishMouseMoveEvent w.id]) := by
  apply dropTab_noop
  intro first second src hs hidx hf
  rcases h first second hs with h1 | h1 | h1
  · exact absurd h1 hidx
  · rw [findWin_none h1] at hf
    cases hf
  · rw [findWin_self others h1] at hf
    cases hf
    rfl

theorem drop_guarded_noop_witness :
    splitParts '+' "2+1+0".toList [] = [['2'], ['1'], ['0']] ∧
    oneTab.dropTab [plainSource] (sampleFresh 0) "2+1+0" =
      .ok (oneTab, [plainSource], [Effect.finishMouseMoveEvent 1]) :=
  ⟨by decide,
    drop_guarded_noop oneTab [plainSource] (sampleFresh 0) "2+1+0"
      (fun first second h => by
        rw [show splitParts '+' "2+1+0".toList [] = [['2'], ['1'], ['0']] from by decide] at h
        simp at h)⟩

/-! ## C20: the source window of a drop -/

/-- What a successful `dropTab` does to the source window: it puts, in the place of the
source, the source without the tab at the index of the payload, which is then a tab of
the receiving window; it writes neither the items nor `sideItems_` of the source; and
the source is scheduled to close exactly when it has no tab left after the removal. -/
theorem drop_source (w : FPwin) (others : List FPwin) (f : Fresh) (str : String)
    (first second : List Char) (src : FPwin) (tabPage : TabPage)
    (hs : splitParts '+' str.toList [] = [first, second]) (hidx : ¬ toInt second ≤ -1)
    (hf : findWin (w :: others) (toInt first) = some src) (hne : src.id ≠ w.id)
    (hw : src.widget (toInt second) = some tabPage) :
    ∃ w1 others1 ev source, w.dropTab others f str = .ok (w1, others1, ev) ∧
      src ∈ others ∧ source ∈ others1 ∧
      others1 = others.map (fun x => if x.id = src.id then source else x) ∧
      source.id = src.id ∧
      source.pages = src.pages.eraseIdx (toInt second).toNat ∧
      source.items = src.items ∧ source.sideItems_ = src.sideItems_ ∧
      source.currentItem = src.currentItem ∧
      tabPage ∈ w1.pages ∧
      (Effect.closeLater src.id ∈ ev ↔ source.pages = []) := by
  have hmem : src ∈ others := by
    rcases List.mem_cons.1 (findWin_mem hf) with h | h
    · rw [h] at hne
      exact absurd rfl hne
    · exact h
  have hpos : 0 ≤ toInt second := by omega
  have hwn : src.widget ((toInt second).toNat : Int) = some tabPage := by
    rw [Int.toNat_of_nonneg hpos]
    exact hw
  rw [widget_natCast] at hwn
  have hlt : (toInt second).toNat < src.pages.length := (List.getElem?_eq_some.1 hwn).1
  have hrem := removeTab_eq src hlt
  rw [Int.toNat_of_nonneg hpos] at hrem
  refine ⟨_, _, _, src.removeTab (toInt second), dropTab_moves others f hs hidx hf hne hw,
    hmem, ?_, rfl, ?_, ?_, ?_, ?_, ?_, ?_, ?_⟩
  · exact List.mem_map.2 ⟨src, hmem, by simp⟩
  · rw [hrem]
  · rw [hrem]
  · rw [hrem]
  · rw [hrem]
  · rw [hrem]
  · rw [(setCurrentIndex_sameTabs _ _).2.1]
    exact mem_receiveTab _ _ _ _
  · simp only [FPwin.count, List.mem_append, List.mem_cons, List.mem_singleton,
      List.not_mem_nil, or_false, Nat.cast_eq_zero, List.length_eq_zero]
    constructor
    · intro h
      rcases h with (h | h) | h
      · cases h
      · cases h
      · split at h
        · assumption
        · cases h
    · intro h
      right
      rw [if_pos h]
      exact List.mem_singleton.2 rfl

theorem drop_source_witness :
    splitParts '+' "2+0".toList [] = [['2'], ['0']] ∧ ¬ toInt ['0'] ≤ -1 ∧
    findWin (oneTab :: [lastTab]) (toInt ['2']) = some lastTab ∧ lastTab.id ≠ oneTab.id ∧
    lastTab.widget (toInt ['0']) =
      some { id := 30, fileName := "/home/u/x.txt", modified := true } ∧
    ∃ w1 others1 ev source,
      oneTab.dropTab [lastTab] (sampleFresh 0) "2+0" = .ok (w1, others1, ev) ∧
      source ∈ others1 ∧ source.pages = [] ∧ Effect.closeLater 2 ∈ ev := by
  refine ⟨by decide, by decide, by decide, by decide, by decide, ?_⟩
  obtain ⟨w1, others1, ev, source, hrun, _, h2, _, _, h5, _, _, _, _, h10⟩ :=
    drop_source oneTab [lastTab] (sampleFresh 0) "2+0" ['2'] ['0'] lastTab
      { id := 30, fileName := "/home/u/x.txt", modified := true }
      (by decide) (by decide) (by decide) (by decide) (by decide)
  have h6 : source.pages = [] := by
    rw [h5]
    decide
  exact ⟨w1, others1, ev, source, hrun, h2, h6, h10.2 h6⟩

/-! ## C29: the encoding menu -/

theorem checked_setChecked (m : EncodingMenu) (a b : EncodingAction) :
    (m.setChecked a).isChecked b = decide (b = a) := rfl

/-- C29: `checkToEncoding` undoes `encodingToCheck`: after `encodingToCheck (e)`, with
any state of the menu before, `checkToEncoding()` returns `e` for each of the encoding
names that `encodingToCheck` compares with, and for every other name `e` the action
"Other" is checked and enabled and `checkToEncoding()` returns `UTF-8`. -/
theorem checkToEncoding_encodingToCheck (m : EncodingMenu) (e : String) :
    (e ∈ encodingNames → checkToEncoding (encodingToCheck m e) = e) ∧
    (e ∉ encodingNames →
      (encodingToCheck m e).isChecked EncodingAction.actionOther = true ∧
      (encodingToCheck m e).otherDisabled = false ∧
      checkToEncoding (encodingToCheck m e) = "UTF-8") := by
  constructor
  · intro h
    simp only [encodingNames, List.mem_cons, List.mem_singleton, List.not_mem_nil,
      or_false] at h
    rcases h with h | h | h | h | h | h | h | h | h | h | h | h | h | h | h | h | h | h | h <;>
      subst h <;> rfl
  · intro h
    simp only [encodingNames, List.mem_cons, List.mem_singleton, List.not_mem_nil,
      or_false, not_or] at h
    obtain ⟨h1, h2, h3, h4, h5, h6, h7, h8, h9, h10, h11, h12, h13, h14, h15, h16, h17, h18,
      h19⟩ := h
    have he : encodingToCheck m e =
        ({ m with otherDisabled := false } : EncodingMenu).setChecked
          EncodingAction.actionOther := by
      simp only [encodingToCheck, h1, h2, h3, h4, h5, h6, h7, h8, h9, h10, h11, h12, h13, h14,
        h15, h16, h17, h18, h19, if_false, ne_eq, not_false_eq_true, if_true]
    rw [he]
    exact ⟨rfl, rfl, rfl⟩

theorem checkToEncoding_encodingToCheck_witness :
    "KOI8-U" ∈ encodingNames ∧ "UTF-7" ∉ encodingNames ∧
    checkToEncoding (encodingToCheck sampleMenu "KOI8-U") = "KOI8-U" ∧
    checkToEncoding (encodingToCheck sampleMenu "UTF-7") = "UTF-8" :=
  ⟨by decide, by decide,
    (checkToEncoding_encodingToCheck sampleMenu "KOI8-U").1 (by decide),
    ((checkToEncoding_encodingToCheck sampleMenu "UTF-7").2 (by decide)).2.2⟩

/-! ## C30: trailing spaces -/

theorem trailingSpacesLoop_spec (str : List Char) :
    ∀ fuel i : Nat, i ≤ str.length → str.length - i < fuel →
      (∀ c ∈ str.drop (str.length - i), isSpace c = true) →
      ∃ n, trailingSpacesLoop str fuel i = some n ∧ n ≤ str.length ∧
        (∀ c ∈ str.drop (str.length - n), isSpace c = true) ∧
        (n < str.length → ∃ c, str[str.length - 1 - n]? = some c ∧ isSpace c = false) := by
  intro fuel
  induction fuel with
  | zero =>
    intro i _ h
    omega
  | succ fuel ih =>
    intro i hi hf hall
    unfold trailingSpacesLoop
    by_cases hlt : i < str.length
    · have hidx : str.length - 1 - i < str.length := by omega
      simp only [hlt, if_true, List.getElem?_eq_getElem hidx]
      cases hc : isSpace str[str.length - 1 - i]
      · simp only [Bool.not_false, if_true]
        exact ⟨i, rfl, hi, hall, fun _ => ⟨_, List.getElem?_eq_getElem hidx, hc⟩⟩
      · simp only [Bool.not_true, Bool.false_eq_true, if_false]
        apply ih (i + 1) (by omega) (by omega)
        intro c hmem
        have hd : str.drop (str.length - (i + 1)) =
            str[str.length - 1 - i] :: str.drop (str.length - i) := by
          have h1 : str.length - (i + 1) = str.length - 1 - i := by omega
          have h2 : str.length - i = str.length - 1 - i + 1 := by omega
          rw [h1, h2]
          exact List.drop_eq_getElem_cons hidx
        rw [hd] at hmem
        rcases List.mem_cons.1 hmem with h | h
        · rw [h]
          exact hc
        · exact hall c h
    · simp only [hlt, if_false]
      exact ⟨i, rfl, hi, hall, fun h => absurd h hlt⟩

theorem removeTrailingSpaces_total (prog : String)
    (hb : ∀ b : List Char, ∃ o, stripBlock prog b = some o) :
    ∀ blocks : List (List Char), ∃ out, removeTrailingSpaces prog blocks = some out ∧
      List.Forall₂ (fun b o => stripBlock prog b = some o) blocks out := by
  intro blocks
  induction blocks with
  | nil => exact ⟨[], rfl, List.Forall₂.nil⟩
  | cons b rest ih =>
    obtain ⟨o, ho⟩ := hb b
    obtain ⟨out, hout, hall⟩ := ih
    refine ⟨o :: out, ?_, List.Forall₂.cons ho hall⟩
    simp only [removeTrailingSpaces, ho, hout]

theorem stripBlock_of_trailingSpaces (prog : String) {str : List Char} {n : Nat}
    (h : trailingSpaces str = some n) :
    stripBlock prog str =
      some (str.take (str.length - (if 2 ≤ n ∧ prog = "markdown" then n - 2 else n))) := by
  unfold stripBlock
  simp only [h]
  by_cases h0 : n = 0
  · subst h0
    simp
  · simp only [ne_eq, h0, not_false_eq_true, if_true, gt_iff_lt, Bool.and_eq_true,
      decide_eq_true_eq]
    by_cases hm : 1 < n ∧ prog = "markdown"
    · have hm2 : 2 ≤ n ∧ prog = "markdown" := ⟨hm.1, hm.2⟩
      rw [if_pos hm, if_pos hm2]
    · have hm2 : ¬ (2 ≤ n ∧ prog = "markdown") := fun h => hm ⟨h.1, h.2⟩
      rw [if_neg hm, if_neg hm2]

/-- C30: `trailingSpaces (str)` returns a number `n` with `0 ≤ n ≤ str.length()`, the
length of the longest suffix of `str` made of whitespace only: the last `n` characters
are whitespace, no longer suffix is, and `n` is the length when all characters are
whitespace. The strip pass of `saveFile` and `autoSave` keeps of each block the
characters before the last `n`, and in a markdown text with `n ≥ 2` also the first two
of the last `n`; it goes through all the blocks. -/
theorem trailingSpaces_strip (prog : String) (str : List Char) (blocks : List (List Char)) :
    (∃ n, trailingSpaces str = some n ∧ n ≤ str.length ∧
      (∀ c ∈ str.drop (str.length - n), isSpace c = true) ∧
      (∀ k, k ≤ str.length → (∀ c ∈ str.drop (str.length - k), isSpace c = true) → k ≤ n) ∧
      ((∀ c ∈ str, isSpace c = true) → n = str.length) ∧
      stripBlock prog str =
        some (str.take (str.length - (if 2 ≤ n ∧ prog = "markdown" then n - 2 else n)))) ∧
    (∃ out, removeTrailingSpaces prog blocks = some out ∧
      List.Forall₂ (fun b o => stripBlock prog b = some o) blocks out) := by
  have hspec : ∀ s : List Char, ∃ n, trailingSpaces s = some n ∧ n ≤ s.length ∧
      (∀ c ∈ s.drop (s.length - n), isSpace c = true) ∧
      (n < s.length → ∃ c, s[s.length - 1 - n]? = some c ∧ isSpace c = false) := by
    intro s
    exact trailingSpacesLoop_spec s (s.length + 1) 0 (Nat.zero_le _) (by omega) (by simp)
  constructor
  · obtain ⟨n, hn, hle, hall, hstop⟩ := hspec str
    have hmax : ∀ k, k ≤ str.length → (∀ c ∈ str.drop (str.length - k), isSpace c = true) →
        k ≤ n := by
      intro k hk hks
      by_contra hlt
      have hnl : n < str.length := by omega
      obtain ⟨c, hc, hns⟩ := hstop hnl
      have hmem : c ∈ str.drop (str.length - k) := by
        rw [List.mem_iff_getElem?]
        refine ⟨k - 1 - n, ?_⟩
        rw [List.getElem?_drop]
        have : str.length - k + (k - 1 - n) = str.length - 1 - n := by omega
        rw [this]
        exact hc
      rw [hks c hmem] at hns
      cases hns
    refine ⟨n, hn, hle, hall, hmax, ?_, stripBlock_of_trailingSpaces prog hn⟩
    intro hsp
    have := hmax str.length (Nat.le_refl _) (by
      intro c hc
      exact hsp c (List.mem_of_mem_drop hc))
    omega
  · apply removeTrailingSpaces_total
    intro b
    obtain ⟨n, hn, _⟩ := hspec b
    exact ⟨_, stripBlock_of_trailingSpaces prog hn⟩

theorem trailingSpaces_strip_witness :
    trailingSpaces "a b \t ".toList = some 3 ∧
    stripBlock "markdown" "a b \t ".toList = some "a b \t".toList ∧
    stripBlock "sh" "a b \t ".toList = some "a b".toList ∧
    ∃ out, removeTrailingSpaces "markdown" ["x  ".toList, "y ".toList, "   ".toList] = some out ∧
      List.Forall₂ (fun b o => stripBlock "markdown" b = some o)
        ["x  ".toList, "y ".toList, "   ".toList] out :=
  ⟨by decide, by decide, by decide,
    (trailingSpaces_strip "markdown" [] ["x  ".toList, "y ".toList, "   ".toList]).2⟩

/-! ## What every run of the closing functions does -/

theorem deleteTabPage_eq {w : FPwin} {i : Int} {tabPage : TabPage}
    (hw : w.widget i = some tabPage) :
    ∃ w1 : FPwin, w.deleteTabPage i = .ok (w1.removeTab i, [Event.deleteTabPage tabPage.id]) ∧
      w1.pages = w.pages := by
  unfold FPwin.deleteTabPage
  simp only [hw]
  exact ⟨_, rfl, mirror_taken_pages w tabPage.id⟩

theorem deleteTabPage_inv {w w2 : FPwin} {i : Int} {ev : List Event}
    (h : w.deleteTabPage i = .ok (w2, ev)) :
    w2.pages.length + 1 = w.pages.length ∧ ∀ x ∈ ev, ∀ c, x ≠ Event.pauseAutoSaving c := by
  cases hw : w.widget i with
  | none =>
    unfold FPwin.deleteTabPage at h
    simp only [hw] at h
    cases h
  | some tabPage =>
    obtain ⟨w1, hrun, hp⟩ := deleteTabPage_eq hw
    rw [hrun] at h
    simp only [Except.ok.injEq, Prod.mk.injEq] at h
    obtain ⟨h1, h2⟩ := h
    unfold FPwin.widget at hw
    obtain ⟨n, hn, hlt, _⟩ := atIndex_eq_some hw
    subst hn
    rw [← hp] at hlt
    rw [removeTab_eq w1 hlt] at h1
    rw [← h1, ← h2]
    refine ⟨?_, ?_⟩
    · have hl := congrArg List.length hp
      simp only [List.length_eraseIdx, hlt, if_true]
      omega
    · intro x hx c
      rw [List.mem_singleton.1 hx]
      exact fun h => Event.noConfusion h

theorem savePrompt_inv {w w1 : FPwin} {i : Int} {b : Bool} {e : Env} {st : DOCSTATE}
    {ev : List Event} (h : w.savePrompt i b e = .ok (st, w1, ev)) :
    w1.pages.length = w.pages.length ∧ ∀ x ∈ ev, ∀ c, x ≠ Event.pauseAutoSaving c := by
  cases hw : w.widget i with
  | none =>
    unfold FPwin.savePrompt at h
    simp only [hw] at h
    cases h
  | some page =>
    obtain ⟨st1, w2, pre, hrun, hids, hpre, _⟩ := savePrompt_general hw b e
    rw [hrun] at h
    simp only [Except.ok.injEq, Prod.mk.injEq] at h
    obtain ⟨_, h2, h3⟩ := h
    subst h2 h3
    refine ⟨?_, ?_⟩
    · have := congrArg List.length hids
      simpa using this
    · intro x hx c
      rcases List.mem_append.1 hx with hx | hx
      · rcases hpre x hx with hx | hx <;> rw [hx] <;> exact fun h => Event.noConfusion h
      · rw [List.mem_singleton.1 hx]
        exact fun h => Event.noConfusion h

theorem discardLoop_inv (hs : Bool) (first : Int) :
    ∀ (fuel : Nat) (last index tabIndex : Int) (w : FPwin), w.pages.length < fuel →
      discardLoop fuel hs first last index tabIndex w ≠ .error Fault.outOfFuel ∧
      ∀ w1 ev, discardLoop fuel hs first last index tabIndex w = .ok (w1, ev) →
        ∀ x ∈ ev, ∀ c, x ≠ Event.pauseAutoSaving c := by
  intro fuel
  induction fuel with
  | zero =>
    intro _ _ _ w h
    omega
  | succ fuel ih =>
    intro last index tabIndex w hf
    unfold discardLoop
    split
    · split
      · exact ⟨fun h => Except.noConfusion h, fun w1 ev h x hx => by
          simp only [Except.ok.injEq, Prod.mk.injEq] at h
          rw [← h.2] at hx
          cases hx⟩
      · cases hd : w.deleteTabPage tabIndex with
        | error f =>
          simp only
          refine ⟨fun h => ?_, fun w1 ev h => by cases h⟩
          simp only [Except.error.injEq] at h
          subst h
          unfold FPwin.deleteTabPage at hd
          split at hd <;> cases hd
        | ok r =>
          obtain ⟨w1, ev1⟩ := r
          obtain ⟨hlen, hq1⟩ := deleteTabPage_inv hd
          have hf1 : w1.pages.length < fuel := by omega
          simp only
          obtain ⟨hne, hq⟩ := ih (if last < 0 then last else last - 1)
            (if last < 0 then w1.count - 1 else (if last < 0 then last else last - 1) - 1)
            (w1.tabIndexAt hs
              (if last < 0 then w1.count - 1 else (if last < 0 then last else last - 1) - 1))
            w1 hf1
          generalize discardLoop fuel hs first (if last < 0 then last else last - 1)
            (if last < 0 then w1.count - 1 else (if last < 0 then last else last - 1) - 1)
            (w1.tabIndexAt hs
              (if last < 0 then w1.count - 1 else (if last < 0 then last else last - 1) - 1))
            w1 = res at hne hq
          cases res with
          | error f =>
            simp only
            exact ⟨hne, fun w2 ev h => by cases h⟩
          | ok r2 =>
            obtain ⟨w2, ev2⟩ := r2
            simp only
            refine ⟨fun h => Except.noConfusion h, fun w3 ev h x hx => ?_⟩
            simp only [Except.ok.injEq, Prod.mk.injEq] at h
            rw [← h.2] at hx
            rcases List.mem_append.1 hx with hx | hx
            · exact hq1 x hx
            · exact hq w2 ev2 rfl x hx
    · exact ⟨fun h => Except.noConfusion h, fun w1 ev h x hx => by
        simp only [Except.ok.injEq, Prod.mk.injEq] at h
        rw [← h.2] at hx
        cases hx⟩

theorem savePrompt_fault {w : FPwin} {i : Int} {b : Bool} {e : Env} {f : Fault}
    (h : w.savePrompt i b e = .error f) : f = Fault.nullPage := by
  unfold FPwin.savePrompt at h
  split at h
  · simp only [Except.error.injEq] at h
    exact h.symm
  · simp only at h
    split at h
    · split at h
      · cases h
      · split at h
        · split at h <;> cases h
        · cases h
        · cases h
        · cases h
    · cases h

theorem deleteTabPage_fault {w : FPwin} {i : Int} {f : Fault}
    (h : w.deleteTabPage i = .error f) : f = Fault.nullPage := by
  unfold FPwin.deleteTabPage at h
  split at h
  · simp only [Except.error.injEq] at h
    exact h.symm
  · cases h

theorem closeLoop_inv (hs : Bool) (first : Int) :
    ∀ (fuel : Nat) (last : Int) (keep : Bool) (w : FPwin) (env : Nat → Env),
      w.pages.length < fuel →
      closeLoop fuel hs first last keep w env ≠ .error Fault.outOfFuel ∧
      ∀ k w1 ev, closeLoop fuel hs first last keep w env = .ok (k, w1, ev) →
        ∀ x ∈ ev, ∀ c, x ≠ Event.pauseAutoSaving c := by
  intro fuel
  induction fuel with
  | zero =>
    intro _ _ w _ h
    omega
  | succ fuel ih =>
    intro last keep w env hf
    have hnil : ∀ (k : Bool) (v : FPwin),
        (Except.ok (k, v, []) : Except Fault (Bool × FPwin × List Event)) ≠
          .error Fault.outOfFuel ∧
        ∀ k1 w1 ev, (Except.ok (k, v, []) : Except Fault (Bool × FPwin × List Event)) =
          .ok (k1, w1, ev) → ∀ x ∈ ev, ∀ c, x ≠ Event.pauseAutoSaving c := by
      intro k v
      refine ⟨fun h => Except.noConfusion h, fun k1 w1 ev h x hx => ?_⟩
      simp only [Except.ok.injEq, Prod.mk.injEq] at h
      rw [← h.2.2] at hx
      cases hx
    unfold closeLoop
    by_cases hc : w.count > 0
    · simp only [hc, if_true]
      by_cases hl : last = 0
      · simp only [hl, if_true]
        exact hnil _ _
      · simp only [hl, if_false]
        generalize (if last < 0 then w.count - 1 else last - 1) = index
        by_cases hfi : first ≥ index
        · simp only [hfi, if_true]
          exact hnil _ _
        · simp only [hfi, if_false]
          · cases hsp : w.savePrompt
                (w.tabIndexAt hs index)
                (!decide (first = index - 1)) (env 0) with
            | error f =>
              try simp only
              rw [savePrompt_fault hsp]
              exact ⟨fun h => (by cases h), fun k w1 ev h => (by cases h)⟩
            | ok r =>
              obtain ⟨st, w1, ev1⟩ := r
              obtain ⟨hlen, hq1⟩ := savePrompt_inv hsp
              cases st with
              | SAVED =>
                try simp only
                cases hd : w1.deleteTabPage
                    (w.tabIndexAt hs index) with
                | error f =>
                  try simp only
                  rw [deleteTabPage_fault hd]
                  exact ⟨fun h => (by cases h), fun k w1 ev h => (by cases h)⟩
                | ok r2 =>
                  obtain ⟨w2, ev2⟩ := r2
                  obtain ⟨hlen2, hq2⟩ := deleteTabPage_inv hd
                  have hf2 : w2.pages.length < fuel := by omega
                  try simp only
                  obtain ⟨hne, hq⟩ := ih (if last > -1 then last - 1 else last) false w2
                    (fun n => env (n + 1)) hf2
                  generalize closeLoop fuel hs first (if last > -1 then last - 1 else last) false
                    w2 (fun n => env (n + 1)) = res at hne hq
                  cases res with
                  | error f =>
                    try simp only
                    exact ⟨fun h => hne (by
                    simp only [Except.error.injEq] at h ⊢
                    exact h), fun k w3 ev h => (by cases h)⟩
                  | ok r3 =>
                    obtain ⟨k3, w3, ev3⟩ := r3
                    try simp only
                    refine ⟨fun h => Except.noConfusion h, fun k w4 ev h x hx => ?_⟩
                    simp only [Except.ok.injEq, Prod.mk.injEq] at h
                    rw [← h.2.2] at hx
                    rcases List.mem_append.1 hx with hx | hx
                    · rcases List.mem_append.1 hx with hx | hx
                      · exact hq1 x hx
                      · exact hq2 x hx
                    · exact hq k3 w3 ev3 rfl x hx
              | UNDECIDED =>
                try simp only
                refine ⟨fun h => Except.noConfusion h, fun k w4 ev h x hx => ?_⟩
                simp only [Except.ok.injEq, Prod.mk.injEq] at h
                rw [← h.2.2] at hx
                exact hq1 x hx
              | DISCARDED =>
                try simp only
                obtain ⟨hne, hq⟩ := discardLoop_inv hs first (w1.pages.length + 1) last
                  index
                  (w.tabIndexAt hs index) w1
                  (Nat.lt_succ_self _)
                generalize discardLoop (w1.pages.length + 1) hs first last
                  index
                  (w.tabIndexAt hs index) w1 = res
                  at hne hq
                cases res with
                | error f =>
                  try simp only
                  exact ⟨fun h => hne (by
                    simp only [Except.error.injEq] at h ⊢
                    exact h), fun k w3 ev h => (by cases h)⟩
                | ok r3 =>
                  obtain ⟨w3, ev3⟩ := r3
                  try simp only
                  refine ⟨fun h => Except.noConfusion h, fun k w4 ev h x hx => ?_⟩
                  simp only [Except.ok.injEq, Prod.mk.injEq] at h
                  rw [← h.2.2] at hx
                  rcases List.mem_append.1 hx with hx | hx
                  · exact hq1 x hx
                  · exact hq w3 ev3 rfl x hx
    · simp only [hc, if_false]
      exact hnil _ _

/-! ## C27: `closeTabs` terminates -/

/-- C27: `closeTabs (first, last)` terminates for every window, every `first` and `last`
and every sequence of answers: its loops, which are started with one more unit of fuel
than there are tabs, never run out of it, because every iteration that does not leave
a loop deletes a tab. On a well-formed window with `last` in range the call returns,
and the tab count has gone down by the number of deletions. -/
theorem closeTabs_terminates (w : FPwin) (first last : Int) (env : Nat → Env) :
    w.closeTabs first last env ≠ .error Fault.outOfFuel ∧
    (w.WellFormed → -1 ≤ first → -1 ≤ last → last ≤ w.count →
      ∃ keep w1 ev, w.closeTabs first last env = .ok (keep, w1, ev) ∧
        w1.pages.length + (deleted ev).length = w.pages.length) := by
  constructor
  · unfold FPwin.closeTabs
    split
    · exact fun h => Except.noConfusion h
    · simp only
      obtain ⟨hne, _⟩ := closeLoop_inv w.hasSideList first (w.pages.length + 1) last false w env
        (Nat.lt_succ_self _)
      generalize closeLoop (w.pages.length + 1) w.hasSideList first last false w env = res
        at hne
      cases res with
      | error f =>
        simp only
        intro h
        apply hne
        simp only [Except.error.injEq] at h ⊢
        exact h
      | ok r =>
        simp only
        exact fun h => Except.noConfusion h
  · intro hwf hfirst hlast hcount
    cases hr : w.isReady
    · refine ⟨true, w, [], closeTabs_notReady hr first last env, ?_⟩
      simp [deleted]
    · obtain ⟨w1, hrun, hpost⟩ := closeTabs_spec hwf hr hfirst hlast hcount env
      refine ⟨_, w1, _, hrun, ?_⟩
      rw [deleted_wrap, length_deleted_runSpec]
      exact hpost.2.2.2.1

theorem closeTabs_terminates_witness :
    sampleWindow.WellFormed ∧
    ∃ keep w1 ev, sampleWindow.closeTabs 0 (-1) (answerAll StandardButton.NoToAll) =
        .ok (keep, w1, ev) ∧
      w1.pages.length + (deleted ev).length = sampleWindow.pages.length :=
  ⟨by decide,
    (closeTabs_terminates sampleWindow 0 (-1) (answerAll StandardButton.NoToAll)).2
      (by decide) (by decide) (by decide) (by decide)⟩

/-! ## C25: auto-saving during a close operation -/

theorem closeTabs_wrapped {w w1 : FPwin} {first last : Int} {env : Nat → Env} {keep : Bool}
    {ev : List Event} (h : w.closeTabs first last env = .ok (keep, w1, ev)) :
    ev = [] ∨ ∃ mid, ev = [Event.pauseAutoSaving true] ++ mid ++ [Event.pauseAutoSaving false] ∧
      ∀ x ∈ mid, ∀ c, x ≠ Event.pauseAutoSaving c := by
  unfold FPwin.closeTabs at h
  split at h
  · simp only [Except.ok.injEq, Prod.mk.injEq] at h
    exact Or.inl h.2.2.symm
  · simp only at h
    obtain ⟨_, hq⟩ := closeLoop_inv w.hasSideList first (w.pages.length + 1) last false w env
      (Nat.lt_succ_self _)
    generalize closeLoop (w.pages.length + 1) w.hasSideList first last false w env = res
      at h hq
    cases res with
    | error f => cases h
    | ok r =>
      obtain ⟨k, w2, ev2⟩ := r
      simp only [Except.ok.injEq, Prod.mk.injEq] at h
      exact Or.inr ⟨ev2, h.2.2.symm, hq k w2 ev2 rfl⟩

theorem closeTabAtIndex_wrapped {w w1 : FPwin} {index : Int} {e : Env} {ev : List Event}
    (h : w.closeTabAtIndex index e = .ok (w1, ev)) :
    ∃ mid, ev = [Event.pauseAutoSaving true] ++ mid ++ [Event.pauseAutoSaving false] ∧
      ∀ x ∈ mid, ∀ c, x ≠ Event.pauseAutoSaving c := by
  unfold FPwin.closeTabAtIndex at h
  simp only at h
  cases hsp : w.savePrompt index false e with
  | error f =>
    rw [hsp] at h
    cases h
  | ok r =>
    obtain ⟨st, w2, ev1⟩ := r
    obtain ⟨_, hq1⟩ := savePrompt_inv hsp
    rw [hsp] at h
    simp only at h
    split at h
    · simp only [Except.ok.injEq, Prod.mk.injEq] at h
      exact ⟨ev1, h.2.symm, hq1⟩
    · cases hd : w2.deleteTabPage index with
      | error f =>
        rw [hd] at h
        cases h
      | ok r2 =>
        obtain ⟨w3, ev2⟩ := r2
        obtain ⟨_, hq2⟩ := deleteTabPage_inv hd
        rw [hd] at h
        simp only [Except.ok.injEq, Prod.mk.injEq] at h
        refine ⟨ev1 ++ ev2, ?_, ?_⟩
        · rw [← h.2]
          simp
        · intro x hx
          rcases List.mem_append.1 hx with hx | hx
          · exact hq1 x hx
          · exact hq2 x hx

theorem closeTab_wrapped {w w1 : FPwin} {e : Env} {ev : List Event}
    (h : w.closeTab e = .ok (w1, ev)) :
    ev = [] ∨ ∃ mid, ev = [Event.pauseAutoSaving true] ++ mid ++ [Event.pauseAutoSaving false] ∧
      ∀ x ∈ mid, ∀ c, x ≠ Event.pauseAutoSaving c := by
  unfold FPwin.closeTab at h
  split at h
  · simp only [Except.ok.injEq, Prod.mk.injEq] at h
    exact Or.inl h.2.symm
  · simp only at h
    split at h
    · simp only [Except.ok.injEq, Prod.mk.injEq] at h
      refine Or.inr ⟨[], ?_, fun x hx => by cases hx⟩
      rw [← h.2]
      rfl
    · cases hsp : w.savePrompt w.closeTabIndex false e with
      | error f =>
        rw [hsp] at h
        cases h
      | ok r =>
        obtain ⟨st, w2, ev1⟩ := r
        obtain ⟨_, hq1⟩ := savePrompt_inv hsp
        rw [hsp] at h
        simp only at h
        split at h
        · simp only [Except.ok.injEq, Prod.mk.injEq] at h
          exact Or.inr ⟨ev1, h.2.symm, hq1⟩
        · cases hd : w2.deleteTabPage w.closeTabIndex with
          | error f =>
            rw [hd] at h
            cases h
          | ok r2 =>
            obtain ⟨w3, ev2⟩ := r2
            obtain ⟨_, hq2⟩ := deleteTabPage_inv hd
            rw [hd] at h
            simp only [Except.ok.injEq, Prod.mk.injEq] at h
            refine Or.inr ⟨ev1 ++ ev2, ?_, ?_⟩
            · rw [← h.2]
              simp
            · intro x hx
              rcases List.mem_append.1 hx with hx | hx
              · exact hq1 x hx
              · exact hq2 x hx

/-- C25, at a failing input. The window `otherTabs` has an active timer, and
`closeOtherTabs` is called on its second tab while the texts of the other two are
modified; the user discards both. The two runs of `closeTabs` follow each other without
a return to the event loop, each with its own pause. The end of the first pause, which
has outlasted the remaining time of the timer, calls `autoSave()`, which schedules the
pass over the tabs; the second run pauses again and shows the prompt for page `10`, and
the scheduled pass, run by the event loop of that prompt, gets to write page `10` while
the pause is valid. -/
theorem queued_pass_writes_paused :
    otherTabs.closeOtherTabs (answerAll StandardButton.Discard)
        (answerAll StandardButton.Discard) =
      .ok ({ otherTabs with
             pages := [{ id := 11, fileName := "", modified := false }], currentIndex := 0 },
        [Event.pauseAutoSaving true, Event.msgBox 12 false false,
          Event.savePrompt 12 false DOCSTATE.SAVED, Event.deleteTabPage 12,
          Event.pauseAutoSaving false,
          Event.pauseAutoSaving true, Event.msgBox 10 false false,
          Event.savePrompt 10 false DOCSTATE.SAVED, Event.deleteTabPage 10,
          Event.pauseAutoSaving false]) ∧
    otherTabs.closeTabs 1 (-1) (answerAll StandardButton.Discard) =
      .ok (false,
        { otherTabs with
          pages := [{ id := 10, fileName := "/home/u/a.txt", modified := true },
                    { id := 11, fileName := "", modified := false }] },
        [Event.pauseAutoSaving true, Event.msgBox 12 false false,
          Event.savePrompt 12 false DOCSTATE.SAVED, Event.deleteTabPage 12,
          Event.pauseAutoSaving false]) ∧
    otherTabs.pauseAutoSaving { autoSaver_ := some true, pauseValid := false } true false =
      { autoSaver_ := some true, pauseValid := true } ∧
    ({ otherTabs with
       pages := [{ id := 10, fileName := "/home/u/a.txt", modified := true },
                 { id := 11, fileName := "", modified := false }] } :
      FPwin).pauseAutoSaving { autoSaver_ := some true, pauseValid := true } false true =
      { autoSaver_ := some true, pauseValid := false, queued := 1 } ∧
    ({ otherTabs with
       pages := [{ id := 10, fileName := "/home/u/a.txt", modified := true },
                 { id := 11, fileName := "", modified := false }] } :
      FPwin).pauseAutoSaving { autoSaver_ := some true, pauseValid := false, queued := 1 }
        true false =
      { autoSaver_ := some true, pauseValid := true, queued := 1 } ∧
    ({ otherTabs with
       pages := [{ id := 10, fileName := "/home/u/a.txt", modified := true },
                 { id := 11, fileName := "", modified := false }] } :
      FPwin).autoSavePass { autoSaver_ := some true, pauseValid := true, queued := 1 }
        (fun _ => true) =
      ({ autoSaver_ := some true, pauseValid := true, queued := 0 }, [10]) :=
  ⟨rfl, rfl, rfl, rfl, rfl, rfl⟩

/-- Every run of `closeTabs`, `closeTab` and `closeTabAtIndex` that returns and has
called `pauseAutoSaving (true)` did so first and called `pauseAutoSaving (false)` last,
each exactly once (a run of `closeTabs` or `closeTab` on a window that is not ready
calls neither). After `pauseAutoSaving (true)` on a window with a timer the pause is
valid and a call of `autoSave` schedules no pass; with a timer `pauseAutoSaving (false)`
ends the pause, and without one the two calls leave the state as it was. -/
theorem close_pauses_resumes (w : FPwin) (first last index : Int) (env : Nat → Env) (e : Env)
    (s : AutoSaver) (expired : Bool) :
    (∀ keep w1 ev, w.closeTabs first last env = .ok (keep, w1, ev) →
      ev = [] ∨ ∃ mid,
        ev = [Event.pauseAutoSaving true] ++ mid ++ [Event.pauseAutoSaving false] ∧
        ∀ x ∈ mid, ∀ c, x ≠ Event.pauseAutoSaving c) ∧
    (∀ w1 ev, w.closeTab e = .ok (w1, ev) →
      ev = [] ∨ ∃ mid,
        ev = [Event.pauseAutoSaving true] ++ mid ++ [Event.pauseAutoSaving false] ∧
        ∀ x ∈ mid, ∀ c, x ≠ Event.pauseAutoSaving c) ∧
    (∀ w1 ev, w.closeTabAtIndex index e = .ok (w1, ev) →
      ∃ mid, ev = [Event.pauseAutoSaving true] ++ mid ++ [Event.pauseAutoSaving false] ∧
        ∀ x ∈ mid, ∀ c, x ≠ Event.pauseAutoSaving c) ∧
    (∀ v : FPwin, s.autoSaver_ ≠ none →
      (w.pauseAutoSaving s true expired).pauseValid = true ∧
      v.autoSave (w.pauseAutoSaving s true expired) = w.pauseAutoSaving s true expired) ∧
    (∀ v : FPwin, s.autoSaver_ ≠ none →
      (v.pauseAutoSaving (w.pauseAutoSaving s true expired) false expired).pauseValid =
        false) ∧
    (∀ v : FPwin, s.autoSaver_ = none →
      v.pauseAutoSaving (w.pauseAutoSaving s true expired) false expired = s) := by
  refine ⟨fun _ _ _ h => closeTabs_wrapped h, fun _ _ h => closeTab_wrapped h,
    fun _ _ h => closeTabAtIndex_wrapped h, fun v hs => ?_, fun v hs => ?_, fun v hs => ?_⟩
  · unfold FPwin.pauseAutoSaving FPwin.autoSave
    simp [hs]
  · unfold FPwin.pauseAutoSaving FPwin.autoSave
    cases expired <;> simp [hs]
  · unfold FPwin.pauseAutoSaving
    simp [hs]

theorem close_pauses_resumes_witness :
    sampleWindow.autoSave
      (sampleWindow.pauseAutoSaving { autoSaver_ := some true, pauseValid := false } true
        false) =
      { autoSaver_ := some true, pauseValid := true } :=
  ((close_pauses_resumes sampleWindow 0 (-1) 0 (answerAll StandardButton.Cancel) blockedEnv
      { autoSaver_ := some true, pauseValid := false } false).2.2.2.1
      sampleWindow (by decide)).2

/-! ## C26: one process per tab -/

theorem any_page_iff (procs : List (Nat × Nat)) (page : Nat) :
    procs.any (fun pp => pp.2 == page) = true ↔ ∃ pr, (pr, page) ∈ procs := by
  rw [List.any_eq_true]
  constructor
  · rintro ⟨⟨pr, pg⟩, hmem, heq⟩
    simp only [beq_iff_eq] at heq
    subst heq
    exact ⟨pr, hmem⟩
  · rintro ⟨pr, hmem⟩
    exact ⟨(pr, page), hmem, by simp⟩

theorem executeProcess_cases (w : FPwin) (procs : List (Nat × Nat)) (e : ExecEnv) :
    ((w.executeProcess procs e).1 = procs ∧
      ∀ pr pg c, ProcessEffect.start pr pg c ∉ (w.executeProcess procs e).2) ∨
    ∃ tabPage c, w.widget w.currentIndex = some tabPage ∧ (∀ pr, (pr, tabPage.id) ∉ procs) ∧
      w.executeProcess procs e =
        (procs ++ [(e.process, tabPage.id)],
          [ProcessEffect.closeWarningBar, ProcessEffect.start e.process tabPage.id c]) := by
  unfold FPwin.executeProcess
  split
  · exact Or.inl ⟨rfl, fun _ _ _ h => by cases h⟩
  · split
    · exact Or.inl ⟨rfl, fun _ _ _ h => by simp at h⟩
    · split
      · exact Or.inl ⟨rfl, fun _ _ _ h => by simp at h⟩
      · rename_i tabPage hw
        split
        · exact Or.inl ⟨rfl, fun _ _ _ h => by simp at h⟩
        · rename_i hany
          split
          · exact Or.inl ⟨rfl, fun _ _ _ h => by simp at h⟩
          · refine Or.inr ⟨tabPage, _, hw, ?_, rfl⟩
            intro pr hmem
            exact hany ((any_page_iff procs tabPage.id).2 ⟨pr, hmem⟩)

/-- C26: `executeProcess` on a window whose current tab already has a process starts
no process and leaves the processes as they were (once past the checks of the dialogs
and of the configuration it only shows the advisory). In every case it either starts
nothing or starts exactly one process, whose parent is the current tab, which had
none; hence no tab ever gets a second process. -/
theorem one_process_per_tab (w : FPwin) (procs : List (Nat × Nat)) (e : ExecEnv) :
    (∀ tabPage, w.widget w.currentIndex = some tabPage → (∃ pr, (pr, tabPage.id) ∈ procs) →
      (w.executeProcess procs e).1 = procs ∧
      (∀ pr pg c, ProcessEffect.start pr pg c ∉ (w.executeProcess procs e).2) ∧
      ((e.dialogs.any (fun name => name != "processDialog" && name != "sessionDialog")) = false →
        e.executeScripts = true →
        (w.executeProcess procs e).2 =
          [ProcessEffect.closeWarningBar, ProcessEffect.showWarningBar])) ∧
    (((w.executeProcess procs e).1 = procs ∧
        ∀ pr pg c, ProcessEffect.start pr pg c ∉ (w.executeProcess procs e).2) ∨
      ∃ tabPage c, w.widget w.currentIndex = some tabPage ∧
        (∀ pr, (pr, tabPage.id) ∉ procs) ∧
        w.executeProcess procs e =
          (procs ++ [(e.process, tabPage.id)],
            [ProcessEffect.closeWarningBar, ProcessEffect.start e.process tabPage.id c])) ∧
    (OnePerTab procs → OnePerTab (w.executeProcess procs e).1) := by
  refine ⟨?_, executeProcess_cases w procs e, ?_⟩
  · intro tabPage hw hpr
    have hany := (any_page_iff procs tabPage.id).2 hpr
    rcases executeProcess_cases w procs e with h | ⟨t, c, ht, hno, _⟩
    · refine ⟨h.1, h.2, fun hd hx => ?_⟩
      unfold FPwin.executeProcess
      simp only [hd, Bool.false_eq_true, if_false, hx, Bool.not_true, hw, hany, if_true]
    · rw [hw] at ht
      cases ht
      obtain ⟨pr, hmem⟩ := hpr
      exact absurd hmem (hno pr)
  · intro hone
    rcases executeProcess_cases w procs e with h | ⟨t, c, _, hno, hrun⟩
    · rw [h.1]
      exact hone
    · rw [hrun]
      unfold OnePerTab at hone ⊢
      simp only [List.map_append, List.map_cons, List.map_nil]
      rw [List.nodup_append]
      refine ⟨hone, List.nodup_singleton _, ?_⟩
      intro a ha hb
      rw [List.mem_singleton] at hb
      subst hb
      obtain ⟨⟨pr, pg⟩, hmem, heq⟩ := List.mem_map.1 ha
      simp only at heq
      subst heq
      exact hno pr hmem

theorem one_process_per_tab_witness :
    oneTab.widget oneTab.currentIndex =
      some { id := 10, fileName := "/home/u/gone.txt", modified := false } ∧
    (∃ pr, (pr, 10) ∈ [(299, 10)]) ∧
    oneTab.executeProcess [(299, 10)] sampleExec =
      ([(299, 10)], [ProcessEffect.closeWarningBar, ProcessEffect.showWarningBar]) ∧
    oneTab.executeProcess [] sampleExec =
      ([(300, 10)], [ProcessEffect.closeWarningBar,
        ProcessEffect.start 300 10
          ("sh " ++ String.singleton (Char.ofNat 34) ++ "/home/u/gone.txt" ++
            String.singleton (Char.ofNat 34))]) := by
  refine ⟨by decide, ⟨299, by decide⟩, ?_, by decide⟩
  obtain ⟨h1, _, h3⟩ := (one_process_per_tab oneTab [(299, 10)] sampleExec).1
    { id := 10, fileName := "/home/u/gone.txt", modified := false } (by decide)
    ⟨299, by decide⟩
  exact Prod.ext h1 (h3 (by decide) (by decide))

/-! ## C23: the mirror entry is removed by identity -/

/-- C23: on a well-formed window with an active side list, `deleteTabPage (t)` removes
tab `t` and exactly the item `wi` that `sideItems_` maps to the page of that tab, at
whatever row `r` the item is: the other tabs, the other items and the other pairs of
`sideItems_` are left as they were, in their order. -/
theorem deleteTabPage_by_identity (w : FPwin) (t : Nat) (page : TabPage)
    (hwf : w.WellFormed) (hs : w.hasSideList = true) (ht : w.pages[t]? = some page) :
    ∃ w2 wi r, w.deleteTabPage t = .ok (w2, [Event.deleteTabPage page.id]) ∧
      hashValue w.sideItems_ (some wi) = some page.id ∧ w.items[r]? = some wi ∧
      w2.pages = w.pages.eraseIdx t ∧ w2.items = w.items.eraseIdx r ∧
      w2.sideItems_ = w.sideItems_.filter (fun kv => kv.1 != wi) ∧
      (∀ q ∈ w.pages, q.id ≠ page.id → q ∈ w2.pages) ∧
      (∀ i ∈ w.items, i ≠ wi → i ∈ w2.items) ∧
      (∀ kv ∈ w.sideItems_, kv.1 ≠ wi → kv ∈ w2.sideItems_) := by
  have hsp : w.sidePane_ = true := by
    unfold FPwin.hasSideList at hs
    simp only [Bool.and_eq_true] at hs
    exact hs.1
  have hm := hwf.2 hsp
  obtain ⟨w2, hrun, hp, _, _, _, _, _, hside⟩ := deleteTabPage_spec hwf ht
  obtain ⟨wi, r, hr, hwi, hitems, hS⟩ := hside hsp
  refine ⟨w2, wi, r, hrun, ?_, hr, hp, hitems, hS, ?_, ?_, ?_⟩
  · simp only [hashValue]
    exact lookup_of_mem hm.2.1 hwi
  · intro q hq hne
    rw [hp]
    obtain ⟨n, hn⟩ := List.mem_iff_getElem?.1 hq
    rw [List.mem_eraseIdx_iff_getElem?]
    refine ⟨n, ?_, hn⟩
    intro h
    subst h
    rw [ht] at hn
    cases hn
    exact hne rfl
  · intro i hi hne
    rw [hitems, eraseIdx_eq_erase hm.1 hr, hm.1.mem_erase_iff]
    exact ⟨hne, hi⟩
  · intro kv hkv hne
    rw [hS, mem_hashRemove]
    exact ⟨hkv, hne⟩

theorem deleteTabPage_by_identity_witness :
    sampleWindow.WellFormed ∧ sampleWindow.hasSideList = true ∧
    ∃ w2 wi r, sampleWindow.deleteTabPage 0 = .ok (w2, [Event.deleteTabPage 10]) ∧
      hashValue sampleWindow.sideItems_ (some wi) = some 10 ∧
      sampleWindow.items[r]? = some wi ∧
      w2.pages = sampleWindow.pages.eraseIdx 0 ∧ w2.items = sampleWindow.items.eraseIdx r := by
  refine ⟨by decide, by decide, ?_⟩
  obtain ⟨w2, wi, r, h1, h2, h3, h4, h5, _⟩ :=
    deleteTabPage_by_identity sampleWindow 0 { id := 10, fileName := "", modified := false }
      (by decide) (by decide) (by decide)
  exact ⟨w2, wi, r, h1, h2, h3, h4, h5⟩

/-! ## C21: the tab that a drop transfers -/

theorem insertTab_pages {w : FPwin} {index : Int} {k : Nat} (hk : index = (k : Int))
    (hkl : k ≤ w.pages.length) (q : TabPage) :
    (w.insertTab index q).pages = w.pages.take k ++ q :: w.pages.drop k := by
  subst hk
  have hc : (0 : Int) ≤ (k : Int) ∧ (k : Int) ≤ w.count := by
    simp only [FPwin.count]
    omega
  simp only [FPwin.insertTab]
  rw [if_pos hc]
  simp only [Int.toNat_ofNat]

theorem getElem?_insert_self {α : Type} (l : List α) {k : Nat} (hkl : k ≤ l.length) (q : α) :
    (l.take k ++ q :: l.drop k)[k]? = some q := by
  have hl : (l.take k).length = k := by
    rw [List.length_take]
    omega
  rw [List.getElem?_append_right (by omega), hl]
  simp

theorem not_mem_eraseIdx {pages : List TabPage} (hn : (pages.map TabPage.id).Nodup) {n : Nat}
    {t q : TabPage} (ht : pages[n]? = some t) (hq : q ∈ pages.eraseIdx n) : q.id ≠ t.id := by
  obtain ⟨i, hi, hiq⟩ := List.mem_eraseIdx_iff_getElem?.1 hq
  intro h
  exact hi (index_unique hn hiq ht h)

/-- C21, as the specification words it, fails: `dropTab` takes the payload and no index.
The same call, with the payload `2+0`, puts the tab at index `1` of a window whose
current tab is at `0` and at index `2` of a window whose current tab is at `1`, in
both cases at `currentIndex() + 1`; the `0` of the payload is the index of the tab in
the source, and the tab goes to index `0` of neither window. -/
theorem drop_index_counterexample :
    oneTab.dropTab [lastTab] (sampleFresh 0) "2+0" =
      .ok ({ oneTab with
             pages := [{ id := 10, fileName := "/home/u/gone.txt", modified := false },
                       { id := 30, fileName := "/home/u/x.txt", modified := true }]
             currentIndex := 1 },
        [{ lastTab with pages := [], currentIndex := -1 }],
        [Effect.closeWarningBar 1, Effect.closeWarningBar 2, Effect.closeLater 2]) ∧
    ({ twoTabs with currentIndex := 1 } : FPwin).dropTab [lastTab] (sampleFresh 0) "2+0" =
      .ok ({ twoTabs with
             pages := [{ id := 10, fileName := "", modified := false },
                       { id := 11, fileName := "/home/u/notes.txt", modified := true },
                       { id := 30, fileName := "/home/u/x.txt", modified := true }]
             currentIndex := 2 },
        [{ lastTab with pages := [], currentIndex := -1 }],
        [Effect.closeWarningBar 1, Effect.closeWarningBar 2, Effect.closeLater 2]) :=
  ⟨rfl, rfl⟩

/-- C21, amended: after a successful `dropTab` the receiving window holds the page of
the tab that the payload names, the same object with its file name and encoding, at
the index `currentIndex() + 1`, right after the tab that was current, and that tab is
the current one; the receiving window has one tab more and the source one tab less.
When the pages of the source are distinct objects and the windows of the registry
share no page, no window but the receiving one holds the page afterwards. -/
theorem drop_inserts (w : FPwin) (others : List FPwin) (f : Fresh) (str : String)
    (first second : List Char) (src : FPwin) (tabPage : TabPage) (k : Nat)
    (hs : splitParts '+' str.toList [] = [first, second]) (hidx : ¬ toInt second ≤ -1)
    (hf : findWin (w :: others) (toInt first) = some src) (hne : src.id ≠ w.id)
    (hw : src.widget (toInt second) = some tabPage)
    (hk : w.currentIndex + 1 = (k : Int)) (hkl : k ≤ w.pages.length)
    (hsrc : (src.pages.map TabPage.id).Nodup)
    (hsep : (w :: others).Pairwise (fun a b => ∀ p ∈ a.pages, ∀ q ∈ b.pages, p.id ≠ q.id)) :
    ∃ w1 others1 ev source, w.dropTab others f str = .ok (w1, others1, ev) ∧
      w1.pages = w.pages.take k ++ tabPage :: w.pages.drop k ∧
      w1.widget (w.currentIndex + 1) = some tabPage ∧
      w1.currentIndex = w.currentIndex + 1 ∧
      w1.pages.length = w.pages.length + 1 ∧
      others1 = others.map (fun x => if x.id = src.id then source else x) ∧
      source ∈ others1 ∧ source.id = src.id ∧
      source.pages.length + 1 = src.pages.length ∧
      ∀ x ∈ others1, ∀ q ∈ x.pages, q.id ≠ tabPage.id := by
  have hmem : src ∈ others := by
    rcases List.mem_cons.1 (findWin_mem hf) with h | h
    · rw [h] at hne
      exact absurd rfl hne
    · exact h
  have hpos : 0 ≤ toInt second := by omega
  have hwn : src.pages[(toInt second).toNat]? = some tabPage := by
    rw [← widget_natCast, Int.toNat_of_nonneg hpos]
    exact hw
  have hlt : (toInt second).toNat < src.pages.length := (List.getElem?_eq_some.1 hwn).1
  have hrem := removeTab_eq src hlt
  rw [Int.toNat_of_nonneg hpos] at hrem
  have hmv := dropTab_moves others f hs hidx hf hne hw
  rw [hk] at hmv ⊢
  have hp1 : ((w.receiveTab (k : Int) tabPage f).setCurrentIndex (k : Int)).pages =
      w.pages.take k ++ tabPage :: w.pages.drop k := by
    rw [(setCurrentIndex_sameTabs _ _).2.1, receiveTab_pages, insertTab_pages rfl hkl]
  have hlen : ((w.receiveTab (k : Int) tabPage f).setCurrentIndex (k : Int)).pages.length =
      w.pages.length + 1 := by
    rw [hp1]
    simp only [List.length_append, List.length_take, List.length_cons, List.length_drop]
    omega
  refine ⟨_, _, _, src.removeTab (toInt second), hmv, hp1, ?_, ?_, hlen, rfl, ?_, ?_, ?_, ?_⟩
  · rw [widget_natCast, hp1]
    exact getElem?_insert_self _ hkl _
  · apply setCurrentIndex_of_valid
    rw [receiveTab_pages, insertTab_pages rfl hkl]
    simp only [List.length_append, List.length_take, List.length_cons, List.length_drop]
    omega
  · exact List.mem_map.2 ⟨src, hmem, by simp⟩
  · rw [hrem]
  · rw [hrem]
    simp only [List.length_eraseIdx, hlt, if_true]
    omega
  · intro x hx q hq
    obtain ⟨y, hy, hxy⟩ := List.mem_map.1 hx
    by_cases hid : y.id = src.id
    · rw [if_pos hid] at hxy
      rw [← hxy, hrem] at hq
      exact not_mem_eraseIdx hsrc hwn hq
    · rw [if_neg hid] at hxy
      rw [← hxy] at hq
      have hyne : y ≠ src := fun h => hid (by rw [h])
      have hpw := (List.pairwise_cons.1 hsep).2
      have hsym : Symmetric (fun a b : FPwin => ∀ p ∈ a.pages, ∀ q ∈ b.pages, p.id ≠ q.id) :=
        fun a b h p hp q hq heq => h q hq p hp heq.symm
      exact hpw.forall hsym hy hmem hyne q hq tabPage (mem_of_widget hw)

theorem drop_inserts_witness :
    splitParts '+' "2+0".toList [] = [['2'], ['0']] ∧ ¬ toInt ['0'] ≤ -1 ∧
    findWin (oneTab :: [lastTab]) (toInt ['2']) = some lastTab ∧ lastTab.id ≠ oneTab.id ∧
    lastTab.widget (toInt ['0']) =
      some { id := 30, fileName := "/home/u/x.txt", modified := true } ∧
    ∃ w1 others1 ev, oneTab.dropTab [lastTab] (sampleFresh 0) "2+0" = .ok (w1, others1, ev) ∧
      w1.pages = [{ id := 10, fileName := "/home/u/gone.txt", modified := false },
                  { id := 30, fileName := "/home/u/x.txt", modified := true }] ∧
      w1.currentIndex = 1 := by
  refine ⟨by decide, by decide, by decide, by decide, by decide, ?_⟩
  obtain ⟨w1, others1, ev, source, hrun, hp, _, hc, _⟩ :=
    drop_inserts oneTab [lastTab] (sampleFresh 0) "2+0" ['2'] ['0'] lastTab
      { id := 30, fileName := "/home/u/x.txt", modified := true } 1
      (by decide) (by decide) (by decide) (by decide) (by decide) (by decide) (by decide)
      (by decide) (by decide)
  exact ⟨w1, others1, ev, hrun, hp, hc⟩

/-! ## The current tab after `closeTabs` -/

theorem closeTabs_loop {w : FPwin} (hwf : w.WellFormed) (hrdy : w.isReady = true)
    {first last : Int} (hfirst : -1 ≤ first) (hlast : -1 ≤ last) (hcount : last ≤ w.count)
    (env : Nat → Env) :
    ∃ w1 : FPwin,
      closeLoop (w.pages.length + 1) w.hasSideList first last false w env =
        .ok ((runSpec w.id (w.candidates w.hasSideList first last) w.pages.length env).1, w1,
          (runSpec w.id (w.candidates w.hasSideList first last) w.pages.length env).2.2) ∧
      LoopPost w.hasSideList (lowerEnd first) (rangeEnd w first last) env w w1
        (runSpec w.id (w.candidates w.hasSideList first last) w.pages.length env) := by
  have hlo : first = ((lowerEnd first : Nat) : Int) - 1 := by
    unfold lowerEnd
    omega
  have hupper : (last < 0 ∧ upperEnd w last = w.pages.length) ∨
      (last = upperEnd w last ∧ upperEnd w last ≤ w.pages.length) := by
    unfold upperEnd
    simp only [FPwin.count] at hcount
    by_cases h : last < 0
    · left
      simp [h]
    · right
      simp only [h, if_false]
      omega
  unfold FPwin.candidates rangeEnd
  by_cases hle : upperEnd w last ≤ lowerEnd first
  · rw [segment_self _ _ _ hle, max_eq_left hle]
    simp only [runSpec]
    refine ⟨w, closeLoop_none _ _ _ _ _ _ ?_, loopPost_nothing _ _ _ hwf⟩
    simp only [FPwin.count]
    rcases hupper with ⟨h1, h2⟩ | ⟨h1, h2⟩
    · simp only [h1, if_true]
      omega
    · have : ¬ (last < 0) := by omega
      simp only [this, if_false]
      omega
  · have hlt : lowerEnd first < upperEnd w last := by omega
    rw [max_eq_right (by omega)]
    have hne : w.pages ≠ [] := by
      intro h
      rw [h] at hupper
      simp only [List.length_nil] at hupper
      omega
    exact closeLoop_spec w.hasSideList first (lowerEnd first) hlo (w.pages.length + 1)
      (upperEnd w last) last w env hwf hrdy (hasSideList_of_pages hwf hne) hupper
      (by omega) (by omega)

theorem outside_position {w : FPwin} {first last : Int} (hfirst : -1 ≤ first)
    (hlast : -1 ≤ last) {c : Nat} (h : outsideRange first last (c : Int) = true) :
    c < lowerEnd first ∨ rangeEnd w first last ≤ c := by
  simp only [outsideRange, Bool.not_eq_true', Bool.and_eq_false_imp, decide_eq_true_eq,
    Bool.or_eq_false_iff, decide_eq_false_iff_not] at h
  unfold rangeEnd lowerEnd upperEnd
  by_cases h1 : first < (c : Int)
  · have h2 := h h1
    have h3 : ¬ (last < 0) := by omega
    simp only [h3, if_false]
    by_cases h4 : c < (first + 1).toNat
    · exact Or.inl h4
    · right
      rw [max_le_iff]
      omega
  · left
    omega

theorem setCurrentItem_currentItem {w : FPwin} {i : Nat} (hi : i ∈ w.items) :
    (w.setCurrentItem (some i)).currentItem = some i := by
  obtain ⟨r, hr, _⟩ := positionOf_of_mem hi
  have hrow : (0 : Int) ≤ w.row (some i) := by
    simp only [FPwin.row, hr]
    omega
  unfold FPwin.setCurrentItem
  simp only [hrow, if_true]
  by_cases hcur : some i = w.currentItem
  · simp only [hcur, if_true]
  · simp only [hcur, if_false]
    rw [changeTab_currentItem]

theorem setCurrentWidget_of_mem {w : FPwin} (hn : (w.pages.map TabPage.id).Nodup)
    {page : TabPage} (hp : page ∈ w.pages) :
    (w.setCurrentWidget (some page.id)).currentWidget = some page.id := by
  obtain ⟨c, hc⟩ := List.mem_iff_getElem?.1 hp
  have hidx : w.indexOf (some page.id) = c := indexOf_of_page hn hc
  have hcur : (w.setCurrentWidget (some page.id)).currentIndex = c := by
    unfold FPwin.setCurrentWidget
    rw [hidx]
    exact setCurrentIndex_of_valid w c (List.getElem?_eq_some.1 hc).1
  apply currentWidget_of_index _ hcur
  rw [(setCurrentWidget_sameTabs w _).2.1]
  exact hc

theorem page_of_currentWidget {w : FPwin} {p : Nat} (h : w.currentWidget = some p) :
    ∃ (c : Nat) (page : TabPage), w.currentIndex = (c : Int) ∧ w.pages[c]? = some page ∧
      page.id = p := by
  unfold FPwin.currentWidget at h
  cases hw : w.widget w.currentIndex with
  | none =>
    rw [hw] at h
    cases h
  | some page =>
    rw [hw] at h
    simp only [Option.map_some', Option.some.injEq] at h
    unfold FPwin.widget at hw
    obtain ⟨c, hc, _, hpc⟩ := atIndex_eq_some hw
    exact ⟨c, page, hc, hpc, h⟩

/-! ## C24: the current tab is restored -/

/-- C24: when `closeTabs (first, last)` on a ready, well-formed window returns `false`
(no prompt was cancelled) and the current position lay outside the range, the page that
was current before is current again; with a side list the item that was current before
is the current item again, and its page the current page. -/
theorem closeTabs_restores (w : FPwin) (first last : Int) (env : Nat → Env) (w1 : FPwin)
    (ev : List Event) (hwf : w.WellFormed) (hrdy : w.isReady = true) (hfirst : -1 ≤ first)
    (hlast : -1 ≤ last) (hcount : last ≤ w.count)
    (hrun : w.closeTabs first last env = .ok (false, w1, ev)) :
    (w.hasSideList = false → outsideRange first last w.currentIndex = true →
      ∀ p, w.currentWidget = some p → w1.currentWidget = some p) ∧
    (w.hasSideList = true → outsideRange first last w.currentRow = true →
      ∀ i, w.currentItem = some i →
        w1.currentItem = some i ∧ w1.currentWidget = w.currentWidget) := by
  obtain ⟨w0, hloop, hpost⟩ := closeTabs_loop hwf hrdy hfirst hlast hcount env
  unfold FPwin.closeTabs at hrun
  simp only [hrdy, Bool.not_true, Bool.false_eq_true, if_false, hloop] at hrun
  generalize runSpec w.id (w.candidates w.hasSideList first last) w.pages.length env = s at *
  obtain ⟨keep, d, tr⟩ := s
  simp only [Except.ok.injEq, Prod.mk.injEq] at hrun
  obtain ⟨hk, hw1, _⟩ := hrun
  subst hk
  simp only [Bool.not_false, if_true] at hw1
  obtain ⟨hwf0, hsw, _, _, _, hitems, _, hfalse, _⟩ := hpost
  obtain ⟨hd, hby⟩ := hfalse rfl
  simp only at hd hitems
  have hge : lowerEnd first ≤ rangeEnd w first last := le_max_left _ _
  constructor
  · intro hs hout p hp
    obtain ⟨c, page, hc, hpc, hid⟩ := page_of_currentWidget hp
    have hout0 := hout
    rw [hc] at hout
    have hpos := outside_position (w := w) hfirst hlast hout
    have hmem : page ∈ w0.pages := by
      simp only [hs, FPwin.byPosition, Bool.false_eq_true, if_false] at hby
      have h1 : some page ∈ (w.pages.map some).take (lowerEnd first) ++
          (w.pages.map some).drop (rangeEnd w first last) :=
        mem_take_append_drop (by rw [List.getElem?_map, hpc]; rfl) hpos
      rw [← hby] at h1
      obtain ⟨q, hq, hqe⟩ := List.mem_map.1 h1
      cases hqe
      exact hq
    have hcp : w.curPageOf first last = some p := by
      unfold FPwin.curPageOf
      simp only [hs, hout0, Bool.not_false, Bool.and_self, if_true]
      exact hp
    rw [← hw1, hcp]
    simp only [FPwin.restoreCurrent]
    rw [← hid]
    exact setCurrentWidget_of_mem hwf0.1 hmem
  · intro hs hout i hi
    have hsp : w.sidePane_ = true := by
      unfold FPwin.hasSideList at hs
      simp only [Bool.and_eq_true] at hs
      exact hs.1
    have hsp0 : w0.sidePane_ = true := by rw [hsw.2.1]; exact hsp
    have hm := hwf.2 hsp
    have hm0 := hwf0.2 hsp0
    have him : i ∈ w.items := hm.2.2.2.2.2.2.1 i (by rw [hi]; simp)
    obtain ⟨c, hc, hci⟩ := currentRow_spec hi him
    have hout0 := hout
    rw [hc] at hout
    have hpos := outside_position (w := w) hfirst hlast hout
    have hit0 : w0.items = w.items.take (lowerEnd first) ++
        w.items.drop (rangeEnd w first last) := by
      rw [hitems hs, hd]
      congr 2
      omega
    have him0 : i ∈ w0.items := by
      rw [hit0]
      exact mem_take_append_drop hci hpos
    have hcp : w.curPageOf first last = none := by
      unfold FPwin.curPageOf
      simp [hs]
    have hci2 : w.curItemOf first last = some i := by
      unfold FPwin.curItemOf
      simp only [hs, hout0, Bool.and_self, if_true]
      exact hi
    rw [hcp, hci2] at hw1
    simp only [FPwin.restoreCurrent] at hw1
    have hwf1 : w1.WellFormed := by
      rw [← hw1]
      exact setCurrentItem_wellFormed hwf0 (fun _ => him0)
    have hst : SameTabs w0 w1 := by
      rw [← hw1]
      exact setCurrentItem_sameTabs _ _
    have hcur1 : w1.currentItem = some i := by
      rw [← hw1]
      exact setCurrentItem_currentItem him0
    refine ⟨hcur1, ?_⟩
    have hsp1 : w1.sidePane_ = true := by rw [hst.2.2.1]; exact hsp0
    have hsync1 := (hwf1.2 hsp1).2.2.2.2.2.2.2
    have hsync := hm.2.2.2.2.2.2.2
    rw [← hsync1, hcur1, hst.2.2.2.2.1, ← hsync, hi]
    -- the page of the item `i` is the same in both windows
    obtain ⟨v, hv, hvm⟩ := hm.page_of_item him
    obtain ⟨t, pg, hpg, hpgid⟩ := page_of_id hvm
    obtain ⟨v0, hv0, hvm0⟩ := hm0.page_of_item him0
    obtain ⟨t0, pg0, hpg0, hpgid0⟩ := page_of_id hvm0
    have hl := lookup_of_mem hm.2.1 hv
    have hl0 := lookup_of_mem hm0.2.1 hv0
    simp only [hashValue, hl, hl0, Option.some.injEq]
    have hg : w.widget (w.indexOf (hashValue w.sideItems_ (some i))) = some pg := by
      simp only [hashValue, hl]
      rw [← hpgid, indexOf_of_page hwf.1 hpg, widget_natCast]
      exact hpg
    have hg0 : w0.widget (w0.indexOf (hashValue w0.sideItems_ (some i))) = some pg0 := by
      simp only [hashValue, hl0]
      rw [← hpgid0, indexOf_of_page hwf0.1 hpg0, widget_natCast]
      exact hpg0
    have hmap : w0.items.map
          (fun j => w0.widget (w0.indexOf (hashValue w0.sideItems_ (some j)))) =
        w0.items.map (fun j => w.widget (w.indexOf (hashValue w.sideItems_ (some j)))) := by
      simp only [hs, FPwin.byPosition, if_true] at hby
      rw [hby, hit0, List.map_append, List.map_take, List.map_drop]
    have heq := List.map_inj_left.1 hmap i him0
    simp only at heq
    rw [hg, hg0] at heq
    simp only [Option.some.injEq] at heq
    rw [← hpgid, ← hpgid0, heq]

theorem closeTabs_restores_witness :
    sampleWindow.WellFormed ∧ sampleWindow.hasSideList = true ∧
    outsideRange 1 (-1) sampleWindow.currentRow = true ∧
    sampleWindow.currentItem = some 20 ∧
    sampleWindow.closeTabs 1 (-1) (answerAll StandardButton.Discard) =
      .ok (false, sampleKept, sampleKeptTrace) ∧
    sampleKept.currentItem = some 20 ∧
    sampleKept.currentWidget = sampleWindow.currentWidget :=
  ⟨by decide, by decide, by decide, by decide, rfl,
    (closeTabs_restores sampleWindow 1 (-1) (answerAll StandardButton.Discard) sampleKept
      sampleKeptTrace (by decide) (by decide) (by decide) (by decide) (by decide) (by rfl)).2
      (by decide) (by decide) 20 (by decide)⟩

/-! ## C28: closing the other tabs -/

theorem rangeEnd_right {w : FPwin} {r : Nat} (hrl : r < w.pages.length) :
    lowerEnd (r : Int) = r + 1 ∧ rangeEnd w (r : Int) (-1) = w.pages.length := by
  unfold rangeEnd lowerEnd upperEnd
  simp only [Int.reduceNeg, Left.neg_neg_iff, Int.reduceLT, if_true]
  constructor
  · omega
  · rw [max_eq_right]
    omega

theorem rangeEnd_left (w : FPwin) (r : Nat) :
    lowerEnd (-1) = 0 ∧ rangeEnd w (-1) (r : Int) = r := by
  unfold rangeEnd lowerEnd upperEnd
  have : ¬ ((r : Int) < 0) := by omega
  simp only [this, if_false]
  constructor
  · rfl
  · simp

/-- C28: on a ready, well-formed window whose right-clicked position `r` is one of its
positions, `closeOtherTabs` first runs `closeTabs (r, -1)`, after which every tab at a
position `≤ r` is still open and unchanged. When that run is kept open,
`closeOtherTabs` ends with its result, without a second run. Otherwise exactly the
positions `≤ r` are left and `closeTabs (-1, r)` runs on them; when that run is not
kept open either, the only tab left is the one that was at position `r`. -/
theorem closeOtherTabs_spec (w : FPwin) (r : Nat) (env env2 : Nat → Env)
    (hwf : w.WellFormed) (hrdy : w.isReady = true) (hr : w.rightClicked_ = (r : Int))
    (hrl : r < w.pages.length) :
    ∃ keep1 w1 ev1, w.closeTabs (r : Int) (-1) env = .ok (keep1, w1, ev1) ∧
      (w1.byPosition w.hasSideList).take (r + 1) = (w.byPosition w.hasSideList).take (r + 1) ∧
      (keep1 = true → w.closeOtherTabs env env2 = .ok (w1, ev1)) ∧
      (keep1 = false →
        w1.byPosition w.hasSideList = (w.byPosition w.hasSideList).take (r + 1) ∧
        ∃ keep2 w2 ev2, w1.closeTabs (-1) (r : Int) env2 = .ok (keep2, w2, ev2) ∧
          w.closeOtherTabs env env2 = .ok (w2, ev1 ++ ev2) ∧
          (keep2 = false → ∃ page, (w.byPosition w.hasSideList)[r]? = some (some page) ∧
            w2.pages = [page])) := by
  have hne : w.pages ≠ [] := by
    intro h
    rw [h] at hrl
    simp at hrl
  have hhs : w.hasSideList = w.sidePane_ := hasSideList_of_pages hwf hne
  have hBl : (w.byPosition w.hasSideList).length = w.pages.length := byPosition_length hwf hhs
  obtain ⟨hlo, hhi⟩ := rangeEnd_right hrl
  obtain ⟨w1, hrun1, hpost1⟩ := @closeTabs_spec w hwf hrdy (r : Int) (-1)
    (by omega) (by omega) (by simp only [FPwin.count]; omega) env
  rw [hlo, hhi] at hpost1
  generalize runSpec w.id (w.candidates w.hasSideList (r : Int) (-1)) w.pages.length env = s
    at hrun1 hpost1
  obtain ⟨keep1, n1, tr1⟩ := s
  obtain ⟨hwf1, hsw1, hn1, hlen1, _, _, _, hfalse1, htrue1⟩ := hpost1
  simp only at hrun1 hn1 hlen1 hfalse1 htrue1
  have hne1 : w1.pages ≠ [] := by
    intro h
    rw [h] at hlen1
    simp only [List.length_nil] at hlen1
    omega
  have hhs1 : w1.hasSideList = w.hasSideList := by
    rw [hasSideList_of_pages hwf1 hne1, hsw1.2.1, hhs]
  have hrdy1 : w1.isReady = true := by
    unfold FPwin.isReady at hrdy ⊢
    rw [hsw1.2.2.1]
    exact hrdy
  have hr1 : w1.rightClicked_ = (r : Int) := by rw [hsw1.2.2.2]; exact hr
  have htake : (w1.byPosition w.hasSideList).take (r + 1) =
      (w.byPosition w.hasSideList).take (r + 1) := by
    cases keep1 with
    | false =>
      obtain ⟨_, hby⟩ := hfalse1 rfl
      rw [hby, List.drop_of_length_le (by omega), List.append_nil, List.take_take,
        min_self]
    | true =>
      obtain ⟨page, q, _, _, _, hlt, hby, _⟩ := htrue1 rfl
      rw [hby, List.take_append_of_le_length, List.take_take]
      · congr 1
        omega
      · rw [List.length_take]
        omega
  refine ⟨keep1, w1, _, hrun1, htake, ?_, ?_⟩
  · intro hk
    unfold FPwin.closeOtherTabs
    rw [hr, hrun1]
    simp only [hk, Bool.not_true, Bool.false_eq_true, if_false]
  · intro hk
    obtain ⟨hn, hby⟩ := hfalse1 hk
    have hby1 : w1.byPosition w.hasSideList = (w.byPosition w.hasSideList).take (r + 1) := by
      rw [hby, List.drop_of_length_le (by omega), List.append_nil]
    have hl1 : w1.pages.length = r + 1 := by omega
    obtain ⟨hlo2, hhi2⟩ := rangeEnd_left w1 r
    obtain ⟨w2, hrun2, hpost2⟩ := @closeTabs_spec w1 hwf1 hrdy1 (-1) (r : Int)
      (by omega) (by omega) (by simp only [FPwin.count]; omega) env2
    rw [hlo2, hhi2] at hpost2
    rw [hhs1] at hrun2 hpost2
    generalize runSpec w1.id (w1.candidates w.hasSideList (-1) (r : Int)) w1.pages.length
      env2 = s2 at hrun2 hpost2
    obtain ⟨keep2, n2, tr2⟩ := s2
    obtain ⟨hwf2, hsw2, _, hlen2, _, _, _, hfalse2, _⟩ := hpost2
    simp only at hrun2 hlen2 hfalse2
    refine ⟨hby1, keep2, w2, _, hrun2, ?_, ?_⟩
    · unfold FPwin.closeOtherTabs
      rw [hr, hrun1]
      simp only [hk, Bool.not_false, if_true, hr1, hrun2]
    · intro hk2
      obtain ⟨hn2, hby2⟩ := hfalse2 hk2
      obtain ⟨t, page, _, _, hpage⟩ := position_spec hwf hhs hrl
      refine ⟨page, hpage, ?_⟩
      have hB2 : w2.byPosition w.hasSideList = [some page] := by
        rw [hby2, hby1, List.take_zero, List.nil_append]
        apply List.ext_getElem?
        intro j
        rw [List.getElem?_drop, List.getElem?_take]
        cases j with
        | zero =>
          simp only [Nat.add_zero, Nat.lt_succ_self, if_true]
          rw [hpage]
          rfl
        | succ j =>
          have : ¬ (r + (j + 1) < r + 1) := by omega
          simp only [this, if_false]
          rfl
      have hmem : page ∈ w2.pages :=
        @mem_pages_of_mem_byPosition w2 w.hasSideList page (by rw [hB2]; simp)
      have hl2 : w2.pages.length = 1 := by omega
      cases hp2 : w2.pages with
      | nil =>
        rw [hp2] at hl2
        cases hl2
      | cons a rest =>
        rw [hp2] at hl2 hmem
        cases rest with
        | nil =>
          simp only [List.mem_singleton] at hmem
          rw [hmem]
        | cons b rest2 =>
          simp at hl2

theorem closeOtherTabs_spec_witness :
    ({ sampleWindow with rightClicked_ := 1 } : FPwin).WellFormed ∧
    ({ sampleWindow with rightClicked_ := 1 } : FPwin).isReady = true ∧
    ({ sampleWindow with rightClicked_ := 1 } : FPwin).closeOtherTabs
        (answerAll StandardButton.Discard) (answerAll StandardButton.Discard) =
      .ok ({ sampleWindow with
             pages := [{ id := 10, fileName := "", modified := false }]
             items := [20]
             sideItems_ := [(20, 10)]
             rightClicked_ := 1 },
        [Event.pauseAutoSaving true, Event.msgBox 11 false false,
         Event.savePrompt 11 false DOCSTATE.SAVED, Event.deleteTabPage 11,
         Event.pauseAutoSaving false, Event.pauseAutoSaving true,
         Event.savePrompt 12 false DOCSTATE.SAVED, Event.deleteTabPage 12,
         Event.pauseAutoSaving false]) ∧
    ∃ keep1 w1 ev1, ({ sampleWindow with rightClicked_ := 1 } : FPwin).closeTabs ((1 : Nat) : Int)
        (-1) (answerAll StandardButton.Discard) = .ok (keep1, w1, ev1) ∧
      (w1.byPosition ({ sampleWindow with rightClicked_ := 1 } : FPwin).hasSideList).take (1 + 1) =
        (({ sampleWindow with rightClicked_ := 1 } : FPwin).byPosition
          ({ sampleWindow with rightClicked_ := 1 } : FPwin).hasSideList).take (1 + 1) := by
  refine ⟨by decide, by decide, rfl, ?_⟩
  obtain ⟨keep1, w1, ev1, h1, h2, _⟩ :=
    closeOtherTabs_spec { sampleWindow with rightClicked_ := 1 } 1
      (answerAll StandardButton.Discard) (answerAll StandardButton.Discard)
      (by decide) (by decide) (by decide) (by decide)
  exact ⟨keep1, w1, ev1, h1, h2⟩

/-! ## The side list when an item is added -/

theorem FPwin.Mirrored.paired {w : FPwin} (hm : w.Mirrored) :
    PairedWith w.items w.sideItems_ (w.pages.map TabPage.id) :=
  ⟨hm.1, hm.2.1, hm.2.2.1, hm.2.2.2.1, hm.2.2.2.2.1, hm.2.2.2.2.2.1⟩

theorem mirrored_of_paired {w : FPwin}
    (hp : PairedWith w.items w.sideItems_ (w.pages.map TabPage.id))
    (hc : ∀ i ∈ w.currentItem.toList, i ∈ w.items)
    (hs : hashValue w.sideItems_ w.currentItem = w.currentWidget) : w.Mirrored :=
  ⟨hp.1, hp.2.1, hp.2.2.1, hp.2.2.2.1, hp.2.2.2.2.1, hp.2.2.2.2.2, hc, hs⟩

theorem hashRemove_of_not_key {S : List (Nat × Nat)} {item : Nat}
    (h : item ∉ S.map Prod.fst) : hashRemove S item = S := by
  unfold hashRemove
  rw [List.filter_eq_self]
  intro kv hkv
  simp only [bne_iff_ne, ne_eq]
  intro heq
  exact h (List.mem_map.2 ⟨kv, hkv, heq⟩)

theorem mem_insertAt {α : Type} (l : List α) (r : Nat) (a x : α) :
    x ∈ l.take r ++ a :: l.drop r ↔ x = a ∨ x ∈ l := by
  rw [List.mem_append, List.mem_cons]
  constructor
  · rintro (h | h | h)
    · exact Or.inr (List.mem_of_mem_take h)
    · exact Or.inl h
    · exact Or.inr (List.mem_of_mem_drop h)
  · rintro (h | h)
    · exact Or.inr (Or.inl h)
    · rw [← List.take_append_drop r l, List.mem_append] at h
      rcases h with h | h
      · exact Or.inl h
      · exact Or.inr (Or.inr h)

theorem nodup_insertAt {α : Type} {l : List α} (hl : l.Nodup) (r : Nat) {a : α}
    (ha : a ∉ l) : (l.take r ++ a :: l.drop r).Nodup := by
  have hperm : (l.take r ++ a :: l.drop r).Perm (a :: l) := by
    have h1 := @List.perm_middle α a (l.take r) (l.drop r)
    rw [List.take_append_drop] at h1
    exact h1
  rw [hperm.nodup_iff]
  exact List.nodup_cons.2 ⟨ha, hl⟩

theorem pairedWith_insert {items items1 : List Nat} {S : List (Nat × Nat)} {ids ids1 : List Nat}
    (hp : PairedWith items S ids) {item page : Nat} (hi : item ∉ items) (hpg : page ∉ ids)
    (hitems : ∀ x, x ∈ items1 ↔ x = item ∨ x ∈ items) (hnd : items1.Nodup)
    (hids : ∀ p, p ∈ ids1 ↔ p = page ∨ p ∈ ids) :
    PairedWith items1 (hashInsert S item page) ids1 := by
  obtain ⟨_, h2, h3, h4, h5, h6⟩ := hp
  have hkey : item ∉ S.map Prod.fst := by
    intro h
    obtain ⟨kv, hkv, heq⟩ := List.mem_map.1 h
    apply hi
    rw [← heq]
    exact (h4 kv hkv).1
  have hval : page ∉ S.map Prod.snd := by
    intro h
    obtain ⟨kv, hkv, heq⟩ := List.mem_map.1 h
    apply hpg
    rw [← heq]
    exact (h4 kv hkv).2
  unfold hashInsert
  rw [hashRemove_of_not_key hkey]
  refine ⟨hnd, ?_, ?_, ?_, ?_, ?_⟩
  · simp only [List.map_cons]
    exact List.nodup_cons.2 ⟨hkey, h2⟩
  · simp only [List.map_cons]
    exact List.nodup_cons.2 ⟨hval, h3⟩
  · intro kv hkv
    rcases List.mem_cons.1 hkv with h | h
    · rw [h]
      exact ⟨(hitems item).2 (Or.inl rfl), (hids page).2 (Or.inl rfl)⟩
    · exact ⟨(hitems kv.1).2 (Or.inr (h4 kv h).1), (hids kv.2).2 (Or.inr (h4 kv h).2)⟩
  · intro i hi1
    simp only [List.map_cons, List.mem_cons]
    rcases (hitems i).1 hi1 with h | h
    · exact Or.inl h
    · exact Or.inr (h5 i h)
  · intro p hp1
    simp only [List.map_cons, List.mem_cons]
    rcases (hids p).1 hp1 with h | h
    · exact Or.inl h
    · exact Or.inr (h6 p h)

theorem lookup_hashInsert_self (S : List (Nat × Nat)) (item page : Nat) :
    (hashInsert S item page).lookup item = some page := by
  simp [hashInsert, List.lookup_cons]

theorem lookup_hashInsert_other {S : List (Nat × Nat)} {item page k : Nat} (h : k ≠ item) :
    (hashInsert S item page).lookup k = S.lookup k := by
  unfold hashInsert
  rw [List.lookup_cons]
  have : (k == item) = false := by simpa using h
  rw [this]
  exact lookup_hashRemove h

theorem setCurrentIndex_same (w : FPwin) : w.setCurrentIndex w.currentIndex = w := by
  unfold FPwin.setCurrentIndex
  split <;> rfl

/-- Making an item current whose page is at index `c`: the item becomes the current
item and `changeTab` makes that page current. -/
theorem setCurrentItem_eq {w : FPwin} (hsp : w.sidePane_ = true)
    (hn : (w.pages.map TabPage.id).Nodup) {i c : Nat} {pg : TabPage} (hi : i ∈ w.items)
    (hl : w.sideItems_.lookup i = some pg.id) (hc : w.pages[c]? = some pg)
    (hne : w.currentItem ≠ some i) :
    w.setCurrentItem (some i) = { w with currentItem := some i, currentIndex := (c : Int) } := by
  obtain ⟨r, hr, _⟩ := positionOf_of_mem hi
  have hrow : (0 : Int) ≤ w.row (some i) := by
    simp only [FPwin.row, hr]
    omega
  have hS : w.sideItems_.isEmpty = false := by
    cases hS : w.sideItems_ with
    | nil =>
      rw [hS] at hl
      simp at hl
    | cons x xs => rfl
  have hcur : ¬ (some i = w.currentItem) := fun h => hne h.symm
  unfold FPwin.setCurrentItem
  simp only [hrow, if_true, hcur, if_false]
  generalize hw0 : ({ w with currentItem := some i } : FPwin) = w0
  have h0sp : w0.sidePane_ = true := by rw [← hw0]; exact hsp
  have h0S : w0.sideItems_ = w.sideItems_ := by rw [← hw0]
  have h0p : w0.pages = w.pages := by rw [← hw0]
  have hcond : (!w0.sidePane_ || w0.sideItems_.isEmpty) = false := by
    rw [h0sp, h0S, hS]
    rfl
  unfold FPwin.changeTab
  rw [if_neg (by rw [hcond]; simp), h0S]
  simp only [hashValue, hl]
  unfold FPwin.setCurrentWidget
  have hidx : w0.indexOf (some pg.id) = c :=
    indexOf_of_page (w := w0) (by rw [h0p]; exact hn) (by rw [h0p]; exact hc)
  rw [hidx]
  have hv : (0 : Int) ≤ (c : Int) ∧ (c : Int) < w0.count := by
    simp only [FPwin.count, h0p]
    have := (List.getElem?_eq_some.1 hc).1
    omega
  unfold FPwin.setCurrentIndex
  rw [if_pos hv, ← hw0]

theorem setCurrentWidget_self {w : FPwin} (hn : (w.pages.map TabPage.id).Nodup) {p : Nat}
    (h : w.currentWidget = some p) : w.setCurrentWidget (some p) = w := by
  obtain ⟨c, page, hc, hpc, hid⟩ := page_of_currentWidget h
  unfold FPwin.setCurrentWidget
  rw [← hid, indexOf_of_page hn hpc, ← hc]
  exact setCurrentIndex_same w

theorem wellFormed_of_noSide {v : FPwin} (hn : (v.pages.map TabPage.id).Nodup)
    (hs : v.sidePane_ = false) : v.WellFormed :=
  ⟨hn, fun h => by rw [hs] at h; cases h⟩

theorem insertTab_ids {w : FPwin} {k : Nat} (hkl : k ≤ w.pages.length) (q : TabPage) :
    (w.insertTab (k : Int) q).pages.map TabPage.id =
      (w.pages.map TabPage.id).take k ++ q.id :: (w.pages.map TabPage.id).drop k := by
  rw [insertTab_pages rfl hkl, List.map_append, List.map_cons, List.map_take, List.map_drop]

theorem insertTab_nodup {w : FPwin} (hn : (w.pages.map TabPage.id).Nodup) {k : Nat}
    (hkl : k ≤ w.pages.length) {q : TabPage} (hq : q.id ∉ w.pages.map TabPage.id) :
    ((w.insertTab (k : Int) q).pages.map TabPage.id).Nodup := by
  rw [insertTab_ids hkl]
  exact nodup_insertAt hn k hq

theorem insertTab_currentIndex {w : FPwin} {k : Nat} (hkl : k ≤ w.pages.length)
    (hne : w.pages ≠ []) (hlt : w.currentIndex < (k : Int)) (q : TabPage) :
    (w.insertTab (k : Int) q).currentIndex = w.currentIndex := by
  have hc : (0 : Int) ≤ (k : Int) ∧ (k : Int) ≤ w.count := by
    simp only [FPwin.count]
    omega
  have he : w.pages.isEmpty = false := by
    cases hp : w.pages with
    | nil => exact absurd hp hne
    | cons a l => rfl
  simp only [FPwin.insertTab]
  rw [if_pos hc]
  simp only [he, Bool.false_eq_true, if_false, Int.toNat_ofNat]
  rw [if_neg (by omega)]

theorem paired_received {w : FPwin} (hn : (w.pages.map TabPage.id).Nodup) (hm : w.Mirrored)
    {k : Nat} (hkl : k ≤ w.pages.length) {q : TabPage} (hq : q.id ∉ w.pages.map TabPage.id)
    {f : Fresh} (hf : f.item ∉ w.items) :
    PairedWith ((w.insertTab (k : Int) q).addItem f q.id).items
      ((w.insertTab (k : Int) q).addItem f q.id).sideItems_
      (((w.insertTab (k : Int) q).addItem f q.id).pages.map TabPage.id) := by
  apply pairedWith_insert hm.paired hf hq (mem_insertAt _ _ _) (nodup_insertAt hm.1 _ hf)
  intro p
  show p ∈ (w.insertTab (k : Int) q).pages.map TabPage.id ↔ _
  rw [insertTab_ids hkl]
  exact mem_insertAt _ _ _ _

/-- A page with a new item is put into a well-formed window with a side pane and the
item is made current: the window is well formed and the page is the current one. -/
theorem received_wellFormed {w : FPwin} (hwf : w.WellFormed) (hsp : w.sidePane_ = true)
    {k : Nat} (hkl : k ≤ w.pages.length) {q : TabPage} (hq : q.id ∉ w.pages.map TabPage.id)
    {f : Fresh} (hf : f.item ∉ w.items) :
    (((w.insertTab (k : Int) q).addItem f q.id).setCurrentItem (some f.item)).WellFormed ∧
    (((w.insertTab (k : Int) q).addItem f q.id).setCurrentItem (some f.item)).currentIndex =
      (k : Int) ∧
    (((w.insertTab (k : Int) q).addItem f q.id).setCurrentItem (some f.item)).currentWidget =
      some q.id := by
  have hm := hwf.2 hsp
  have hnd := insertTab_nodup hwf.1 hkl hq
  have hpair := paired_received hwf.1 hm hkl hq hf
  have hpk : (w.insertTab (k : Int) q).pages[k]? = some q := by
    rw [insertTab_pages rfl hkl]
    exact getElem?_insert_self _ hkl _
  have hne : ((w.insertTab (k : Int) q).addItem f q.id).currentItem ≠ some f.item := by
    intro h
    exact hf (hm.2.2.2.2.2.2.1 f.item (by
      have h1 : w.currentItem = some f.item := h
      rw [h1]
      simp))
  have hmemi : f.item ∈ ((w.insertTab (k : Int) q).addItem f q.id).items :=
    (mem_insertAt _ _ _ _).2 (Or.inl rfl)
  have heq := @setCurrentItem_eq ((w.insertTab (k : Int) q).addItem f q.id) hsp hnd f.item k q
    hmemi (lookup_hashInsert_self _ _ _) hpk hne
  rw [heq]
  have hcw : FPwin.currentWidget
      { (w.insertTab (k : Int) q).addItem f q.id with
        currentItem := some f.item, currentIndex := (k : Int) } = some q.id :=
    currentWidget_of_index (w := { (w.insertTab (k : Int) q).addItem f q.id with
        currentItem := some f.item, currentIndex := (k : Int) }) hpk rfl
  refine ⟨⟨hnd, fun _ => mirrored_of_paired hpair ?_ ?_⟩, rfl, hcw⟩
  · intro i hi
    simp only [Option.toList, List.mem_singleton] at hi
    rw [hi]
    exact hmemi
  · rw [hcw]
    simp only [hashValue]
    exact lookup_hashInsert_self _ _ _

/-- A page with a new item is put after the current tab of a well-formed window with
a side pane, and nothing is made current: the window is well formed. -/
theorem inserted_wellFormed {w : FPwin} (hwf : w.WellFormed) (hsp : w.sidePane_ = true)
    {k : Nat} (hk : w.currentIndex + 1 = (k : Int)) (hkl : k ≤ w.pages.length) (hk0 : 0 < k)
    {q : TabPage} (hq : q.id ∉ w.pages.map TabPage.id) {f : Fresh} (hf : f.item ∉ w.items) :
    ((w.insertTab (k : Int) q).addItem f q.id).WellFormed := by
  have hm := hwf.2 hsp
  have hnd := insertTab_nodup hwf.1 hkl hq
  have hpair := paired_received hwf.1 hm hkl hq hf
  have hne : w.pages ≠ [] := by
    intro h
    rw [h] at hkl
    simp only [List.length_nil] at hkl
    omega
  have hci : ((w.insertTab (k : Int) q).addItem f q.id).currentIndex = w.currentIndex :=
    insertTab_currentIndex hkl hne (by omega) q
  have hcw : ((w.insertTab (k : Int) q).addItem f q.id).currentWidget = w.currentWidget := by
    unfold FPwin.currentWidget FPwin.widget
    rw [hci]
    have hc : w.currentIndex = ((k - 1 : Nat) : Int) := by omega
    rw [hc, atIndex_natCast, atIndex_natCast]
    show ((w.insertTab (k : Int) q).pages[k - 1]?).map TabPage.id = _
    rw [insertTab_pages rfl hkl, List.getElem?_append_left (by
      rw [List.length_take]
      omega), List.getElem?_take]
    simp only [show k - 1 < k by omega, if_true]
  refine ⟨hnd, fun _ => mirrored_of_paired hpair ?_ ?_⟩
  · intro i hi
    exact (mem_insertAt _ _ _ _).2 (Or.inr (hm.2.2.2.2.2.2.1 i hi))
  · rw [hcw, ← hm.2.2.2.2.2.2.2]
    show hashValue (hashInsert w.sideItems_ f.item q.id) w.currentItem = _
    cases hc : w.currentItem with
    | none => rfl
    | some x =>
      simp only [hashValue]
      apply lookup_hashInsert_other
      intro h
      apply hf
      rw [← h]
      exact hm.2.2.2.2.2.2.1 x (by rw [hc]; simp)

theorem receiveTab_wellFormed {w : FPwin} (hwf : w.WellFormed) {k : Nat}
    (hkl : k ≤ w.pages.length) {q : TabPage} (hq : q.id ∉ w.pages.map TabPage.id)
    {f : Fresh} (hf : f.item ∉ w.items) :
    (w.receiveTab (k : Int) q f).WellFormed ∧
    ((w.receiveTab (k : Int) q f).setCurrentIndex (k : Int)).WellFormed := by
  unfold FPwin.receiveTab
  simp only
  cases hsp : w.sidePane_ with
  | false =>
    have h1 : (w.insertTab (k : Int) q).sidePane_ = false := hsp
    simp only [h1, Bool.false_eq_true, if_false]
    refine ⟨wellFormed_of_noSide (insertTab_nodup hwf.1 hkl hq) h1, ?_⟩
    have hst := setCurrentIndex_sameTabs (w.insertTab (k : Int) q) (k : Int)
    apply wellFormed_of_noSide
    · rw [hst.2.1]
      exact insertTab_nodup hwf.1 hkl hq
    · rw [hst.2.2.1]
      exact h1
  | true =>
    have h1 : (w.insertTab (k : Int) q).sidePane_ = true := hsp
    simp only [h1, if_true]
    obtain ⟨h2, h3, _⟩ := received_wellFormed hwf hsp hkl hq hf
    refine ⟨h2, ?_⟩
    have hsame := setCurrentIndex_same
      (((w.insertTab (k : Int) q).addItem f q.id).setCurrentItem (some f.item))
    rw [h3] at hsame
    rw [hsame]
    exact h2

theorem createEmptyTab_wellFormed {w : FPwin} (hwf : w.WellFormed) (hv : w.CurrentValid)
    (b : Bool) {f : Fresh} (hp : f.page ∉ w.pages.map TabPage.id) (hi : f.item ∉ w.items) :
    (w.createEmptyTab b f).1.WellFormed := by
  obtain ⟨k, hk, hkl, hk0⟩ : ∃ k : Nat, w.currentIndex + 1 = (k : Int) ∧ k ≤ w.pages.length ∧
      (w.currentIndex ≠ -1 → 0 < k) := by
    rcases hv with ⟨h1, h2⟩ | ⟨h1, h2⟩
    · exact ⟨0, by rw [h1]; rfl, Nat.zero_le _, fun h => absurd h1 h⟩
    · simp only [FPwin.count] at h2
      exact ⟨(w.currentIndex + 1).toNat, by omega, by omega, fun _ => by omega⟩
  have hq : (⟨f.page, "", false, "", false, false, "UTF-8", "", ""⟩ : TabPage).id ∉
      w.pages.map TabPage.id := hp
  unfold FPwin.createEmptyTab
  simp only
  rw [hk]
  cases hsp : w.sidePane_ with
  | false =>
    have h1 : (w.insertTab (k : Int)
        { id := f.page, fileName := "", modified := false }).sidePane_ = false := hsp
    simp only [h1, Bool.false_eq_true, if_false]
    have hnd := insertTab_nodup hwf.1 hkl hq
    cases b with
    | false => exact wellFormed_of_noSide hnd h1
    | true =>
      simp only [if_true]
      have hst := setCurrentWidget_sameTabs
        (w.insertTab (k : Int) { id := f.page, fileName := "", modified := false })
        (some f.page)
      apply wellFormed_of_noSide
      · rw [hst.2.1]
        exact hnd
      · rw [hst.2.2.1]
        exact h1
  | true =>
    have h1 : (w.insertTab (k : Int)
        { id := f.page, fileName := "", modified := false }).sidePane_ = true := hsp
    simp only [h1, if_true]
    obtain ⟨h2, _, h4⟩ := received_wellFormed hwf hsp hkl hq hi
    cases b with
    | true =>
      simp only [Bool.true_or, if_true]
      rw [setCurrentWidget_self h2.1 h4]
      exact h2
    | false =>
      simp only [Bool.false_or, Bool.false_eq_true, if_false]
      by_cases hidx : w.currentIndex = -1
      · simp only [hidx, decide_True, if_true]
        rw [hidx] at hk
        have hk0' : k = 0 := by omega
        subst hk0'
        exact h2
      · simp only [hidx, decide_False, Bool.false_eq_true, if_false]
        exact inserted_wellFormed hwf hsp hk hkl (hk0 hidx) hq hi

/-! ## The side list that `toggleSidePane` fills -/

theorem addItems_filled {P : List TabPage} (hn : (P.map TabPage.id).Nodup) (c : Int)
    {fs : Nat → Fresh} (hfs : ∀ a b, (fs a).item = (fs b).item → a = b) :
    ∀ (rest : List TabPage) (i : Nat) (v : FPwin), i ≤ P.length → P.drop i = rest →
      FilledTo P c fs i v → FilledTo P c fs P.length (FPwin.addItems v c fs i rest) := by
  intro rest
  induction rest with
  | nil =>
    intro i v hi hdrop hinv
    have hge : P.length ≤ i := List.drop_eq_nil_iff.1 hdrop
    have : i = P.length := by omega
    subst this
    exact hinv
  | cons p rest ih =>
    intro i v hi hdrop hinv
    have hlt : i < P.length := by
      by_contra h
      rw [List.drop_of_length_le (by omega)] at hdrop
      cases hdrop
    have hpi : P[i]? = some p := by
      have h0 : (P.drop i)[0]? = P[i + 0]? := by rw [List.getElem?_drop]
      rw [hdrop] at h0
      simpa using h0.symm
    have hdrop1 : P.drop (i + 1) = rest := by
      have h1 : P.drop (i + 1) = (P.drop i).drop 1 := by
        rw [List.drop_drop]
      rw [h1, hdrop]
      rfl
    obtain ⟨hP, hsp, hc, hpair, hsrc, hcur⟩ := hinv
    have htake : ∀ x, x ∈ (P.take (i + 1)).map TabPage.id ↔
        x = p.id ∨ x ∈ (P.take i).map TabPage.id := by
      intro x
      rw [List.take_succ, hpi]
      simp only [Option.toList, List.map_append, List.map_cons, List.map_nil, List.mem_append,
        List.mem_singleton]
      exact Or.comm
    have hfresh : (fs i).item ∉ v.items := by
      intro h
      obtain ⟨j, hj, hje⟩ := hsrc _ h
      have := hfs _ _ hje
      omega
    have hpn : p.id ∉ (P.take i).map TabPage.id := by
      intro h
      obtain ⟨q, hq, hqe⟩ := List.mem_map.1 h
      obtain ⟨j, hj⟩ := List.mem_iff_getElem?.1 hq
      rw [List.getElem?_take] at hj
      split at hj
      · rename_i hji
        have := index_unique hn hj hpi hqe
        omega
      · cases hj
    have hpair1 : PairedWith (v.addItem (fs i) p.id).items (v.addItem (fs i) p.id).sideItems_
        ((P.take (i + 1)).map TabPage.id) :=
      pairedWith_insert hpair hfresh hpn (mem_insertAt _ _ _) (nodup_insertAt hpair.1 _ hfresh)
        htake
    have hsrc1 : ∀ x ∈ (v.addItem (fs i) p.id).items, ∃ j, j < i + 1 ∧ x = (fs j).item := by
      intro x hx
      rcases (mem_insertAt _ _ _ _).1 hx with h | h
      · exact ⟨i, Nat.lt_succ_self _, h⟩
      · obtain ⟨j, hj, hje⟩ := hsrc x h
        exact ⟨j, by omega, hje⟩
    simp only [FPwin.addItems]
    apply ih (i + 1) _ (by omega) hdrop1
    by_cases hic : (i : Int) = c
    · simp only [hic, if_true]
      have hnone : v.currentItem = none := by
        rcases hcur with ⟨cn, _, _, hcn, hlt2, _⟩ | ⟨h, _⟩
        · omega
        · exact h
      have heq := @setCurrentItem_eq (v.addItem (fs i) p.id) hsp (by
          show (v.pages.map TabPage.id).Nodup
          rw [hP]
          exact hn) (fs i).item i p
        ((mem_insertAt _ _ _ _).2 (Or.inl rfl)) (lookup_hashInsert_self _ _ _)
        (by
          show v.pages[i]? = some p
          rw [hP]
          exact hpi)
        (by
          show v.currentItem ≠ some (fs i).item
          rw [hnone]
          exact fun h => Option.noConfusion h)
      rw [heq]
      refine ⟨hP, hsp, ?_, hpair1, hsrc1, Or.inl ⟨i, p, (fs i).item, hic.symm, Nat.lt_succ_self _,
        hpi, rfl, lookup_hashInsert_self _ _ _⟩⟩
      exact hic
    · simp only [hic, if_false]
      refine ⟨hP, hsp, hc, hpair1, hsrc1, ?_⟩
      rcases hcur with ⟨cn, pg, x, hcn, hlt2, hpg, hx, hl⟩ | ⟨h1, h2⟩
      · left
        refine ⟨cn, pg, x, hcn, by omega, hpg, hx, ?_⟩
        show (hashInsert v.sideItems_ (fs i).item p.id).lookup x = some pg.id
        rw [lookup_hashInsert_other, hl]
        intro h
        apply hfresh
        rw [← h]
        exact (hpair.2.2.2.1 _ (mem_of_lookup hl)).1
      · right
        refine ⟨h1, ?_⟩
        intro h
        apply h2
        refine ⟨h.1, ?_⟩
        have : c ≠ (i : Int) := fun h => hic h.symm
        omega

theorem filled_mirrored {P : List TabPage} {c : Int} {fs : Nat → Fresh} {v : FPwin}
    (h : FilledTo P c fs P.length v) : v.Mirrored := by
  obtain ⟨hP, _, hc, hpair, _, hcur⟩ := h
  rw [List.take_length, ← hP] at hpair
  apply mirrored_of_paired hpair
  · intro i hi
    rcases hcur with ⟨cn, pg, x, _, _, _, hx, hl⟩ | ⟨h1, _⟩
    · rw [hx] at hi
      simp only [Option.toList, List.mem_singleton] at hi
      rw [hi]
      exact (hpair.2.2.2.1 _ (mem_of_lookup hl)).1
    · rw [h1] at hi
      cases hi
  · rcases hcur with ⟨cn, pg, x, hcn, _, hpg, hx, hl⟩ | ⟨h1, h2⟩
    · rw [hx]
      simp only [hashValue, hl]
      symm
      apply currentWidget_of_index (t := cn)
      · rw [hP]
        exact hpg
      · rw [hc, hcn]
    · rw [h1]
      simp only [hashValue]
      symm
      unfold FPwin.currentWidget FPwin.widget atIndex
      rw [hc, hP]
      split
      · rename_i h0
        have : P.length ≤ c.toNat := by omega
        rw [List.getElem?_eq_none this]
        rfl
      · rfl

theorem toggleSidePane_mirrored {w : FPwin} (hn : (w.pages.map TabPage.id).Nodup)
    (hsp : w.sidePane_ = false) (hS : w.sideItems_ = []) {fs : Nat → Fresh}
    (hfs : ∀ a b, (fs a).item = (fs b).item → a = b) (hasFocus : Bool) :
    (w.toggleSidePane fs hasFocus).Mirrored ∧ (w.toggleSidePane fs hasFocus).sidePane_ = true ∧
    (w.toggleSidePane fs hasFocus).pages = w.pages ∧
    (w.toggleSidePane fs hasFocus).currentIndex = w.currentIndex := by
  have h0 : FilledTo w.pages w.currentIndex fs 0
      { w with sidePane_ := true, items := [], currentItem := none } := by
    refine ⟨rfl, rfl, rfl, ?_, fun x hx => (by cases hx), Or.inr ⟨rfl, fun h => (by omega)⟩⟩
    show PairedWith [] w.sideItems_ _
    rw [hS]
    simp [PairedWith]
  unfold FPwin.toggleSidePane
  simp only [hsp, Bool.not_false, if_true]
  by_cases hc : FPwin.count { w with sidePane_ := true, items := [], currentItem := none } > 0
  · rw [if_pos hc]
    have hf := addItems_filled hn w.currentIndex hfs w.pages 0
      { w with sidePane_ := true, items := [], currentItem := none } (Nat.zero_le _) rfl h0
    exact ⟨filled_mirrored hf, hf.2.1, hf.1, hf.2.2.1⟩
  · rw [if_neg hc]
    have hnil : w.pages = [] := by
      simp only [FPwin.count, gt_iff_lt, Nat.cast_pos, not_lt, Nat.le_zero,
        List.length_eq_zero] at hc
      exact hc
    have hf : FilledTo w.pages w.currentIndex fs w.pages.length
        { w with sidePane_ := true, items := [], currentItem := none } := by
      rw [hnil]
      rw [hnil] at h0
      exact h0
    exact ⟨filled_mirrored hf, rfl, rfl, rfl⟩

/-! ## The source window of `detachTab` -/

/-- The window that `detachTab` leaves behind, after `removeTab` and the removal of the
item of the detached page, is well formed. -/
theorem detached_wellFormed {w : FPwin} (hwf : w.WellFormed) {t : Nat} {page : TabPage}
    (ht : w.pages[t]? = some page) :
    ∀ w1 : FPwin, w1 = w.removeTab (t : Int) →
      (if (w1.sidePane_ && !w1.sideItems_.isEmpty) = true then
        (match hashKey w1.sideItems_ page.id with
         | some wi =>
           FPwin.takeItem { w1 with sideItems_ := hashRemove w1.sideItems_ wi }
             (FPwin.row { w1 with sideItems_ := hashRemove w1.sideItems_ wi } (some wi))
         | none => w1)
       else w1).WellFormed := by
  intro w1 hw1
  have hlt : t < w.pages.length := (List.getElem?_eq_some.1 ht).1
  have hmem := mem_ids_of_getElem? ht
  have hnd2 : ((w.pages.eraseIdx t).map TabPage.id).Nodup :=
    hwf.1.sublist ((List.eraseIdx_sublist _ _).map _)
  have hfr := removeTab_sameFrame w t
  rw [← hw1] at hfr
  have h1p : w1.pages = w.pages.eraseIdx t := by rw [hw1, removeTab_eq w hlt]
  have h1c : w1.currentItem = w.currentItem := by rw [hw1, removeTab_currentItem]
  cases hsp : w.sidePane_ with
  | false =>
    have h1sp : w1.sidePane_ = false := by rw [hfr.2.1, hsp]
    simp only [h1sp, Bool.false_and, Bool.false_eq_true, if_false]
    exact wellFormed_of_noSide (by rw [h1p]; exact hnd2) h1sp
  | true =>
    have h1sp : w1.sidePane_ = true := by rw [hfr.2.1, hsp]
    have hm := hwf.2 hsp
    obtain ⟨wi, hwi, hwim⟩ := hm.key_of_page hmem
    have hkey := hashKey_of_mem hm.2.2.1 hwi
    have hne : w.sideItems_.isEmpty = false := by
      cases hS : w.sideItems_ with
      | nil => rw [hS] at hwi; simp at hwi
      | cons x xs => rfl
    obtain ⟨r, hrpos, hr⟩ := positionOf_of_mem hwim
    simp only [h1sp, hfr.2.2.2.1, hne, Bool.not_false, Bool.and_self, if_true, hkey, FPwin.row,
      hfr.2.2.1, hrpos]
    generalize hw0 : ({ w1 with sidePane_ := true, items := w.items,
                                sideItems_ := hashRemove w.sideItems_ wi } : FPwin) = w0
    have h0p : w0.pages = w.pages.eraseIdx t := by rw [← hw0]; exact h1p
    have h0i : w0.items = w.items := by rw [← hw0]
    have h0S : w0.sideItems_ = hashRemove w.sideItems_ wi := by rw [← hw0]
    have h0c : w0.currentItem = w.currentItem := by rw [← hw0]; exact h1c
    have h0x : w0.currentIndex = w1.currentIndex := by rw [← hw0]
    have h0sp : w0.sidePane_ = true := by rw [← hw0]
    have hr0 : w0.items[r]? = some wi := by rw [h0i]; exact hr
    have hsyncw := hm.2.2.2.2.2.2.2
    have hcurw := hm.2.2.2.2.2.2.1
    by_cases hci : w.currentItem = some wi
    · -- the item of the detached page is the current one
      rw [takeItem_current hr0 (by rw [h0c]; exact hci)]
      generalize hw2 : ({ w0 with items := w0.items.eraseIdx r,
                                  currentItem := nextItem w0.items r } : FPwin) = w2
      have h2p : w2.pages = w.pages.eraseIdx t := by rw [← hw2]; exact h0p
      have h2i : w2.items = w.items.eraseIdx r := by rw [← hw2, ← h0i]
      have h2S : w2.sideItems_ = hashRemove w.sideItems_ wi := by rw [← hw2]; exact h0S
      have h2c : w2.currentItem = nextItem w.items r := by rw [← hw2, ← h0i]
      have h2sp : w2.sidePane_ = true := by rw [← hw2]; exact h0sp
      have hct := changeTab_sameTabs w2 (nextItem w0.items r)
      have hcti := changeTab_currentItem w2 (nextItem w0.items r)
      have hstat := @mirrored_of_erase w (w2.changeTab (nextItem w0.items r)) hwf hm t r page wi
        ht hr hwi (by rw [hct.2.1, h2p]) (by rw [hct.2.2.2.1, h2i]) (by rw [hct.2.2.2.2.1, h2S])
      obtain ⟨s1, s2, s3, s4, s5, s6⟩ := hstat
      refine ⟨by rw [hct.2.1, h2p]; exact hnd2, fun _ => ⟨s1, s2, s3, s4, s5, s6, ?_, ?_⟩⟩
      · intro i hi
        rw [hcti, h2c] at hi
        simp only [Option.mem_toList, Option.mem_def] at hi
        obtain ⟨h1, h2⟩ := nextItem_mem hm.1 hr hi
        rw [hct.2.2.2.1, h2i, eraseIdx_eq_erase hm.1 hr, hm.1.mem_erase_iff]
        exact ⟨h2, h1⟩
      · rw [hcti, h2c, hct.2.2.2.2.1, h2S]
        cases hS1 : hashRemove w.sideItems_ wi with
        | nil =>
          rw [hashValue_nil]
          symm
          apply currentWidget_of_nil
          have hnil : (w2.changeTab (nextItem w0.items r)).pages.map TabPage.id = [] := by
            apply List.eq_nil_iff_forall_not_mem.2
            intro p hp
            have := s6 p hp
            rw [hct.2.2.2.2.1, h2S, hS1] at this
            simp at this
          simpa using hnil
        | cons x xs =>
          have hx : x ∈ hashRemove w.sideItems_ wi := by rw [hS1]; simp
          rw [mem_hashRemove] at hx
          obtain ⟨j, hj, hjm, hjne⟩ := nextItem_spec hm.1 hr (hm.2.2.2.1 x hx.1).1 hx.2
          obtain ⟨q, hq, hqm⟩ := hm.page_of_item hjm
          have hval : (hashRemove w.sideItems_ wi).lookup j = some q := by
            rw [lookup_hashRemove hjne]
            exact lookup_of_mem hm.2.1 hq
          rw [← hS1, hj]
          simp only [hashValue, hval]
          obtain ⟨c, pq, hpq, hpqid⟩ := page_of_id hqm
          have hct_ne : c ≠ t := by
            intro h
            subst h
            rw [ht] at hpq
            cases hpq
            apply hjne
            rw [← hpqid] at hq
            exact key_unique hm.2.2.1 hq hwi
          have hpqm : pq ∈ w2.pages := by
            rw [h2p, List.mem_eraseIdx_iff_getElem?]
            exact ⟨c, hct_ne, hpq⟩
          have hstep : w2.changeTab (nextItem w0.items r) =
              w2.setCurrentWidget (some pq.id) := by
            unfold FPwin.changeTab
            have hS2 : w2.sideItems_.isEmpty = false := by rw [h2S, hS1]; rfl
            simp only [h2sp, hS2, Bool.not_true, Bool.or_false, Bool.false_eq_true, if_false]
            rw [h0i, hj, h2S]
            simp only [hashValue, hval, hpqid]
          rw [hstep, ← hpqid]
          symm
          exact setCurrentWidget_of_mem (by rw [h2p]; exact hnd2) hpqm
    · -- another item is current
      rw [takeItem_other hr0 (by rw [h0c]; exact hci)]
      generalize hw2 : ({ w0 with items := w0.items.eraseIdx r } : FPwin) = w2
      have h2p : w2.pages = w.pages.eraseIdx t := by rw [← hw2]; exact h0p
      have h2i : w2.items = w.items.eraseIdx r := by rw [← hw2, ← h0i]
      have h2S : w2.sideItems_ = hashRemove w.sideItems_ wi := by rw [← hw2]; exact h0S
      have h2c : w2.currentItem = w.currentItem := by rw [← hw2]; exact h0c
      have h2x : w2.currentIndex = w1.currentIndex := by rw [← hw2]; exact h0x
      obtain ⟨s1, s2, s3, s4, s5, s6⟩ :=
        @mirrored_of_erase w w2 hwf hm t r page wi ht hr hwi h2p h2i h2S
      refine ⟨by rw [h2p]; exact hnd2, fun _ => ⟨s1, s2, s3, s4, s5, s6, ?_, ?_⟩⟩
      · intro i hi
        rw [h2c] at hi
        have h1 := hcurw i hi
        simp only [Option.mem_toList, Option.mem_def] at hi
        rw [h2i, eraseIdx_eq_erase hm.1 hr, hm.1.mem_erase_iff]
        refine ⟨?_, h1⟩
        intro h
        apply hci
        rw [hi, h]
      · rw [h2c, h2S]
        have hv : hashValue (hashRemove w.sideItems_ wi) w.currentItem =
            hashValue w.sideItems_ w.currentItem := by
          cases hc : w.currentItem with
          | none => rfl
          | some j =>
            simp only [hashValue]
            apply lookup_hashRemove
            intro h
            apply hci
            rw [hc, h]
        rw [hv, hsyncw]
        have hxne : w.currentIndex ≠ t := by
          intro h
          have hcw := currentWidget_of_index ht h
          rw [hcw] at hsyncw
          cases hc : w.currentItem with
          | none => rw [hc] at hsyncw; simp [hashValue] at hsyncw
          | some j =>
            rw [hc] at hsyncw
            simp only [hashValue] at hsyncw
            have := key_unique hm.2.2.1 (mem_of_lookup hsyncw) hwi
            apply hci
            rw [hc, this]
        rw [← currentWidget_removeTab hlt hxne, ← hw1]
        simp only [FPwin.currentWidget, FPwin.widget, h2p, h2x, h1p]

/-! ## The operations keep the windows well formed -/

theorem emptyWin_wellFormed (id : Nat) (sp : Bool) :
    FPwin.WellFormed
      { id := id, pages := [], currentIndex := -1, sidePane_ := sp, items := [],
        currentItem := none, sideItems_ := [], rightClicked_ := -1, loadingProcesses_ := 0 } := by
  refine ⟨List.nodup_nil, fun _ => ?_⟩
  simp [FPwin.Mirrored, hashValue, FPwin.currentWidget, FPwin.widget, atIndex]

theorem removeTab_sublist (w : FPwin) (i : Int) : (w.removeTab i).pages.Sublist w.pages := by
  unfold FPwin.removeTab
  split
  · simp only [removeAt]
    split
    · exact List.eraseIdx_sublist _ _
    · exact List.Sublist.refl _
  · exact List.Sublist.refl _

theorem deleteTabPage_wellFormed {w w2 : FPwin} (hwf : w.WellFormed) {t : Int}
    {ev : List Event} (h : w.deleteTabPage t = .ok (w2, ev)) : w2.WellFormed := by
  cases hw : w.widget t with
  | none =>
    unfold FPwin.deleteTabPage at h
    simp only [hw] at h
    cases h
  | some page =>
    unfold FPwin.widget at hw
    obtain ⟨n, hn, _, hp⟩ := atIndex_eq_some hw
    subst hn
    obtain ⟨w3, hrun, _, _, _, _, _, hwf3, _⟩ := deleteTabPage_spec hwf hp
    rw [hrun] at h
    simp only [Except.ok.injEq, Prod.mk.injEq] at h
    rw [← h.1]
    exact hwf3

theorem closeTabs_wellFormed {w w1 : FPwin} (hwf : w.WellFormed) {first last : Int}
    (hfirst : -1 ≤ first) (hlast : -1 ≤ last) (hcount : last ≤ w.count) {env : Nat → Env}
    {keep : Bool} {ev : List Event} (h : w.closeTabs first last env = .ok (keep, w1, ev)) :
    w1.WellFormed := by
  cases hr : w.isReady with
  | false =>
    rw [closeTabs_notReady hr] at h
    simp only [Except.ok.injEq, Prod.mk.injEq] at h
    rw [← h.2.1]
    exact hwf
  | true =>
    obtain ⟨w2, hrun, hpost⟩ := closeTabs_spec hwf hr hfirst hlast hcount env
    rw [hrun] at h
    simp only [Except.ok.injEq, Prod.mk.injEq] at h
    rw [← h.2.1]
    exact hpost.1

theorem detachTab_wellFormed {w w1 : FPwin} (hwf : w.WellFormed) {others others1 : List FPwin}
    {n : NewWin} {e : Env} {ev : List Effect}
    (h : w.detachTab others n e = .ok (w1, others1, ev)) :
    w1.WellFormed ∧ (others1 = others ∨ ∃ d, others1 = others ++ [d] ∧ d.WellFormed) := by
  unfold FPwin.detachTab at h
  split at h
  · simp only [Except.ok.injEq, Prod.mk.injEq] at h
    rw [← h.1]
    exact ⟨hwf, Or.inl h.2.1.symm⟩
  · simp only at h
    split at h
    · simp only [Except.ok.injEq, Prod.mk.injEq] at h
      rw [← h.1]
      exact ⟨hwf, Or.inl h.2.1.symm⟩
    · split at h
      · cases h
      · rename_i tabPage hw
        rw [newWin_closed] at h
        simp only [Except.ok.injEq, Prod.mk.injEq] at h
        obtain ⟨h1, h2, _⟩ := h
        unfold FPwin.widget at hw
        obtain ⟨t, ht, _, hp⟩ := atIndex_eq_some hw
        refine ⟨?_, Or.inr ⟨_, h2.symm, ?_⟩⟩
        · rw [← h1, ht]
          exact detached_wellFormed hwf hp _ rfl
        · exact (receiveTab_wellFormed (k := 0) (emptyWin_wellFormed n.id n.sidePane)
            (Nat.zero_le _) (by simp) (by simp)).1

theorem dropTab_wellFormed {w w1 : FPwin} (hwf : w.WellFormed) (hv : w.CurrentValid)
    {others others1 : List FPwin} {f : Fresh} {str : String} {ev : List Effect}
    (hf : f.item ∉ w.items)
    (ho : ∀ x ∈ others, x.WellFormed ∧ ∀ q ∈ x.pages, q.id ∉ w.pages.map TabPage.id)
    (h : w.dropTab others f str = .ok (w1, others1, ev)) :
    w1.WellFormed ∧ ∀ y ∈ others1, y.sidePane_ = false → y.WellFormed := by
  rcases dropTab_inv h with ⟨h1, h2, _⟩ | ⟨first, second, src, tabPage, hs, hidx, hfw, hne, hwd⟩
  · subst h1 h2
    exact ⟨hwf, fun y hy _ => (ho y hy).1⟩
  · rw [dropTab_moves others f hs hidx hfw hne hwd] at h
    simp only [Except.ok.injEq, Prod.mk.injEq] at h
    obtain ⟨h1, h2, _⟩ := h
    have hmem : src ∈ others := by
      rcases List.mem_cons.1 (findWin_mem hfw) with hm | hm
      · rw [hm] at hne
        exact absurd rfl hne
      · exact hm
    obtain ⟨k, hk, hkl⟩ : ∃ k : Nat, w.currentIndex + 1 = (k : Int) ∧ k ≤ w.pages.length := by
      rcases hv with ⟨hv1, hv2⟩ | ⟨hv1, hv2⟩
      · exact ⟨0, by rw [hv1]; rfl, Nat.zero_le _⟩
      · simp only [FPwin.count] at hv2
        exact ⟨(w.currentIndex + 1).toNat, by omega, by omega⟩
    rw [hk] at h1
    constructor
    · rw [← h1]
      exact (receiveTab_wellFormed hwf hkl ((ho src hmem).2 tabPage (mem_of_widget hwd)) hf).2
    · intro y hy hsp
      rw [← h2] at hy
      obtain ⟨x, hx, hxy⟩ := List.mem_map.1 hy
      by_cases hid : x.id = src.id
      · rw [if_pos hid] at hxy
        rw [← hxy] at hsp ⊢
        apply wellFormed_of_noSide _ hsp
        exact (ho src hmem).1.1.sublist (List.Sublist.map _ (removeTab_sublist src _))
      · rw [if_neg hid] at hxy
        rw [← hxy]
        exact (ho x hx).1

/-! ## C22: the side list mirrors the tabs -/

end FeatherPad
